import Mathlib

/-!
# Line-of-sight interpolation and 1-D path geometry (`src/src/los.cc`), the
radiative transfer methods of `src/src/m_rte.cc`, and the replacing and
deleting of catalogue lines (`src/src/m_absorptionlines.cc`)

A shallow embedding of the interpolation functions, of the 1-D geometric
line-of-sight constructor, of the workspace methods `iyApplyUnit`,
`yApplyUnit`, `iyCalc`, `iyEmissionStandard`, `iyLoopFrequencies` and `iyMC`,
of the loop over the measurement blocks of `yCalc`, of the check of the
retrieval grids of `yCalcAppend`, and of `abs_linesReplaceWithLines2` and
`abs_linesDeleteWithLines2`.

Conventions of the embedding
* `Numeric` (a C `double`) is an arbitrary linearly ordered field `α` with a
  floor function: arithmetic is exact.  Instantiating `α := ℚ` gives an
  executable model.
* `Index` is `ℤ` where the source can produce a negative value and `ℕ` for
  loop counters that start at `0` and only grow.
* A matpack `Vector` is a `List α`.  Element access outside the vector,
  a failed `assert` and a thrown `runtime_error` all end the computation:
  every function returns `Except Err _`.
* `math.h` and the constants `DEG2RAD`, `RAD2DEG`, `EARTH_RADIUS` are not part
  of the translated sources; they are fields of the parameter `Env`.
* The content of storage that is allocated but not written, and the seed
  that `iyMC` takes from the clock, are parameters as well (`fresh`,
  `MCSetSeedFromTime`).
* Where a property depends on the rounding of `double`, the expressions
  concerned (los.cc 360, 456, 478) are given a second time with the result of
  every operation rounded by a function `fl`; `round_double` is the rounding
  of IEEE 754 binary64 on `ℚ`.
-/

namespace Arts

/-- The ways in which a call stops without returning. -/
inductive Err
  | assertion
  | range
  | runtime (msg : String)
  deriving DecidableEq, Repr

instance instDecidableEqExcept {ε β : Type} [DecidableEq ε] [DecidableEq β] :
    DecidableEq (Except ε β)
  | .ok a, .ok b =>
    if h : a = b then isTrue (by rw [h]) else isFalse (fun h2 => h (by cases h2; rfl))
  | .error a, .error b =>
    if h : a = b then isTrue (by rw [h]) else isFalse (fun h2 => h (by cases h2; rfl))
  | .ok _, .error _ => isFalse (fun h => by cases h)
  | .error _, .ok _ => isFalse (fun h => by cases h)

/-- The C `assert( c )`. -/
def assert (c : Prop) [Decidable c] : Except Err Unit :=
  if c then .ok () else .error .assertion

section Interp

variable {α : Type} [LinearOrderedField α] [FloorRing α]

/-- Checked element read `x[i]` (matpack checks `0 <= i < x.nelem()`). -/
def vget (x : List α) (i : ℤ) : Except Err α :=
  if i < 0 then .error .range
  else
    match x[i.toNat]? with
    | some v => .ok v
    | none => .error .range

/-- Checked element write `x[i] = v`. -/
def vset (x : List α) (i : ℤ) (v : α) : Except Err (List α) :=
  if i < 0 then .error .range
  else if i.toNat < x.length then .ok (x.set i.toNat v)
  else .error .range

/-- One iteration of the loop of `get_interp_weights` (los.cc 188-200) for the
query position `q` on a grid of `n_y` points: the pair `(ii[ix], w[ix])`. -/
def interp_weight (n_y : ℤ) (q : α) : Except Err (ℤ × α) :=
  let i : ℤ := ⌊q⌋
  if ¬ (i ≥ 0) then .error .assertion
  else
    let w := q - (i : α)
    if w < 1e-6 then
      if ¬ (i < n_y) then .error .assertion else .ok (i, 0)
    else
      if ¬ (i < n_y - 1) then .error .assertion else .ok (i, w)

/-- The loop `for( ix=0; ix<n_out; ix++ )` of `get_interp_weights`: the
entries `ii[ix]`, `w[ix]` are produced in order and the first failing
assertion stops the loop. -/
def interp_weights_loop (n_y : ℤ) : List α → Except Err (List ℤ × List α)
  | [] => .ok ([], [])
  | q :: qs =>
    match interp_weight n_y q with
    | .error e => .error e
    | .ok (i, w) =>
      match interp_weights_loop n_y qs with
      | .error e => .error e
      | .ok (is, ws) => .ok (i :: is, w :: ws)

/-- `get_interp_weights` (los.cc 172-202).  `ii` and `w` are the caller-sized
output vectors; every entry is overwritten. -/
def get_interp_weights (ii : List ℤ) (w : List α) (y : List α) (ip_x : List α) :
    Except Err (List ℤ × List α) :=
  if ¬ (ii.length = ip_x.length) then .error .assertion
  else if ¬ (w.length = ip_x.length) then .error .assertion
  else interp_weights_loop (y.length : ℤ) ip_x

/-- The value stored in `y[ix]` by `interp_1D` (los.cc 250-253). -/
def interp_value (yi : List α) (i : ℤ) (w : α) : Except Err α :=
  if w = 0 then vget yi i
  else
    match vget yi i, vget yi (i + 1) with
    | .ok a, .ok b => .ok ((1 - w) * a + w * b)
    | .error e, _ => .error e
    | _, .error e => .error e

/-- The loop `for( ix=0; ix<n_out; ix++ )` of `interp_1D`. -/
def interp_loop (yi : List α) : List ℤ → List α → Except Err (List α)
  | i :: is, w :: ws =>
    match interp_value yi i w with
    | .error e => .error e
    | .ok v =>
      match interp_loop yi is ws with
      | .error e => .error e
      | .ok vs => .ok (v :: vs)
  | _, _ => .ok []

/-- `interp_1D` (los.cc 231-255).  `y` is the caller-sized output. -/
def interp_1D (y : List α) (yi : List α) (ip_x : List α) : Except Err (List α) :=
  if ¬ (y.length = ip_x.length) then .error .assertion
  else
    match get_interp_weights (List.replicate ip_x.length 0) (List.replicate ip_x.length 0)
        yi ip_x with
    | .error e => .error e
    | .ok (ii, w) => interp_loop yi ii w

end Interp

/-! ## 1-D geometric line of sight -/

/-- What the translated functions take from outside the translated sources:
the `math.h` functions, the global constants declared `extern` in los.cc, and
`fresh i`, the indeterminate value found at position `i` of storage that was
allocated but not yet written (`Vector(n)` and `resize(n)` do not
initialise their elements). -/
structure Env (α : Type) where
  sin : α → α
  cos : α → α
  asin : α → α
  sqrt : α → α
  DEG2RAD : α
  RAD2DEG : α
  EARTH_RADIUS : α
  fresh : ℕ → α

/-- The output arguments of `los_1d_geom`. -/
structure Geom (α : Type) where
  z_tan : α
  nz : ℤ
  z : List α
  ip_z : List α
  lat : List α
  l_step : List α
  ground : ℤ
  deriving DecidableEq

/-- The local variables set by los.cc 333-376. -/
structure Lowest (α : Type) where
  z_tan : α
  ground : ℤ
  z1 : α
  za1 : α
  lat0 : α
  do_down : ℕ
  deriving DecidableEq

/-- The state of the loop that copies the altitudes into `zs`
(los.cc 410-431): the storage of `zs`, `n_zs` and `i2`. -/
structure Merge (α : Type) where
  zs : List α
  n_zs : ℕ
  i2 : ℕ
  deriving DecidableEq

/-- The state of the loop that creates the path points (los.cc 474-499). -/
structure Fill (α : Type) where
  z : List α
  ip_z : List α
  lat : List α
  l_step : List α
  n_sum : ℤ
  i_above : ℕ
  deriving DecidableEq

/-- The struct `LOS` (los.cc 71-87). -/
structure LOS (α : Type) where
  dim : ℤ
  np : ℤ
  i_start : ℤ
  i_stop : ℤ
  p : List α
  z : List α
  ip_p : List α
  lat : List α
  ip_lat : List α
  lon : List α
  ip_lon : List α
  l_step : List α
  background : ℤ
  ground : ℤ
  i_ground : ℤ
  deriving DecidableEq

section Geometry

variable {α : Type} [LinearOrderedField α] [FloorRing α]

/-- `first2` (los.cc 99-102). -/
def first2 (x : List α) : Except Err α := vget x 0

/-- `last2` (los.cc 114-117). -/
def last2 (x : List α) : Except Err α := vget x ((x.length : ℤ) - 1)

/-- `Vector(n)` and `resize(n)`: `n` uninitialised elements. -/
def vnew (env : Env α) (n : ℤ) : Except Err (List α) :=
  if n < 0 then .error .range else .ok ((List.range n.toNat).map env.fresh)

/-- `x[Range(0,n)]`: the first `n` elements of `x`. -/
def vrange (x : List α) (n : ℤ) : Except Err (List α) :=
  if n < 0 then .error .range
  else if n.toNat ≤ x.length then .ok (x.take n.toNat)
  else .error .range

/-- The lowest point `z1` of the path, the zenith angle `za1` there, and the
tangent altitude, ground flag, `lat0` and `do_down` (los.cc 333-376). -/
def lowest_point (env : Env α) (z_ground z_max r_geoid z_plat za : α) : Lowest α :=
  if za ≤ 90 then
    { z_tan := 9999e3, ground := 0, z1 := z_plat, za1 := za, lat0 := 0, do_down := 0 }
  else
    let z_tan := (r_geoid + z_plat) * env.sin (env.DEG2RAD * za) - r_geoid
    let do_down : ℕ := if z_plat < z_max then 1 else 0
    if z_tan ≥ z_ground then
      { z_tan := z_tan, ground := 0, z1 := z_tan, za1 := -90, lat0 := za - 90.0,
        do_down := do_down }
    else
      let za1 := -env.RAD2DEG * env.asin ((r_geoid + z_tan) / (r_geoid + z_ground))
      { z_tan := z_tan, ground := 1, z1 := z_ground, za1 := za1, lat0 := za - za1 - 180.0,
        do_down := do_down }

/-- The loop `for( i_above=0; z_abs[i_above]<=z1; i_above++ ) {}` (los.cc 403),
run on the elements of `z_abs` from index `i` on. -/
def find_above (z1 : α) : List α → ℕ → Except Err ℕ
  | [], _ => .error .range
  | v :: vs, i => if v ≤ z1 then find_above z1 vs (i + 1) else .ok i

/-- The loop `for( ; z_special[i2] <= z_abs[i1]; i2++ )` (los.cc 417-424) with
`bound = z_abs[i1]`.  Every iteration reads `z_special[i2]` and increases `i2`,
so at most `z_special.nelem()` iterations precede a failing read; the first
argument counts them down from `z_special.nelem() + 1`. -/
def copy_special (z_special : List α) (bound : α) : ℕ → Merge α → Except Err (Merge α)
  | 0, _ => .error .range
  | k + 1, st =>
    match vget z_special st.i2 with
    | .error e => .error e
    | .ok s =>
      if s ≤ bound then
        match vget st.zs st.n_zs with
        | .error e => .error e
        | .ok cur =>
          if cur ≠ s then
            copy_special z_special bound k
              { zs := st.zs.set st.n_zs s, n_zs := st.n_zs + 1, i2 := st.i2 + 1 }
          else copy_special z_special bound k { st with i2 := st.i2 + 1 }
      else .ok st

/-- The loop `for( i1=i_above; i1<n_zabs; i1++ )` (los.cc 414-431), run on the
values `z_abs[i_above]`, ..., `z_abs[n_zabs-1]`. -/
def merge_levels (z_special : List α) : List α → Merge α → Except Err (Merge α)
  | [], st => .ok st
  | g :: gs, st =>
    match copy_special z_special g (z_special.length + 1) st with
    | .error e => .error e
    | .ok st1 =>
      match vget st1.zs st1.n_zs with
      | .error e => .error e
      | .ok cur =>
        if cur ≠ g then
          merge_levels z_special gs { st1 with zs := st1.zs.set st1.n_zs g, n_zs := st1.n_zs + 1 }
        else merge_levels z_special gs st1

/-- The length along the path from the lowest point to altitude `z`:
`sqrt( e*e - c ) - d` with `e = r_geoid + z` (los.cc 454-455). -/
def path_length (env : Env α) (r_geoid c d z : α) : α :=
  let e := r_geoid + z
  env.sqrt (e * e - c) - d

/-- The number of steps for a part of the path of length `l_hi - l_lo`:
`Index( ceil( (ls[i1]-ls[i1-1])/l_max ) )` (los.cc 456). -/
def n_steps (l_max l_lo l_hi : α) : ℤ := ⌈(l_hi - l_lo) / l_max⌉

/-- The vector `ls` (los.cc 444, 452-455): `0` for the first altitude of `zs`
and the path length for the others. -/
def ls_of (env : Env α) (r_geoid c d : α) (zs : List α) : List α :=
  0 :: zs.tail.map (path_length env r_geoid c d)

/-- The array `ns` (los.cc 456): one entry for each pair of consecutive
entries of `ls`. -/
def ns_of (l_max : α) (ls : List α) : List ℤ :=
  List.zipWith (n_steps l_max) ls ls.tail

/-- The altitude at length `l` along the path:
`sqrt( d + l*l + 2 * c * l * a ) - r_geoid` with `d = c*c` (los.cc 472-485). -/
def altitude_at (env : Env α) (r_geoid a c l : α) : α :=
  env.sqrt (c * c + l * l + 2 * c * l * a) - r_geoid

/-- The altitude `zv` of point `i2` of a part of the path that starts at
altitude `z_lo` and length `l_lo` and has steps of length `dl`
(los.cc 481-485). -/
def point_z (env : Env α) (r_geoid a c z_lo l_lo dl : α) (i2 : ℕ) : α :=
  if i2 = 0 then z_lo else altitude_at env r_geoid a c (l_lo + (i2 : α) * dl)

/-- The body of the loop `for( i2=0; i2<ns[i1]; i2++ )` (los.cc 481-490);
`z_lo = zs[i1]`, `l_lo = ls[i1]`. -/
def put_point (env : Env α) (z_abs : List α) (r_geoid lat0 a b c z_lo l_lo dl : α)
    (st : Fill α) (i2 : ℕ) : Except Err (Fill α) := do
  let z ← vset st.z (st.n_sum + i2) (point_z env r_geoid a c z_lo l_lo dl i2)
  let l_step ← vset st.l_step (st.n_sum + i2) dl
  let g_lo ← vget z_abs ((st.i_above : ℤ) - 1)
  let g_hi ← vget z_abs st.i_above
  let ip_z ← vset st.ip_z (st.n_sum + i2)
    ((((st.i_above : ℤ) - 1 : ℤ) : α) +
      (point_z env r_geoid a c z_lo l_lo dl i2 - g_lo) / (g_hi - g_lo))
  let lat ← vset st.lat (st.n_sum + i2)
    (lat0 + env.RAD2DEG * env.asin ((l_lo + (i2 : α) * dl) * b /
      (r_geoid + point_z env r_geoid a c z_lo l_lo dl i2)))
  pure { st with z := z, l_step := l_step, ip_z := ip_z, lat := lat }

/-- The body of the loop `for( i1=0; i1<n_zs-1; i1++ )` (los.cc 478-498). -/
def put_segment (env : Env α) (z_abs : List α) (r_geoid lat0 a b c : α)
    (zs ls : List α) (ns : List ℤ) (st : Fill α) (i1 : ℕ) : Except Err (Fill α) := do
  let l_lo ← vget ls i1
  let l_hi ← vget ls ((i1 : ℤ) + 1)
  let z_lo ← vget zs i1
  let n ← vget ns i1
  let dl := (l_hi - l_lo) / (n : α)
  let st1 ← (List.range n.toNat).foldlM
    (put_point env z_abs r_geoid lat0 a b c z_lo l_lo dl) st
  let st2 : Fill α := { st1 with n_sum := st1.n_sum + n }
  let g ← vget z_abs st2.i_above
  pure (if z_lo ≥ g then { st2 with i_above := st2.i_above + 1 } else st2)

/-- The vector `z_special` (los.cc 393-399): the lowest point, the platform
altitude when `do_down` is set, and the dummy value `z_max*2`. -/
def z_special_of (lp : Lowest α) (z_plat z_max : α) : List α :=
  if lp.do_down = 1 then [lp.z1, z_plat, z_max * 2] else [lp.z1, z_max * 2]

/-- The index `i_above` and the vector `zs` with its counter `n_zs`
(los.cc 390-431). -/
def break_points (env : Env α) (z_abs : List α) (z_plat z_max : α) (lp : Lowest α) :
    Except Err (ℕ × Merge α) := do
  let n_special := 1 + lp.do_down
  let i_above ← find_above lp.z1 z_abs 0
  let zs0 ← vnew env ((z_abs.length : ℤ) - i_above + n_special)
  let zs1 ← vset zs0 0 lp.z1
  let m ← merge_levels (z_special_of lp z_plat z_max) (z_abs.drop i_above)
    { zs := zs1, n_zs := 1, i2 := 1 }
  pure (i_above, m)

/-- The creation of the return vectors (los.cc 461-504) from the first `n_zs`
altitudes `zs`, their lengths `ls` and step numbers `ns`; `a`, `b` are the
cosine and sine of the zenith angle at the lowest point and
`c = r_geoid + z1`.  The length of the vectors is `nz = sum(ns) + 1`. -/
def path_points (env : Env α) (z_abs : List α) (r_geoid lat0 a b c : α)
    (zs ls : List α) (ns : List ℤ) (n_zs i_above : ℕ) : Except Err (Fill α) := do
  let z ← vnew env (ns.sum + 1)
  let ip_z ← vnew env (ns.sum + 1)
  let l_step ← vnew env (ns.sum + 1 - 1)
  let lat ← vnew env (ns.sum + 1)
  let st ← (List.range (n_zs - 1)).foldlM
    (put_segment env z_abs r_geoid lat0 a b c zs ls ns)
    { z := z, ip_z := ip_z, lat := lat, l_step := l_step, n_sum := 0, i_above := i_above }
  let z_top ← vget z_abs ((z_abs.length : ℤ) - 1)
  let z ← vset st.z st.n_sum z_top
  let ip_z ← vset st.ip_z st.n_sum ((((z_abs.length : ℤ) - 1 : ℤ)) : α)
  let l_last ← vget ls ((n_zs : ℤ) - 1)
  let lat ← vset st.lat st.n_sum (lat0 + env.RAD2DEG * env.asin (l_last * b / (r_geoid + z_top)))
  pure { st with z := z, ip_z := ip_z, lat := lat }

/-- The part of `los_1d_geom` that is run when the lowest point is inside the
atmosphere (los.cc 389-505), after the altitudes `zs` have been set. -/
def path_of_break_points (env : Env α) (z_abs : List α) (r_geoid l_max : α) (lp : Lowest α)
    (i_above : ℕ) (m : Merge α) : Except Err (Geom α) :=
  let zs := m.zs.take m.n_zs
  let a := env.cos (env.DEG2RAD * lp.za1)
  let b := env.sin (env.DEG2RAD * lp.za1)
  let c0 := (r_geoid + lp.z1) * b
  let d0 := (r_geoid + lp.z1) * a
  let ls := ls_of env r_geoid (c0 * c0) d0 zs
  let ns := ns_of l_max ls
  match path_points env z_abs r_geoid lp.lat0 a b (r_geoid + lp.z1) zs ls ns m.n_zs i_above with
  | .error e => .error e
  | .ok st =>
    .ok { z_tan := lp.z_tan, nz := ns.sum + 1, z := st.z, ip_z := st.ip_z, lat := st.lat,
          l_step := st.l_step, ground := lp.ground }

/-- `los_1d_geom` (los.cc 309-506). -/
def los_1d_geom (env : Env α) (z_ground : α) (z_abs : List α)
    (r_geoid l_max z_plat za : α) : Except Err (Geom α) := do
  let z_first ← vget z_abs 0
  assert (z_ground ≥ z_first)
  let z_last ← last2 z_abs
  assert (z_ground < z_last)
  assert (z_abs.length > 1)
  assert (l_max > 0)
  assert (z_plat ≥ z_ground)
  assert (za ≥ 0)
  assert (za ≤ 180)
  let z_max ← vget z_abs ((z_abs.length : ℤ) - 1)
  let lp := lowest_point env z_ground z_max r_geoid z_plat za
  if lp.z1 ≥ z_max then
    pure { z_tan := lp.z_tan, nz := 0, z := [], ip_z := [], lat := [], l_step := [],
           ground := lp.ground }
  else do
    let bp ← break_points env z_abs z_plat z_max lp
    path_of_break_points env z_abs r_geoid l_max lp bp.1 bp.2

/-- The loop `for( los.i_stop=0; los.z[los.i_stop]!=z_plat; los.i_stop++ ) {}`
(los.cc 555), run on the elements of `los.z` from index `i` on. -/
def find_stop (z_plat : α) : List α → ℕ → Except Err ℕ
  | [], _ => .error .range
  | v :: vs, i => if v ≠ z_plat then find_stop z_plat vs (i + 1) else .ok i

/-- The stop index (los.cc 545-555): `0` for an upward observation, `np - 1`
for a downward one, replaced for a downward observation from inside the
atmosphere by the index of the first point at the platform altitude. -/
def find_i_stop (z_abs : List α) (z_plat za : α) (np : ℤ) (z : List α) : Except Err ℤ :=
  if za > 90 then do
    let z_top ← last2 z_abs
    if z_plat < z_top then do
      let i ← find_stop z_plat z 0
      pure (i : ℤ)
    else pure (if za ≤ 90 then 0 else np - 1)
  else pure (if za ≤ 90 then 0 else np - 1)

/-- The treatment of a blackbody ground (los.cc 557-586): background and start
index are set, and the vectors are cut after the point `i_stop` when that is
not the last one. -/
def truncate_at_ground (los : LOS α) (blackbody_ground : ℤ) : Except Err (LOS α) :=
  if los.ground ≠ 0 ∧ blackbody_ground ≠ 0 then
    if los.i_stop < los.np - 1 then do
      let n := los.i_stop + 1
      let z ← vrange los.z n
      let ip_p ← vrange los.ip_p n
      let lat ← vrange los.lat n
      let l_step ← vrange los.l_step (n - 1)
      pure { los with background := 1, i_start := 0, np := n, z := z, ip_p := ip_p,
                      lat := lat, l_step := l_step }
    else pure { los with background := 1, i_start := 0 }
  else pure los

/-- `los_1d` (los.cc 510-596).  The result is the struct `los` and `z_tan`.
The argument `r_geoid` is not used by the source: `EARTH_RADIUS` is passed on
to `los_1d_geom`. -/
def los_1d (env : Env α) (z_ground : α) (z_abs p_abs : List α)
    (_r_geoid l_max z_plat za : α) (refr_on blackbody_ground scattering_on : ℤ) :
    Except Err (LOS α × α) :=
  if refr_on ≠ 0 then
    .error (Err.runtime "1D LOS calculations with refraction not yet implemented")
  else do
    let g ← los_1d_geom env z_ground z_abs env.EARTH_RADIUS l_max z_plat za
    let i_stop ← find_i_stop z_abs z_plat za g.nz g.z
    let los ← truncate_at_ground
      { dim := 1, np := g.nz, i_start := g.nz - 1, i_stop := i_stop, p := [], z := g.z,
        ip_p := g.ip_z, lat := g.lat, ip_lat := [], lon := [], ip_lon := [],
        l_step := g.l_step, background := 0, ground := g.ground, i_ground := 0 }
      blackbody_ground
    if scattering_on ≠ 0 then
      .error (Err.runtime "1D LOS calculations with scattering not yet implemented")
    else do
      let p0 ← vnew env los.np
      let p ← interp_1D p0 p_abs los.ip_p
      pure ({ los with p := p }, g.z_tan)

end Geometry

/-! ## Assumption on the arithmetic of the path lengths -/

/-- The property of the length along the path that exact arithmetic gives on
a spherical geometry: with `c` and `d` as set by los.cc 447-451 for the
lowest point `lp.z1`, the length `sqrt( e*e - c ) - d` is `0` at the lowest
point and increases strictly with the altitude above it. -/
def lengths_increase {α : Type} [LinearOrderedField α] [FloorRing α]
    (env : Env α) (r_geoid : α) (lp : Lowest α) : Prop :=
  path_length env r_geoid
      ((r_geoid + lp.z1) * env.sin (env.DEG2RAD * lp.za1) *
        ((r_geoid + lp.z1) * env.sin (env.DEG2RAD * lp.za1)))
      ((r_geoid + lp.z1) * env.cos (env.DEG2RAD * lp.za1)) lp.z1 = 0 ∧
  ∀ x y : α, lp.z1 ≤ x → x < y →
    path_length env r_geoid
        ((r_geoid + lp.z1) * env.sin (env.DEG2RAD * lp.za1) *
          ((r_geoid + lp.z1) * env.sin (env.DEG2RAD * lp.za1)))
        ((r_geoid + lp.z1) * env.cos (env.DEG2RAD * lp.za1)) x <
      path_length env r_geoid
        ((r_geoid + lp.z1) * env.sin (env.DEG2RAD * lp.za1) *
          ((r_geoid + lp.z1) * env.sin (env.DEG2RAD * lp.za1)))
        ((r_geoid + lp.z1) * env.cos (env.DEG2RAD * lp.za1)) y

/-! ## An executable environment for vertical paths -/

/-- The number of binary digits of `n`; the first argument bounds the number
of halvings and is `n` itself. -/
def bit_length : ℕ → ℕ → ℕ
  | 0, _ => 0
  | k + 1, n => if n = 0 then 0 else bit_length k (n / 2) + 1

/-- The integer square root, found bit by bit from bit `k - 1` downwards;
`r` is the part of the root found so far. -/
def isqrt_bits (n : ℕ) : ℕ → ℕ → ℕ
  | 0, r => r
  | k + 1, r =>
    if (r + 2 ^ k) * (r + 2 ^ k) ≤ n then isqrt_bits n k (r + 2 ^ k) else isqrt_bits n k r

/-- The integer square root of `n`, rounded down. -/
def isqrt (n : ℕ) : ℕ := isqrt_bits n (bit_length n n) 0

/-- A square root on `ℚ` that is exact on squares of rationals (the integer
roots of numerator and denominator). -/
def sqrt_exact (x : ℚ) : ℚ := (isqrt x.num.toNat : ℚ) / (isqrt x.den : ℚ)

/-- An environment over `ℚ` in which angles in radians are counted in units of
`π` (`DEG2RAD = 1/180`, `RAD2DEG = 180`).  `sin`, `cos` and `asin` have the
values of the real functions at the multiples of a right angle (`sin` and
`cos` at `0`, `±π/2`, `π`; `asin` at `0`, `±1`) and `sqrt` is exact on squares:
these are the only arguments that occur on a vertical path (zenith angle `0`
or `180`).  `fresh` is the content of uninitialised storage. -/
def vertical_env (fresh : ℕ → ℚ) : Env ℚ :=
  { sin := fun x => if x = 1 / 2 then 1 else if x = -1 / 2 then -1 else 0
    cos := fun x => if x = 0 then 1 else if x = 1 then -1 else 0
    asin := fun x => if x = 1 then 1 / 2 else if x = -1 then -1 / 2 else 0
    sqrt := sqrt_exact
    DEG2RAD := 1 / 180
    RAD2DEG := 180
    EARTH_RADIUS := 6378000
    fresh := fresh }


/-- The result `r` is not a thrown `runtime_error`: the call has returned, or
it was stopped by an assertion or by a range check. -/
def no_runtime_error {β : Type} (r : Except Err β) : Prop :=
  ∀ msg : String, r ≠ .error (Err.runtime msg)

/-- The square root of the environment is exact: for `x >= 0` it is the
non-negative number whose square is `x`. -/
def exact_sqrt {α : Type} [LinearOrderedField α] [FloorRing α] (env : Env α) : Prop :=
  ∀ x : α, 0 ≤ x → 0 ≤ env.sqrt x ∧ env.sqrt x * env.sqrt x = x

/-! ## Interpolation of an absorption field to a line of sight

The matpack types `Matrix` and `Tensor3` are not part of the translated
sources.  They are taken as their extents together with the element at every
index; an element access checks the index against the extents, like the
access to a `Vector`. -/

/-- A matpack `Matrix`: the numbers of rows and columns, and the elements. -/
structure Matrix (α : Type) where
  nrows : ℕ
  ncols : ℕ
  elem : ℕ → ℕ → α

/-- A matpack `Tensor3`: the numbers of pages, rows and columns, and the
elements. -/
structure Tensor3 (α : Type) where
  npages : ℕ
  nrows : ℕ
  ncols : ℕ
  elem : ℕ → ℕ → ℕ → α

section Absorption

variable {α : Type} [LinearOrderedField α] [FloorRing α]

/-- Checked element read `x(p,r,c)` of a `Tensor3`. -/
def t3get (x : Tensor3 α) (p r c : ℤ) : Except Err α :=
  if 0 ≤ p ∧ p < x.npages ∧ 0 ≤ r ∧ r < x.nrows ∧ 0 ≤ c ∧ c < x.ncols then
    .ok (x.elem p.toNat r.toNat c.toNat)
  else .error .range

/-- Checked element write `x(r,c) = v` of a `Matrix`. -/
def mset (x : Matrix α) (r c : ℤ) (v : α) : Except Err (Matrix α) :=
  if 0 ≤ r ∧ r < x.nrows ∧ 0 ≤ c ∧ c < x.ncols then
    .ok { x with elem := fun i j => if i = r.toNat ∧ j = c.toNat then v else x.elem i j }
  else .error .range

/-- The view `x(p,Range(joker),c)` of a `Tensor3`: all rows of page `p` and
column `c`. -/
def t3_rows (x : Tensor3 α) (p c : ℤ) : Except Err (List α) :=
  if 0 ≤ p ∧ p < x.npages ∧ 0 ≤ c ∧ c < x.ncols then
    .ok ((List.range x.nrows).map (fun r => x.elem p.toNat r c.toNat))
  else .error .range

/-- The column `c` of a `Matrix`, as a vector. -/
def matrix_column (x : Matrix α) (c : ℕ) : List α :=
  (List.range x.nrows).map (fun r => x.elem r c)

/-- The rows of a `Matrix`. -/
def matrix_rows (x : Matrix α) : List (List α) :=
  (List.range x.nrows).map (fun r => (List.range x.ncols).map (x.elem r))

/-- `assert_size` for a matrix (los.cc 130-137). -/
def assert_size (x : Matrix α) (nrows ncols : ℤ) : Except Err Unit := do
  assert ((x.ncols : ℤ) = ncols)
  assert ((x.nrows : ℤ) = nrows)

/-- `assert_maxdim_of_tensor` (los.cc 154-168). -/
def assert_maxdim_of_tensor (x : Tensor3 α) (dim : ℤ) : Except Err Unit := do
  assert (dim ≥ 1)
  assert (dim ≤ 3)
  if dim = 1 then do
    assert (x.nrows = 1)
    assert (x.npages = 1)
  else if dim = 2 then assert (x.npages = 1)
  else pure ()

/-- `get_dim_for_interp` (los.cc 206-227). -/
def get_dim_for_interp (ip_p ip_lat ip_lon : List α) : Except Err ℤ :=
  if ip_lat.length = 0 then do
    assert (ip_lon.length = 0)
    pure 1
  else if ip_lon.length = 0 then do
    assert (ip_p.length = ip_lat.length)
    pure 2
  else do
    assert (ip_p.length = ip_lat.length)
    assert (ip_p.length = ip_lon.length)
    pure 3

/-- The body of the loops `for( iv=0; iv<nv; iv++ )` of `interp_abs2los`
(los.cc 288-297) for the point `ix` with the weight `wv = w1[ix]`. -/
def abs2los_entry (abs_in : Tensor3 α) (ii1 : List ℤ) (ix : ℕ) (wv : α) (out : Matrix α)
    (iv : ℕ) : Except Err (Matrix α) :=
  if wv = 0 then do
    let i ← vget ii1 ix
    let a ← t3get abs_in 0 i iv
    mset out ix iv a
  else do
    let i ← vget ii1 ix
    let a ← t3get abs_in 0 i iv
    let i' ← vget ii1 ix
    let b ← t3get abs_in 0 (i' + 1) iv
    mset out ix iv ((1 - wv) * a + wv * b)

/-- The body of the loop `for( Index ix=0; ix<n; ix++ )` of `interp_abs2los`
(los.cc 284-298). -/
def abs2los_point (abs_in : Tensor3 α) (ii1 : List ℤ) (w1 : List α) (out : Matrix α) (ix : ℕ) :
    Except Err (Matrix α) := do
  let wv ← vget w1 ix
  (List.range abs_in.ncols).foldlM (abs2los_entry abs_in ii1 ix wv) out

/-- `interp_abs2los` (los.cc 259-305).  `abs_out` is the caller-sized
output. -/
def interp_abs2los (abs_out : Matrix α) (abs_in : Tensor3 α) (ip_p ip_lat ip_lon : List α) :
    Except Err (Matrix α) := do
  let dim ← get_dim_for_interp ip_p ip_lat ip_lon
  assert_maxdim_of_tensor abs_in (dim + 1)
  assert_size abs_out ip_p.length abs_in.ncols
  let y ← t3_rows abs_in 0 0
  let iw ← get_interp_weights (List.replicate ip_p.length 0) (List.replicate ip_p.length 0)
    y ip_p
  if dim = 1 then
    (List.range ip_p.length).foldlM (abs2los_point abs_in iw.1 iw.2) abs_out
  else .error (Err.runtime "Absorption interpolation only implemented for 1D.")

end Absorption

/-- The absorption field built by `test_new_los`: one page, `nz` rows and two
columns, `abs_in(0,j,k) = j` for `k < ncols - 1` and `0` in the last column. -/
def test_abs_in (nz : ℕ) : Tensor3 ℚ :=
  { npages := 1, nrows := nz, ncols := 2,
    elem := fun _ j k => if k < 2 - 1 then (j : ℚ) else 0 }

/-- A matrix of the given extents with all elements `0`. -/
def zero_matrix (nrows ncols : ℕ) : Matrix ℚ :=
  { nrows := nrows, ncols := ncols, elem := fun _ _ => 0 }

/-! ## Unit conversion and the checks of `iyCalc` (m_rte.cc)

The workspace methods `iyApplyUnit`, `yApplyUnit` and `iyCalc`.  The
conversion routines `apply_iy_unit` and `apply_iy_unit2` (rte.cc) and the
agenda `iy_main_agenda` are collaborators and enter as arguments; a routine
that changes a view in place is given as the function from the view to its
new elements. -/

/-- A matpack `Tensor4`: the numbers of books, pages, rows and columns, and
the elements. -/
structure Tensor4 (α : Type) where
  nbooks : ℕ
  npages : ℕ
  nrows : ℕ
  ncols : ℕ
  elem : ℕ → ℕ → ℕ → ℕ → α

section UnitConversion

variable {α : Type} [LinearOrderedField α] [FloorRing α]

/-- Checked element read `x(r,c)` of a `Matrix`. -/
def mget {β : Type} (x : Matrix β) (r c : ℤ) : Except Err β :=
  if 0 ≤ r ∧ r < x.nrows ∧ 0 ≤ c ∧ c < x.ncols then .ok (x.elem r.toNat c.toNat)
  else .error .range

/-- The view `x(joker,c)` of a `Matrix`: the column `c`. -/
def matrix_col_view (x : Matrix α) (c : ℤ) : Except Err (List α) :=
  if 0 ≤ c ∧ c < x.ncols then .ok (matrix_column x c.toNat) else .error .range

/-- The view `x(joker,joker,r,c)` of a `Tensor4`, a matrix of books and
pages. -/
def t4_matrix {β : Type} (x : Tensor4 β) (r c : ℤ) : Except Err (Matrix β) :=
  if 0 ≤ r ∧ r < x.nrows ∧ 0 ≤ c ∧ c < x.ncols then
    .ok { nrows := x.nbooks, ncols := x.npages, elem := fun b p => x.elem b p r.toNat c.toNat }
  else .error .range

/-- New elements `e` for the view `x(joker,joker,r,c)` of a `Tensor4`. -/
def t4_put_matrix {β : Type} (x : Tensor4 β) (r c : ℕ) (e : ℕ → ℕ → β) : Tensor4 β :=
  { x with elem := fun b p r2 c2 => if r2 = r ∧ c2 = c then e b p else x.elem b p r2 c2 }

/-- Modelled from the spec: `max` of a vector view (matpack), the largest
element of the view, found by a scan that starts from `x[0]`; an empty view
has no `x[0]`. -/
def vector_max (x : List α) : Except Err α :=
  match x with
  | [] => .error .range
  | a :: xs => .ok (xs.foldl max a)

/-- The elements of a `Matrix` in row-major order. -/
def matrix_elements (x : Matrix α) : List α := (matrix_rows x).flatten

/-- Modelled from the spec: `max` of a matrix view (matpack), the largest
element, found by a scan that starts from `x(0,0)`. -/
def matrix_max (x : Matrix α) : Except Err α := vector_max (matrix_elements x)

/-- The polarisation index variable `i_pol[is] = is + 1` for `is < stokes_dim`. -/
def i_pol_of (stokes_dim : ℤ) : List ℤ :=
  (List.range stokes_dim.toNat).map (fun is => (is : ℤ) + 1)

/-- The inner loop body of `iyApplyUnit` (m_rte.cc 109-111): the conversion
of `iy_aux[i](joker,joker,0,j)`. -/
def iyApplyUnit_column
    (apply_iy_unit : Matrix α → String → List α → α → List ℤ → Except Err (ℕ → ℕ → α))
    (iy_unit : String) (f_grid : List α) (i_pol : List ℤ) (x : Tensor4 α) (j : ℕ) :
    Except Err (Tensor4 α) := do
  let v ← t4_matrix x 0 j
  let e ← apply_iy_unit v iy_unit f_grid 1 i_pol
  pure (t4_put_matrix x 0 j e)

/-- The loop body of `iyApplyUnit` over the auxiliary variables (m_rte.cc
101-113). -/
def iyApplyUnit_aux
    (apply_iy_unit : Matrix α → String → List α → α → List ℤ → Except Err (ℕ → ℕ → α))
    (iy_unit : String) (f_grid : List α) (i_pol : List ℤ) (iy_aux_vars : List String)
    (iy_aux : List (Tensor4 α)) (i : ℕ) : Except Err (List (Tensor4 α)) := do
  let s ← vget iy_aux_vars i
  if s = "iy" ∨ s = "Error" ∨ s = "Error (uncorrelated)" then do
    let x ← vget iy_aux i
    if x.nrows > 1 then
      .error (Err.runtime "Data marked as \"iy\" or \"Error\" have incorrect size.")
    else do
      let x2 ← (List.range x.ncols).foldlM (iyApplyUnit_column apply_iy_unit iy_unit f_grid i_pol) x
      vset iy_aux i x2
  else pure iy_aux

/-- `iyApplyUnit` (m_rte.cc 73-114).  The threshold `1e-3` is `1/1000`.
Returns the converted `iy` and `iy_aux`. -/
def iyApplyUnit
    (apply_iy_unit : Matrix α → String → List α → α → List ℤ → Except Err (ℕ → ℕ → α))
    (iy : Matrix α) (iy_aux : List (Tensor4 α)) (stokes_dim : ℤ) (f_grid : List α)
    (iy_aux_vars : List String) (iy_unit : String) :
    Except Err (Matrix α × List (Tensor4 α)) :=
  if iy_unit = "1" then
    .error (Err.runtime "No need to use this method with *iy_unit* = \"1\".")
  else do
    let c ← matrix_col_view iy 0
    let m ← vector_max c
    if m > 1 / 1000 then
      .error (Err.runtime ("The spectrum matrix *iy* is required to have original radiance\n" ++
        "unit, but this seems not to be the case. This as a value above\n" ++
        "1e-3 is found in *iy*."))
    else do
      let i_pol := i_pol_of stokes_dim
      let e ← apply_iy_unit iy iy_unit f_grid 1 i_pol
      let iy2 : Matrix α := { iy with elem := e }
      let aux2 ← (List.range iy_aux_vars.length).foldlM
        (iyApplyUnit_aux apply_iy_unit iy_unit f_grid i_pol iy_aux_vars) iy_aux
      pure (iy2, aux2)

/-- The inner `while` loop of the PlanckBT branch of `yApplyUnit` (m_rte.cc
1952-1955): the number of values of the chunk that starts at `i0`, counted up
from `n`. -/
def chunk_length (y_f : List α) (ny i0 : ℤ) : ℕ → ℤ → Except Err ℤ
  | 0, n => .ok n
  | fuel + 1, n =>
    if i0 + n < ny then do
      let a ← vget y_f i0
      let b ← vget y_f (i0 + n)
      if a = b then chunk_length y_f ny i0 fuel (n + 1) else pure n
    else pure n

/-- The state of the loop `for( Index i=0; i<n; i++ )` that copies a chunk
(m_rte.cc 1957-1968). -/
structure Chunk (α : Type) where
  yv : List α
  i_pol : List ℤ
  any_quv : Bool

/-- The body of the loop that copies a chunk (m_rte.cc 1961-1968). -/
def chunk_copy (y : List α) (y_pol : List ℤ) (i0 : ℤ) (s : Chunk α) (i : ℕ) :
    Except Err (Chunk α) := do
  let ix := i0 + i
  let v ← vget y ix
  let yv ← vset s.yv i v
  let p ← vget y_pol ix
  let i_pol ← vset s.i_pol i p
  pure { yv := yv, i_pol := i_pol, any_quv := s.any_quv || (decide (p > 1) && decide (p < 5)) }

/-- The values `v` written to `y[Range(i0,n)]`. -/
def vector_put (y : List α) (i0 : ℕ) (v : List α) : List α :=
  (List.range y.length).map
    (fun i => if i0 ≤ i ∧ i < i0 + v.length then v.getD (i - i0) 0 else y.getD i 0)

/-- The tensor `J` with `J(joker,0,joker) = transpose( jacobian(ii,joker) )`
for `ii = Range(i0,n)` (m_rte.cc 1988-1989). -/
def jacobian_chunk (jacobian : Matrix α) (i0 n : ℕ) : Tensor3 α :=
  { npages := jacobian.ncols, nrows := 1, ncols := n,
    elem := fun q _ k => jacobian.elem (i0 + k) q }

/-- The assignment `jacobian(ii,joker) = transpose( J(joker,0,joker) )` for
`ii = Range(i0,n)` and the elements `e` of `J` (m_rte.cc 1991). -/
def jacobian_put_chunk (jacobian : Matrix α) (i0 n : ℕ) (e : ℕ → ℕ → ℕ → α) : Matrix α :=
  { jacobian with
    elem := fun r q => if i0 ≤ r ∧ r < i0 + n then e q 0 (r - i0) else jacobian.elem r q }

/-- The row `jacobian(i,joker)` seen as a `Tensor3` with one page and one
column (m_rte.cc 2020). -/
def jacobian_row (jacobian : Matrix α) (i : ℕ) : Tensor3 α :=
  { npages := 1, nrows := jacobian.ncols, ncols := 1, elem := fun _ q _ => jacobian.elem i q }

/-- New elements `e` for the row `jacobian(i,joker)` seen as a `Tensor3`. -/
def jacobian_put_row (jacobian : Matrix α) (i : ℕ) (e : ℕ → ℕ → ℕ → α) : Matrix α :=
  { jacobian with elem := fun r q => if r = i then e 0 q 0 else jacobian.elem r q }

/-- One chunk of the PlanckBT branch of `yApplyUnit` (m_rte.cc 1951-1999) for
the chunk of `n` values that starts at `i0`. -/
def planck_chunk
    (apply_iy_unit : Matrix α → String → List α → α → List ℤ → Except Err (ℕ → ℕ → α))
    (apply_iy_unit2 : Tensor3 α → Matrix α → String → List α → α → List ℤ →
      Except Err (ℕ → ℕ → ℕ → α))
    (y_f : List α) (y_pol : List ℤ) (iy_unit : String) (do_j : Bool)
    (y : List α) (jacobian : Matrix α) (i0 n : ℤ) : Except Err (List α × Matrix α) := do
  let c ← (List.range n.toNat).foldlM (chunk_copy y y_pol i0)
    { yv := List.replicate n.toNat 0, i_pol := List.replicate n.toNat 0, any_quv := false }
  let yv : Matrix α := { nrows := 1, ncols := n.toNat, elem := fun _ i => c.yv.getD i 0 }
  let f ← vget y_f i0
  let jac2 ←
    (if do_j then do
      let p0 ← vget c.i_pol 0
      if c.any_quv ∧ p0 ≠ 1 then
        .error (Err.runtime ("The conversion to PlanckBT, of the Jacobian and " ++
          "errors for Q, U and V, requires that I (first Stokes " ++
          "element) is at hand and that the data are sorted in " ++
          "such way that I comes first for each frequency."))
      else do
        let e ← apply_iy_unit2 (jacobian_chunk jacobian i0.toNat n.toNat) yv iy_unit [f] 1 c.i_pol
        pure (jacobian_put_chunk jacobian i0.toNat n.toNat e)
    else pure jacobian)
  let e ← apply_iy_unit yv iy_unit [f] 1 c.i_pol
  pure (vector_put y i0.toNat ((List.range n.toNat).map (e 0)), jac2)

/-- The loop `while( i0 < ny )` of the PlanckBT branch of `yApplyUnit`
(m_rte.cc 1947-2000); every round moves `i0` on by at least one, so `ny`
rounds are enough. -/
def planck_loop
    (apply_iy_unit : Matrix α → String → List α → α → List ℤ → Except Err (ℕ → ℕ → α))
    (apply_iy_unit2 : Tensor3 α → Matrix α → String → List α → α → List ℤ →
      Except Err (ℕ → ℕ → ℕ → α))
    (y_f : List α) (y_pol : List ℤ) (iy_unit : String) (do_j : Bool) (ny : ℤ) :
    ℕ → ℤ → List α → Matrix α → Except Err (List α × Matrix α)
  | 0, _, y, jacobian => .ok (y, jacobian)
  | fuel + 1, i0, y, jacobian =>
    if i0 < ny then do
      let n ← chunk_length y_f ny i0 ny.toNat 1
      let r ← planck_chunk apply_iy_unit apply_iy_unit2 y_f y_pol iy_unit do_j y jacobian i0 n
      planck_loop apply_iy_unit apply_iy_unit2 y_f y_pol iy_unit do_j ny fuel (i0 + n) r.1 r.2
    else pure (y, jacobian)

/-- The body of the loop of the other conversions of `yApplyUnit` (m_rte.cc
2013-2026). -/
def other_unit
    (apply_iy_unit : Matrix α → String → List α → α → List ℤ → Except Err (ℕ → ℕ → α))
    (apply_iy_unit2 : Tensor3 α → Matrix α → String → List α → α → List ℤ →
      Except Err (ℕ → ℕ → ℕ → α))
    (y_f : List α) (y_pol : List ℤ) (iy_unit : String) (do_j : Bool)
    (s : List α × Matrix α) (i : ℕ) : Except Err (List α × Matrix α) := do
  let v ← vget s.1 i
  let yv : Matrix α := { nrows := 1, ncols := 1, elem := fun _ _ => v }
  let p ← vget y_pol i
  let jac2 ←
    (if do_j then do
      let f ← vget y_f i
      let e ← apply_iy_unit2 (jacobian_row s.2 i) yv iy_unit [f] 1 [p]
      pure (jacobian_put_row s.2 i e)
    else pure s.2)
  let f ← vget y_f i
  let e ← apply_iy_unit yv iy_unit [f] 1 [p]
  let y2 ← vset s.1 i (e 0 0)
  pure (y2, jac2)

/-- `yApplyUnit` (m_rte.cc 1898-2028).  The threshold `1e-3` is `1/1000`.
Returns the converted `y` and `jacobian`. -/
def yApplyUnit
    (apply_iy_unit : Matrix α → String → List α → α → List ℤ → Except Err (ℕ → ℕ → α))
    (apply_iy_unit2 : Tensor3 α → Matrix α → String → List α → α → List ℤ →
      Except Err (ℕ → ℕ → ℕ → α))
    (y : List α) (jacobian : Matrix α) (y_f : List α) (y_pol : List ℤ) (iy_unit : String) :
    Except Err (List α × Matrix α) :=
  if iy_unit = "1" then
    .error (Err.runtime "No need to use this method with *iy_unit* = \"1\".")
  else do
    let m ← vector_max y
    if m > 1 / 1000 then
      .error (Err.runtime ("The spectrum vector *y* is required to have original radiance\n" ++
        "unit, but this seems not to be the case. This as a value above\n" ++
        "1e-3 is found in *y*."))
    else do
      let ny : ℤ := y.length
      let do_j : Bool := decide ((jacobian.nrows : ℤ) = ny)
      let big ← (if do_j then do
          let mj ← matrix_max jacobian
          pure (decide (mj > 1 / 1000))
        else pure false)
      if big then
        .error (Err.runtime ("The method can not be used with jacobian quantities that are not\n" ++
          "obtained through radiative transfer calculations. One example on\n" ++
          "quantity that can not be handled is *jacobianAddPolyfit*.\n" ++
          "The maximum value of *jacobian* indicates that one or several\n" ++
          "such jacobian quantities are included."))
      else if iy_unit = "PlanckBT" then
        planck_loop apply_iy_unit apply_iy_unit2 y_f y_pol iy_unit do_j ny y.length 0 y jacobian
      else
        (List.range y.length).foldlM
          (other_unit apply_iy_unit apply_iy_unit2 y_f y_pol iy_unit do_j) (y, jacobian)

end UnitConversion

section IyCalc

/-- What `iy_main_agendaExecute` hands back: the spectrum `iy`, the auxiliary
data, the propagation path and the derivatives `diy_dx`. -/
structure IyMain (β P : Type) where
  iy : Matrix β
  iy_aux : List (Tensor4 β)
  ppath : P
  diy_dx : List (Tensor3 β)

/-- The body of the loop of `iyCalc` that looks for NaNs (m_rte.cc 168-172). -/
def iyCalc_check {β : Type} (isnan : β → Bool) (iy : Matrix β) (_u : Unit) (i : ℕ) :
    Except Err Unit := do
  let v ← mget iy i 0
  if isnan v then .error (Err.runtime "One or several NaNs found in *iy*.")
  else pure ()

/-- `iyCalc` (m_rte.cc 121-173).  `isnan` is the test of the C library, and
`iy_main_agendaExecute` the execution of `iy_main_agenda` with the arguments
`iy_agenda_call1`, `iy_unit`, `iy_transmission`, `iy_aux_vars`, `cloudbox_on`,
`jacobian_do`, the atmosphere and positions `atm` that are only handed on, and
`f_grid`.  Returns `iy`, `iy_aux` and `ppath`. -/
def iyCalc {β A P : Type} [Inhabited β] (isnan : β → Bool)
    (iy_main_agendaExecute : ℤ → String → Tensor3 β → List String → ℤ → ℤ → A → List β →
      Except Err (IyMain β P))
    (atmfields_checked atmgeom_checked : ℤ) (iy_aux_vars : List String) (f_grid : List β)
    (atm : A) (cloudbox_on cloudbox_checked : ℤ) (iy_unit : String) :
    Except Err (Matrix β × List (Tensor4 β) × P) :=
  if atmfields_checked ≠ 1 then
    .error (Err.runtime ("The atmospheric fields must be flagged to have " ++
      "passed a consistency check (atmfields_checked=1)."))
  else if atmgeom_checked ≠ 1 then
    .error (Err.runtime ("The atmospheric geometry must be flagged to have " ++
      "passed a consistency check (atmgeom_checked=1)."))
  else if cloudbox_checked ≠ 1 then
    .error (Err.runtime ("The cloudbox must be flagged to have " ++
      "passed a consistency check (cloudbox_checked=1)."))
  else do
    let iy_transmission : Tensor3 β := ⟨0, 0, 0, fun _ _ _ => default⟩
    let r ← iy_main_agendaExecute 1 iy_unit iy_transmission iy_aux_vars cloudbox_on 0 atm f_grid
    (List.range r.iy.nrows).foldlM (iyCalc_check isnan r.iy) ()
    pure (r.iy, r.iy_aux, r.ppath)

end IyCalc

section UnitConversionData

/-- Example data: a conversion `apply_iy_unit` that leaves the data as they
are. -/
def unit_kept (m : Matrix ℚ) (_unit : String) (_f : List ℚ) (_n : ℚ) (_p : List ℤ) :
    Except Err (ℕ → ℕ → ℚ) := .ok m.elem

/-- Example data: a conversion `apply_iy_unit` that doubles the data. -/
def unit_doubled (m : Matrix ℚ) (_unit : String) (_f : List ℚ) (_n : ℚ) (_p : List ℤ) :
    Except Err (ℕ → ℕ → ℚ) := .ok (fun r c => 2 * m.elem r c)

/-- Example data: a conversion `apply_iy_unit2` that leaves the data as they
are. -/
def unit_kept2 (t : Tensor3 ℚ) (_iy : Matrix ℚ) (_unit : String) (_f : List ℚ) (_n : ℚ)
    (_p : List ℤ) : Except Err (ℕ → ℕ → ℕ → ℚ) := .ok t.elem

/-- Example data: the matrix with the rows `rows`. -/
def matrix_of_rows {β : Type} [Inhabited β] (ncols : ℕ) (rows : List (List β)) : Matrix β :=
  { nrows := rows.length, ncols := ncols, elem := fun r c => (rows.getD r []).getD c default }

/-- Example data: a main agenda that returns the spectrum `iy`, no auxiliary
data and no derivatives.  The numbers are `Option ℚ`, where `none` is the
NaN. -/
def agenda_returns (iy : Matrix (Option ℚ)) (_call1 : ℤ) (_unit : String)
    (_trans : Tensor3 (Option ℚ)) (_vars : List String) (_cloudbox_on _jacobian_do : ℤ)
    (_atm : Unit) (_f_grid : List (Option ℚ)) : Except Err (IyMain (Option ℚ) Unit) :=
  .ok { iy := iy, iy_aux := [], ppath := (), diy_dx := [] }

end UnitConversionData

/-! ## The emission integrator `iyEmissionStandard` (m_rte.cc 180-791)

The types `Ppath` and `RetrievalQuantity`, the agendas and the routines of
rte.cc, jacobian.cc and ppath.cc are collaborators of the method: the types
are parameters `P` and `Q`, and the fields and routines used are the fields
of `Rte`.  The arguments of the method that are only handed on to the
collaborators (the atmospheric fields, the species, the agendas, the sensor
position) are the one parameter `A`. -/

/-- A matpack `Tensor5`: the numbers of shelves, books, pages, rows and
columns, and the elements. -/
structure Tensor5 (α : Type) where
  nshelves : ℕ
  nbooks : ℕ
  npages : ℕ
  nrows : ℕ
  ncols : ℕ
  elem : ℕ → ℕ → ℕ → ℕ → ℕ → α

/-- The output of `get_ppath_atmvars`. -/
structure AtmVars (α : Type) where
  ppath_p : List α
  ppath_t : List α
  ppath_t_nlte : Matrix α
  ppath_vmr : Matrix α
  ppath_wind : Matrix α
  ppath_mag : Matrix α

/-- The output of `get_ppath_pmat_and_tmat`.  The derivatives
`dppath_ext_dx`, `dppath_nlte_source_dx`, `dtrans_partial_dx_above` and
`dtrans_partial_dx_below` are used by the Jacobian part only and are kept
together as `partials`. -/
structure PmatTmat (α D : Type) where
  ppath_ext : Tensor4 α
  ppath_nlte_source : Tensor3 α
  lte : List ℤ
  abs_per_species : Tensor5 α
  trans_partial : Tensor4 α
  extmat_case : List (List ℤ)
  trans_cumulat : Tensor4 α
  scalar_tau : List α
  partials : D

/-- The index arrays set by `get_pointers_for_analytical_jacobians`, and
`jac_other`. -/
structure JacPointers where
  jac_species_i : List ℤ
  jac_is_t : List ℤ
  jac_wind_i : List ℤ
  jac_mag_i : List ℤ
  for_flux : List ℤ
  jac_other : List ℤ

/-- The positions found in `iy_aux_vars` (m_rte.cc 341-350), together with
`iy_aux`. -/
structure Aux (α : Type) where
  auxPressure : ℤ
  auxTemperature : ℤ
  auxAbsSum : ℤ
  auxBackground : ℤ
  auxIy : ℤ
  auxTrans : ℤ
  auxOptDepth : ℤ
  iaps : List ℤ
  auxAbsSpecies : List ℤ
  auxAbsIsp : List ℤ
  auxVmrSpecies : List ℤ
  auxVmrIsp : List ℤ
  iy_aux : List (Tensor4 α)

/-- The fields of `Ppath` and `RetrievalQuantity` that `iyEmissionStandard`
reads, and the routines it calls.  A routine that changes a view in place is
given as the function from the view to its new elements. -/
structure Rte (α A P Q D : Type) where
  /-- The field `ppath.np`. -/
  np : P → ℤ
  /-- The field `ppath.end_lstep`. -/
  end_lstep : P → α
  /-- The field `ppath.nreal`. -/
  nreal : P → List α
  /-- The member function `Analytical()` of a retrieval quantity. -/
  Analytical : Q → Bool
  /-- The test `ppd.is_this_propmattype(iq)`. -/
  is_this_propmattype : List Q → ℕ → Bool
  JAC_IS_OTHER : ℤ
  JAC_IS_NONE : ℤ
  /-- The number `abs_species.nelem()`. -/
  n_abs_species : A → ℤ
  /-- The derivatives `partials` as their default constructors leave them. -/
  no_partials : D
  /-- The elements of newly allocated storage of a `Tensor4`. -/
  fresh : ℕ → ℕ → ℕ → ℕ → α
  /-- The extraction `is >> ispecies` from the characters given. -/
  read_index : String → ℤ
  find_first : List ℤ → ℤ → ℤ
  ppath_agendaExecute : A → List α → Except Err P
  ppath_what_background : P → ℤ
  get_pointers_for_analytical_jacobians : List Q → A → Except Err JacPointers
  get_ppath_atmvars : A → P → Except Err (AtmVars α)
  get_ppath_f : A → P → List α → Matrix α → Except Err (Matrix α)
  get_ppath_pmat_and_tmat : A → P → List Q → JacPointers → List ℤ → AtmVars α → Matrix α →
    List α → ℤ → ℤ → Except Err (PmatTmat α D)
  get_ppath_blackrad : P → List α → Matrix α → Except Err (Matrix α)
  get_dppath_blackrad_dt : List α → Matrix α → List ℤ → ℤ → Except Err (Matrix α)
  iy_transmission_mult : Tensor3 α → Tensor3 α → Except Err (Tensor3 α)
  get_iy_of_background : A → P → List (Tensor3 α) → Tensor3 α → ℤ → ℤ → List α → String →
    Except Err (Matrix α × List (Tensor3 α))
  /-- The Jacobian part of one path step (m_rte.cc 604-685): the derivatives
  `diy_dpath` after the calls of `get_diydx` for the step `ip`. -/
  diy_step : P → List Q → JacPointers → AtmVars α → PmatTmat α D → Matrix α → Matrix α →
    List α → Bool → Tensor3 α → Matrix α → ℤ → List (Tensor3 α) → Except Err (List (Tensor3 α))
  emission_rtstep : Matrix α → ℤ → List α → List ℤ → Tensor3 α → Bool → Tensor3 α → Matrix α →
    Except Err (ℕ → ℕ → α)
  /-- The weighting of `diy_dpath[iq]` with `iy_transmission` (m_rte.cc
  733-742). -/
  diy_weight : Tensor3 α → Tensor3 α → ℕ → ℤ → Except Err (Tensor3 α)
  diy_from_path_to_rgrids : Tensor3 α → Q → Tensor3 α → A → P → List α →
    Except Err (Tensor3 α)
  apply_iy_unit : Matrix α → String → List α → α → List ℤ → Except Err (ℕ → ℕ → α)
  apply_iy_unit2 : Tensor3 α → Matrix α → String → List α → α → List ℤ →
    Except Err (ℕ → ℕ → ℕ → α)

section Emission

variable {α A P Q D : Type} [LinearOrderedField α] [FloorRing α]

/-- Checked element read `x(b,p,r,c)` of a `Tensor4`. -/
def t4get (x : Tensor4 α) (b p r c : ℤ) : Except Err α :=
  if 0 ≤ b ∧ b < x.nbooks ∧ 0 ≤ p ∧ p < x.npages ∧ 0 ≤ r ∧ r < x.nrows ∧ 0 ≤ c ∧ c < x.ncols then
    .ok (x.elem b.toNat p.toNat r.toNat c.toNat)
  else .error .range

/-- Checked element write `x(b,p,r,c) = v` of a `Tensor4`. -/
def t4set (x : Tensor4 α) (b p r c : ℤ) (v : α) : Except Err (Tensor4 α) :=
  if 0 ≤ b ∧ b < x.nbooks ∧ 0 ≤ p ∧ p < x.npages ∧ 0 ≤ r ∧ r < x.nrows ∧ 0 ≤ c ∧ c < x.ncols then
    .ok { x with elem := fun b2 p2 r2 c2 =>
      if b2 = b.toNat ∧ p2 = p.toNat ∧ r2 = r.toNat ∧ c2 = c.toNat then v
      else x.elem b2 p2 r2 c2 }
  else .error .range

/-- Checked element read `x(s,b,p,r,c)` of a `Tensor5`. -/
def t5get (x : Tensor5 α) (s b p r c : ℤ) : Except Err α :=
  if 0 ≤ s ∧ s < x.nshelves ∧ 0 ≤ b ∧ b < x.nbooks ∧ 0 ≤ p ∧ p < x.npages ∧ 0 ≤ r ∧
      r < x.nrows ∧ 0 ≤ c ∧ c < x.ncols then
    .ok (x.elem s.toNat b.toNat p.toNat r.toNat c.toNat)
  else .error .range

/-- A `Tensor4` without elements, as the default constructor makes it. -/
def empty4 : Tensor4 α := ⟨0, 0, 0, 0, fun _ _ _ _ => 0⟩

/-- A `Tensor3` without elements. -/
def empty3 : Tensor3 α := ⟨0, 0, 0, fun _ _ _ => 0⟩

/-- A `Matrix` without elements. -/
def empty2 : Matrix α := ⟨0, 0, fun _ _ => 0⟩

/-- A `Tensor5` without elements. -/
def empty5 : Tensor5 α := ⟨0, 0, 0, 0, 0, fun _ _ _ _ _ => 0⟩

/-- Modelled from the spec: `Tensor4::resize` (matpack).  The extents must not
be negative; a tensor that has the extents asked for is left as it is, and
otherwise the tensor gets the new extents and newly allocated storage, whose
elements `fresh` are not set. -/
def resize4 (fresh : ℕ → ℕ → ℕ → ℕ → α) (x : Tensor4 α) (b p r c : ℤ) :
    Except Err (Tensor4 α) := do
  assert (0 ≤ b ∧ 0 ≤ p ∧ 0 ≤ r ∧ 0 ≤ c)
  if (x.nbooks : ℤ) = b ∧ (x.npages : ℤ) = p ∧ (x.nrows : ℤ) = r ∧ (x.ncols : ℤ) = c then pure x
  else pure ⟨b.toNat, p.toNat, r.toNat, c.toNat, fresh⟩

/-- The resize of an `Array` (a `std::vector`) to `n` elements: the leading
elements are kept and new elements are default-constructed. -/
def array_resize {β : Type} (x : List β) (n : ℕ) (d : β) : List β :=
  x.take n ++ List.replicate (n - x.length) d

/-- The view `x(joker,joker,joker,c)` of a `Tensor4`, copied to a `Tensor3`. -/
def t4_column (x : Tensor4 α) (c : ℤ) : Except Err (Tensor3 α) :=
  if 0 ≤ c ∧ c < x.ncols then
    .ok ⟨x.nbooks, x.npages, x.nrows, fun b p r => x.elem b p r c.toNat⟩
  else .error .range

/-- Modelled from the spec: `id_mat` (matpack) applied to the view
`x(b,joker,joker,c)` of a `Tensor4`: the view must be square and is set to
the identity matrix. -/
def t4_id_mat (x : Tensor4 α) (b c : ℤ) : Except Err (Tensor4 α) :=
  if 0 ≤ b ∧ b < x.nbooks ∧ 0 ≤ c ∧ c < x.ncols then do
    assert (x.nrows = x.npages)
    pure { x with elem := fun b2 p r c2 =>
      if b2 = b.toNat ∧ c2 = c.toNat then (if p = r then 1 else 0) else x.elem b2 p r c2 }
  else .error .range

/-- The assignment `x(joker,p,r,c) = v` of a vector to a view of a
`Tensor4`; the lengths must agree. -/
def t4_set_books (x : Tensor4 α) (p r c : ℤ) (v : List α) : Except Err (Tensor4 α) :=
  if 0 ≤ p ∧ p < x.npages ∧ 0 ≤ r ∧ r < x.nrows ∧ 0 ≤ c ∧ c < x.ncols then do
    assert (x.nbooks = v.length)
    pure { x with elem := fun b p2 r2 c2 =>
      if p2 = p.toNat ∧ r2 = r.toNat ∧ c2 = c.toNat then v.getD b 0 else x.elem b p2 r2 c2 }
  else .error .range

/-- The assignment `x(joker,p,r,c) = a` of a number to a view of a
`Tensor4`. -/
def t4_fill_books (x : Tensor4 α) (p r c : ℤ) (a : α) : Except Err (Tensor4 α) :=
  if 0 ≤ p ∧ p < x.npages ∧ 0 ≤ r ∧ r < x.nrows ∧ 0 ≤ c ∧ c < x.ncols then
    pure { x with elem := fun b p2 r2 c2 =>
      if p2 = p.toNat ∧ r2 = r.toNat ∧ c2 = c.toNat then a else x.elem b p2 r2 c2 }
  else .error .range

/-- The assignment `x(joker,joker,r,c) = m` of a matrix to a view of a
`Tensor4`; the extents must agree. -/
def t4_set_matrix (x : Tensor4 α) (r c : ℤ) (m : Matrix α) : Except Err (Tensor4 α) :=
  if 0 ≤ r ∧ r < x.nrows ∧ 0 ≤ c ∧ c < x.ncols then do
    assert (x.nbooks = m.nrows ∧ x.npages = m.ncols)
    pure (t4_put_matrix x r.toNat c.toNat m.elem)
  else .error .range

/-- The member function `substr(pos,len)` of a string, for `pos` inside the
string. -/
def substr (s : String) (pos len : ℕ) : String := String.mk ((s.data.drop pos).take len)

/-- The statement `iy_aux[i].resize( b, p, r, c )`. -/
def aux_resize (env : Rte α A P Q D) (iy_aux : List (Tensor4 α)) (i : ℕ) (b p r c : ℤ) :
    Except Err (List (Tensor4 α)) := do
  let x ← vget iy_aux i
  let x2 ← resize4 env.fresh x b p r c
  vset iy_aux i x2

/-- The body of the loop over `iy_aux_vars` (m_rte.cc 356-422). -/
def aux_request (env : Rte α A P Q D) (atm : A) (nf ns np : ℤ) (iy_aux_vars : List String)
    (s : Aux α) (i : ℕ) : Except Err (Aux α) := do
  let v ← vget iy_aux_vars i
  if v = "Pressure" then do
    let a ← aux_resize env s.iy_aux i 1 1 1 np
    pure { s with auxPressure := i, iy_aux := a }
  else if v = "Temperature" then do
    let a ← aux_resize env s.iy_aux i 1 1 1 np
    pure { s with auxTemperature := i, iy_aux := a }
  else if substr v 0 13 = "VMR, species " then do
    let ispecies := env.read_index (substr v 13 2)
    if ispecies < 0 ∨ ispecies ≥ env.n_abs_species atm then
      .error (Err.runtime ("You have selected VMR of species with index " ++
        toString ispecies ++ ".\nThis species does not exist!"))
    else do
      let a ← aux_resize env s.iy_aux i 1 1 1 np
      pure { s with auxVmrSpecies := s.auxVmrSpecies ++ [(i : ℤ)],
                    auxVmrIsp := s.auxVmrIsp ++ [ispecies], iy_aux := a }
  else if v = "Absorption, summed" then do
    let a ← aux_resize env s.iy_aux i nf ns ns np
    pure { s with auxAbsSum := i, iy_aux := a }
  else if substr v 0 20 = "Absorption, species " then do
    let ispecies := env.read_index (substr v 20 2)
    if ispecies < 0 ∨ ispecies ≥ env.n_abs_species atm then
      .error (Err.runtime ("You have selected absorption species with index " ++
        toString ispecies ++ ".\nThis species does not exist!"))
    else do
      let ihit := env.find_first s.iaps ispecies
      let iaps := if ihit ≥ 0 then s.iaps else s.iaps ++ [ispecies]
      let isp : ℤ := if ihit ≥ 0 then ihit else (iaps.length : ℤ) - 1
      let a ← aux_resize env s.iy_aux i nf ns ns np
      pure { s with auxAbsSpecies := s.auxAbsSpecies ++ [(i : ℤ)], iaps := iaps,
                    auxAbsIsp := s.auxAbsIsp ++ [isp], iy_aux := a }
  else if v = "Radiative background" then do
    let a ← aux_resize env s.iy_aux i nf 1 1 1
    pure { s with auxBackground := i, iy_aux := a }
  else if v = "iy" ∧ s.auxIy < 0 then do
    let a ← aux_resize env s.iy_aux i nf ns 1 np
    pure { s with auxIy := i, iy_aux := a }
  else if v = "Transmission" ∧ s.auxTrans < 0 then do
    let a ← aux_resize env s.iy_aux i nf ns ns np
    pure { s with auxTrans := i, iy_aux := a }
  else if v = "Optical depth" then do
    let a ← aux_resize env s.iy_aux i nf 1 1 1
    pure { s with auxOptDepth := i, iy_aux := a }
  else if substr v 0 14 = "Mass content, " then do
    let a ← aux_resize env s.iy_aux i 0 0 0 0
    pure { s with iy_aux := a }
  else if substr v 0 10 = "PND, type " then do
    let a ← aux_resize env s.iy_aux i 0 0 0 0
    pure { s with iy_aux := a }
  else
    .error (Err.runtime ("In *iy_aux_vars* you have included: \"" ++ v ++
      "\"\nThis choice is not recognised."))

/-- The positions before the loop over `iy_aux_vars` (m_rte.cc 341-354):
all `-1`, and `iy_aux` resized to the number of variables. -/
def aux_start (iy_aux : List (Tensor4 α)) (naux : ℕ) : Aux α :=
  { auxPressure := -1, auxTemperature := -1, auxAbsSum := -1, auxBackground := -1,
    auxIy := -1, auxTrans := -1, auxOptDepth := -1, iaps := [], auxAbsSpecies := [],
    auxAbsIsp := [], auxVmrSpecies := [], auxVmrIsp := [],
    iy_aux := array_resize iy_aux naux empty4 }

/-- The iy_aux part of m_rte.cc 340-424. -/
def aux_requests (env : Rte α A P Q D) (atm : A) (nf ns np : ℤ) (iy_aux_vars : List String)
    (iy_aux : List (Tensor4 α)) : Except Err (Aux α) :=
  (List.range iy_aux_vars.length).foldlM (aux_request env atm nf ns np iy_aux_vars)
    (aux_start iy_aux iy_aux_vars.length)

/-- The flag `j_analytical_do` (m_rte.cc 294-302): set when `jacobian_do` is
set and some retrieval quantity is analytical. -/
def j_analytical_do_of (env : Rte α A P Q D) (jacobian_do : ℤ) (jq : List Q) : ℤ :=
  if jacobian_do ≠ 0 ∧ jq.any env.Analytical = true then 1 else 0

/-- The Jacobian variables of `iyEmissionStandard`. -/
structure Jac (α : Type) where
  diy_dx : List (Tensor3 α)
  diy_dpath : List (Tensor3 α)
  ptr : JacPointers

/-- A `Tensor3` resized to the extents given and set to `0.0`. -/
def zeros3 (a b c : ℤ) : Except Err (Tensor3 α) := do
  assert (0 ≤ a ∧ 0 ≤ b ∧ 0 ≤ c)
  pure ⟨a.toNat, b.toNat, c.toNat, fun _ _ _ => 0⟩

/-- The body of `FOR_ANALYTICAL_JACOBIANS_DO( diy_dpath[iq].resize( np, nf,
ns ); diy_dpath[iq] = 0.0; )` (m_rte.cc 316-319). -/
def diy_dpath_start (env : Rte α A P Q D) (jq : List Q) (np nf ns : ℤ)
    (dp : List (Tensor3 α)) (iq : ℕ) : Except Err (List (Tensor3 α)) := do
  let q ← vget jq iq
  if env.Analytical q then do
    let z ← zeros3 np nf ns
    vset dp iq z
  else pure dp

/-- The body of `FOR_ANALYTICAL_JACOBIANS_DO( jac_other[iq] = ... )` (m_rte.cc
325). -/
def jac_other_start (env : Rte α A P Q D) (jq : List Q) (o : List ℤ) (iq : ℕ) :
    Except Err (List ℤ) := do
  let q ← vget jq iq
  if env.Analytical q then
    vset o iq (if env.is_this_propmattype jq iq then env.JAC_IS_OTHER else env.JAC_IS_NONE)
  else pure o

/-- The body of `FOR_ANALYTICAL_JACOBIANS_DO( diy_dx[iq].resize( ... );
diy_dx[iq] = 0.0; )` (m_rte.cc 331-334). -/
def diy_dx_start (env : Rte α A P Q D) (jq : List Q) (jacobian_indices : List (List ℤ))
    (nf ns : ℤ) (dx : List (Tensor3 α)) (iq : ℕ) : Except Err (List (Tensor3 α)) := do
  let q ← vget jq iq
  if env.Analytical q then do
    let ji ← vget jacobian_indices iq
    let hi ← vget ji 1
    let lo ← vget ji 0
    let z ← zeros3 (hi - lo + 1) nf ns
    vset dx iq z
  else pure dx

/-- The jacobian part of m_rte.cc 304-336. -/
def jacobian_start (env : Rte α A P Q D) (atm : A) (jq : List Q)
    (jacobian_indices : List (List ℤ)) (iy_agenda_call1 np nf ns : ℤ)
    (diy_dx : List (Tensor3 α)) (j_analytical_do : ℤ) : Except Err (Jac α) :=
  if j_analytical_do = 0 then
    pure { diy_dx := [], diy_dpath := [], ptr := ⟨[], [], [], [], [], []⟩ }
  else do
    let nq := jq.length
    let dp ← (List.range nq).foldlM (diy_dpath_start env jq np nf ns) (List.replicate nq empty3)
    let ptr ← env.get_pointers_for_analytical_jacobians jq atm
    let other ← (List.range nq).foldlM (jac_other_start env jq) (List.replicate nq 0)
    let dx ←
      (if iy_agenda_call1 ≠ 0 then
        (List.range nq).foldlM (diy_dx_start env jq jacobian_indices nf ns)
          (array_resize diy_dx nq empty3)
      else pure diy_dx)
    pure { diy_dx := dx, diy_dpath := dp, ptr := { ptr with jac_other := other } }

/-- The variables set by m_rte.cc 447-481 for the points of the path. -/
structure PathVars (α D : Type) where
  atm : AtmVars α
  ppath_f : Matrix α
  pt : PmatTmat α D
  ppath_blackrad : Matrix α
  dppath_blackrad_dt : Matrix α

/-- The statement `id_mat( trans_cumulat(iv,joker,joker,c) )` as the body of
a loop over `iv`. -/
def id_mat_at (c : ℤ) (x : Tensor4 α) (iv : ℕ) : Except Err (Tensor4 α) := t4_id_mat x iv c

/-- The quantities for each point of the path (m_rte.cc 447-481): from the
collaborators when `np > 1`, and zero optical thickness and unit
transmission otherwise. -/
def path_vars (env : Rte α A P Q D) (atm : A) (ppath : P) (jq : List Q) (jac : Jac α)
    (iaps : List ℤ) (f_grid : List α) (stokes_dim jacobian_do j_analytical_do : ℤ) :
    Except Err (PathVars α D) :=
  let nf : ℤ := f_grid.length
  let np := env.np ppath
  if np > 1 then do
    let av ← env.get_ppath_atmvars atm ppath
    let ppath_f ← env.get_ppath_f atm ppath f_grid av.ppath_wind
    let pt ← env.get_ppath_pmat_and_tmat atm ppath jq jac.ptr iaps av ppath_f f_grid stokes_dim
      jacobian_do
    let b ← env.get_ppath_blackrad ppath av.ppath_t ppath_f
    let db ← env.get_dppath_blackrad_dt av.ppath_t ppath_f jac.ptr.jac_is_t j_analytical_do
    pure ⟨av, ppath_f, pt, b, db⟩
  else do
    let t0 ← resize4 env.fresh empty4 nf stokes_dim stokes_dim np
    let t ← (List.range nf.toNat).foldlM (id_mat_at (np - 1)) t0
    pure ⟨⟨[], [], empty2, empty2, empty2, empty2⟩, empty2,
      ⟨empty4, empty3, [], empty5, empty4, [], t, List.replicate nf.toNat 0, env.no_partials⟩,
      empty2, empty2⟩

/-- The statement `iy_aux[q](b,p,r,c) = v`. -/
def aux_set (a : List (Tensor4 α)) (q b p r c : ℤ) (v : α) : Except Err (List (Tensor4 α)) := do
  let x ← vget a q
  let x2 ← t4set x b p r c v
  vset a q x2

/-- The parts of `iy_aux` that are defined even for `np = 1` (m_rte.cc
503-523). -/
def aux_fill_first (env : Rte α A P Q D) (ppath : P) (nf np : ℤ) (iy : Matrix α)
    (trans_cumulat : Tensor4 α) (scalar_tau : List α) (s : Aux α) :
    Except Err (List (Tensor4 α)) := do
  let a1 ←
    (if s.auxBackground ≥ 0 then do
      let x ← vget s.iy_aux s.auxBackground
      let x2 ← t4_fill_books x 0 0 0 (((min 2 (env.ppath_what_background ppath - 1) : ℤ) : α))
      vset s.iy_aux s.auxBackground x2
    else pure s.iy_aux)
  let a2 ←
    (if s.auxIy ≥ 0 then do
      let x ← vget a1 s.auxIy
      let x2 ← t4_set_matrix x 0 (np - 1) iy
      vset a1 s.auxIy x2
    else pure a1)
  let a3 ←
    (if s.auxTrans ≥ 0 then
      if np = 1 then do
        let x ← vget a2 s.auxTrans
        let x2 ← (List.range nf.toNat).foldlM (id_mat_at 0) x
        vset a2 s.auxTrans x2
      else vset a2 s.auxTrans trans_cumulat
    else pure a2)
  if s.auxOptDepth ≥ 0 then do
    let x ← vget a3 s.auxOptDepth
    let x2 ← t4_set_books x 0 0 0 scalar_tau
    vset a3 s.auxOptDepth x2
  else pure a3

/-- The body of the loop over `auxVmrSpecies` (m_rte.cc 546-547, 703-704). -/
def aux_vmr (s : Aux α) (ppath_vmr : Matrix α) (ix : ℤ) (a : List (Tensor4 α)) (j : ℕ) :
    Except Err (List (Tensor4 α)) := do
  let q ← vget s.auxVmrSpecies j
  let isp ← vget s.auxVmrIsp j
  let v ← mget ppath_vmr isp ix
  aux_set a q 0 0 0 ix v

/-- The loops over `iv`, `is1` and `is2` that copy the elements
`src iv is1 is2` to `iy_aux[q](iv,is1,is2,ix)` (m_rte.cc 550-554, 556-560). -/
def aux_copy (src : ℤ → ℤ → ℤ → Except Err α) (nf ns q ix : ℤ) (a : List (Tensor4 α)) :
    Except Err (List (Tensor4 α)) :=
  (List.range nf.toNat).foldlM (fun a1 (iv : ℕ) =>
    (List.range ns.toNat).foldlM (fun a2 (is1 : ℕ) =>
      (List.range ns.toNat).foldlM (fun a3 (is2 : ℕ) => do
        let v ← src iv is1 is2
        aux_set a3 q iv is1 is2 ix v) a2) a1) a

/-- The body of the loop over `auxAbsSpecies` (m_rte.cc 555-560, 712-717). -/
def aux_abs_species (s : Aux α) (abs_per_species : Tensor5 α) (nf ns ix : ℤ)
    (a : List (Tensor4 α)) (j : ℕ) : Except Err (List (Tensor4 α)) := do
  let q ← vget s.auxAbsSpecies j
  let isp ← vget s.auxAbsIsp j
  aux_copy (fun iv is1 is2 => t5get abs_per_species isp iv is1 is2 ix) nf ns q ix a

/-- The iy_aux part for the point `ix` of the path: pressure, temperature,
VMR and absorption (m_rte.cc 537-560 for `ix = np-1`, 695-717 for `ix = ip`). -/
def aux_point (s : Aux α) (pv : PathVars α D) (nf ns ix : ℤ) (a : List (Tensor4 α)) :
    Except Err (List (Tensor4 α)) := do
  let a1 ←
    (if s.auxPressure ≥ 0 then do
      let v ← vget pv.atm.ppath_p ix
      aux_set a s.auxPressure 0 0 0 ix v
    else pure a)
  let a2 ←
    (if s.auxTemperature ≥ 0 then do
      let v ← vget pv.atm.ppath_t ix
      aux_set a1 s.auxTemperature 0 0 0 ix v
    else pure a1)
  let a3 ← (List.range s.auxVmrSpecies.length).foldlM (aux_vmr s pv.atm.ppath_vmr ix) a2
  let a4 ←
    (if s.auxAbsSum ≥ 0 then
      aux_copy (fun iv is1 is2 => t4get pv.pt.ppath_ext iv is1 is2 ix) nf ns s.auxAbsSum ix a3
    else pure a3)
  (List.range s.auxAbsSpecies.length).foldlM (aux_abs_species s pv.pt.abs_per_species nf ns ix) a4

/-- The path step average `bbar[iv]` of the Planck function (m_rte.cc
571-575). -/
def bbar_of (ppath_blackrad : Matrix α) (ip : ℤ) (iv : ℕ) : Except Err α := do
  let b0 ← mget ppath_blackrad iv ip
  let b1 ← mget ppath_blackrad iv (ip + 1)
  pure (1 / 2 * (b0 + b1))

/-- The flag `nonlte` of a path step (m_rte.cc 579). -/
def nonlte_of (lte : List ℤ) (ip : ℤ) : Except Err Bool := do
  let l0 ← vget lte ip
  if l0 = 0 then pure true
  else do
    let l1 ← vget lte (ip + 1)
    pure (decide (l1 = 0))

/-- The matrix `sourcebar` of a non-LTE path step (m_rte.cc 586-593). -/
def sourcebar_of (src : Tensor3 α) (nf ns ip : ℤ) : Except Err (Matrix α) :=
  (List.range nf.toNat).foldlM (fun m1 (iv : ℕ) =>
    (List.range ns.toNat).foldlM (fun m2 (is1 : ℕ) => do
      let s0 ← t3get src iv is1 ip
      let s1 ← t3get src iv is1 (ip + 1)
      mset m2 iv is1 (1 / 2 * (s0 + s1))) m1) ⟨nf.toNat, ns.toNat, fun _ _ => 0⟩

/-- Checked element write `x(p,r,c) = v` of a `Tensor3`. -/
def t3set (x : Tensor3 α) (p r c : ℤ) (v : α) : Except Err (Tensor3 α) :=
  if 0 ≤ p ∧ p < x.npages ∧ 0 ≤ r ∧ r < x.nrows ∧ 0 ≤ c ∧ c < x.ncols then
    .ok { x with elem := fun p2 r2 c2 =>
      if p2 = p.toNat ∧ r2 = r.toNat ∧ c2 = c.toNat then v else x.elem p2 r2 c2 }
  else .error .range

/-- The tensor `extbar` of a non-LTE path step (m_rte.cc 587-598). -/
def extbar_of (ext : Tensor4 α) (nf ns ip : ℤ) : Except Err (Tensor3 α) :=
  (List.range nf.toNat).foldlM (fun m1 (iv : ℕ) =>
    (List.range ns.toNat).foldlM (fun m2 (is1 : ℕ) =>
      (List.range ns.toNat).foldlM (fun m3 (is2 : ℕ) => do
        let e0 ← t4get ext iv is1 is2 ip
        let e1 ← t4get ext iv is1 is2 (ip + 1)
        t3set m3 iv is1 is2 (1 / 2 * (e0 + e1))) m2) m1)
    ⟨nf.toNat, ns.toNat, ns.toNat, fun _ _ _ => 0⟩

/-- The variables that the loop over the path steps changes. -/
structure Step (α : Type) where
  iy : Matrix α
  iy_aux : List (Tensor4 α)
  diy_dpath : List (Tensor3 α)

/-- One round of the loop over the path steps (m_rte.cc 567-721) for the
round `k`, that is for the step `ip = np - 2 - k`. -/
def rt_step (env : Rte α A P Q D) (ppath : P) (jq : List Q) (jac : Jac α) (s : Aux α)
    (pv : PathVars α D) (nf ns np j_analytical_do : ℤ) (st : Step α) (k : ℕ) :
    Except Err (Step α) := do
  let ip : ℤ := np - 2 - k
  let bbar ← (List.range nf.toNat).mapM (bbar_of pv.ppath_blackrad ip)
  let nonlte ← nonlte_of pv.pt.lte ip
  let sourcebar ← (if nonlte then sourcebar_of pv.pt.ppath_nlte_source nf ns ip else pure empty2)
  let extbar ← (if nonlte then extbar_of pv.pt.ppath_ext nf ns ip else pure empty3)
  let dp ←
    (if j_analytical_do ≠ 0 then
      env.diy_step ppath jq jac.ptr pv.atm pv.pt pv.dppath_blackrad_dt st.iy bbar nonlte extbar
        sourcebar ip st.diy_dpath
    else pure st.diy_dpath)
  let ec ← vget pv.pt.extmat_case ip
  let tp ← t4_column (PmatTmat.trans_partial pv.pt) ip
  let e ← env.emission_rtstep st.iy ns bbar ec tp nonlte extbar sourcebar
  let iy : Matrix α := { st.iy with elem := e }
  let a1 ← aux_point s pv nf ns ip st.iy_aux
  let a2 ←
    (if s.auxIy ≥ 0 then do
      let x ← vget a1 s.auxIy
      let x2 ← t4_set_matrix x 0 ip iy
      vset a1 s.auxIy x2
    else pure a1)
  pure ⟨iy, a2, dp⟩

/-- The body of the loop `FOR_ANALYTICAL_JACOBIANS_DO` that weights the
derivatives with `iy_transmission` (m_rte.cc 733-742); `n0` is
`diy_dpath[0].npages()`. -/
def diy_weighting (env : Rte α A P Q D) (jq : List Q) (ns : ℤ) (iy_transmission : Tensor3 α)
    (n0 : ℕ) (dp : List (Tensor3 α)) (iq : ℕ) : Except Err (List (Tensor3 α)) := do
  let q ← vget jq iq
  if env.Analytical q then do
    let d ← vget dp iq
    let dw ← env.diy_weight d iy_transmission n0 ns
    vset dp iq dw
  else pure dp

/-- The body of the loop `FOR_ANALYTICAL_JACOBIANS_DO` that maps the
derivatives from the path to the retrieval grids (m_rte.cc 746-749). -/
def diy_map (env : Rte α A P Q D) (atm : A) (ppath : P) (jq : List Q) (ppath_p : List α)
    (dp : List (Tensor3 α)) (dx : List (Tensor3 α)) (iq : ℕ) :
    Except Err (List (Tensor3 α)) := do
  let q ← vget jq iq
  if env.Analytical q then do
    let d ← vget dp iq
    let x ← vget dx iq
    let x2 ← env.diy_from_path_to_rgrids x q d atm ppath ppath_p
    vset dx iq x2
  else pure dx

/-- The jacobian part after the loop over the path steps (m_rte.cc 725-751). -/
def diy_to_rgrids (env : Rte α A P Q D) (atm : A) (ppath : P) (jq : List Q) (ppath_p : List α)
    (iy_agenda_call1 ns : ℤ) (iy_transmission : Tensor3 α) (dp : List (Tensor3 α))
    (dx : List (Tensor3 α)) : Except Err (List (Tensor3 α)) := do
  let dw ←
    (if iy_agenda_call1 = 0 then do
      let d0 ← vget dp 0
      (List.range jq.length).foldlM (diy_weighting env jq ns iy_transmission d0.npages) dp
    else pure dp)
  (List.range jq.length).foldlM (diy_map env atm ppath jq ppath_p dw) dx

/-- The RT calculations for `np > 1` (m_rte.cc 528-752).  Returns `iy`,
`iy_aux` and `diy_dx`. -/
def rt_calculations (env : Rte α A P Q D) (atm : A) (ppath : P) (jq : List Q) (jac : Jac α)
    (s : Aux α) (pv : PathVars α D) (nf ns np j_analytical_do iy_agenda_call1 : ℤ)
    (iy_transmission : Tensor3 α) (iy : Matrix α) (iy_aux : List (Tensor4 α))
    (diy_dx : List (Tensor3 α)) :
    Except Err (Matrix α × List (Tensor4 α) × List (Tensor3 α)) := do
  let a0 ← aux_point s pv nf ns (np - 1) iy_aux
  let st ← (List.range (np - 1).toNat).foldlM
    (rt_step env ppath jq jac s pv nf ns np j_analytical_do) ⟨iy, a0, jac.diy_dpath⟩
  let dx ←
    (if j_analytical_do ≠ 0 then
      diy_to_rgrids env atm ppath jq pv.atm.ppath_p iy_agenda_call1 ns iy_transmission
        st.diy_dpath diy_dx
    else pure diy_dx)
  pure (st.iy, st.iy_aux, dx)

/-- The body of `FOR_ANALYTICAL_JACOBIANS_DO( apply_iy_unit2( diy_dx[iq], iy,
iy_unit, f_grid, n, i_pol ); )` (m_rte.cc 773-774). -/
def diy_unit (env : Rte α A P Q D) (jq : List Q) (iy : Matrix α) (iy_unit : String)
    (f_grid : List α) (n : α) (i_pol : List ℤ) (dx : List (Tensor3 α)) (iq : ℕ) :
    Except Err (List (Tensor3 α)) := do
  let q ← vget jq iq
  if env.Analytical q then do
    let x ← vget dx iq
    let e ← env.apply_iy_unit2 x iy iy_unit f_grid n i_pol
    vset dx iq { x with elem := e }
  else pure dx

/-- The body of the loop over the points of the path that converts
`iy_aux[q](joker,joker,0,ip)` (m_rte.cc 785-787). -/
def aux_unit_point (env : Rte α A P Q D) (ppath : P) (iy_unit : String) (f_grid : List α)
    (i_pol : List ℤ) (x : Tensor4 α) (ip : ℕ) : Except Err (Tensor4 α) := do
  let v ← t4_matrix x 0 ip
  let n ← vget (env.nreal ppath) ip
  let e ← env.apply_iy_unit v iy_unit f_grid n i_pol
  pure (t4_put_matrix x 0 ip e)

/-- The body of the loop over `iy_aux` of the unit conversions (m_rte.cc
781-789). -/
def aux_unit (env : Rte α A P Q D) (ppath : P) (iy_unit : String) (f_grid : List α)
    (i_pol : List ℤ) (iy_aux_vars : List String) (a : List (Tensor4 α)) (q : ℕ) :
    Except Err (List (Tensor4 α)) := do
  let v ← vget iy_aux_vars q
  if v = "iy" then do
    let x ← vget a q
    let x2 ← (List.range (env.np ppath).toNat).foldlM
      (aux_unit_point env ppath iy_unit f_grid i_pol) x
    vset a q x2
  else pure a

/-- The unit conversions of the first call (m_rte.cc 756-790).  Returns `iy`,
`iy_aux` and `diy_dx`. -/
def unit_conversions (env : Rte α A P Q D) (ppath : P) (jq : List Q) (iy_unit : String)
    (f_grid : List α) (iy_aux_vars : List String) (ns np j_analytical_do : ℤ)
    (iy : Matrix α) (iy_aux : List (Tensor4 α)) (diy_dx : List (Tensor3 α)) :
    Except Err (Matrix α × List (Tensor4 α) × List (Tensor3 α)) := do
  let n ← (if env.end_lstep ppath = 0 then vget (env.nreal ppath) (np - 1) else pure 1)
  let i_pol := i_pol_of ns
  let dx ←
    (if j_analytical_do ≠ 0 then
      (List.range jq.length).foldlM (diy_unit env jq iy iy_unit f_grid n i_pol) diy_dx
    else pure diy_dx)
  let e ← env.apply_iy_unit iy iy_unit f_grid n i_pol
  let a ← (List.range iy_aux.length).foldlM
    (aux_unit env ppath iy_unit f_grid i_pol iy_aux_vars) iy_aux
  pure ({ iy with elem := e }, a, dx)

/-- What `iyEmissionStandard` hands back. -/
structure IyOut (α P : Type) where
  iy : Matrix α
  iy_aux : List (Tensor4 α)
  ppath : P
  diy_dx : List (Tensor3 α)

/-- The method up to the unit conversions (m_rte.cc 222-752): the spectrum,
the auxiliary data and the derivatives in the unit of the radiative
transfer, with the path and the flag `j_analytical_do`. -/
def iy_before_units (env : Rte α A P Q D) (atm : A) (iy_aux : List (Tensor4 α))
    (diy_dx : List (Tensor3 α)) (stokes_dim : ℤ) (f_grid : List α) (iy_unit : String)
    (iy_aux_vars : List String) (jacobian_do : ℤ) (jacobian_quantities : List Q)
    (jacobian_indices : List (List ℤ)) (iy_agenda_call1 : ℤ) (iy_transmission : Tensor3 α) :
    Except Err (IyOut α P × ℤ) := do
  let ppath ← env.ppath_agendaExecute atm f_grid
  if iy_agenda_call1 = 0 ∧ env.ppath_what_background ppath = 2 then
    .error (Err.runtime ("A secondary propagation path starting at the " ++
      "surface and is going directly into the surface " ++
      "is found. This is not allowed."))
  else do
    let nf : ℤ := f_grid.length
    let ns := stokes_dim
    let np := env.np ppath
    let jdo := j_analytical_do_of env jacobian_do jacobian_quantities
    let jac ← jacobian_start env atm jacobian_quantities jacobian_indices iy_agenda_call1 np nf ns
      diy_dx jdo
    let s ← aux_requests env atm nf ns np iy_aux_vars iy_aux
    let pv ← path_vars env atm ppath jacobian_quantities jac s.iaps f_grid stokes_dim
      jacobian_do jdo
    let last ← t4_column pv.pt.trans_cumulat (np - 1)
    let iy_trans_new ←
      (if iy_agenda_call1 ≠ 0 then pure last else env.iy_transmission_mult iy_transmission last)
    let bg ← env.get_iy_of_background atm ppath jac.diy_dx iy_trans_new jacobian_do stokes_dim
      f_grid iy_unit
    let a1 ← aux_fill_first env ppath nf np bg.1 pv.pt.trans_cumulat pv.pt.scalar_tau s
    let r ←
      (if np > 1 then
        rt_calculations env atm ppath jacobian_quantities jac s pv nf ns np jdo iy_agenda_call1
          iy_transmission bg.1 a1 bg.2
      else pure (bg.1, a1, bg.2))
    pure (⟨r.1, r.2.1, ppath, r.2.2⟩, jdo)

/-- `iyEmissionStandard` (m_rte.cc 180-791). -/
def iyEmissionStandard (env : Rte α A P Q D) (atm : A) (iy_aux : List (Tensor4 α))
    (diy_dx : List (Tensor3 α)) (stokes_dim : ℤ) (f_grid : List α) (iy_unit : String)
    (iy_aux_vars : List String) (jacobian_do : ℤ) (jacobian_quantities : List Q)
    (jacobian_indices : List (List ℤ)) (iy_agenda_call1 : ℤ) (iy_transmission : Tensor3 α) :
    Except Err (IyOut α P) := do
  let r ← iy_before_units env atm iy_aux diy_dx stokes_dim f_grid iy_unit iy_aux_vars
    jacobian_do jacobian_quantities jacobian_indices iy_agenda_call1 iy_transmission
  if iy_agenda_call1 ≠ 0 then do
    let u ← unit_conversions env r.1.ppath jacobian_quantities iy_unit f_grid iy_aux_vars
      stokes_dim (env.np r.1.ppath) r.2 r.1.iy r.1.iy_aux r.1.diy_dx
    pure ⟨u.1, u.2.1, r.1.ppath, u.2.2⟩
  else pure r.1

end Emission

section EmissionProperties

variable {α : Type} [LinearOrderedField α] [FloorRing α]

/-- The position `idx`, when set, lies below `k` and is the position of the
variable `name` in `vars`. -/
def names (vars : List String) (k : ℕ) (idx : ℤ) (name : String) : Prop :=
  0 ≤ idx → idx < k ∧ vars[idx.toNat]? = some name

/-- The positions `idxs` lie below `k` and are positions of variables in
`vars` that start with the `n` characters `start`. -/
def names_all (vars : List String) (k : ℕ) (idxs : List ℤ) (n : ℕ) (start : String) : Prop :=
  ∀ q ∈ idxs, 0 ≤ q ∧ q < k ∧ ∃ v, vars[q.toNat]? = some v ∧ substr v 0 n = start

/-- The tensor at the position `idx` of `a`, when the position is set, has
the extents `b`, `p`, `r` and `c`. -/
def sized (a : List (Tensor4 α)) (idx b p r c : ℤ) : Prop :=
  0 ≤ idx → ∃ x, a[idx.toNat]? = some x ∧
    (x.nbooks : ℤ) = b ∧ (x.npages : ℤ) = p ∧ (x.nrows : ℤ) = r ∧ (x.ncols : ℤ) = c

/-- What holds of the positions `s` after the first `k` variables of `vars`
have been looked at by the loop of `aux_requests`: every position that is set
is the position of the variable of its name, the tensors for the transmission
and the optical depth have their extents, the variable "Transmission" can
only be found at `auxTrans`, and the variable "Optical depth" is not found
after `auxOptDepth`. -/
def aux_positions (vars : List String) (nf ns np : ℤ) (k : ℕ) (s : Aux α) : Prop :=
  s.iy_aux.length = vars.length ∧
  names vars k s.auxPressure "Pressure" ∧
  names vars k s.auxTemperature "Temperature" ∧
  names vars k s.auxAbsSum "Absorption, summed" ∧
  names vars k s.auxBackground "Radiative background" ∧
  names vars k s.auxIy "iy" ∧
  names vars k s.auxTrans "Transmission" ∧
  names vars k s.auxOptDepth "Optical depth" ∧
  names_all vars k s.auxVmrSpecies 13 "VMR, species " ∧
  names_all vars k s.auxAbsSpecies 20 "Absorption, species " ∧
  sized s.iy_aux s.auxTrans nf ns ns np ∧
  sized s.iy_aux s.auxOptDepth nf 1 1 1 ∧
  (∀ i : ℕ, i < k → vars[i]? = some "Transmission" → s.auxTrans = i) ∧
  (∀ i : ℕ, i < k → vars[i]? = some "Optical depth" → (i : ℤ) ≤ s.auxOptDepth)

/-- The tensor `x` holds the identity matrix, for each of its first `n`
books, in the column `c`. -/
def unit_at (x : Tensor4 α) (n c : ℕ) : Prop :=
  ∀ iv p r : ℕ, iv < n → x.elem iv p r c = if p = r then 1 else 0

/-- The list `b` is the list `a` with a new element at the position `idx`,
when the position is set, and the list `a` otherwise; `R` relates the old to
the new element. -/
def changed_at {β : Type} (a b : List β) (idx : ℤ) (R : β → β → Prop) : Prop :=
  b.length = a.length ∧ (∀ j : ℕ, (idx < 0 ∨ j ≠ idx.toNat) → b[j]? = a[j]?) ∧
  (0 ≤ idx → ∃ x x2, a[idx.toNat]? = some x ∧ b[idx.toNat]? = some x2 ∧ R x x2)

/-- The list `b` has the length of the list `a` and its element at the
position `i`. -/
def same_at {β : Type} (a b : List β) (i : ℕ) : Prop :=
  b.length = a.length ∧ b[i]? = a[i]?

/-- The variable `name` is none of those whose tensor `aux_point` or the
radiance part write to. -/
def untouched (name : String) : Prop :=
  name ≠ "Pressure" ∧ name ≠ "Temperature" ∧ name ≠ "Absorption, summed" ∧
  substr name 0 13 ≠ "VMR, species " ∧ substr name 0 20 ≠ "Absorption, species " ∧
  name ≠ "iy" ∧ name ≠ "Radiative background"

end EmissionProperties

section EmissionData

/-- The elements of a `Tensor4` as nested lists: books, pages, rows,
columns. -/
def t4_list {β : Type} (x : Tensor4 β) : List (List (List (List β))) :=
  (List.range x.nbooks).map (fun b => (List.range x.npages).map (fun p =>
    (List.range x.nrows).map (fun r => (List.range x.ncols).map (fun c => x.elem b p r c))))

/-- Example data: the tensor of the extents given that holds `a` everywhere. -/
def const4 (b p r c : ℕ) (a : ℚ) : Tensor4 ℚ := ⟨b, p, r, c, fun _ _ _ _ => a⟩

/-- Example data: the output of `get_ppath_pmat_and_tmat` for a path of `np`
points, `nf` frequencies and `ns` Stokes elements: every step has the
transmission `1/2`, the cumulative transmission is `1` at the point `0` and
`1/2` at the other points, and the optical depth is `7/10`. -/
def test_pmat_tmat (np nf ns : ℕ) : PmatTmat ℚ Unit :=
  { ppath_ext := const4 nf ns ns np 0, ppath_nlte_source := ⟨nf, ns, np, fun _ _ _ => 0⟩,
    lte := List.replicate np 1, abs_per_species := ⟨0, 0, 0, 0, 0, fun _ _ _ _ _ => 0⟩,
    trans_partial := const4 nf ns ns (np - 1) (1 / 2),
    extmat_case := List.replicate np (List.replicate nf 1),
    trans_cumulat := ⟨nf, ns, ns, np, fun _ p r c => if p = r then (if c = 0 then 1 else 1 / 2) else 0⟩,
    scalar_tau := List.replicate nf (7 / 10), partials := () }

/-- Example data: collaborators for a path that is given by its number of
points `np`, without analytical Jacobians: the pressure is `1000` and the
temperature `250` at every point, the Planck function is `3/1000`, the
radiative background is `1/1000` in every element, the optical properties
are `test_pmat_tmat`, a step of `emission_rtstep` takes `iy(iv,is)` to
`t * (iy(iv,is) - bbar[iv]) + bbar[iv]` with the transmission
`t = trans(iv,is,is)`, newly allocated storage holds `7`, and the unit
conversion leaves the data as they are. -/
def test_rte (np : ℕ) : Rte ℚ Unit ℕ Unit Unit :=
  { np := fun p => p, end_lstep := fun _ => 1, nreal := fun p => List.replicate p 1,
    Analytical := fun _ => false, is_this_propmattype := fun _ _ => false,
    JAC_IS_OTHER := 1, JAC_IS_NONE := 0, n_abs_species := fun _ => 0, no_partials := (),
    fresh := fun _ _ _ _ => 7, read_index := fun _ => 0, find_first := fun _ _ => -1,
    ppath_agendaExecute := fun _ _ => .ok np, ppath_what_background := fun _ => 1,
    get_pointers_for_analytical_jacobians := fun _ _ => .ok ⟨[], [], [], [], [], []⟩,
    get_ppath_atmvars := fun _ p => .ok ⟨List.replicate p 1000, List.replicate p 250,
      ⟨0, 0, fun _ _ => 0⟩, ⟨0, 0, fun _ _ => 0⟩, ⟨0, 0, fun _ _ => 0⟩, ⟨0, 0, fun _ _ => 0⟩⟩,
    get_ppath_f := fun _ p f _ => .ok ⟨f.length, p, fun iv _ => f.getD iv 0⟩,
    get_ppath_pmat_and_tmat := fun _ p _ _ _ _ _ f ns _ => .ok (test_pmat_tmat p f.length ns.toNat),
    get_ppath_blackrad := fun p _ f => .ok ⟨f.nrows, p, fun _ _ => 3 / 1000⟩,
    get_dppath_blackrad_dt := fun _ _ _ _ => .ok ⟨0, 0, fun _ _ => 0⟩,
    iy_transmission_mult := fun _ t => .ok t,
    get_iy_of_background := fun _ _ dx _ _ ns f _ =>
      .ok (⟨f.length, ns.toNat, fun _ _ => 1 / 1000⟩, dx),
    diy_step := fun _ _ _ _ _ _ _ _ _ _ _ _ dp => .ok dp,
    emission_rtstep := fun iy _ bbar _ t _ _ _ =>
      .ok (fun iv is => t.elem iv is is * (iy.elem iv is - bbar.getD iv 0) + bbar.getD iv 0),
    diy_weight := fun d _ _ _ => .ok d,
    diy_from_path_to_rgrids := fun x _ _ _ _ _ => .ok x,
    apply_iy_unit := unit_kept, apply_iy_unit2 := unit_kept2 }

/-- Example data: what is looked at in the output of `iyEmissionStandard`:
the rows of `iy`, the elements of the tensors of `iy_aux`, and the path. -/
structure IyView where
  iy : List (List ℚ)
  iy_aux : List (List (List (List (List ℚ))))
  ppath : ℕ
  deriving DecidableEq

/-- Example data: the view of the output of `iyEmissionStandard`. -/
def iy_and_aux (r : Except Err (IyOut ℚ ℕ)) : Except Err IyView :=
  r.map (fun out => ⟨matrix_rows out.iy, out.iy_aux.map t4_list, out.ppath⟩)

/-- Example data: the input `iy_transmission` of a first call, without
elements. -/
def no_transmission : Tensor3 ℚ := ⟨0, 0, 0, fun _ _ _ => 0⟩

end EmissionData

/-! ## Replacing and deleting lines of a catalogue (`src/src/m_absorptionlines.cc`)

The classes `AbsorptionLines` and `SingleLine` are declared outside the
translated sources.  A line is an element of an arbitrary type `L`; a band is
the data `band` of an arbitrary type `M` that its lines share, together with
the vector of its lines.  The methods of the classes that the translated
functions call are the fields of the parameter `LinesLib`. -/

/-- A band of absorption lines (`AbsorptionLines`): the data shared by the
lines, and the lines `AllLines()`. -/
structure AbsorptionLines (M L : Type) where
  band : M
  lines : List L
  deriving DecidableEq

/-- The methods of `AbsorptionLines` and `SingleLine` that are called:
`tlines.Match( rlines )`, `tline.SameQuantumNumbers( rline )`,
`sort_by_frequency()` as a function on the vector of the lines, and
`RemoveLine( i )` as a function on the vector of the lines that can fail. -/
structure LinesLib (M L : Type) where
  Match : AbsorptionLines M L → AbsorptionLines M L → Bool
  SameQuantumNumbers : L → L → Bool
  sort_by_frequency : List L → List L
  RemoveLine : List L → ℕ → Except Err (List L)

section Lines

variable {M L : Type}

/-- The loop `for (auto& tline: tlines.AllLines())` of
`abs_linesReplaceWithLines2` (m_absorptionlines.cc 325-330) for the replacing
line `rline`: the number of matching lines and the lines after the
assignments `tline = rline`. -/
def replace_single (lib : LinesLib M L) (rline : L) : List L → ℤ × List L
  | [] => (0, [])
  | tline :: rest =>
    if lib.SameQuantumNumbers tline rline then
      ((replace_single lib rline rest).1 + 1, rline :: (replace_single lib rline rest).2)
    else ((replace_single lib rline rest).1, tline :: (replace_single lib rline rest).2)

/-- The loop `for (auto& rline: rlines.AllLines())` of
`abs_linesReplaceWithLines2` (m_absorptionlines.cc 323-335) on the lines of a
matching band. -/
def replace_lines (lib : LinesLib M L) : List L → List L → Except Err (List L)
  | [], tlines => .ok tlines
  | rline :: rest, tlines =>
    if (replace_single lib rline tlines).1 ≠ 1 then
      .error (Err.runtime ("Error: Did not match to a single single line.  This means the " ++
        "input data has not been understood.  This function needs exactly one match."))
    else replace_lines lib rest (replace_single lib rline tlines).2

/-- The loop `for (auto& tlines: abs_lines)` of `abs_linesReplaceWithLines2`
(m_absorptionlines.cc 320-338) for the replacing band `rlines`: the number of
matching bands and the bands after the replacements. -/
def replace_in_bands (lib : LinesLib M L) (rlines : AbsorptionLines M L) :
    List (AbsorptionLines M L) → Except Err (ℤ × List (AbsorptionLines M L))
  | [] => .ok (0, [])
  | tlines :: rest =>
    if lib.Match tlines rlines then
      match replace_lines lib rlines.lines tlines.lines with
      | .error e => .error e
      | .ok l =>
        match replace_in_bands lib rlines rest with
        | .error e => .error e
        | .ok r => .ok (r.1 + 1, { tlines with lines := lib.sort_by_frequency l } :: r.2)
    else
      match replace_in_bands lib rlines rest with
      | .error e => .error e
      | .ok r => .ok (r.1, tlines :: r.2)

/-- `abs_linesReplaceWithLines2` (m_absorptionlines.cc 316-344); the result is
`abs_lines` after the call. -/
def abs_linesReplaceWithLines2 (lib : LinesLib M L) :
    List (AbsorptionLines M L) → List (AbsorptionLines M L) →
    Except Err (List (AbsorptionLines M L))
  | abs_lines, [] => .ok abs_lines
  | abs_lines, rlines :: rest =>
    match replace_in_bands lib rlines abs_lines with
    | .error e => .error e
    | .ok r =>
      if r.1 ≠ 1 then
        .error (Err.runtime ("Error: Did not match to a single set of absorption lines.  " ++
          "This means the input data has not been understood.  This function needs exactly " ++
          "one match."))
      else abs_linesReplaceWithLines2 lib r.2 rest

/-- The indices pushed to `hits` (m_absorptionlines.cc 392-398): for every
deleting line in turn, the indices of the lines of the band with the same
quantum numbers, in increasing order. -/
def hits_of (lib : LinesLib M L) (tlines dlines : List L) : List ℕ :=
  (dlines.map (fun dline => (List.range tlines.length).filter (fun i =>
    match tlines[i]? with
    | some tline => lib.SameQuantumNumbers tline dline
    | none => false))).flatten

/-- The elements that `std::unique` keeps: the first of every group of equal
neighbours. -/
def unique_kept : List ℕ → List ℕ
  | a :: b :: rest => if a = b then unique_kept (b :: rest) else a :: unique_kept (b :: rest)
  | l => l

/-- The content of a vector after `std::unique( hits.begin(), hits.end() )`:
the kept elements are moved to the front and the elements behind them keep
their values.  The function returns the new end of the range and cannot
change the size of the vector. -/
def std_unique (hits : List ℕ) : List ℕ :=
  unique_kept hits ++ hits.drop (unique_kept hits).length

/-- The loop `while(not hits.empty())` (m_absorptionlines.cc 409-412): the
lines are removed at `hits.back()`, from the last element of `hits` to the
first. -/
def remove_hits (lib : LinesLib M L) (tlines : List L) (hits : List ℕ) : Except Err (List L) :=
  hits.reverse.foldlM (fun l i => lib.RemoveLine l i) tlines

/-- The body of the loop `for (auto& tlines: abs_lines)` of
`abs_linesDeleteWithLines2` (m_absorptionlines.cc 389-413). -/
def delete_in_band (lib : LinesLib M L) (dlines tlines : AbsorptionLines M L) :
    Except Err (AbsorptionLines M L) :=
  if lib.Match tlines dlines then
    let hits := (hits_of lib tlines.lines dlines.lines).insertionSort (· ≤ ·)
    let n := hits.length
    let hits1 := std_unique hits
    if n ≠ hits1.length then
      .error (Err.runtime "Removing the same line more than once is not accepted")
    else
      match remove_hits lib tlines.lines hits1 with
      | .error e => .error e
      | .ok l => .ok { tlines with lines := l }
  else .ok tlines

/-- `abs_linesDeleteWithLines2` (m_absorptionlines.cc 385-416); the result is
`abs_lines` after the call. -/
def abs_linesDeleteWithLines2 (lib : LinesLib M L) (abs_lines deleting_lines :
    List (AbsorptionLines M L)) : Except Err (List (AbsorptionLines M L)) :=
  deleting_lines.foldlM (fun a dlines => a.mapM (delete_in_band lib dlines)) abs_lines

end Lines

/-- Example data: a catalogue whose lines are pairs of a quantum number and a
frequency and whose bands are numbered: two bands match when their numbers
are equal, two lines have the same quantum numbers when their first
components are equal, the lines are sorted by the second component, and
`RemoveLine( i )` erases the line at the index `i`, which has to exist. -/
def test_lines : LinesLib ℕ (ℕ × ℕ) :=
  { Match := fun a b => a.band = b.band
    SameQuantumNumbers := fun a b => a.1 = b.1
    sort_by_frequency := fun l => l.insertionSort (fun a b => a.2 ≤ b.2)
    RemoveLine := fun l i => if i < l.length then .ok (l.eraseIdx i) else .error .range }

section LinesProperties

variable {M L : Type}

/-- The replacing band `rlines` matches exactly one band of `abs_lines`, and
every line of `rlines` has the same quantum numbers as exactly one line of
the matched band. -/
def matches_once (lib : LinesLib M L) (abs_lines : List (AbsorptionLines M L))
    (rlines : AbsorptionLines M L) : Prop :=
  abs_lines.countP (fun t => lib.Match t rlines) = 1 ∧
  ∀ t ∈ abs_lines, lib.Match t rlines = true → ∀ r ∈ rlines.lines,
    t.lines.countP (fun x => lib.SameQuantumNumbers x r) = 1

/-- The lines of the bands of `replacing_lines` that match the band `tlines`,
in the order of the catalogue `replacing_lines`. -/
def replacing_lines_of (lib : LinesLib M L) (tlines : AbsorptionLines M L)
    (replacing_lines : List (AbsorptionLines M L)) : List L :=
  ((replacing_lines.filter (fun r => lib.Match tlines r)).map (fun r => r.lines)).flatten

/-- The line that takes the place of `tline`: the last of the lines `rs` with
the same quantum numbers as `tline`, and `tline` itself when there is none. -/
def replaced_by (lib : LinesLib M L) (rs : List L) (tline : L) : L :=
  ((rs.filter (fun r => lib.SameQuantumNumbers tline r)).getLast?).getD tline

end LinesProperties

/-! ## Appending a measurement (`yCalcAppend`, `src/src/m_rte.cc`) -/

section AppendGrids

variable {α : Type} [LinearOrderedField α] [FloorRing α]

/-- The test of one pair of grid values (m_rte.cc 1849-1853):
`( v1 == 0 && abs(v2) > 1e-9 ) || abs(v1-v2)/v1 > 1e-6`.  The quotient is a
division of `double` numbers: for `v1 == 0` it is `+infinity` when `v2` is not
`0`, which exceeds `1e-6`, and it is not a number when `v2` is `0` as well, for
which the comparison is false. -/
def value_wrong (v1 v2 : α) : Bool :=
  (decide (v1 = 0) && decide (|v2| > 1e-9)) ||
    (if v1 = 0 then decide (|v1 - v2| ≠ 0) else decide (|v1 - v2| / v1 > 1e-6))

/-- The loop `for( Index e=0; e<grids1[g].nelem(); e++ )` (m_rte.cc 1847-1854)
on two grids of the same length: some pair of values is wrong. -/
def values_wrong : List α → List α → Bool
  | v1 :: g1, v2 :: g2 => value_wrong v1 v2 || values_wrong g1 g2
  | _, _ => false

/-- The body of the loop over the grids (m_rte.cc 1843-1855). -/
def grid_wrong (g1 g2 : List α) : Bool :=
  if g1.length ≠ g2.length then true else values_wrong g1 g2

/-- The loop `for( Index g=0; g<grids1.nelem(); g++ )` (m_rte.cc 1841-1856)
on two arrays of the same length. -/
def some_grid_wrong : List (List α) → List (List α) → Bool
  | g1 :: grids1, g2 :: grids2 => grid_wrong g1 g2 || some_grid_wrong grids1 grids2
  | _, _ => false

/-- The flag `any_wrong` (m_rte.cc 1836-1857). -/
def any_wrong (grids1 grids2 : List (List α)) : Bool :=
  if grids1.length ≠ grids2.length then true else some_grid_wrong grids1 grids2

/-- The check of the grids of a quantity that exists in both measurements
(m_rte.cc 1833-1868); `MainTag` and `Subtag` are those of the quantity of the
new measurement. -/
def yCalcAppend_grids (MainTag Subtag : String) (grids1 grids2 : List (List α)) :
    Except Err Unit :=
  if any_wrong grids1 grids2 then
    .error (Err.runtime ("Jacobians for " ++ MainTag ++ "/" ++ Subtag ++
      " shall be appended.\nThis requires that the " ++
      "same grids are used for both measurements,\nbut " ++
      "it seems that this requirement is not met."))
  else .ok ()

end AppendGrids

/-! ## Loops over independent units: `yCalc`, `iyMC` and `iyLoopFrequencies` (`src/src/m_rte.cc`)

The iterations are taken in the order of the loop index, as in an execution
by a single thread.  An agenda or routine that is called is a function of
its arguments. -/

section Loops

variable {α : Type} [LinearOrderedField α] [FloorRing α]

/-- Modelled from the spec: `Matrix::resize` (matpack).  The extents must not
be negative; a matrix that has the extents asked for is left as it is, and
otherwise the matrix gets the new extents and newly allocated storage, whose
elements `fresh` are not set. -/
def resize2 (fresh : ℕ → ℕ → α) (x : Matrix α) (r c : ℤ) : Except Err (Matrix α) := do
  assert (0 ≤ r ∧ 0 ≤ c)
  if (x.nrows : ℤ) = r ∧ (x.ncols : ℤ) = c then pure x
  else pure ⟨r.toNat, c.toNat, fresh⟩

/-- The assignment `x(r,joker) = v` of a vector to a row of a `Matrix`; the
lengths must agree. -/
def matrix_set_row (x : Matrix α) (r : ℤ) (v : List α) : Except Err (Matrix α) :=
  if 0 ≤ r ∧ r < x.nrows then do
    assert (x.ncols = v.length)
    pure { x with elem := fun i j => if i = r.toNat then v.getD j 0 else x.elem i j }
  else .error .range

/-- The assignment `x(b,joker,r,c) = v` of a vector to a view of a `Tensor4`;
the lengths must agree. -/
def t4_set_pages (x : Tensor4 α) (b r c : ℤ) (v : List α) : Except Err (Tensor4 α) :=
  if 0 ≤ b ∧ b < x.nbooks ∧ 0 ≤ r ∧ r < x.nrows ∧ 0 ≤ c ∧ c < x.ncols then do
    assert (x.npages = v.length)
    pure { x with elem := fun b2 p r2 c2 =>
      if b2 = b.toNat ∧ r2 = r.toNat ∧ c2 = c.toNat then v.getD p 0 else x.elem b2 p r2 c2 }
  else .error .range

/-- The variables `failed` and `fail_msg` of a loop, with the variables
`vars` that the iterations read and change. -/
structure Fan (Y : Type) where
  failed : Bool
  fail_msg : String
  vars : Y

/-- `yCalc_mblock_loop_body` (m_rte.cc 1218-1358).  The statements of the
`try` block (m_rte.cc 1260-1350) enter as the function `block` from the
measurement block index and the variables that the statements read and
change (`ws`, `y`, `y_f`, `y_pol`, `y_pos`, `y_los`, `y_geo`, `jacobian`,
`iyb_aux_array`) to what they do: return with new variables, throw a
`runtime_error`, which is caught, or stop the program.  What the statements
have changed before they throw is not kept: after a throw the variables are
not looked at any more. -/
def yCalc_mblock_loop_body {Y : Type} (block : ℕ → Y → Except Err Y) (st : Fan Y)
    (mblock_index : ℕ) : Except Err (Fan Y) :=
  match block mblock_index st.vars with
  | .ok y => .ok { st with vars := y }
  | .error (Err.runtime msg) => .ok { st with fail_msg := msg, failed := true }
  | .error e => .error e

/-- One iteration of the loop over the measurement blocks (m_rte.cc
1518-1537). -/
def yCalc_mblock {Y : Type} (block : ℕ → Y → Except Err Y) (st : Fan Y) (mblock_index : ℕ) :
    Except Err (Fan Y) :=
  if st.failed then .ok st else yCalc_mblock_loop_body block st mblock_index

/-- The calculations of `yCalc` (m_rte.cc 1476-1541): the loop over the
measurement blocks and the rethrow; `vars` holds the variables as they are
after the allocations. -/
def yCalc_mblock_loop {Y : Type} (block : ℕ → Y → Except Err Y) (nmblock : ℕ) (vars : Y) :
    Except Err Y :=
  match (List.range nmblock).foldlM (yCalc_mblock block) ⟨false, "", vars⟩ with
  | .error e => .error e
  | .ok st => if st.failed then .error (Err.runtime st.fail_msg) else .ok st.vars

/-! ### `iyMC` -/

/-- What `iyMC` calls and what it takes from its surroundings.  `X` stands for
the arguments that are handed on to `MCGeneral` as they are and `S` for the
scattering data of one frequency.  `MCSetSeedFromTime f_index` is the seed
that the call `MCSetSeedFromTime( mc_seed, verbosity )` of the iteration
`f_index` delivers: it is taken from the clock, not from an argument of
`iyMC`.  `print` is the output of a `Numeric` to a stream, `fresh2` and
`fresh4` are the elements of newly allocated storage. -/
structure MonteCarlo (α X S : Type) where
  scat_data_monoCalc : X → List α → ℕ → Except Err S
  MCSetSeedFromTime : ℕ → ℤ
  MCGeneral : X → List α → List α → S → List α → ℕ → ℤ → String → ℤ →
    Except Err (List α × List α)
  print : α → String
  fresh2 : ℕ → ℕ → α
  fresh4 : ℕ → ℕ → ℕ → ℕ → α

/-- The variables that the loop over the frequencies of `iyMC` changes. -/
structure McLoop (α : Type) where
  failed : Bool
  fail_msg : String
  iy : Matrix α
  iy_aux : List (Tensor4 α)

variable {X S : Type}

/-- The body of the loop over `iy_aux_vars` of `iyMC` (m_rte.cc 944-955): the
index `auxError` and `iy_aux`. -/
def iyMC_aux (mc : MonteCarlo α X S) (nf stokes_dim : ℤ) (iy_aux_vars : List String)
    (s : ℤ × List (Tensor4 α)) (i : ℕ) : Except Err (ℤ × List (Tensor4 α)) := do
  let v ← vget iy_aux_vars i
  if v = "Error (uncorrelated)" then do
    let x ← vget s.2 i
    let x2 ← resize4 mc.fresh4 x nf stokes_dim 1 1
    let a ← vset s.2 i x2
    pure ((i : ℤ), a)
  else
    .error (Err.runtime ("In *iy_aux_vars* you have included: \"" ++ v ++
      "\"\nThis choice is not recognised."))

/-- The statements of the `try` block of `iyMC` (m_rte.cc 989-1022) for the
frequency `f_index`: the new `iy` and `iy_aux`. -/
def iyMC_try (mc : MonteCarlo α X S) (x : X) (pos los f_grid : List α) (stokes_dim : ℤ)
    (iy_unit : String) (auxError : ℤ) (st : McLoop α) (f_index : ℕ) :
    Except Err (Matrix α × List (Tensor4 α)) := do
  let scat_data_mono ← mc.scat_data_monoCalc x f_grid f_index
  let mc_seed := mc.MCSetSeedFromTime f_index
  let r ← mc.MCGeneral x pos los scat_data_mono f_grid f_index stokes_dim iy_unit mc_seed
  assert ((r.1.length : ℤ) = stokes_dim)
  let iy ← matrix_set_row st.iy f_index r.1
  let a ←
    (if auxError ≥ 0 then do
      let t ← vget st.iy_aux auxError
      let t2 ← t4_set_pages t f_index 0 0 r.2
      vset st.iy_aux auxError t2
    else pure st.iy_aux)
  pure (iy, a)

/-- One iteration of the loop over the frequencies of `iyMC` (m_rte.cc
984-1031); what the `try` block has changed before a throw is not kept. -/
def iyMC_frequency (mc : MonteCarlo α X S) (x : X) (pos los f_grid : List α) (stokes_dim : ℤ)
    (iy_unit : String) (auxError : ℤ) (st : McLoop α) (f_index : ℕ) : Except Err (McLoop α) :=
  if st.failed then .ok st
  else
    match iyMC_try mc x pos los f_grid stokes_dim iy_unit auxError st f_index with
    | .ok r => .ok { st with iy := r.1, iy_aux := r.2 }
    | .error (Err.runtime msg) =>
      match vget f_grid f_index with
      | .ok f =>
        .ok { st with failed := true,
                      fail_msg := "Error for f_index = " ++ toString f_index ++ " (" ++
                        mc.print f ++ ")" ++ "\n" ++ msg }
      | .error e => .error e
    | .error e => .error e

/-- `iyMC` (m_rte.cc 876-1035).  Returns `iy`, `iy_aux` and `diy_dx`. -/
def iyMC (mc : MonteCarlo α X S) (x : X) (iy : Matrix α) (iy_aux : List (Tensor4 α))
    (iy_agenda_call1 : ℤ) (iy_transmission : Tensor3 α) (rte_pos rte_los : List α)
    (iy_aux_vars : List String) (jacobian_do atmosphere_dim cloudbox_on stokes_dim : ℤ)
    (f_grid : List α) (iy_unit : String) :
    Except Err (Matrix α × List (Tensor4 α) × List (Tensor3 α)) :=
  if atmosphere_dim ≠ 3 then
    .error (Err.runtime "Only 3D atmospheres are allowed (atmosphere_dim must be 3)")
  else if cloudbox_on = 0 then
    .error (Err.runtime "The cloudbox must be activated (cloudbox_on must be 1)")
  else if jacobian_do ≠ 0 then
    .error (Err.runtime "This method does not provide any jacobians (jacobian_do must be 0)")
  else if iy_agenda_call1 = 0 then
    .error (Err.runtime "Recursive usage not possible (iy_agenda_call1 must be 1)")
  else if iy_transmission.ncols ≠ 0 then
    .error (Err.runtime "*iy_transmission* must be empty")
  else do
    let nf : ℤ := f_grid.length
    let iy0 ← resize2 mc.fresh2 iy nf stokes_dim
    let s ← (List.range iy_aux_vars.length).foldlM (iyMC_aux mc nf stokes_dim iy_aux_vars)
      ((-1 : ℤ), array_resize iy_aux iy_aux_vars.length empty4)
    assert (rte_pos.length = 3)
    assert (rte_los.length = 2)
    let st ← (List.range f_grid.length).foldlM
      (iyMC_frequency mc x rte_pos rte_los f_grid stokes_dim iy_unit s.1) ⟨false, "", iy0, s.2⟩
    if st.failed then .error (Err.runtime st.fail_msg)
    else pure (st.iy, st.iy_aux, [])

/-! ### `iyLoopFrequencies` -/

end Loops

/-- Example data: a Monte Carlo calculation that fails for a frequency that
is not positive and otherwise returns, in every Stokes element, the frequency
plus the thousandth part of the seed, with the error estimate `1/100`; the
seeds of the iterations are given by `seed`, and newly allocated storage
holds `fresh`. -/
def test_mc (seed : ℕ → ℤ) (fresh : ℚ) : MonteCarlo ℚ Unit Unit :=
  { scat_data_monoCalc := fun _ _ _ => .ok ()
    MCSetSeedFromTime := seed
    MCGeneral := fun _ _ _ _ f_grid f_index stokes_dim _ mc_seed =>
      if f_grid.getD f_index 0 ≤ 0 then .error (Err.runtime "The frequency must be positive.")
      else .ok (List.replicate stokes_dim.toNat (f_grid.getD f_index 0 + (mc_seed : ℚ) / 1000),
        List.replicate stokes_dim.toNat (1 / 100))
    print := fun f => toString f.num
    fresh2 := fun _ _ => fresh
    fresh4 := fun _ _ _ _ => fresh }

/-- Example data: the statements of a measurement block that append the
index of the block to the variables, a list, and throw for the block `1`. -/
def test_block (mblock_index : ℕ) (vars : List ℕ) : Except Err (List ℕ) :=
  if mblock_index = 1 then .error (Err.runtime "One or several NaNs found in *y*.")
  else .ok (vars ++ [mblock_index])

section DeterminismProperties

variable {α A P Q D : Type} [LinearOrderedField α] [FloorRing α]

end DeterminismProperties

section Rounded

variable {α : Type} [LinearOrderedField α] [FloorRing α]

/-- The tangent altitude `(r_geoid+z_plat) * sin(DEG2RAD*za) - r_geoid`
(los.cc 360) for the value `s` of the sine when the sum, the product and the
difference are rounded by `fl`. -/
def z_tan_rounded (fl : α → α) (r_geoid z_plat s : α) : α :=
  fl (fl (fl (r_geoid + z_plat) * s) - r_geoid)

end Rounded

/-- The integer nearest to `x`; of two nearest integers the even one. -/
def round_half_even (x : ℚ) : ℤ :=
  if x - (⌊x⌋ : ℚ) < 1 / 2 then ⌊x⌋
  else if 1 / 2 < x - (⌊x⌋ : ℚ) then ⌊x⌋ + 1
  else if ⌊x⌋ % 2 = 0 then ⌊x⌋ else ⌊x⌋ + 1

/-- The rounding of a rational number to the C type `double` (IEEE 754
binary64, round to nearest, ties to even; the range of the exponent is not
limited): `x` is scaled by a power of two to `2^52 <= |x| < 2^53`, rounded to
an integer and scaled back. -/
def round_double (x : ℚ) : ℚ :=
  if x = 0 then 0
  else (round_half_even (x / 2 ^ (Int.log 2 |x| - 52)) : ℚ) * 2 ^ (Int.log 2 |x| - 52)

set_option linter.unusedSectionVars false

theorem vget_ok_iff {β : Type} (x : List β) (i : ℤ) (v : β) :
    vget x i = .ok v ↔ 0 ≤ i ∧ x[i.toNat]? = some v := by
  unfold vget
  by_cases hi : i < 0
  · simp [hi]
  · simp only [hi, if_false]
    cases hx : x[i.toNat]? with
    | none => simp
    | some u => simp; omega

section InterpLemmas

variable {α : Type} [LinearOrderedField α] [FloorRing α]

theorem vget_ne_range_of_lt (x : List α) (i : ℤ) (h0 : 0 ≤ i) (h1 : i < x.length) :
    vget x i = .ok (x.getD i.toNat 0) := by
  rw [vget_ok_iff]
  refine ⟨h0, ?_⟩
  have : i.toNat < x.length := by omega
  simp [List.getD, List.getElem?_eq_getElem this]

theorem interp_weight_ok (n : ℤ) (q : α) (i : ℤ) (w : α)
    (h : interp_weight n q = .ok (i, w)) :
    i = ⌊q⌋ ∧ 0 ≤ i ∧
      ((q - (⌊q⌋ : α) < 1e-6 ∧ i < n ∧ w = 0) ∨
       (1e-6 ≤ q - (⌊q⌋ : α) ∧ i < n - 1 ∧ w = q - (⌊q⌋ : α))) := by
  unfold interp_weight at h
  simp only at h
  split_ifs at h with h1 h2 h3 h4
  · simp only [Except.ok.injEq, Prod.mk.injEq] at h
    obtain ⟨rfl, rfl⟩ := h
    exact ⟨rfl, by omega, Or.inl ⟨h2, by omega, rfl⟩⟩
  · simp only [Except.ok.injEq, Prod.mk.injEq] at h
    obtain ⟨rfl, rfl⟩ := h
    exact ⟨rfl, by omega, Or.inr ⟨le_of_not_lt h2, by omega, rfl⟩⟩

theorem interp_weight_error (n : ℤ) (q : α) (e : Err)
    (h : interp_weight n q = .error e) : e = .assertion := by
  unfold interp_weight at h
  simp only at h
  split_ifs at h <;> simp_all

theorem interp_weights_loop_ok (n : ℤ) :
    ∀ (qs : List α) (ii : List ℤ) (w : List α),
      interp_weights_loop n qs = .ok (ii, w) →
      ii.length = qs.length ∧ w.length = qs.length ∧
      ∀ (ix : ℕ) (q : α), qs[ix]? = some q →
        ∃ (i : ℤ) (v : α), ii[ix]? = some i ∧ w[ix]? = some v ∧
          interp_weight n q = .ok (i, v) := by
  intro qs
  induction qs with
  | nil =>
    intro ii w h
    simp only [interp_weights_loop, Except.ok.injEq, Prod.mk.injEq] at h
    obtain ⟨rfl, rfl⟩ := h
    simp
  | cons q qs ih =>
    intro ii w h
    simp only [interp_weights_loop] at h
    cases h1 : interp_weight n q with
    | error e => simp [h1] at h
    | ok p =>
      obtain ⟨i, v⟩ := p
      simp only [h1] at h
      cases h2 : interp_weights_loop n qs with
      | error e => simp [h2] at h
      | ok p2 =>
        obtain ⟨is, ws⟩ := p2
        simp only [h2, Except.ok.injEq, Prod.mk.injEq] at h
        obtain ⟨rfl, rfl⟩ := h
        obtain ⟨hl1, hl2, hpt⟩ := ih is ws h2
        refine ⟨by simp [hl1], by simp [hl2], ?_⟩
        intro ix q' hq'
        cases ix with
        | zero =>
          simp only [List.getElem?_cons_zero, Option.some.injEq] at hq'
          subst hq'
          exact ⟨i, v, by simp, by simp, h1⟩
        | succ ix =>
          simp only [List.getElem?_cons_succ] at hq'
          obtain ⟨i', v', h3, h4, h5⟩ := hpt ix q' hq'
          exact ⟨i', v', by simpa using h3, by simpa using h4, h5⟩

theorem interp_weights_loop_error (n : ℤ) :
    ∀ (qs : List α) (e : Err), interp_weights_loop n qs = .error e → e = .assertion := by
  intro qs
  induction qs with
  | nil => intro e h; simp [interp_weights_loop] at h
  | cons q qs ih =>
    intro e h
    simp only [interp_weights_loop] at h
    cases h1 : interp_weight n q with
    | error e1 =>
      simp only [h1, Except.error.injEq] at h
      subst h
      exact interp_weight_error n q e1 h1
    | ok p =>
      obtain ⟨i, v⟩ := p
      simp only [h1] at h
      cases h2 : interp_weights_loop n qs with
      | error e2 =>
        simp only [h2, Except.error.injEq] at h
        subst h
        exact ih e2 h2
      | ok p2 => simp [h2] at h

theorem get_interp_weights_ok (ii0 : List ℤ) (w0 y ip_x : List α) (ii : List ℤ) (w : List α)
    (h : get_interp_weights ii0 w0 y ip_x = .ok (ii, w)) :
    ii0.length = ip_x.length ∧ w0.length = ip_x.length ∧
      interp_weights_loop (y.length : ℤ) ip_x = .ok (ii, w) := by
  unfold get_interp_weights at h
  split_ifs at h with h1 h2
  exact ⟨h1, h2, h⟩

theorem get_interp_weights_error (ii0 : List ℤ) (w0 y ip_x : List α) (e : Err)
    (h : get_interp_weights ii0 w0 y ip_x = .error e) : e = .assertion := by
  unfold get_interp_weights at h
  split_ifs at h with h1 h2
  · exact interp_weights_loop_error _ _ _ h
  · simp only [Except.error.injEq] at h
    exact h.symm
  · simp only [Except.error.injEq] at h
    exact h.symm

theorem get_interp_weights_replicate (ii0 : List ℤ) (w0 y ip_x : List α)
    (h1 : ii0.length = ip_x.length) (h2 : w0.length = ip_x.length) :
    get_interp_weights (List.replicate ip_x.length 0) (List.replicate ip_x.length (0 : α)) y ip_x
      = get_interp_weights ii0 w0 y ip_x := by
  simp [get_interp_weights, h1, h2]

/-- The value `interp_1D` stores for an index/weight pair that satisfies the
bounds asserted by `get_interp_weights`. -/
theorem interp_value_ok (yi : List α) (i : ℤ) (v : α) (h0 : 0 ≤ i)
    (h1 : v = 0 → i < yi.length) (h2 : v ≠ 0 → i + 1 < yi.length) :
    interp_value yi i v = .ok (if v = 0 then yi.getD i.toNat 0
      else (1 - v) * yi.getD i.toNat 0 + v * yi.getD (i + 1).toNat 0) := by
  unfold interp_value
  by_cases hv : v = 0
  · simp only [hv, if_true]
    exact vget_ne_range_of_lt yi i h0 (h1 hv)
  · simp only [hv, if_false]
    have := h2 hv
    rw [vget_ne_range_of_lt yi i h0 (by omega), vget_ne_range_of_lt yi (i + 1) (by omega) this]

theorem interp_loop_ok (yi : List α) :
    ∀ (ii : List ℤ) (w : List α), ii.length = w.length →
      (∀ (ix : ℕ) (i : ℤ) (v : α), ii[ix]? = some i → w[ix]? = some v →
        0 ≤ i ∧ (v = 0 → i < yi.length) ∧ (v ≠ 0 → i + 1 < yi.length)) →
      ∃ y', interp_loop yi ii w = .ok y' ∧ y'.length = ii.length ∧
        ∀ (ix : ℕ) (i : ℤ) (v : α), ii[ix]? = some i → w[ix]? = some v →
          y'[ix]? = some (if v = 0 then yi.getD i.toNat 0
            else (1 - v) * yi.getD i.toNat 0 + v * yi.getD (i + 1).toNat 0) := by
  intro ii
  induction ii with
  | nil =>
    intro w _ _
    exact ⟨[], by cases w <;> simp [interp_loop], rfl, by simp⟩
  | cons i is ih =>
    intro w hl hb
    cases w with
    | nil => simp at hl
    | cons v vs =>
      have hl' : is.length = vs.length := by simpa using hl
      obtain ⟨y', hy', hlen, hval⟩ := ih vs hl' (fun ix i' v' a b =>
        hb (ix + 1) i' v' (by simpa using a) (by simpa using b))
      obtain ⟨b0, b1, b2⟩ := hb 0 i v (by simp) (by simp)
      refine ⟨(if v = 0 then yi.getD i.toNat 0
        else (1 - v) * yi.getD i.toNat 0 + v * yi.getD (i + 1).toNat 0) :: y', ?_,
        by simp [hlen], ?_⟩
      · simp only [interp_loop, interp_value_ok yi i v b0 b1 b2, hy']
      · intro ix i' v' a b
        cases ix with
        | zero =>
          simp only [List.getElem?_cons_zero, Option.some.injEq] at a b
          subst a; subst b
          simp
        | succ ix =>
          simp only [List.getElem?_cons_succ] at a b ⊢
          exact hval ix i' v' a b

theorem tol_pos : (0 : α) < 1e-6 := by norm_num

/-- The bounds of an index/weight pair returned by `interp_weight`. -/
theorem interp_weight_bounds (n : ℤ) (q : α) (i : ℤ) (v : α)
    (h : interp_weight n q = .ok (i, v)) :
    0 ≤ i ∧ 0 ≤ v ∧ (v = 0 → i < n) ∧ (v ≠ 0 → i + 1 < n) := by
  obtain ⟨_, h0, h1 | h1⟩ := interp_weight_ok n q i v h
  · obtain ⟨_, h2, rfl⟩ := h1
    exact ⟨h0, le_refl _, fun _ => h2, fun hne => absurd rfl hne⟩
  · obtain ⟨h2, h3, rfl⟩ := h1
    have hp : (0 : α) < q - (⌊q⌋ : α) := lt_of_lt_of_le tol_pos h2
    exact ⟨h0, hp.le, fun h => absurd h hp.ne', fun _ => by omega⟩

end InterpLemmas

section InterpClaims

variable {α : Type} [LinearOrderedField α] [FloorRing α]

theorem interp_weights_loop_bad (n : ℤ) (qs : List α) (q : α) (hq : q ∈ qs)
    (hbad : ⌊q⌋ < 0 ∨ (n - 1 ≤ ⌊q⌋ ∧ 1e-6 ≤ q - (⌊q⌋ : α))) :
    interp_weights_loop n qs = .error .assertion := by
  cases h : interp_weights_loop n qs with
  | error e => rw [interp_weights_loop_error n qs e h]
  | ok p =>
    exfalso
    obtain ⟨ii, w⟩ := p
    obtain ⟨_, _, hpt⟩ := interp_weights_loop_ok n qs ii w h
    obtain ⟨ix, hix⟩ := List.getElem?_of_mem hq
    obtain ⟨i, v, _, _, hiv⟩ := hpt ix q hix
    obtain ⟨rfl, h0, h1 | h1⟩ := interp_weight_ok n q i v hiv
    · rcases hbad with hb | ⟨_, hb⟩
      · omega
      · exact absurd h1.1 (not_lt.mpr hb)
    · rcases hbad with hb | ⟨hb, _⟩
      · omega
      · have := h1.2.1
        omega

/-- The result of `interp_1D` on queries that `get_interp_weights` accepts. -/
theorem interp_1D_values (ii0 : List ℤ) (w0 y yi ip_x : List α)
    (ii : List ℤ) (w : List α)
    (hw : get_interp_weights ii0 w0 yi ip_x = .ok (ii, w)) :
    (y.length ≠ ip_x.length → interp_1D y yi ip_x = .error .assertion) ∧
    (y.length = ip_x.length →
      ∃ y', interp_1D y yi ip_x = .ok y' ∧ y'.length = y.length ∧
        ∀ (ix : ℕ), ix < ip_x.length →
          ∃ (i : ℤ) (v : α), ii[ix]? = some i ∧ w[ix]? = some v ∧
            0 ≤ i ∧ i < yi.length ∧ (v ≠ 0 → i + 1 < yi.length) ∧
            y'[ix]? = some (if v = 0 then yi.getD i.toNat 0
              else (1 - v) * yi.getD i.toNat 0 + v * yi.getD (i + 1).toNat 0)) := by
  obtain ⟨hl1, hl2, hloop⟩ := get_interp_weights_ok ii0 w0 yi ip_x ii w hw
  obtain ⟨hli, hlw, hpt⟩ := interp_weights_loop_ok _ ip_x ii w hloop
  have hb : ∀ (ix : ℕ) (i : ℤ) (v : α), ii[ix]? = some i → w[ix]? = some v →
      0 ≤ i ∧ (v = 0 → i < yi.length) ∧ (v ≠ 0 → i + 1 < yi.length) := by
    intro ix i v h1 h2
    have hix : ix < ip_x.length := by
      rw [← hli]; exact (List.getElem?_eq_some_iff.mp h1).1
    obtain ⟨i', v', h3, h4, h5⟩ := hpt ix ip_x[ix] (List.getElem?_eq_getElem hix)
    rw [h1] at h3; rw [h2] at h4
    simp only [Option.some.injEq] at h3 h4
    subst h3; subst h4
    obtain ⟨b0, _, b1, b2⟩ := interp_weight_bounds _ _ _ _ h5
    exact ⟨b0, b1, b2⟩
  constructor
  · intro hne
    simp [interp_1D, hne]
  · intro hy
    obtain ⟨y', hy', hlen, hval⟩ := interp_loop_ok yi ii w (hli.trans hlw.symm) hb
    refine ⟨y', ?_, by rw [hlen, hli, hy], ?_⟩
    · simp only [interp_1D, hy, not_true_eq_false, if_false]
      rw [get_interp_weights_replicate ii0 w0 yi ip_x hl1 hl2, hw]
      exact hy'
    · intro ix hix
      have h1 : ix < ii.length := by rw [hli]; exact hix
      have h2 : ix < w.length := by rw [hlw]; exact hix
      obtain ⟨b0, b1, b2⟩ := hb ix ii[ix] w[ix] (List.getElem?_eq_getElem h1)
        (List.getElem?_eq_getElem h2)
      refine ⟨ii[ix], w[ix], List.getElem?_eq_getElem h1, List.getElem?_eq_getElem h2, b0, ?_,
        b2, hval ix _ _ (List.getElem?_eq_getElem h1) (List.getElem?_eq_getElem h2)⟩
      by_cases hv : w[ix] = 0
      · exact b1 hv
      · have := b2 hv
        omega

/-- C1: for every value grid `yi` and every list of query positions `ip_x`
that `get_interp_weights` accepts, `interp_1D` fails its size assertion when
the caller-sized output `y` does not have one element per query (it is never
resized), and otherwise returns a vector of that length whose entry `ix` is
`yi[i]` when the weight `w` is `0` and `(1-w)*yi[i] + w*yi[i+1]` otherwise,
`(i, w)` being the index/weight pair of `get_interp_weights` for query `ix`;
the elements read lie inside `yi`. -/
theorem interp_1D_writes_interpolated_values (ii0 : List ℤ) (w0 y yi ip_x : List α)
    (ii : List ℤ) (w : List α)
    (hw : get_interp_weights ii0 w0 yi ip_x = .ok (ii, w)) :
    (y.length ≠ ip_x.length → interp_1D y yi ip_x = .error .assertion) ∧
    (y.length = ip_x.length →
      ∃ y', interp_1D y yi ip_x = .ok y' ∧ y'.length = y.length ∧
        ∀ (ix : ℕ), ix < ip_x.length →
          ∃ (i : ℤ) (v : α), ii[ix]? = some i ∧ w[ix]? = some v ∧
            0 ≤ i ∧ i < yi.length ∧ (v ≠ 0 → i + 1 < yi.length) ∧
            y'[ix]? = some (if v = 0 then yi.getD i.toNat 0
              else (1 - v) * yi.getD i.toNat 0 + v * yi.getD (i + 1).toNat 0)) :=
  interp_1D_values ii0 w0 y yi ip_x ii w hw

/-- C2: for every list of query positions that `get_interp_weights` accepts,
the index returned for the query `q` is `floor(q)` and the weight returned is
`q - floor(q)` when that difference is at least `1e-6` and exactly `0` when it
is below `1e-6`. -/
theorem get_interp_weights_floor_and_fraction (ii0 : List ℤ) (w0 y ip_x : List α)
    (ii : List ℤ) (w : List α)
    (h : get_interp_weights ii0 w0 y ip_x = .ok (ii, w)) :
    ii.length = ip_x.length ∧ w.length = ip_x.length ∧
      ∀ (ix : ℕ) (q : α), ip_x[ix]? = some q →
        ii[ix]? = some ⌊q⌋ ∧
        w[ix]? = some (if 1e-6 ≤ q - (⌊q⌋ : α) then q - (⌊q⌋ : α) else 0) := by
  obtain ⟨_, _, hloop⟩ := get_interp_weights_ok ii0 w0 y ip_x ii w h
  obtain ⟨hli, hlw, hpt⟩ := interp_weights_loop_ok _ ip_x ii w hloop
  refine ⟨hli, hlw, ?_⟩
  intro ix q hq
  obtain ⟨i, v, h1, h2, h3⟩ := hpt ix q hq
  obtain ⟨rfl, _, h4 | h4⟩ := interp_weight_ok _ q i v h3
  · obtain ⟨h5, _, rfl⟩ := h4
    exact ⟨h1, by rw [h2, if_neg (not_le.mpr h5)]⟩
  · obtain ⟨h5, _, rfl⟩ := h4
    exact ⟨h1, by rw [h2, if_pos h5]⟩

/-- C3: when `get_interp_weights` returns on a grid `y` of `n` points, every
returned pair `(i, v)` has `0 <= i <= n-2` if `v > 0` and `0 <= i <= n-1` if
`v = 0`, and `v` is never negative; any list with a query that resolves to a
negative index, or to an index at or beyond `n-1` with a nonzero (snapped)
weight, is rejected by an assertion; and `interp_1D`, run on the accepted
queries with a caller-sized output, reads `y` only inside its range and
returns. -/
theorem get_interp_weights_index_invariant (ii0 : List ℤ) (w0 y ip_x : List α)
    (ii : List ℤ) (w : List α)
    (h : get_interp_weights ii0 w0 y ip_x = .ok (ii, w)) :
    (∀ (ix : ℕ) (i : ℤ) (v : α), ii[ix]? = some i → w[ix]? = some v →
        0 ≤ v ∧ (0 < v → 0 ≤ i ∧ i ≤ (y.length : ℤ) - 2) ∧
        (v = 0 → 0 ≤ i ∧ i ≤ (y.length : ℤ) - 1)) ∧
    (∀ (ii1 : List ℤ) (w1 qs : List α) (q : α), q ∈ qs →
        (⌊q⌋ < 0 ∨ ((y.length : ℤ) - 1 ≤ ⌊q⌋ ∧ 1e-6 ≤ q - (⌊q⌋ : α))) →
        get_interp_weights ii1 w1 y qs = .error .assertion) ∧
    (∀ (y0 : List α), y0.length = ip_x.length →
        ∃ y', interp_1D y0 y ip_x = .ok y') := by
  obtain ⟨_, _, hloop⟩ := get_interp_weights_ok ii0 w0 y ip_x ii w h
  obtain ⟨hli, hlw, hpt⟩ := interp_weights_loop_ok _ ip_x ii w hloop
  refine ⟨?_, ?_, ?_⟩
  · intro ix i v h1 h2
    have hix : ix < ip_x.length := by
      rw [← hli]; exact (List.getElem?_eq_some_iff.mp h1).1
    obtain ⟨i', v', h3, h4, h5⟩ := hpt ix ip_x[ix] (List.getElem?_eq_getElem hix)
    rw [h1] at h3; rw [h2] at h4
    simp only [Option.some.injEq] at h3 h4
    subst h3; subst h4
    obtain ⟨b0, bv, b1, b2⟩ := interp_weight_bounds _ _ _ _ h5
    refine ⟨bv, fun hv => ⟨b0, ?_⟩, fun hv => ⟨b0, ?_⟩⟩
    · have := b2 hv.ne'
      omega
    · have := b1 hv
      omega
  · intro ii1 w1 qs q hq hbad
    unfold get_interp_weights
    split_ifs
    · exact interp_weights_loop_bad _ qs q hq hbad
    · rfl
    · rfl
  · intro y0 hy0
    obtain ⟨_, hok⟩ := interp_1D_values ii0 w0 y0 y ip_x ii w h
    obtain ⟨y', hy', _⟩ := hok hy0
    exact ⟨y', hy'⟩

/-- C4 (as amended): on a grid `y` of `n` points `get_interp_weights` fails an
assertion for every list holding a query position `q < 0` and for every list
holding a query position `q >= n-1` whose fractional part is at least `1e-6`;
a single query in `[n-1, n)` whose fractional part is below `1e-6` is accepted
and snapped to index `n-1` with weight `0`. -/
theorem get_interp_weights_fails_outside_grid (ii0 : List ℤ) (w0 y ip_x : List α) (q : α)
    (hq : q ∈ ip_x)
    (hbad : q < 0 ∨ ((y.length : α) - 1 ≤ q ∧ 1e-6 ≤ Int.fract q)) :
    get_interp_weights ii0 w0 y ip_x = .error .assertion ∧
    ∀ (i0 : ℤ) (v0 q1 : α), (y.length : α) - 1 ≤ q1 → q1 < (y.length : α) →
      0 < y.length → Int.fract q1 < 1e-6 →
      get_interp_weights [i0] [v0] y [q1] = .ok ([(y.length : ℤ) - 1], [0]) := by
  constructor
  · unfold get_interp_weights
    split_ifs
    · apply interp_weights_loop_bad _ ip_x q hq
      rcases hbad with hb | ⟨hb1, hb2⟩
      · left
        exact Int.floor_lt.mpr (by simpa using hb)
      · right
        refine ⟨?_, hb2⟩
        apply Int.le_floor.mpr
        push_cast
        exact hb1
    · rfl
    · rfl
  · intro i0 v0 q1 h1 h2 hn h3
    have hfl : ⌊q1⌋ = (y.length : ℤ) - 1 := by
      rw [Int.floor_eq_iff]
      push_cast
      constructor
      · exact h1
      · linarith
    have hn' : (0 : ℤ) < (y.length : ℤ) := by exact_mod_cast hn
    have h3' : q1 - ((⌊q1⌋ : ℤ) : α) < 1e-6 := h3
    simp only [get_interp_weights, List.length_cons, List.length_nil, not_true_eq_false,
      if_false, interp_weights_loop, interp_weight]
    rw [if_neg (by rw [hfl]; omega), if_pos h3', if_neg (by rw [hfl]; omega), hfl]

/-- C5: for every grid `G` and every integer `k` with `0 <= k <= n-1`,
`interp_1D` evaluated at the query position `k` returns `G[k]` exactly, the
last grid point `k = n-1` included. -/
theorem interp_1D_at_grid_point (G : List α) (k : ℕ) (hk : k < G.length) (y0 : α) :
    interp_1D [y0] G [(k : α)] = .ok [G[k]] := by
  have hfl : ⌊(k : α)⌋ = (k : ℤ) := by
    have : (k : α) = ((k : ℤ) : α) := by push_cast; rfl
    rw [this, Int.floor_intCast]
  have hk' : (k : ℤ) < (G.length : ℤ) := by exact_mod_cast hk
  have h0 : (k : α) - (((k : ℤ)) : α) < 1e-6 := by
    have : (k : α) - (((k : ℤ)) : α) = 0 := by push_cast; ring
    rw [this]; exact tol_pos
  simp only [interp_1D, List.length_cons, List.length_nil, not_true_eq_false, if_false,
    get_interp_weights, List.replicate, interp_weights_loop, interp_weight, hfl]
  rw [if_neg (by omega), if_pos h0, if_neg (by omega)]
  simp only [interp_loop, interp_value, if_true]
  rw [vget_ne_range_of_lt G k (by omega) hk']
  simp [List.getD, List.getElem?_eq_getElem hk]

end InterpClaims

section InterpWitnesses

/-- Witness for C1: three queries on a three-point grid. -/
theorem interp_1D_writes_witness :
    get_interp_weights [0, 0, 0] [0, 0, 0] [10, 20, 30] [(0 : ℚ), 1 / 2, 2]
        = .ok ([0, 0, 2], [0, 1 / 2, 0]) ∧
      ∃ y', interp_1D [0, 0, 0] [10, 20, 30] [(0 : ℚ), 1 / 2, 2] = .ok y' ∧ y'.length = 3 :=
  ⟨by decide!, by
    obtain ⟨y', h1, h2, _⟩ := (interp_1D_writes_interpolated_values [0, 0, 0] [0, 0, 0]
      [0, 0, 0] [10, 20, 30] [(0 : ℚ), 1 / 2, 2] [0, 0, 2] [0, 1 / 2, 0] (by decide!)).2 rfl
    exact ⟨y', h1, h2⟩⟩

/-- Witness for C2: a query with a fractional part and one snapped to `0`. -/
theorem get_interp_weights_floor_witness :
    get_interp_weights [0, 0] [0, 0] [10, 20, 30] [(3 / 2 : ℚ), 1 + 1 / 10000000]
        = .ok ([1, 1], [1 / 2, 0]) ∧
      ([1, 1] : List ℤ).length = 2 :=
  ⟨by decide!, (get_interp_weights_floor_and_fraction [0, 0] [0, 0] [10, 20, 30]
    [(3 / 2 : ℚ), 1 + 1 / 10000000] [1, 1] [1 / 2, 0] (by decide!)).1⟩

/-- Witness for C3: the accepted queries of a three-point grid, the last one on
the last grid point. -/
theorem get_interp_weights_index_witness :
    get_interp_weights [0, 0] [0, 0] [10, 20, 30] [(3 / 2 : ℚ), 2] = .ok ([1, 2], [1 / 2, 0]) ∧
      ∃ y', interp_1D [0, 0] [10, 20, 30] [(3 / 2 : ℚ), 2] = .ok y' :=
  ⟨by decide!, (get_interp_weights_index_invariant [0, 0] [0, 0] [10, 20, 30]
    [(3 / 2 : ℚ), 2] [1, 2] [1 / 2, 0] (by decide!)).2.2 [0, 0] rfl⟩

/-- Counterexample to C4 as stated: on a grid of `n = 2` points the query
`q = 1 + 1e-7` lies in `[n-1, ∞)` and has a nonzero fractional part, yet
`get_interp_weights` accepts it (index `1`, weight `0`). -/
theorem get_interp_weights_accepts_snapped_query :
    ((2 : ℚ) - 1 ≤ 1 + 1 / 10000000) ∧ Int.fract (1 + 1 / 10000000 : ℚ) ≠ 0 ∧
      get_interp_weights [0] [0] [10, 20] [(1 + 1 / 10000000 : ℚ)] = .ok ([1], [0]) :=
  ⟨by norm_num, by decide!, by decide!⟩

/-- Witness for C4 (as amended): a negative query and a query beyond the last
grid point. -/
theorem get_interp_weights_fails_witness :
    ((-1 / 2 : ℚ) ∈ [(-1 / 2 : ℚ)]) ∧
      get_interp_weights [0] [0] [10, 20] [(-1 / 2 : ℚ)] = .error .assertion :=
  ⟨by simp, (get_interp_weights_fails_outside_grid [0] [0] [10, 20] [(-1 / 2 : ℚ)] (-1 / 2)
    (by simp) (Or.inl (by norm_num))).1⟩

/-- Witness for C5: the last point of a three-point grid. -/
theorem interp_1D_at_grid_point_witness :
    2 < ([10, 20, 30] : List ℚ).length ∧
      interp_1D [0] [10, 20, 30] [((2 : ℕ) : ℚ)] = .ok [30] :=
  ⟨by decide, interp_1D_at_grid_point [10, 20, 30] 2 (by decide) 0⟩

end InterpWitnesses

section Loops

theorem bind_eq_ok {β γ : Type} (x : Except Err β) (f : β → Except Err γ) (c : γ) :
    (x >>= f) = .ok c ↔ ∃ b, x = .ok b ∧ f b = .ok c := by
  cases x with
  | error e => simp [bind, Except.bind]
  | ok b => simp [bind, Except.bind]

theorem assert_eq_ok (c : Prop) [Decidable c] (u : Unit) : assert c = .ok u ↔ c := by
  unfold assert
  by_cases h : c <;> simp [h]

/-- An invariant of a counted loop: it holds after the loop when it holds
before it and every iteration that returns keeps it. -/
theorem foldlM_range_invariant {σ : Type} (f : σ → ℕ → Except Err σ) (P : ℕ → σ → Prop) :
    ∀ (n : ℕ) (s0 s : σ), P 0 s0 →
      (∀ (k : ℕ) (t t' : σ), k < n → P k t → f t k = .ok t' → P (k + 1) t') →
      (List.range n).foldlM f s0 = .ok s → P n s := by
  intro n
  induction n with
  | zero =>
    intro s0 s h0 _ h
    simp only [List.range_zero, List.foldlM_nil, pure, Except.pure, Except.ok.injEq] at h
    subst h
    exact h0
  | succ n ih =>
    intro s0 s h0 hstep h
    rw [List.range_succ, List.foldlM_append, bind_eq_ok] at h
    obtain ⟨t, ht, hlast⟩ := h
    have hPt : P n t := ih s0 t h0 (fun k u u' hk => hstep k u u' (by omega)) ht
    simp only [List.foldlM_cons, List.foldlM_nil, bind_eq_ok, pure, Except.pure,
      Except.ok.injEq] at hlast
    obtain ⟨t', ht', rfl⟩ := hlast
    exact hstep n t t' (by omega) hPt ht'

end Loops

section FillLemmas

variable {α : Type} [LinearOrderedField α] [FloorRing α]

theorem vset_ok_iff (x : List α) (i : ℤ) (v : α) (x' : List α) :
    vset x i v = .ok x' ↔ 0 ≤ i ∧ i.toNat < x.length ∧ x' = x.set i.toNat v := by
  unfold vset
  by_cases hi : i < 0
  · simp [hi]
  · by_cases hl : i.toNat < x.length
    · simp only [hi, hl, if_false, if_true, Except.ok.injEq]
      constructor
      · intro h; exact ⟨by omega, trivial, h.symm⟩
      · intro h; exact h.2.2.symm
    · simp [hi, hl]

theorem vnew_ok_iff (env : Env α) (n : ℤ) (x : List α) :
    vnew env n = .ok x ↔ 0 ≤ n ∧ x = (List.range n.toNat).map env.fresh := by
  unfold vnew
  by_cases hn : n < 0
  · simp [hn]
  · simp only [hn, if_false, Except.ok.injEq]
    constructor
    · intro h; exact ⟨by omega, h.symm⟩
    · intro h; exact h.2.symm

/-- What one executed iteration of the point loop does. -/
theorem put_point_ok (env : Env α) (z_abs : List α) (r_geoid lat0 a b c z_lo l_lo dl : α)
    (st st' : Fill α) (i2 : ℕ)
    (h : put_point env z_abs r_geoid lat0 a b c z_lo l_lo dl st i2 = .ok st') :
    0 ≤ st.n_sum + i2 ∧
    st'.n_sum = st.n_sum ∧ st'.i_above = st.i_above ∧
    (st.n_sum + i2).toNat < st.z.length ∧
    st'.z = st.z.set (st.n_sum + i2).toNat (point_z env r_geoid a c z_lo l_lo dl i2) ∧
    (st.n_sum + i2).toNat < st.l_step.length ∧
    st'.l_step = st.l_step.set (st.n_sum + i2).toNat dl ∧
    st'.ip_z.length = st.ip_z.length ∧ st'.lat.length = st.lat.length := by
  unfold put_point at h
  simp only [bind_eq_ok, vset_ok_iff, pure, Except.pure, Except.ok.injEq] at h
  obtain ⟨z, ⟨h0, hz1, hz2⟩, l, ⟨_, hl1, hl2⟩, g_lo, _, g_hi, _, ip, ⟨_, _, hip⟩,
    la, ⟨_, _, hla⟩, rfl⟩ := h
  subst hz2 hl2 hip hla
  exact ⟨h0, rfl, rfl, hz1, rfl, hl1, rfl, by simp, by simp⟩

/-- The effect of the point loop of one part of the path: after `n`
iterations `n_sum` and `i_above` are unchanged, the vectors keep their
lengths, and `z` and `l_step` hold the points of this part at the indices
`n_sum`, ..., `n_sum + n - 1` and are unchanged elsewhere. -/
theorem put_point_loop_ok (env : Env α) (z_abs : List α)
    (r_geoid lat0 a b c z_lo l_lo dl : α) (st st' : Fill α) (n : ℕ)
    (h : (List.range n).foldlM (put_point env z_abs r_geoid lat0 a b c z_lo l_lo dl) st
      = .ok st') :
    st'.n_sum = st.n_sum ∧ st'.i_above = st.i_above ∧
    st'.z.length = st.z.length ∧ st'.l_step.length = st.l_step.length ∧
    st'.ip_z.length = st.ip_z.length ∧ st'.lat.length = st.lat.length ∧
    (0 < n → 0 ≤ st.n_sum ∧ st.n_sum + n ≤ st.z.length ∧ st.n_sum + n ≤ st.l_step.length) ∧
    (∀ j : ℕ, st'.z[j]? =
      if st.n_sum ≤ j ∧ (j : ℤ) < st.n_sum + n then
        some (point_z env r_geoid a c z_lo l_lo dl (j - st.n_sum).toNat)
      else st.z[j]?) ∧
    (∀ j : ℕ, st'.l_step[j]? =
      if st.n_sum ≤ j ∧ (j : ℤ) < st.n_sum + n then some dl else st.l_step[j]?) := by
  refine foldlM_range_invariant (put_point env z_abs r_geoid lat0 a b c z_lo l_lo dl)
    (fun k t => t.n_sum = st.n_sum ∧ t.i_above = st.i_above ∧
      t.z.length = st.z.length ∧ t.l_step.length = st.l_step.length ∧
      t.ip_z.length = st.ip_z.length ∧ t.lat.length = st.lat.length ∧
      (0 < k → 0 ≤ st.n_sum ∧ st.n_sum + k ≤ st.z.length ∧ st.n_sum + k ≤ st.l_step.length) ∧
      (∀ j : ℕ, t.z[j]? =
        if st.n_sum ≤ j ∧ (j : ℤ) < st.n_sum + k then
          some (point_z env r_geoid a c z_lo l_lo dl (j - st.n_sum).toNat)
        else st.z[j]?) ∧
      (∀ j : ℕ, t.l_step[j]? =
        if st.n_sum ≤ j ∧ (j : ℤ) < st.n_sum + k then some dl else st.l_step[j]?))
    n st st' ?_ ?_ h
  · refine ⟨rfl, rfl, rfl, rfl, rfl, rfl, fun h => absurd h (lt_irrefl 0), ?_, ?_⟩
    · intro j
      rw [if_neg]
      intro hj
      omega
    · intro j
      rw [if_neg]
      intro hj
      omega
  · intro k t t' hk hP ht
    obtain ⟨p1, p2, p3, p4, p5, p6, p7, p8, p9⟩ := hP
    obtain ⟨q0, q1, q2, q3, q4, q5, q6, q7, q8⟩ :=
      put_point_ok env z_abs r_geoid lat0 a b c z_lo l_lo dl t t' k ht
    rw [p1] at q0 q3 q4 q5 q6
    have hidx : (st.n_sum + (k : ℤ)).toNat = (st.n_sum + (k : ℤ)).toNat := rfl
    refine ⟨q1.trans p1, q2.trans p2, ?_, ?_, q7.trans p5, q8.trans p6, ?_, ?_, ?_⟩
    · rw [q4, List.length_set, p3]
    · rw [q6, List.length_set, p4]
    · intro _
      have hn0 : 0 ≤ st.n_sum := by
        rcases Nat.eq_zero_or_pos k with hk0 | hk0
        · subst hk0; simpa using q0
        · exact (p7 hk0).1
      rw [p3] at q3
      rw [p4] at q5
      refine ⟨hn0, ?_, ?_⟩
      · push_cast; omega
      · push_cast; omega
    · intro j
      rw [q4, List.getElem?_set]
      by_cases hj : (st.n_sum + (k : ℤ)).toNat = j
      · rw [if_pos hj, if_pos q3, if_pos (by push_cast; omega)]
        congr 2
        omega
      · rw [if_neg hj, p8 j]
        by_cases hc : st.n_sum ≤ j ∧ (j : ℤ) < st.n_sum + k
        · rw [if_pos hc, if_pos (by push_cast; omega)]
        · rw [if_neg hc, if_neg (by push_cast; omega)]
    · intro j
      rw [q6, List.getElem?_set]
      by_cases hj : (st.n_sum + (k : ℤ)).toNat = j
      · rw [if_pos hj, if_pos q5, if_pos (by push_cast; omega)]
      · rw [if_neg hj, p9 j]
        by_cases hc : st.n_sum ≤ j ∧ (j : ℤ) < st.n_sum + k
        · rw [if_pos hc, if_pos (by push_cast; omega)]
        · rw [if_neg hc, if_neg (by push_cast; omega)]

end FillLemmas

section StepLemmas

variable {α : Type} [LinearOrderedField α] [FloorRing α]

theorem n_steps_pos_iff (l_max l_lo l_hi : α) (hmax : 0 < l_max) :
    1 ≤ n_steps l_max l_lo l_hi ↔ l_lo < l_hi := by
  unfold n_steps
  rw [Int.one_le_ceil_iff, div_pos_iff_of_pos_right hmax, sub_pos]

theorem n_steps_nonneg (l_max l_lo l_hi : α) (hmax : 0 < l_max) (h : l_lo ≤ l_hi) :
    0 ≤ n_steps l_max l_lo l_hi := by
  unfold n_steps
  exact Int.ceil_nonneg (div_nonneg (sub_nonneg.mpr h) hmax.le)

theorem ns_of_getElem? (l_max : α) (ls : List α) (i : ℕ) (n : ℤ)
    (h : (ns_of l_max ls)[i]? = some n) :
    ∃ l_lo l_hi, ls[i]? = some l_lo ∧ ls[i + 1]? = some l_hi ∧ n = n_steps l_max l_lo l_hi := by
  unfold ns_of at h
  rw [List.getElem?_zipWith_eq_some] at h
  obtain ⟨x, y, hx, hy, rfl⟩ := h
  refine ⟨x, y, hx, ?_, rfl⟩
  rw [List.getElem?_tail] at hy
  exact hy

theorem ns_of_length (l_max : α) (ls : List α) : (ns_of l_max ls).length = ls.length - 1 := by
  unfold ns_of
  simp [List.length_zipWith]

theorem ls_of_length (env : Env α) (r_geoid c d : α) (zs : List α) :
    (ls_of env r_geoid c d zs).length = zs.length - 1 + 1 := by
  unfold ls_of
  simp

/-- What one iteration of the loop over the parts of the path does. -/
theorem put_segment_ok (env : Env α) (z_abs : List α) (r_geoid lat0 a b c : α)
    (zs ls : List α) (ns : List ℤ) (st st' : Fill α) (i1 : ℕ)
    (h : put_segment env z_abs r_geoid lat0 a b c zs ls ns st i1 = .ok st') :
    ∃ (l_lo l_hi z_lo : α) (n : ℤ) (st1 : Fill α) (g : α),
      ls[i1]? = some l_lo ∧ ls[i1 + 1]? = some l_hi ∧ zs[i1]? = some z_lo ∧
      ns[i1]? = some n ∧
      (List.range n.toNat).foldlM
        (put_point env z_abs r_geoid lat0 a b c z_lo l_lo ((l_hi - l_lo) / (n : α))) st
        = .ok st1 ∧
      z_abs[st1.i_above]? = some g ∧
      st' = (if z_lo ≥ g then
              { st1 with n_sum := st1.n_sum + n, i_above := st1.i_above + 1 }
             else { st1 with n_sum := st1.n_sum + n }) := by
  unfold put_segment at h
  simp only [bind_eq_ok, vget_ok_iff, pure, Except.pure, Except.ok.injEq] at h
  obtain ⟨l_lo, ⟨_, h1⟩, l_hi, ⟨_, h2⟩, z_lo, ⟨_, h3⟩, n, ⟨_, h4⟩, st1, h5, g, ⟨_, h6⟩, h7⟩ := h
  refine ⟨l_lo, l_hi, z_lo, n, st1, g, by simpa using h1, ?_, by simpa using h3,
    by simpa using h4, h5, by simpa using h6, ?_⟩
  · have : ((i1 : ℤ) + 1).toNat = i1 + 1 := by omega
    rw [this] at h2
    exact h2
  · rw [← h7]

/-- Every step length written by the loop over the parts of the path is the
length of a part divided by its number of steps, and `n_sum` counts the steps
of the parts done. -/
theorem put_segment_loop_steps (env : Env α) (z_abs : List α) (r_geoid lat0 a b c l_max : α)
    (hmax : 0 < l_max) (zs ls : List α) (st0 st : Fill α) (m : ℕ) (hst0 : st0.n_sum = 0)
    (h : (List.range m).foldlM
      (put_segment env z_abs r_geoid lat0 a b c zs ls (ns_of l_max ls)) st0 = .ok st) :
    st.l_step.length = st0.l_step.length ∧
    st.n_sum = ((ns_of l_max ls).take m).sum ∧
    ∀ (j : ℕ) (x : α), st.l_step[j]? = some x → (j : ℤ) < st.n_sum →
      ∃ l_lo l_hi, l_lo < l_hi ∧ x = (l_hi - l_lo) / (n_steps l_max l_lo l_hi : α) := by
  refine foldlM_range_invariant
    (put_segment env z_abs r_geoid lat0 a b c zs ls (ns_of l_max ls))
    (fun k t => t.l_step.length = st0.l_step.length ∧
      t.n_sum = ((ns_of l_max ls).take k).sum ∧
      ∀ (j : ℕ) (x : α), t.l_step[j]? = some x → (j : ℤ) < t.n_sum →
        ∃ l_lo l_hi, l_lo < l_hi ∧ x = (l_hi - l_lo) / (n_steps l_max l_lo l_hi : α))
    m st0 st ?_ ?_ h
  · refine ⟨rfl, by simpa using hst0, ?_⟩
    intro j x _ hj
    rw [hst0] at hj
    omega
  · intro k t t' _ hP ht
    obtain ⟨p1, p2, p3⟩ := hP
    obtain ⟨l_lo, l_hi, z_lo, n, st1, g, h1, h2, _, h4, h5, _, h7⟩ :=
      put_segment_ok env z_abs r_geoid lat0 a b c zs ls (ns_of l_max ls) t t' k ht
    obtain ⟨q1, _, _, q4, _, _, _, _, q9⟩ :=
      put_point_loop_ok env z_abs r_geoid lat0 a b c z_lo l_lo _ t st1 n.toNat h5
    obtain ⟨l_lo', l_hi', h1', h2', hn⟩ := ns_of_getElem? l_max ls k n h4
    rw [h1] at h1'; rw [h2] at h2'
    simp only [Option.some.injEq] at h1' h2'
    subst h1' h2'
    have hklt : k < (ns_of l_max ls).length := (List.getElem?_eq_some_iff.mp h4).1
    have hnk : (ns_of l_max ls)[k] = n := by
      have := List.getElem?_eq_getElem hklt
      rw [h4] at this
      exact (Option.some.inj this).symm
    have hl : t'.l_step = st1.l_step := by rw [h7]; split_ifs <;> rfl
    have hs : t'.n_sum = st1.n_sum + n := by rw [h7]; split_ifs <;> rfl
    refine ⟨by rw [hl, q4, p1], ?_, ?_⟩
    · rw [hs, q1, p2, List.sum_take_succ _ _ hklt, hnk]
    · intro j x hx hj
      rw [hl, q9 j] at hx
      rw [hs, q1] at hj
      by_cases hc : t.n_sum ≤ j ∧ (j : ℤ) < t.n_sum + n.toNat
      · rw [if_pos hc] at hx
        have hn1 : 1 ≤ n := by omega
        have hlt : l_lo < l_hi := by
          rw [hn] at hn1
          exact (n_steps_pos_iff l_max l_lo l_hi hmax).mp hn1
        refine ⟨l_lo, l_hi, hlt, ?_⟩
        rw [← hn]
        exact (Option.some.inj hx).symm
      · rw [if_neg hc] at hx
        apply p3 j x hx
        by_contra hge
        apply hc
        constructor
        · omega
        · omega

end StepLemmas

section GeomInversion

variable {α : Type} [LinearOrderedField α] [FloorRing α]

/-- What a returning call of `path_points` has done. -/
theorem path_points_ok (env : Env α) (z_abs : List α) (r_geoid lat0 a b c : α)
    (zs ls : List α) (ns : List ℤ) (n_zs i_above : ℕ) (st' : Fill α)
    (h : path_points env z_abs r_geoid lat0 a b c zs ls ns n_zs i_above = .ok st') :
    0 ≤ ns.sum ∧
    ∃ (st : Fill α) (z_top : α),
      (List.range (n_zs - 1)).foldlM (put_segment env z_abs r_geoid lat0 a b c zs ls ns)
        { z := (List.range (ns.sum + 1).toNat).map env.fresh,
          ip_z := (List.range (ns.sum + 1).toNat).map env.fresh,
          lat := (List.range (ns.sum + 1).toNat).map env.fresh,
          l_step := (List.range (ns.sum + 1 - 1).toNat).map env.fresh,
          n_sum := 0, i_above := i_above } = .ok st ∧
      z_abs[z_abs.length - 1]? = some z_top ∧ 0 < z_abs.length ∧
      0 ≤ st.n_sum ∧ st.n_sum.toNat < st.z.length ∧
      st'.z = st.z.set st.n_sum.toNat z_top ∧
      st'.l_step = st.l_step ∧ st'.n_sum = st.n_sum ∧ st'.i_above = st.i_above ∧
      st'.ip_z = st.ip_z.set st.n_sum.toNat ((((z_abs.length : ℤ) - 1 : ℤ)) : α) ∧
      st'.lat.length = st.lat.length := by
  unfold path_points at h
  simp only [bind_eq_ok, vget_ok_iff, vset_ok_iff, vnew_ok_iff, pure, Except.pure,
    Except.ok.injEq] at h
  obtain ⟨z0, ⟨_, rfl⟩, ip0, ⟨_, rfl⟩, l0, ⟨hl0, rfl⟩, la0, ⟨_, rfl⟩, st, hst, z_top,
    ⟨hz0, hz1⟩, z, ⟨hn0, hn1, rfl⟩, ip, ⟨_, _, rfl⟩, l_last, _, la, ⟨_, _, rfl⟩, rfl⟩ := h
  refine ⟨by omega, st, z_top, hst, ?_, ?_, hn0, hn1, rfl, rfl, rfl, rfl, rfl, by simp⟩
  · have : ((z_abs.length : ℤ) - 1).toNat = z_abs.length - 1 := by omega
    rw [this] at hz1
    exact hz1
  · omega

/-- What a returning call of `los_1d_geom` has checked and done. -/
theorem los_1d_geom_ok (env : Env α) (z_ground : α) (z_abs : List α)
    (r_geoid l_max z_plat za : α) (g : Geom α)
    (h : los_1d_geom env z_ground z_abs r_geoid l_max z_plat za = .ok g) :
    ∃ (z_first z_max : α),
      z_abs[0]? = some z_first ∧ z_abs[z_abs.length - 1]? = some z_max ∧
      z_first ≤ z_ground ∧ z_ground < z_max ∧ 1 < z_abs.length ∧ 0 < l_max ∧
      z_ground ≤ z_plat ∧ 0 ≤ za ∧ za ≤ 180 ∧
      ((z_max ≤ (lowest_point env z_ground z_max r_geoid z_plat za).z1 ∧
        g = { z_tan := (lowest_point env z_ground z_max r_geoid z_plat za).z_tan, nz := 0,
              z := [], ip_z := [], lat := [], l_step := [],
              ground := (lowest_point env z_ground z_max r_geoid z_plat za).ground }) ∨
       ((lowest_point env z_ground z_max r_geoid z_plat za).z1 < z_max ∧
        ∃ (i_above : ℕ) (m : Merge α),
          break_points env z_abs z_plat z_max
            (lowest_point env z_ground z_max r_geoid z_plat za) = .ok (i_above, m) ∧
          path_of_break_points env z_abs r_geoid l_max
            (lowest_point env z_ground z_max r_geoid z_plat za) i_above m = .ok g)) := by
  unfold los_1d_geom at h
  simp only [bind_eq_ok, assert_eq_ok, last2, vget_ok_iff] at h
  obtain ⟨z_first, ⟨_, h1⟩, _, h2, z_last, ⟨_, h3⟩, _, h4, _, h5, _, h6, _, h7, _, h8, _, h9,
    z_max, ⟨_, h10⟩, h11⟩ := h
  have hidx : ((z_abs.length : ℤ) - 1).toNat = z_abs.length - 1 := by omega
  rw [hidx] at h3 h10
  rw [h3] at h10
  simp only [Option.some.injEq] at h10
  subst h10
  refine ⟨z_first, z_last, by simpa using h1, h3, h2, h4, h5, h6, h7, h8, h9, ?_⟩
  split_ifs at h11 with hc
  · left
    simp only [pure, Except.pure, Except.ok.injEq] at h11
    exact ⟨hc, h11.symm⟩
  · right
    simp only [bind_eq_ok] at h11
    obtain ⟨bp, hbp, hp⟩ := h11
    exact ⟨lt_of_not_ge hc, bp.1, bp.2, hbp, hp⟩

/-- What a returning call of `path_of_break_points` has done. -/
theorem path_of_break_points_ok (env : Env α) (z_abs : List α) (r_geoid l_max : α)
    (lp : Lowest α) (i_above : ℕ) (m : Merge α) (g : Geom α)
    (h : path_of_break_points env z_abs r_geoid l_max lp i_above m = .ok g) :
    ∃ (st : Fill α),
      path_points env z_abs r_geoid lp.lat0 (env.cos (env.DEG2RAD * lp.za1))
        (env.sin (env.DEG2RAD * lp.za1)) (r_geoid + lp.z1) (m.zs.take m.n_zs)
        (ls_of env r_geoid
          ((r_geoid + lp.z1) * env.sin (env.DEG2RAD * lp.za1) *
            ((r_geoid + lp.z1) * env.sin (env.DEG2RAD * lp.za1)))
          ((r_geoid + lp.z1) * env.cos (env.DEG2RAD * lp.za1)) (m.zs.take m.n_zs))
        (ns_of l_max (ls_of env r_geoid
          ((r_geoid + lp.z1) * env.sin (env.DEG2RAD * lp.za1) *
            ((r_geoid + lp.z1) * env.sin (env.DEG2RAD * lp.za1)))
          ((r_geoid + lp.z1) * env.cos (env.DEG2RAD * lp.za1)) (m.zs.take m.n_zs)))
        m.n_zs i_above = .ok st ∧
      g.z_tan = lp.z_tan ∧ g.ground = lp.ground ∧ g.z = st.z ∧ g.l_step = st.l_step ∧
      g.ip_z = st.ip_z ∧ g.lat = st.lat ∧
      g.nz = (ns_of l_max (ls_of env r_geoid
          ((r_geoid + lp.z1) * env.sin (env.DEG2RAD * lp.za1) *
            ((r_geoid + lp.z1) * env.sin (env.DEG2RAD * lp.za1)))
          ((r_geoid + lp.z1) * env.cos (env.DEG2RAD * lp.za1)) (m.zs.take m.n_zs))).sum + 1 := by
  unfold path_of_break_points at h
  simp only at h
  split at h
  · simp at h
  · rename_i st hst
    simp only [Except.ok.injEq] at h
    subst h
    exact ⟨st, hst, rfl, rfl, rfl, rfl, rfl, rfl, rfl⟩

end GeomInversion

section RoundingLemmas

/-- The value of `round_double` at a number between `2^k` and `2^(k+1)`. -/
theorem round_double_eq (x : ℚ) (k : ℤ) (h1 : (2 : ℚ) ^ k ≤ |x|) (h2 : |x| < 2 ^ (k + 1)) :
    round_double x = (round_half_even (x / 2 ^ (k - 52)) : ℚ) * 2 ^ (k - 52) := by
  have hx : 0 < |x| := lt_of_lt_of_le (zpow_pos (by norm_num) _) h1
  have h0 : x ≠ 0 := abs_pos.mp hx
  have e1 : k ≤ Int.log 2 |x| := by
    have := (@Int.zpow_le_iff_le_log ℚ _ _ 2 (by norm_num) k |x| hx).mp
      (by exact_mod_cast h1)
    exact this
  have e2 : Int.log 2 |x| < k + 1 := by
    have := (@Int.lt_zpow_iff_log_lt ℚ _ _ 2 (by norm_num) (k + 1) |x| hx).mp
      (by exact_mod_cast h2)
    exact this
  have e : Int.log 2 |x| = k := by omega
  unfold round_double
  rw [if_neg h0, e]

/-- The tangent altitude of los.cc 360 in a rounded arithmetic, written out. -/
theorem z_tan_rounded_eq {α : Type} [LinearOrderedField α] [FloorRing α] (fl : α → α)
    (r_geoid z_plat s : α) :
    z_tan_rounded fl r_geoid z_plat s = fl (fl (fl (r_geoid + z_plat) * s) - r_geoid) := rfl

end RoundingLemmas

section StepClaim

variable {α : Type} [LinearOrderedField α] [FloorRing α]

end StepClaim

section StepClaimMain

variable {α : Type} [LinearOrderedField α] [FloorRing α]

end StepClaimMain

section StepWitness

end StepWitness

section StepExamples

end StepExamples

section LosLemmas

variable {α : Type} [LinearOrderedField α] [FloorRing α]

theorem vrange_ok_iff {β : Type} (x : List β) (n : ℤ) (y : List β) :
    vrange x n = .ok y ↔ 0 ≤ n ∧ n.toNat ≤ x.length ∧ y = x.take n.toNat := by
  unfold vrange
  by_cases hn : n < 0
  · simp [hn]
  · by_cases hl : n.toNat ≤ x.length
    · simp only [hn, hl, if_false, if_true, Except.ok.injEq]
      constructor
      · intro h; exact ⟨by omega, trivial, h.symm⟩
      · intro h; exact h.2.2.symm
    · simp [hn, hl]

/-- The loop over the parts of the path keeps the lengths of the vectors. -/
theorem put_segment_loop_lengths (env : Env α) (z_abs : List α) (r_geoid lat0 a b c : α)
    (zs ls : List α) (ns : List ℤ) (st0 st : Fill α) (m : ℕ)
    (h : (List.range m).foldlM (put_segment env z_abs r_geoid lat0 a b c zs ls ns) st0
      = .ok st) :
    st.z.length = st0.z.length ∧ st.l_step.length = st0.l_step.length ∧
    st.ip_z.length = st0.ip_z.length ∧ st.lat.length = st0.lat.length := by
  refine foldlM_range_invariant (put_segment env z_abs r_geoid lat0 a b c zs ls ns)
    (fun _ t => t.z.length = st0.z.length ∧ t.l_step.length = st0.l_step.length ∧
      t.ip_z.length = st0.ip_z.length ∧ t.lat.length = st0.lat.length)
    m st0 st ⟨rfl, rfl, rfl, rfl⟩ ?_ h
  intro k t t' _ hP ht
  obtain ⟨p1, p2, p3, p4⟩ := hP
  obtain ⟨l_lo, l_hi, z_lo, n, st1, g, _, _, _, _, h5, _, h7⟩ :=
    put_segment_ok env z_abs r_geoid lat0 a b c zs ls ns t t' k ht
  obtain ⟨_, _, q3, q4, q5, q6, _⟩ :=
    put_point_loop_ok env z_abs r_geoid lat0 a b c z_lo l_lo _ t st1 n.toNat h5
  rw [h7]
  split_ifs
  · exact ⟨q3.trans p1, q4.trans p2, q5.trans p3, q6.trans p4⟩
  · exact ⟨q3.trans p1, q4.trans p2, q5.trans p3, q6.trans p4⟩

/-- The vectors returned by `los_1d_geom` have `nz` elements, `l_step` one
less (none for an empty path). -/
theorem los_1d_geom_lengths (env : Env α) (z_ground : α) (z_abs : List α)
    (r_geoid l_max z_plat za : α) (g : Geom α)
    (h : los_1d_geom env z_ground z_abs r_geoid l_max z_plat za = .ok g) :
    0 ≤ g.nz ∧ g.z.length = g.nz.toNat ∧ g.ip_z.length = g.nz.toNat ∧
    g.lat.length = g.nz.toNat ∧ g.l_step.length = (g.nz - 1).toNat := by
  obtain ⟨z_first, z_max, _, _, _, _, _, _, _, _, _, hcase⟩ :=
    los_1d_geom_ok env z_ground z_abs r_geoid l_max z_plat za g h
  rcases hcase with ⟨_, rfl⟩ | ⟨_, i_above, m, _, hp⟩
  · simp
  · obtain ⟨st', hst', _, _, hz, hl, hip, hla, hnz⟩ :=
      path_of_break_points_ok env z_abs r_geoid l_max _ i_above m g hp
    obtain ⟨hsum, st, z_top, hloop, _, _, _, _, hz', hl', _, _, hip', hla'⟩ :=
      path_points_ok env z_abs r_geoid _ _ _ _ _ _ _ m.n_zs i_above st' hst'
    obtain ⟨q1, q2, q3, q4⟩ := put_segment_loop_lengths env z_abs r_geoid _ _ _ _ _ _ _ _ st
      (m.n_zs - 1) hloop
    simp only [List.length_map, List.length_range] at q1 q2 q3 q4
    refine ⟨by rw [hnz]; omega, ?_, ?_, ?_, ?_⟩
    · rw [hz, hz', List.length_set, q1, hnz]
    · rw [hip, hip', List.length_set, q3, hnz]
    · rw [hla, hla', q4, hnz]
    · rw [hl, hl', q2, hnz]

theorem find_stop_ok (z_plat : α) :
    ∀ (z : List α) (i0 i : ℕ), find_stop z_plat z i0 = .ok i →
      i0 ≤ i ∧ i - i0 < z.length ∧ z[i - i0]? = some z_plat ∧
      ∀ j, j < i - i0 → z[j]? ≠ some z_plat := by
  intro z
  induction z with
  | nil => intro i0 i h; simp [find_stop] at h
  | cons v vs ih =>
    intro i0 i h
    simp only [find_stop] at h
    split_ifs at h with hv
    · obtain ⟨h1, h2, h3, h4⟩ := ih (i0 + 1) i h
      have e : i - i0 = (i - (i0 + 1)) + 1 := by omega
      refine ⟨by omega, by simp only [List.length_cons]; omega, ?_, ?_⟩
      · rw [e, List.getElem?_cons_succ]
        exact h3
      · intro j hj
        cases j with
        | zero =>
          simp only [List.getElem?_cons_zero, ne_eq, Option.some.injEq]
          exact hv
        | succ j =>
          rw [List.getElem?_cons_succ]
          exact h4 j (by omega)
    · simp only [Except.ok.injEq] at h
      subst h
      simp only [ne_eq, not_not] at hv
      refine ⟨le_refl _, by simp, by simp [hv], ?_⟩
      intro j hj
      omega

/-- What a returning call of `find_i_stop` has found. -/
theorem find_i_stop_ok (z_abs : List α) (z_plat za : α) (np : ℤ) (z : List α) (i_stop : ℤ)
    (h : find_i_stop z_abs z_plat za np z = .ok i_stop) :
    (za ≤ 90 ∧ i_stop = 0) ∨
    (90 < za ∧ ∃ z_top, last2 z_abs = .ok z_top ∧
      ((z_plat < z_top ∧ ∃ i : ℕ, find_stop z_plat z 0 = .ok i ∧ i_stop = i) ∨
       (z_top ≤ z_plat ∧ i_stop = np - 1))) := by
  unfold find_i_stop at h
  by_cases h1 : za > 90
  · right
    have h90 : ¬ za ≤ 90 := not_le.mpr h1
    simp only [h1, h90, if_true, if_false, bind_eq_ok] at h
    obtain ⟨z_top, hz, h2⟩ := h
    refine ⟨h1, z_top, hz, ?_⟩
    by_cases h3 : z_plat < z_top
    · left
      simp only [h3, if_true, bind_eq_ok, pure, Except.pure, Except.ok.injEq] at h2
      obtain ⟨i, hi, rfl⟩ := h2
      exact ⟨h3, i, hi, rfl⟩
    · right
      simp only [h3, if_false, pure, Except.pure, Except.ok.injEq] at h2
      exact ⟨le_of_not_lt h3, h2.symm⟩
  · left
    have h90 : za ≤ 90 := le_of_not_lt h1
    simp only [h1, h90, if_true, if_false, pure, Except.pure, Except.ok.injEq] at h
    exact ⟨h90, h.symm⟩

/-- What a returning call of `truncate_at_ground` has done. -/
theorem truncate_at_ground_ok (los los' : LOS α) (bb : ℤ)
    (h : truncate_at_ground los bb = .ok los') :
    los'.ground = los.ground ∧ los'.i_stop = los.i_stop ∧
    ((los.ground ≠ 0 ∧ bb ≠ 0 ∧ los'.background = 1 ∧ los'.i_start = 0 ∧
      ((los.i_stop < los.np - 1 ∧ 0 ≤ los.i_stop + 1 ∧ los'.np = los.i_stop + 1 ∧
        (los.i_stop + 1).toNat ≤ los.z.length ∧
        los'.z = los.z.take (los.i_stop + 1).toNat ∧
        los'.ip_p = los.ip_p.take (los.i_stop + 1).toNat ∧
        los'.lat = los.lat.take (los.i_stop + 1).toNat ∧
        los'.l_step = los.l_step.take (los.i_stop + 1 - 1).toNat) ∨
       (los.np - 1 ≤ los.i_stop ∧ los'.np = los.np ∧ los'.z = los.z ∧
        los'.ip_p = los.ip_p ∧ los'.lat = los.lat ∧ los'.l_step = los.l_step))) ∨
     (¬ (los.ground ≠ 0 ∧ bb ≠ 0) ∧ los' = los)) := by
  unfold truncate_at_ground at h
  split_ifs at h with h1 h2
  · simp only [bind_eq_ok, vrange_ok_iff, pure, Except.pure, Except.ok.injEq] at h
    obtain ⟨z, ⟨hz0, hz1, rfl⟩, ip, ⟨_, _, rfl⟩, la, ⟨_, _, rfl⟩, l, ⟨_, _, rfl⟩, rfl⟩ := h
    exact ⟨rfl, rfl, Or.inl ⟨h1.1, h1.2, rfl, rfl,
      Or.inl ⟨h2, hz0, rfl, hz1, rfl, rfl, rfl, rfl⟩⟩⟩
  · simp only [pure, Except.pure, Except.ok.injEq] at h
    subst h
    exact ⟨rfl, rfl, Or.inl ⟨h1.1, h1.2, rfl, rfl,
      Or.inr ⟨le_of_not_lt h2, rfl, rfl, rfl, rfl, rfl⟩⟩⟩
  · simp only [pure, Except.pure, Except.ok.injEq] at h
    subst h
    exact ⟨rfl, rfl, Or.inr ⟨h1, rfl⟩⟩

/-- What a returning call of `los_1d` has done. -/
theorem los_1d_ok (env : Env α) (z_ground : α) (z_abs p_abs : List α)
    (r_geoid l_max z_plat za : α) (refr_on bb sc : ℤ) (los : LOS α) (z_tan : α)
    (h : los_1d env z_ground z_abs p_abs r_geoid l_max z_plat za refr_on bb sc
      = .ok (los, z_tan)) :
    refr_on = 0 ∧ sc = 0 ∧
    ∃ (g : Geom α) (i_stop : ℤ) (los1 : LOS α) (p0 p : List α),
      los_1d_geom env z_ground z_abs env.EARTH_RADIUS l_max z_plat za = .ok g ∧
      find_i_stop z_abs z_plat za g.nz g.z = .ok i_stop ∧
      truncate_at_ground
        { dim := 1, np := g.nz, i_start := g.nz - 1, i_stop := i_stop, p := [], z := g.z,
          ip_p := g.ip_z, lat := g.lat, ip_lat := [], lon := [], ip_lon := [],
          l_step := g.l_step, background := 0, ground := g.ground, i_ground := 0 } bb
        = .ok los1 ∧
      vnew env los1.np = .ok p0 ∧
      interp_1D p0 p_abs los1.ip_p = .ok p ∧
      los = { los1 with p := p } ∧ z_tan = g.z_tan := by
  unfold los_1d at h
  by_cases h1 : refr_on ≠ 0
  · simp [h1] at h
  by_cases h3 : sc ≠ 0
  · simp only [h1, h3, if_true, if_false, bind_eq_ok] at h
    obtain ⟨g, _, i_stop, _, los1, _, h2⟩ := h
    rw [if_pos h3] at h2
    simp at h2
  simp only [h1, if_false, bind_eq_ok] at h
  obtain ⟨g, hg, i_stop, hi, los1, hl, h2⟩ := h
  rw [if_neg h3] at h2
  simp only [bind_eq_ok, pure, Except.pure, Except.ok.injEq, Prod.mk.injEq] at h2
  obtain ⟨p0, hp0, p, hp, rfl, rfl⟩ := h2
  exact ⟨not_not.mp h1, not_not.mp h3, g, i_stop, los1, p0, p, hg, hi, hl, hp0, hp, rfl, rfl⟩

end LosLemmas

section BackgroundClaim

variable {α : Type} [LinearOrderedField α] [FloorRing α]

/-- The values set by los.cc 333-376, case by case. -/
theorem lowest_point_cases (env : Env α) (z_ground z_max r_geoid z_plat za : α) :
    (za ≤ 90 ∧
      (lowest_point env z_ground z_max r_geoid z_plat za).ground = 0 ∧
      (lowest_point env z_ground z_max r_geoid z_plat za).z_tan = 9999e3 ∧
      (lowest_point env z_ground z_max r_geoid z_plat za).z1 = z_plat ∧
      (lowest_point env z_ground z_max r_geoid z_plat za).do_down = 0) ∨
    (90 < za ∧
      (lowest_point env z_ground z_max r_geoid z_plat za).z_tan =
        (r_geoid + z_plat) * env.sin (env.DEG2RAD * za) - r_geoid ∧
      (lowest_point env z_ground z_max r_geoid z_plat za).do_down =
        (if z_plat < z_max then 1 else 0) ∧
      ((z_ground ≤ (r_geoid + z_plat) * env.sin (env.DEG2RAD * za) - r_geoid ∧
        (lowest_point env z_ground z_max r_geoid z_plat za).ground = 0 ∧
        (lowest_point env z_ground z_max r_geoid z_plat za).z1 =
          (r_geoid + z_plat) * env.sin (env.DEG2RAD * za) - r_geoid) ∨
       ((r_geoid + z_plat) * env.sin (env.DEG2RAD * za) - r_geoid < z_ground ∧
        (lowest_point env z_ground z_max r_geoid z_plat za).ground = 1 ∧
        (lowest_point env z_ground z_max r_geoid z_plat za).z1 = z_ground))) := by
  unfold lowest_point
  by_cases h1 : za ≤ 90
  · left
    simp [h1]
  · right
    refine ⟨lt_of_not_le h1, ?_⟩
    by_cases h2 : (r_geoid + z_plat) * env.sin (env.DEG2RAD * za) - r_geoid ≥ z_ground
    · refine ⟨?_, ?_, Or.inl ⟨h2, ?_, ?_⟩⟩ <;> simp only [h1, h2, if_true, if_false]
    · refine ⟨?_, ?_, Or.inr ⟨lt_of_not_ge h2, ?_, ?_⟩⟩ <;>
        simp only [h1, h2, if_true, if_false]

/-- The ground flag returned by `los_1d_geom` is `0` or `1`; when it is `1`
the observation is downward and the path has at least one point. -/
theorem los_1d_geom_ground (env : Env α) (z_ground : α) (z_abs : List α)
    (r_geoid l_max z_plat za : α) (g : Geom α)
    (h : los_1d_geom env z_ground z_abs r_geoid l_max z_plat za = .ok g) :
    (g.ground = 0 ∨ g.ground = 1) ∧ (g.ground ≠ 0 → 90 < za ∧ 1 ≤ g.nz) := by
  obtain ⟨z_first, z_max, _, _, _, hgm, _, _, _, _, _, hcase⟩ :=
    los_1d_geom_ok env z_ground z_abs r_geoid l_max z_plat za g h
  have hlp := lowest_point_cases env z_ground z_max r_geoid z_plat za
  have hg : g.ground = (lowest_point env z_ground z_max r_geoid z_plat za).ground ∧
      (g.nz < 1 → z_max ≤ (lowest_point env z_ground z_max r_geoid z_plat za).z1) := by
    rcases hcase with ⟨hz, rfl⟩ | ⟨_, i_above, m, _, hp⟩
    · exact ⟨rfl, fun _ => hz⟩
    · obtain ⟨st', hst', _, hgr, _, _, _, _, hnz⟩ :=
        path_of_break_points_ok env z_abs r_geoid l_max _ i_above m g hp
      obtain ⟨hsum, _⟩ := path_points_ok env z_abs r_geoid _ _ _ _ _ _ _ m.n_zs i_above st' hst'
      refine ⟨hgr, fun hlt => ?_⟩
      rw [hnz] at hlt
      omega
  obtain ⟨hg1, hg2⟩ := hg
  rcases hlp with ⟨_, h0, _⟩ | ⟨h90, _, _, ⟨_, h0, _⟩ | ⟨_, h1, hz1⟩⟩
  · rw [hg1, h0]; simp
  · rw [hg1, h0]; simp
  · rw [hg1, h1]
    refine ⟨Or.inr rfl, fun _ => ⟨h90, ?_⟩⟩
    by_contra hlt
    have := hg2 (by omega)
    rw [hz1] at this
    exact absurd hgm (not_lt.mpr this)

/-- The flags returned by `los_1d_geom` are those of the lowest point; a path
with a point has its lowest point below the top of the grid and ends at the
top of the grid. -/
theorem los_1d_geom_flags (env : Env α) (z_ground : α) (z_abs : List α)
    (r_geoid l_max z_plat za z_max : α) (g : Geom α)
    (h : los_1d_geom env z_ground z_abs r_geoid l_max z_plat za = .ok g)
    (hmaxz : z_abs[z_abs.length - 1]? = some z_max) :
    g.ground = (lowest_point env z_ground z_max r_geoid z_plat za).ground ∧
    g.z_tan = (lowest_point env z_ground z_max r_geoid z_plat za).z_tan ∧
    (1 ≤ g.z.length → (lowest_point env z_ground z_max r_geoid z_plat za).z1 < z_max ∧
      g.z[g.z.length - 1]? = some z_max) := by
  obtain ⟨z_first, z_max', _, hm', _, _, _, hmax, _, _, _, hcase⟩ :=
    los_1d_geom_ok env z_ground z_abs r_geoid l_max z_plat za g h
  rw [hmaxz] at hm'
  have := Option.some.inj hm'
  subst this
  rcases hcase with ⟨_, rfl⟩ | ⟨hlt, i_above, m, hbp, hp⟩
  · exact ⟨rfl, rfl, fun h1 => by simp at h1⟩
  · obtain ⟨st', hst', hzt, hgr, hgz, _, _, _, _⟩ :=
      path_of_break_points_ok env z_abs r_geoid l_max _ i_above m g hp
    obtain ⟨hsum, st, z_top, hloop, htop, _, hn0, hn1, hz', _, _, _, _, _⟩ :=
      path_points_ok env z_abs r_geoid _ _ _ _ _ _ _ m.n_zs i_above st' hst'
    rw [hmaxz] at htop
    have := Option.some.inj htop
    subst this
    obtain ⟨_, q2, _⟩ := put_segment_loop_steps env z_abs r_geoid _ _ _ _ l_max hmax _ _ _ st
      (m.n_zs - 1) rfl hloop
    obtain ⟨lz, _, _, _⟩ := put_segment_loop_lengths env z_abs r_geoid _ _ _ _ _ _ _ _ st
      (m.n_zs - 1) hloop
    have hlen : (ns_of l_max (ls_of env r_geoid
        ((r_geoid + (lowest_point env z_ground z_max r_geoid z_plat za).z1) *
          env.sin (env.DEG2RAD * (lowest_point env z_ground z_max r_geoid z_plat za).za1) *
          ((r_geoid + (lowest_point env z_ground z_max r_geoid z_plat za).z1) *
            env.sin (env.DEG2RAD * (lowest_point env z_ground z_max r_geoid z_plat za).za1)))
        ((r_geoid + (lowest_point env z_ground z_max r_geoid z_plat za).z1) *
          env.cos (env.DEG2RAD * (lowest_point env z_ground z_max r_geoid z_plat za).za1))
        (m.zs.take m.n_zs))).length ≤ m.n_zs - 1 := by
      rw [ns_of_length, ls_of_length, List.length_take]
      omega
    rw [List.take_of_length_le hlen] at q2
    simp only [List.length_map, List.length_range] at lz
    refine ⟨hgr, hzt, fun _ => ⟨hlt, ?_⟩⟩
    rw [hgz, hz', List.length_set]
    have hidx : st.z.length - 1 = st.n_sum.toNat := by
      rw [lz, q2]
      omega
    rw [hidx]
    exact List.getElem?_set_self hn1

/-- The background flag and, for a surface background, the cut path of a
returning call of `los_1d`. -/
theorem los_1d_surface_path (env : Env α) (z_ground : α) (z_abs p_abs : List α)
    (r_geoid l_max z_plat za : α) (refr_on bb sc : ℤ) (los : LOS α) (z_tan : α)
    (h : los_1d env z_ground z_abs p_abs r_geoid l_max z_plat za refr_on bb sc
      = .ok (los, z_tan)) :
    (los.background = 1 ↔ (los.ground = 1 ∧ bb ≠ 0)) ∧
    (¬ (los.ground = 1 ∧ bb ≠ 0) → los.background = 0) ∧
    (los.background = 1 →
      los.i_start = 0 ∧ 0 ≤ los.i_stop ∧ los.np = los.i_stop + 1 ∧
      ∃ g : Geom α,
        los_1d_geom env z_ground z_abs env.EARTH_RADIUS l_max z_plat za = .ok g ∧
        los.i_stop + 1 ≤ g.nz ∧ g.z.length = g.nz.toNat ∧ g.ip_z.length = g.nz.toNat ∧
        g.lat.length = g.nz.toNat ∧ g.l_step.length = (g.nz - 1).toNat ∧
        los.z = g.z.take (los.i_stop + 1).toNat ∧
        los.ip_p = g.ip_z.take (los.i_stop + 1).toNat ∧
        los.lat = g.lat.take (los.i_stop + 1).toNat ∧
        los.l_step = g.l_step.take los.i_stop.toNat) := by
  obtain ⟨_, _, g, i_stop, los1, p0, p, hg, hi, hl, _, _, rfl, _⟩ :=
    los_1d_ok env z_ground z_abs p_abs r_geoid l_max z_plat za refr_on bb sc los z_tan h
  obtain ⟨hnz, lz, lip, lla, lls⟩ :=
    los_1d_geom_lengths env z_ground z_abs env.EARTH_RADIUS l_max z_plat za g hg
  obtain ⟨hg01, hgpos⟩ := los_1d_geom_ground env z_ground z_abs env.EARTH_RADIUS l_max z_plat za g hg
  obtain ⟨t1, t2, hcase⟩ := truncate_at_ground_ok _ los1 bb hl
  simp only at t1 t2 hcase ⊢
  rcases hcase with ⟨hgr, hbb, hb1, hs0, htr⟩ | ⟨hno, rfl⟩
  · have hg1 : g.ground = 1 := by
      rcases hg01 with h0 | h1
      · exact absurd h0 hgr
      · exact h1
    obtain ⟨h90, hnz1⟩ := hgpos hgr
    have hi0 : 0 ≤ i_stop ∧ i_stop ≤ g.nz - 1 := by
      rcases find_i_stop_ok z_abs z_plat za g.nz g.z i_stop hi with ⟨hle, _⟩ |
        ⟨_, z_top, _, ⟨_, i, hfi, rfl⟩ | ⟨_, rfl⟩⟩
      · exact absurd h90 (not_lt.mpr hle)
      · obtain ⟨_, hlt, _⟩ := find_stop_ok z_plat g.z 0 i hfi
        rw [lz] at hlt
        constructor
        · omega
        · omega
      · constructor
        · omega
        · omega
    refine ⟨⟨fun _ => ⟨by rw [t1, hg1], hbb⟩, fun _ => hb1⟩,
      fun hn => absurd ⟨by rw [t1, hg1], hbb⟩ hn, fun _ => ?_⟩
    rcases htr with ⟨_, _, hnp, _, hz, hip, hla, hls⟩ | ⟨hge, hnp, hz, hip, hla, hls⟩
    · refine ⟨hs0, by rw [t2]; exact hi0.1, by rw [hnp, t2],
        g, hg, by rw [t2]; omega, lz, lip, lla, lls, ?_, ?_, ?_, ?_⟩
      · rw [hz, t2]
      · rw [hip, t2]
      · rw [hla, t2]
      · rw [hls, t2]
        congr 1
        omega
    · have hie : i_stop = g.nz - 1 := by omega
      refine ⟨hs0, by rw [t2]; exact hi0.1, by rw [hnp, t2]; omega,
        g, hg, by rw [t2]; omega, lz, lip, lla, lls, ?_, ?_, ?_, ?_⟩
      · rw [hz, t2, List.take_of_length_le]
        rw [lz, hie]; omega
      · rw [hip, t2, List.take_of_length_le]
        rw [lip, hie]; omega
      · rw [hla, t2, List.take_of_length_le]
        rw [lla, hie]; omega
      · rw [hls, t2, List.take_of_length_le]
        rw [lls, hie]
  · have hno' : ¬ (g.ground = 1 ∧ bb ≠ 0) := by
      intro hc
      apply hno
      exact ⟨by rw [hc.1]; decide, hc.2⟩
    refine ⟨⟨fun hc => ?_, fun hc => absurd hc hno'⟩, fun _ => rfl, fun hc => ?_⟩
    · simp at hc
    · simp at hc

/-- C10: after a returning call of `los_1d`, `los.background` is `1` exactly
when `los.ground = 1` and `blackbody_ground` is set, and `0` in every other
case; in the surface case `i_start = 0`, the returned path has `i_stop + 1`
points, and `z`, `ip_p`, `lat` are the points `0..i_stop` and `l_step` the
first `i_stop` steps of the path that `los_1d_geom` returned. -/
theorem los_1d_background (env : Env α) (z_ground : α) (z_abs p_abs : List α)
    (r_geoid l_max z_plat za : α) (refr_on bb sc : ℤ) (los : LOS α) (z_tan : α)
    (h : los_1d env z_ground z_abs p_abs r_geoid l_max z_plat za refr_on bb sc
      = .ok (los, z_tan)) :
    (los.background = 1 ↔ (los.ground = 1 ∧ bb ≠ 0)) ∧
    (¬ (los.ground = 1 ∧ bb ≠ 0) → los.background = 0) ∧
    (los.background = 1 →
      los.i_start = 0 ∧ 0 ≤ los.i_stop ∧ los.np = los.i_stop + 1 ∧
      ∃ g : Geom α,
        los_1d_geom env z_ground z_abs env.EARTH_RADIUS l_max z_plat za = .ok g ∧
        los.i_stop + 1 ≤ g.nz ∧ g.z.length = g.nz.toNat ∧ g.ip_z.length = g.nz.toNat ∧
        g.lat.length = g.nz.toNat ∧ g.l_step.length = (g.nz - 1).toNat ∧
        los.z = g.z.take (los.i_stop + 1).toNat ∧
        los.ip_p = g.ip_z.take (los.i_stop + 1).toNat ∧
        los.lat = g.lat.take (los.i_stop + 1).toNat ∧
        los.l_step = g.l_step.take los.i_stop.toNat) :=
  los_1d_surface_path env z_ground z_abs p_abs r_geoid l_max z_plat za refr_on bb sc los z_tan h

end BackgroundClaim

/-- Witness for C10: a straight-down view from 1500 m onto a blackbody ground
at 500 m. -/
theorem los_1d_background_witness :
    (los_1d (vertical_env fun _ => 0) 500 [0, 1000, 2000] [1, 1 / 2, 0] 6378000 500 1500 180
        0 1 0).map (fun r => (r.1.background, r.1.i_start, r.1.i_stop, r.1.z))
      = .ok (1, 0, 2, [500, 1000, 1500]) ∧
    ((1 : ℤ) = 1 ↔ ((1 : ℤ) = 1 ∧ (1 : ℤ) ≠ 0)) := by
  have h : los_1d (vertical_env fun _ => 0) 500 [0, 1000, 2000] [1, 1 / 2, 0] 6378000 500 1500
      180 0 1 0 = .ok (
        { dim := 1, np := 3, i_start := 0, i_stop := 2, p := [3 / 4, 1 / 2, 1 / 4],
          z := [500, 1000, 1500], ip_p := [1 / 2, 1, 3 / 2], lat := [0, 0, 0], ip_lat := [],
          lon := [], ip_lon := [], l_step := [500, 500], background := 1, ground := 1,
          i_ground := 0 }, -6378000) := by decide!
  exact ⟨by decide!, (los_1d_background _ _ _ _ _ _ _ _ _ _ _ _ _ h).1⟩

section MergeLemmas

variable {α : Type} [LinearOrderedField α] [FloorRing α]

theorem take_set_succ {β : Type} (l : List β) (n : ℕ) (v : β) (h : n < l.length) :
    (l.set n v).take (n + 1) = l.take n ++ [v] := by
  rw [List.take_succ]
  have h1 : (l.set n v)[n]? = some v := List.getElem?_set_self h
  have h2 : (l.set n v).take n = l.take n := by
    apply List.ext_getElem?
    intro i
    rw [List.getElem?_take, List.getElem?_take]
    split_ifs with hi
    · rw [List.getElem?_set_ne (by omega)]
    · rfl
  rw [h1, h2]
  rfl

/-- Reading `z_special` at or beyond its end stops the copy loop. -/
theorem copy_special_end (z_special : List α) (b : α) (k : ℕ) (st : Merge α)
    (h : z_special.length ≤ st.i2) : ∀ st', copy_special z_special b k st ≠ .ok st' := by
  intro st' hc
  cases k with
  | zero => simp [copy_special] at hc
  | succ k =>
    have hv : vget z_special (st.i2 : ℤ) = .error .range := by
      unfold vget
      have : ¬ ((st.i2 : ℤ) < 0) := by omega
      rw [if_neg this]
      have : z_special[(st.i2 : ℤ).toNat]? = none := by
        rw [List.getElem?_eq_none_iff]
        simpa using h
      rw [this]
    simp only [copy_special, hv] at hc
    cases hc

/-- Pushing a value that is at least every value pushed so far keeps the used
part of `zs` sorted and starting with `z1`. -/
theorem push_sorted (zs : List α) (n : ℕ) (z1 v : α) (hn : n < zs.length)
    (hhead : (zs.take n).head? = some z1) (hsort : (zs.take n).Pairwise (· ≤ ·))
    (hle : ∀ x ∈ zs.take n, x ≤ v) :
    ((zs.set n v).take (n + 1)).head? = some z1 ∧
    ((zs.set n v).take (n + 1)).Pairwise (· ≤ ·) ∧
    ∀ x ∈ (zs.set n v).take (n + 1), x ∈ zs.take n ∨ x = v := by
  rw [take_set_succ zs n v hn]
  refine ⟨?_, ?_, ?_⟩
  · rw [List.head?_append, hhead]
    rfl
  · rw [List.pairwise_append]
    refine ⟨hsort, List.pairwise_singleton _ _, ?_⟩
    intro x hx y hy
    rw [List.mem_singleton] at hy
    rw [hy]
    exact hle x hx
  · intro x hx
    rw [List.mem_append, List.mem_singleton] at hx
    exact hx

/-- At the last entry `S` of `z_special` the copy loop returns only when
`S` is above the altitude `b` it is compared with, and then does nothing. -/
theorem copy_special_last (z_special : List α) (S b : α) (k : ℕ) (t st' : Merge α)
    (ht : t.i2 + 1 = z_special.length) (hS : z_special[t.i2]? = some S)
    (h : copy_special z_special b k t = .ok st') : st' = t ∧ b < S := by
  cases k with
  | zero => simp [copy_special] at h
  | succ k =>
    have hv : vget z_special (t.i2 : ℤ) = .ok S := by
      rw [vget_ok_iff]
      exact ⟨by omega, by simpa using hS⟩
    simp only [copy_special, hv] at h
    split_ifs at h with hSb
    · exfalso
      cases hcur : vget t.zs (t.n_zs : ℤ) with
      | error e => simp [hcur] at h
      | ok cur =>
        simp only [hcur] at h
        split_ifs at h
        · exact copy_special_end z_special b k _ (by simp only; omega) st' h
        · exact copy_special_end z_special b k _ (by simp only; omega) st' h
    · exact ⟨(Except.ok.inj h).symm, lt_of_not_le hSb⟩

/-- The copy loop keeps the used part of `zs` sorted: `z_special` is
`[z1, S]` with `i2 = 1`, or `[z1, zp, S]` with `i2 = 1` or `2`; `b` is the
altitude `z_abs[i1]` the loop compares with. -/
theorem copy_special_sorted (z1 zp S b : α) (z_special : List α) :
    ∀ (k : ℕ) (st st' : Merge α), copy_special z_special b k st = .ok st' →
      ((z_special = [z1, S] ∧ st.i2 = 1) ∨
        (z_special = [z1, zp, S] ∧ (st.i2 = 1 ∨ st.i2 = 2))) →
      (st.zs.take st.n_zs).head? = some z1 →
      (st.zs.take st.n_zs).Pairwise (· ≤ ·) →
      (∀ x ∈ st.zs.take st.n_zs, x ≤ b) →
      (z_special = [z1, zp, S] → st.i2 = 1 → ∀ x ∈ st.zs.take st.n_zs, x ≤ zp) →
      ((z_special = [z1, S] ∧ st'.i2 = 1) ∨
        (z_special = [z1, zp, S] ∧ (st'.i2 = 1 ∨ st'.i2 = 2))) ∧
      (st'.zs.take st'.n_zs).head? = some z1 ∧
      (st'.zs.take st'.n_zs).Pairwise (· ≤ ·) ∧
      (∀ x ∈ st'.zs.take st'.n_zs, x ≤ b) ∧
      (z_special = [z1, zp, S] → st'.i2 = 1 →
        b < zp ∧ ∀ x ∈ st'.zs.take st'.n_zs, x ≤ zp) ∧
      st'.zs.length = st.zs.length := by
  intro k
  induction k with
  | zero => intro st st' h; simp [copy_special] at h
  | succ k ih =>
    intro st st' h hshape hhead hsort hle hpend
    rcases hshape with ⟨hA, hi⟩ | ⟨hB, hi | hi⟩
    · -- `[z1, S]`, at the dummy value
      have := (copy_special_last z_special S b _ st st' (by rw [hA, hi]; rfl)
        (by rw [hA, hi]; rfl) h).1
      subst this
      refine ⟨Or.inl ⟨hA, hi⟩, hhead, hsort, hle, ?_, rfl⟩
      intro hB
      rw [hA] at hB
      simp at hB
    · -- `[z1, zp, S]`, at the platform altitude
      have hv : vget z_special (st.i2 : ℤ) = .ok zp := by
        rw [vget_ok_iff, hB, hi]
        exact ⟨by omega, rfl⟩
      simp only [copy_special, hv] at h
      split_ifs at h with hzb
      · cases hcur : vget st.zs (st.n_zs : ℤ) with
        | error e => simp [hcur] at h
        | ok cur =>
          simp only [hcur] at h
          have hn : st.n_zs < st.zs.length := by
            rw [vget_ok_iff] at hcur
            have := (List.getElem?_eq_some_iff.mp hcur.2).1
            simpa using this
          split_ifs at h with hne
          · obtain ⟨p1, p2, p3⟩ := push_sorted st.zs st.n_zs z1 zp hn hhead hsort
              (hpend hB hi)
            obtain ⟨q1, q2, q3, q4, q5, q6⟩ := ih _ st' h
              (Or.inr ⟨hB, Or.inr (by simp only; omega)⟩) p1 p2
              (by
                intro x hx
                rcases p3 x hx with hx | hx
                · exact hle x hx
                · rw [hx]; exact hzb)
              (by
                intro _ hc
                simp only at hc
                omega)
            refine ⟨q1, q2, q3, q4, q5, ?_⟩
            rw [q6]
            simp
          · obtain ⟨q1, q2, q3, q4, q5, q6⟩ := ih _ st' h
              (Or.inr ⟨hB, Or.inr (by simp only; omega)⟩) hhead hsort hle
              (by
                intro _ hc
                simp only at hc
                omega)
            exact ⟨q1, q2, q3, q4, q5, q6⟩
      · have := (Except.ok.inj h).symm
        subst this
        exact ⟨Or.inr ⟨hB, Or.inl hi⟩, hhead, hsort, hle,
          fun _ _ => ⟨lt_of_not_le hzb, hpend hB hi⟩, rfl⟩
    · -- `[z1, zp, S]`, at the dummy value
      have := (copy_special_last z_special S b _ st st' (by rw [hB, hi]; rfl)
        (by rw [hB, hi]; rfl) h).1
      subst this
      refine ⟨Or.inr ⟨hB, Or.inr hi⟩, hhead, hsort, hle, ?_, rfl⟩
      intro _ hc
      omega

/-- The loop that copies the altitudes into `zs` leaves the used part of `zs`
sorted and starting with `z1`, for increasing grid altitudes `gs` that are not
below the altitudes already copied. -/
theorem merge_levels_sorted (z1 zp S : α) (z_special : List α) :
    ∀ (gs : List α) (st st' : Merge α), merge_levels z_special gs st = .ok st' →
      gs.Pairwise (· < ·) →
      ((z_special = [z1, S] ∧ st.i2 = 1) ∨
        (z_special = [z1, zp, S] ∧ (st.i2 = 1 ∨ st.i2 = 2))) →
      (st.zs.take st.n_zs).head? = some z1 →
      (st.zs.take st.n_zs).Pairwise (· ≤ ·) →
      (∀ x ∈ st.zs.take st.n_zs, ∀ g ∈ gs, x ≤ g) →
      (z_special = [z1, zp, S] → st.i2 = 1 → ∀ x ∈ st.zs.take st.n_zs, x ≤ zp) →
      (st'.zs.take st'.n_zs).head? = some z1 ∧
      (st'.zs.take st'.n_zs).Pairwise (· ≤ ·) ∧
      st'.zs.length = st.zs.length := by
  intro gs
  induction gs with
  | nil =>
    intro st st' h _ _ hhead hsort _ _
    simp only [merge_levels, Except.ok.injEq] at h
    subst h
    exact ⟨hhead, hsort, rfl⟩
  | cons g gs ih =>
    intro st st' h hgs hshape hhead hsort hle hpend
    rw [List.pairwise_cons] at hgs
    obtain ⟨hg, hgs'⟩ := hgs
    simp only [merge_levels] at h
    cases h1 : copy_special z_special g (z_special.length + 1) st with
    | error e => simp [h1] at h
    | ok st1 =>
      simp only [h1] at h
      obtain ⟨q1, q2, q3, q4, q5, q6⟩ := copy_special_sorted z1 zp S g z_special _ st st1 h1
        hshape hhead hsort (fun x hx => hle x hx g (List.mem_cons_self _ _)) hpend
      cases hcur : vget st1.zs (st1.n_zs : ℤ) with
      | error e => simp [hcur] at h
      | ok cur =>
        simp only [hcur] at h
        have hn : st1.n_zs < st1.zs.length := by
          rw [vget_ok_iff] at hcur
          have := (List.getElem?_eq_some_iff.mp hcur.2).1
          simpa using this
        split_ifs at h with hne
        · obtain ⟨p1, p2, p3⟩ := push_sorted st1.zs st1.n_zs z1 g hn q2 q3 q4
          obtain ⟨r1, r2, r3⟩ := ih _ st' h hgs' q1 p1 p2
            (by
              intro x hx g' hg'
              rcases p3 x hx with hx | hx
              · exact le_trans (q4 x hx) (hg g' hg').le
              · rw [hx]; exact (hg g' hg').le)
            (by
              intro hB hi x hx
              obtain ⟨hlt, hall⟩ := q5 hB hi
              rcases p3 x hx with hx | hx
              · exact hall x hx
              · rw [hx]; exact hlt.le)
          refine ⟨r1, r2, ?_⟩
          rw [r3, ← q6]
          simp
        · obtain ⟨r1, r2, r3⟩ := ih _ st' h hgs' q1 q2 q3
            (fun x hx g' hg' => le_trans (q4 x hx) (hg g' hg').le)
            (fun hB hi => (q5 hB hi).2)
          exact ⟨r1, r2, r3.trans q6⟩

theorem find_above_ok (z1 : α) :
    ∀ (l : List α) (i0 i : ℕ), find_above z1 l i0 = .ok i →
      i0 ≤ i ∧ i - i0 < l.length ∧ ∃ v, l[i - i0]? = some v ∧ z1 < v := by
  intro l
  induction l with
  | nil => intro i0 i h; simp [find_above] at h
  | cons v vs ih =>
    intro i0 i h
    simp only [find_above] at h
    split_ifs at h with hv
    · obtain ⟨h1, h2, w, h3, h4⟩ := ih (i0 + 1) i h
      have e : i - i0 = (i - (i0 + 1)) + 1 := by omega
      refine ⟨by omega, by simp only [List.length_cons]; omega, w, ?_, h4⟩
      rw [e, List.getElem?_cons_succ]
      exact h3
    · simp only [Except.ok.injEq] at h
      subst h
      exact ⟨le_refl _, by simp, v, by simp, lt_of_not_le hv⟩

/-- In an increasing grid every altitude from index `i_above` on is above
`z1`. -/
theorem levels_above (z1 : α) (z_abs : List α) (i_above : ℕ)
    (hs : z_abs.Pairwise (· < ·)) (h : find_above z1 z_abs 0 = .ok i_above) :
    ∀ g ∈ z_abs.drop i_above, z1 < g := by
  obtain ⟨_, hlt, v, hv, hzv⟩ := find_above_ok z1 z_abs 0 i_above h
  simp only [Nat.sub_zero] at hlt hv
  intro g hg
  obtain ⟨j, hj, hjg⟩ := List.getElem_of_mem hg
  rw [List.getElem_drop] at hjg
  have hv' : z_abs[i_above] = v := by
    have := List.getElem?_eq_getElem hlt
    rw [hv] at this
    exact (Option.some.inj this).symm
  rcases Nat.eq_zero_or_pos j with hj0 | hj0
  · subst hj0
    simp only [Nat.add_zero] at hjg
    rw [← hjg, hv']
    exact hzv
  · have hj2 : i_above + j < z_abs.length := by
      simp only [List.length_drop] at hj
      omega
    have := List.pairwise_iff_getElem.mp hs i_above (i_above + j) hlt hj2 (by omega)
    rw [← hjg]
    rw [hv'] at this
    exact lt_trans hzv this

end MergeLemmas

section FirstPoint

variable {α : Type} [LinearOrderedField α] [FloorRing α]

/-- What a returning call of `break_points` gives for an increasing grid and
a lowest point that is not above the platform: the used part of `zs` is sorted
and starts with the lowest point. -/
theorem break_points_sorted (env : Env α) (z_abs : List α) (z_plat z_max : α) (lp : Lowest α)
    (i_above : ℕ) (m : Merge α)
    (h : break_points env z_abs z_plat z_max lp = .ok (i_above, m))
    (hs : z_abs.Pairwise (· < ·)) (hz : lp.z1 ≤ z_plat) :
    (m.zs.take m.n_zs).head? = some lp.z1 ∧ (m.zs.take m.n_zs).Pairwise (· ≤ ·) ∧
    find_above lp.z1 z_abs 0 = .ok i_above := by
  unfold break_points at h
  simp only [bind_eq_ok, vnew_ok_iff, vset_ok_iff, pure, Except.pure, Except.ok.injEq,
    Prod.mk.injEq] at h
  obtain ⟨ia, hia, zs0, ⟨_, rfl⟩, zs1, ⟨_, hlen, rfl⟩, m', hm, rfl, rfl⟩ := h
  have hlen' : 0 < ((List.range ((z_abs.length : ℤ) - (ia : ℤ) +
      ((1 + lp.do_down : ℕ) : ℤ)).toNat).map env.fresh).length := by simpa using hlen
  have htake : (((List.range ((z_abs.length : ℤ) - (ia : ℤ) +
      ((1 + lp.do_down : ℕ) : ℤ)).toNat).map env.fresh).set (0 : ℤ).toNat lp.z1).take 1
      = [lp.z1] := by
    have := take_set_succ ((List.range ((z_abs.length : ℤ) - (ia : ℤ) +
      ((1 + lp.do_down : ℕ) : ℤ)).toNat).map env.fresh) 0 lp.z1 hlen'
    simpa using this
  obtain ⟨r1, r2, _⟩ := merge_levels_sorted lp.z1 z_plat (z_max * 2)
    (z_special_of lp z_plat z_max) (z_abs.drop ia) _ m' hm
    (List.Pairwise.sublist (List.drop_sublist _ _) hs)
    (by
      unfold z_special_of
      by_cases hd : lp.do_down = 1
      · rw [if_pos hd]
        exact Or.inr ⟨rfl, Or.inl rfl⟩
      · rw [if_neg hd]
        exact Or.inl ⟨rfl, rfl⟩)
    (by simp only [htake]; rfl)
    (by simp only [htake]; exact List.pairwise_singleton _ _)
    (by
      simp only [htake]
      intro x hx g hg
      rw [List.mem_singleton] at hx
      rw [hx]
      exact (levels_above lp.z1 z_abs ia hs hia g hg).le)
    (by
      simp only [htake]
      intro _ _ x hx
      rw [List.mem_singleton] at hx
      rw [hx]
      exact hz)
  exact ⟨r1, r2, hia⟩

/-- When the first altitude of `zs` is the lowest point and the path length
is `0` there, `ls` is the list of the path lengths of the altitudes `zs`. -/
theorem ls_of_eq_map (env : Env α) (r_geoid c d z1 : α) (zs : List α)
    (hhead : zs.head? = some z1) (h0 : path_length env r_geoid c d z1 = 0) :
    ls_of env r_geoid c d zs = zs.map (path_length env r_geoid c d) := by
  cases zs with
  | nil => simp at hhead
  | cons v vs =>
    simp only [List.head?_cons, Option.some.injEq] at hhead
    subst hhead
    simp [ls_of, h0]

/-- The first point written by the loop over the parts of the path is the
lowest point, and later parts do not overwrite it: `ls` starts with `0`, does
not decrease, and an altitude of `zs` at length `0` is `z1`. -/
theorem put_segment_loop_first (env : Env α) (z_abs : List α) (r_geoid lat0 a b c l_max : α)
    (hmax : 0 < l_max) (zs ls : List α) (z1 : α) (st0 st : Fill α) (m : ℕ)
    (hst0 : st0.n_sum = 0) (hls0 : ls[0]? = some 0)
    (hmono : ∀ (i : ℕ) (x y : α), ls[i]? = some x → ls[i + 1]? = some y → x ≤ y)
    (hfirst : ∀ (i : ℕ) (v : α), ls[i]? = some 0 → zs[i]? = some v → v = z1)
    (h : (List.range m).foldlM
      (put_segment env z_abs r_geoid lat0 a b c zs ls (ns_of l_max ls)) st0 = .ok st) :
    0 ≤ st.n_sum ∧ (0 < st.n_sum → st.z[0]? = some z1) ∧
    (st.n_sum = 0 → ∀ x, ls[m]? = some x → x = 0) := by
  refine foldlM_range_invariant
    (put_segment env z_abs r_geoid lat0 a b c zs ls (ns_of l_max ls))
    (fun k t => 0 ≤ t.n_sum ∧ (0 < t.n_sum → t.z[0]? = some z1) ∧
      (t.n_sum = 0 → ∀ x, ls[k]? = some x → x = 0))
    m st0 st ?_ ?_ h
  · refine ⟨by omega, fun hp => by omega, fun _ x hx => ?_⟩
    rw [hls0] at hx
    exact (Option.some.inj hx).symm
  · intro k t t' _ hP ht
    obtain ⟨p1, p2, p3⟩ := hP
    obtain ⟨l_lo, l_hi, z_lo, n, st1, g, h1, h2, h3, h4, h5, _, h7⟩ :=
      put_segment_ok env z_abs r_geoid lat0 a b c zs ls (ns_of l_max ls) t t' k ht
    obtain ⟨q1, _, _, _, _, _, _, q8, _⟩ :=
      put_point_loop_ok env z_abs r_geoid lat0 a b c z_lo l_lo _ t st1 n.toNat h5
    obtain ⟨l_lo', l_hi', h1', h2', hn⟩ := ns_of_getElem? l_max ls k n h4
    rw [h1] at h1'; rw [h2] at h2'
    simp only [Option.some.injEq] at h1' h2'
    subst h1' h2'
    have hle : l_lo ≤ l_hi := hmono k l_lo l_hi h1 h2
    have hn0 : 0 ≤ n := by rw [hn]; exact n_steps_nonneg l_max l_lo l_hi hmax hle
    have hz : t'.z = st1.z := by rw [h7]; split_ifs <;> rfl
    have hs : t'.n_sum = st1.n_sum + n := by rw [h7]; split_ifs <;> rfl
    rw [q1] at hs
    refine ⟨by omega, ?_, ?_⟩
    · intro hpos
      rw [hz, q8 0]
      rcases lt_or_eq_of_le p1 with hlt | heq
      · rw [if_neg (by push_cast; omega)]
        exact p2 hlt
      · have hlo : l_lo = 0 := p3 heq.symm l_lo h1
        rw [if_pos (by push_cast; omega)]
        have : ((0 : ℕ) : ℤ) - t.n_sum = 0 := by omega
        simp only [this, Int.toNat_zero, point_z, if_true]
        rw [hlo] at h1
        rw [hfirst k z_lo h1 h3]
    · intro hzero x hx
      have ht0 : t.n_sum = 0 := by omega
      have hnz : n = 0 := by omega
      have hlo : l_lo = 0 := p3 ht0 l_lo h1
      rw [h2] at hx
      have hxe : x = l_hi := (Option.some.inj hx).symm
      have hnot : ¬ l_lo < l_hi := by
        intro hlt
        have := (n_steps_pos_iff l_max l_lo l_hi hmax).mpr hlt
        omega
      rw [hxe]
      exact le_antisymm (by rw [← hlo]; exact not_lt.mp hnot) (by rw [← hlo]; exact hle)

/-- The sorted altitudes `zs` that start with `z1` are all at or above `z1`. -/
theorem sorted_ge_head (zs : List α) (z1 : α) (hhead : zs.head? = some z1)
    (hsort : zs.Pairwise (· ≤ ·)) (i : ℕ) (v : α) (hv : zs[i]? = some v) : z1 ≤ v := by
  cases zs with
  | nil => simp at hhead
  | cons w ws =>
    simp only [List.head?_cons, Option.some.injEq] at hhead
    subst hhead
    cases i with
    | zero =>
      simp only [List.getElem?_cons_zero, Option.some.injEq] at hv
      exact hv.le
    | succ i =>
      rw [List.getElem?_cons_succ] at hv
      rw [List.pairwise_cons] at hsort
      exact hsort.1 v (List.getElem?_mem hv)

/-- For an increasing grid, a lowest point that is not above the platform and
path lengths that increase with altitude, a path of at least two points
returned by `los_1d_geom` starts at the lowest point. -/
theorem los_1d_geom_first_point (env : Env α) (z_ground : α) (z_abs : List α)
    (r_geoid l_max z_plat za z_max : α) (g : Geom α)
    (h : los_1d_geom env z_ground z_abs r_geoid l_max z_plat za = .ok g)
    (hmaxz : z_abs[z_abs.length - 1]? = some z_max)
    (hs : z_abs.Pairwise (· < ·))
    (hz : (lowest_point env z_ground z_max r_geoid z_plat za).z1 ≤ z_plat)
    (hinc : lengths_increase env r_geoid (lowest_point env z_ground z_max r_geoid z_plat za))
    (h2 : 2 ≤ g.z.length) :
    g.z[0]? = some (lowest_point env z_ground z_max r_geoid z_plat za).z1 := by
  obtain ⟨z_first, z_max', _, hm', _, _, _, hmax, _, _, _, hcase⟩ :=
    los_1d_geom_ok env z_ground z_abs r_geoid l_max z_plat za g h
  rw [hmaxz] at hm'
  have := Option.some.inj hm'
  subst this
  rcases hcase with ⟨_, rfl⟩ | ⟨_, i_above, m, hbp, hp⟩
  · simp at h2
  · obtain ⟨hhead, hsort, _⟩ := break_points_sorted env z_abs z_plat z_max _ i_above m hbp hs hz
    obtain ⟨st', hst', _, _, hgz, _, _, _, _⟩ :=
      path_of_break_points_ok env z_abs r_geoid l_max _ i_above m g hp
    obtain ⟨hsum, st, z_top, hloop, _, _, hn0, hn1, hz', _, _, _, _, _⟩ :=
      path_points_ok env z_abs r_geoid _ _ _ _ _ _ _ m.n_zs i_above st' hst'
    obtain ⟨hPL0, hPLmono⟩ := hinc
    rw [ls_of_eq_map env r_geoid _ _ _ _ hhead hPL0] at hloop
    obtain ⟨_, q2, _⟩ := put_segment_loop_steps env z_abs r_geoid _ _ _ _ l_max hmax _ _ _ st
      (m.n_zs - 1) rfl hloop
    obtain ⟨lz, _, _, _⟩ := put_segment_loop_lengths env z_abs r_geoid _ _ _ _ _ _ _ _ st
      (m.n_zs - 1) hloop
    have hlen : (ns_of l_max ((m.zs.take m.n_zs).map (path_length env r_geoid
        ((r_geoid + (lowest_point env z_ground z_max r_geoid z_plat za).z1) *
          env.sin (env.DEG2RAD * (lowest_point env z_ground z_max r_geoid z_plat za).za1) *
          ((r_geoid + (lowest_point env z_ground z_max r_geoid z_plat za).z1) *
            env.sin (env.DEG2RAD * (lowest_point env z_ground z_max r_geoid z_plat za).za1)))
        ((r_geoid + (lowest_point env z_ground z_max r_geoid z_plat za).z1) *
          env.cos (env.DEG2RAD *
            (lowest_point env z_ground z_max r_geoid z_plat za).za1))))).length
        ≤ m.n_zs - 1 := by
      rw [ns_of_length, List.length_map, List.length_take]
      omega
    rw [List.take_of_length_le hlen] at q2
    rw [ls_of_eq_map env r_geoid _ _ _ _ hhead hPL0] at hsum
    have hz0 : (m.zs.take m.n_zs)[0]? = some
        (lowest_point env z_ground z_max r_geoid z_plat za).z1 := by
      rw [← List.head?_eq_getElem?]
      exact hhead
    obtain ⟨_, r2, _⟩ := put_segment_loop_first env z_abs r_geoid _ _ _ _ l_max hmax _ _
      (lowest_point env z_ground z_max r_geoid z_plat za).z1 _ st (m.n_zs - 1) rfl
      (by rw [List.getElem?_map, hz0, Option.map_some', hPL0])
      (by
        intro i x y hx hy
        rw [List.getElem?_map] at hx hy
        cases hzi : (m.zs.take m.n_zs)[i]? with
        | none => simp [hzi] at hx
        | some u =>
          cases hzj : (m.zs.take m.n_zs)[i + 1]? with
          | none => simp [hzj] at hy
          | some w =>
            simp only [hzi, hzj, Option.map_some', Option.some.injEq] at hx hy
            subst hx hy
            have hu : (lowest_point env z_ground z_max r_geoid z_plat za).z1 ≤ u :=
              sorted_ge_head _ _ hhead hsort i u hzi
            have hi1 : i + 1 < (m.zs.take m.n_zs).length :=
              (List.getElem?_eq_some_iff.mp hzj).1
            have huw : u ≤ w := by
              have := List.pairwise_iff_getElem.mp hsort i (i + 1) (by omega) hi1 (by omega)
              have e1 : (m.zs.take m.n_zs)[i] = u := by
                have := List.getElem?_eq_getElem (show i < (m.zs.take m.n_zs).length by omega)
                rw [hzi] at this
                exact (Option.some.inj this).symm
              have e2 : (m.zs.take m.n_zs)[i + 1] = w := by
                have := List.getElem?_eq_getElem hi1
                rw [hzj] at this
                exact (Option.some.inj this).symm
              rw [e1, e2] at this
              exact this
            rcases lt_or_eq_of_le huw with hlt | heq
            · exact (hPLmono u w hu hlt).le
            · rw [heq])
      (by
        intro i v hl hv
        rw [List.getElem?_map, hv, Option.map_some', Option.some.injEq] at hl
        have hge := sorted_ge_head _ _ hhead hsort i v hv
        rcases lt_or_eq_of_le hge with hlt | heq
        · have := hPLmono _ v (le_refl _) hlt
          rw [hPL0, hl] at this
          exact absurd this (lt_irrefl _)
        · exact heq.symm)
      hloop
    have hlen2 : 2 ≤ st.z.length := by
      rw [hgz, hz', List.length_set] at h2
      exact h2
    have hpos : 0 < st.n_sum := by
      rw [lz] at hlen2
      simp only [List.length_map, List.length_range] at hlen2
      rw [q2]
      omega
    rw [hgz, hz', List.getElem?_set_ne (by omega)]
    exact r2 hpos

end FirstPoint

section SqrtExact

theorem bit_length_spec : ∀ (k n : ℕ), n ≤ k → n < 2 ^ bit_length k n := by
  intro k
  induction k with
  | zero =>
    intro n hn
    have : n = 0 := by omega
    subst this
    simp [bit_length]
  | succ k ih =>
    intro n hn
    simp only [bit_length]
    split_ifs with h0
    · subst h0; simp
    · have h1 : n / 2 ≤ k := by omega
      have h2 := ih (n / 2) h1
      rw [pow_succ]
      omega

theorem isqrt_bits_spec (n : ℕ) :
    ∀ (k r : ℕ), r * r ≤ n → n < (r + 2 ^ k) * (r + 2 ^ k) →
      isqrt_bits n k r * isqrt_bits n k r ≤ n ∧
      n < (isqrt_bits n k r + 1) * (isqrt_bits n k r + 1) := by
  intro k
  induction k with
  | zero =>
    intro r h1 h2
    simpa [isqrt_bits] using And.intro h1 h2
  | succ k ih =>
    intro r h1 h2
    simp only [isqrt_bits]
    split_ifs with hc
    · apply ih (r + 2 ^ k) hc
      have : r + 2 ^ k + 2 ^ k = r + 2 ^ (k + 1) := by rw [pow_succ]; ring
      rw [this]
      exact h2
    · exact ih r h1 (lt_of_not_le hc)

theorem isqrt_sq (m : ℕ) : isqrt (m * m) = m := by
  unfold isqrt
  have hb := bit_length_spec (m * m) (m * m) (le_refl _)
  have hpow : 1 ≤ 2 ^ bit_length (m * m) (m * m) := Nat.one_le_two_pow
  obtain ⟨h1, h2⟩ := isqrt_bits_spec (m * m) (bit_length (m * m) (m * m)) 0 (by simp)
    (by
      simp only [Nat.zero_add]
      calc m * m < 2 ^ bit_length (m * m) (m * m) := hb
        _ = 2 ^ bit_length (m * m) (m * m) * 1 := (Nat.mul_one _).symm
        _ ≤ 2 ^ bit_length (m * m) (m * m) * 2 ^ bit_length (m * m) (m * m) :=
          Nat.mul_le_mul_left _ hpow)
  have h3 := Nat.mul_self_le_mul_self_iff.mp h1
  have h4 := Nat.mul_self_lt_mul_self_iff.mp h2
  omega

theorem sqrt_exact_sq (x : ℚ) (hx : 0 ≤ x) : sqrt_exact (x * x) = x := by
  unfold sqrt_exact
  rw [Rat.mul_self_num, Rat.mul_self_den]
  have hn : 0 ≤ x.num := Rat.num_nonneg.mpr hx
  have h1 : (x.num * x.num).toNat = x.num.toNat * x.num.toNat := by
    obtain ⟨p, hp⟩ := Int.eq_ofNat_of_zero_le hn
    rw [hp]
    have : ((p : ℤ) * (p : ℤ)) = ((p * p : ℕ) : ℤ) := by push_cast; rfl
    rw [this, Int.toNat_natCast, Int.toNat_natCast]
  rw [h1, isqrt_sq, isqrt_sq]
  have h2 : ((x.num.toNat : ℕ) : ℚ) = (x.num : ℚ) := by
    have : ((x.num.toNat : ℕ) : ℤ) = x.num := Int.toNat_of_nonneg hn
    exact_mod_cast this
  rw [h2]
  exact Rat.num_div_den x

end SqrtExact

/-- Over the real numbers, with the square root, sine and cosine of
analysis, the lengths along the path have the property `lengths_increase`
whenever the lowest point is not below the centre of the geoid and the
cosine of its zenith angle is not negative. -/
theorem lengths_increase_of_real (env : Env ℝ) (r_geoid : ℝ) (lp : Lowest ℝ)
    (hsqrt : env.sqrt = Real.sqrt) (hsin : env.sin = Real.sin)
    (hcos : env.cos = Real.cos) (hr : 0 ≤ r_geoid + lp.z1)
    (hc : 0 ≤ Real.cos (env.DEG2RAD * lp.za1)) :
    lengths_increase env r_geoid lp := by
  have hsc := Real.sin_sq_add_cos_sq (env.DEG2RAD * lp.za1)
  have hd : 0 ≤ (r_geoid + lp.z1) * Real.cos (env.DEG2RAD * lp.za1) :=
    mul_nonneg hr hc
  have harg : ∀ x : ℝ, (r_geoid + x) * (r_geoid + x) -
      (r_geoid + lp.z1) * Real.sin (env.DEG2RAD * lp.za1) *
        ((r_geoid + lp.z1) * Real.sin (env.DEG2RAD * lp.za1)) =
      (r_geoid + x) * (r_geoid + x) - (r_geoid + lp.z1) * (r_geoid + lp.z1) +
        ((r_geoid + lp.z1) * Real.cos (env.DEG2RAD * lp.za1)) ^ 2 := by
    intro x
    have : Real.sin (env.DEG2RAD * lp.za1) ^ 2 =
        1 - Real.cos (env.DEG2RAD * lp.za1) ^ 2 := by linarith
    ring_nf
    rw [this]
    ring
  refine ⟨?_, ?_⟩
  · simp only [path_length, hsqrt, hsin, hcos]
    rw [harg lp.z1, sub_self, zero_add, Real.sqrt_sq hd, sub_self]
  · intro x y hx hxy
    simp only [path_length, hsqrt, hsin, hcos]
    rw [harg x, harg y]
    have h1 : (r_geoid + lp.z1) * (r_geoid + lp.z1) ≤
        (r_geoid + x) * (r_geoid + x) := by nlinarith
    have h2 : (r_geoid + x) * (r_geoid + x) <
        (r_geoid + y) * (r_geoid + y) := by nlinarith
    have h3 := sq_nonneg ((r_geoid + lp.z1) * Real.cos (env.DEG2RAD * lp.za1))
    have := Real.sqrt_lt_sqrt (by linarith :
      0 ≤ (r_geoid + x) * (r_geoid + x) - (r_geoid + lp.z1) * (r_geoid + lp.z1) +
        ((r_geoid + lp.z1) * Real.cos (env.DEG2RAD * lp.za1)) ^ 2)
      (by linarith :
      (r_geoid + x) * (r_geoid + x) - (r_geoid + lp.z1) * (r_geoid + lp.z1) +
        ((r_geoid + lp.z1) * Real.cos (env.DEG2RAD * lp.za1)) ^ 2 <
      (r_geoid + y) * (r_geoid + y) - (r_geoid + lp.z1) * (r_geoid + lp.z1) +
        ((r_geoid + lp.z1) * Real.cos (env.DEG2RAD * lp.za1)) ^ 2)
    linarith

section LowestPointClaims

variable {α : Type} [LinearOrderedField α] [FloorRing α]

/-- On a vertical path (`cos = 1`, `sin = 0` at the lowest point) from a
lowest point that is not below the centre of the geoid, the path length to
altitude `x` is `x - z1`: the lengths increase. -/
theorem lengths_increase_of_vertical (env : Env α) (r_geoid : α) (lp : Lowest α)
    (hza1 : env.DEG2RAD * lp.za1 = 0) (hcos0 : env.cos 0 = 1) (hsin0 : env.sin 0 = 0)
    (hsqrt : ∀ x : α, 0 ≤ x → env.sqrt (x * x) = x) (hr : 0 ≤ r_geoid + lp.z1) :
    lengths_increase env r_geoid lp := by
  have hPL : ∀ x : α, lp.z1 ≤ x →
      path_length env r_geoid
        ((r_geoid + lp.z1) * env.sin (env.DEG2RAD * lp.za1) *
          ((r_geoid + lp.z1) * env.sin (env.DEG2RAD * lp.za1)))
        ((r_geoid + lp.z1) * env.cos (env.DEG2RAD * lp.za1)) x = x - lp.z1 := by
    intro x hx
    unfold path_length
    simp only [hza1, hcos0, hsin0, mul_zero, mul_one, sub_zero]
    rw [hsqrt (r_geoid + x) (by linarith)]
    ring
  refine ⟨?_, ?_⟩
  · rw [hPL lp.z1 (le_refl _)]
    ring
  · intro x y hx hxy
    rw [hPL x hx, hPL y (by linarith)]
    linarith

/-- The lowest point of a straight-down observation (`za = 180`) towards a
ground above the centre of the geoid: the path ends on the ground and is
vertical there. -/
theorem lowest_point_straight_down (env : Env α) (z_ground z_max r_geoid z_plat : α)
    (hsin180 : env.sin (env.DEG2RAD * 180) = 0) (hasin0 : env.asin 0 = 0)
    (hr : 0 < r_geoid + z_ground) :
    (lowest_point env z_ground z_max r_geoid z_plat 180).ground = 1 ∧
    (lowest_point env z_ground z_max r_geoid z_plat 180).z_tan = -r_geoid ∧
    (lowest_point env z_ground z_max r_geoid z_plat 180).z1 = z_ground ∧
    env.DEG2RAD * (lowest_point env z_ground z_max r_geoid z_plat 180).za1 = 0 := by
  have h90 : ¬ ((180 : α) ≤ 90) := by norm_num
  have hzt : (r_geoid + z_plat) * env.sin (env.DEG2RAD * 180) - r_geoid = -r_geoid := by
    rw [hsin180]; ring
  have hlt : ¬ ((r_geoid + z_plat) * env.sin (env.DEG2RAD * 180) - r_geoid ≥ z_ground) := by
    rw [hzt]
    intro hc
    linarith
  unfold lowest_point
  simp only [h90, hlt, if_false]
  refine ⟨trivial, hzt, trivial, ?_⟩
  rw [hzt]
  have : (r_geoid + -r_geoid) / (r_geoid + z_ground) = 0 := by
    rw [add_neg_cancel, zero_div]
  rw [this, hasin0]
  ring

theorem getLast?_take_succ {β : Type} (l : List β) (i : ℕ) (h : i < l.length) :
    (l.take (i + 1)).getLast? = l[i]? := by
  rw [List.getLast?_eq_getElem?, List.length_take, List.getElem?_take]
  have : min (i + 1) l.length - 1 = i := by omega
  rw [this, if_pos (by omega)]

/-- C9 (as amended): for every input on which `los_1d_geom` returns: if
`za <= 90` the ground flag is `0`, `z_tan` keeps the value `9999e3` and the
lowest point `z1` is `z_plat`; if `za > 90` then
`z_tan = (r_geoid + z_plat)*sin(za) - r_geoid`, the ground flag is `1` exactly
when `z_tan < z_ground` (and `0` otherwise) and the lowest point is `z_tan`
when `z_tan >= z_ground` and `z_ground` otherwise.  For an increasing grid, a
lowest point not above the platform and path lengths that increase with
altitude, the first altitude `z[0]` of a path of at least two points is the
lowest point. -/
theorem los_1d_geom_lowest_point (env : Env α) (z_ground : α) (z_abs : List α)
    (r_geoid l_max z_plat za z_max : α) (g : Geom α)
    (h : los_1d_geom env z_ground z_abs r_geoid l_max z_plat za = .ok g)
    (hmaxz : z_abs[z_abs.length - 1]? = some z_max) :
    (za ≤ 90 → g.ground = 0 ∧ g.z_tan = 9999e3 ∧
      (lowest_point env z_ground z_max r_geoid z_plat za).z1 = z_plat) ∧
    (90 < za →
      g.z_tan = (r_geoid + z_plat) * env.sin (env.DEG2RAD * za) - r_geoid ∧
      (g.ground = 1 ↔ g.z_tan < z_ground) ∧ (g.ground = 0 ∨ g.ground = 1) ∧
      (lowest_point env z_ground z_max r_geoid z_plat za).z1 =
        (if z_ground ≤ g.z_tan then g.z_tan else z_ground)) ∧
    (z_abs.Pairwise (· < ·) →
      (lowest_point env z_ground z_max r_geoid z_plat za).z1 ≤ z_plat →
      lengths_increase env r_geoid (lowest_point env z_ground z_max r_geoid z_plat za) →
      2 ≤ g.z.length →
      g.z[0]? = some (lowest_point env z_ground z_max r_geoid z_plat za).z1) := by
  obtain ⟨f1, f2, _⟩ := los_1d_geom_flags env z_ground z_abs r_geoid l_max z_plat za z_max g h
    hmaxz
  refine ⟨?_, ?_, fun hs hz hinc h2 =>
    los_1d_geom_first_point env z_ground z_abs r_geoid l_max z_plat za z_max g h hmaxz hs hz
      hinc h2⟩
  · intro h90
    rcases lowest_point_cases env z_ground z_max r_geoid z_plat za with
      ⟨_, c1, c2, c3, _⟩ | ⟨hgt, _⟩
    · exact ⟨by rw [f1, c1], by rw [f2, c2], c3⟩
    · exact absurd h90 (not_le.mpr hgt)
  · intro h90
    rcases lowest_point_cases env z_ground z_max r_geoid z_plat za with
      ⟨hle, _⟩ | ⟨_, c1, _, ⟨c2, c3, c4⟩ | ⟨c2, c3, c4⟩⟩
    · exact absurd h90 (not_lt.mpr hle)
    · rw [f1, f2, c1, c3, c4, if_pos c2]
      exact ⟨rfl, ⟨fun hc => absurd hc (by decide), fun hc => absurd c2 (not_le.mpr hc)⟩,
        Or.inl rfl, rfl⟩
    · rw [f1, f2, c1, c3, c4, if_neg (not_le.mpr c2)]
      exact ⟨rfl, ⟨fun _ => c2, fun _ => rfl⟩, Or.inr rfl, rfl⟩

end LowestPointClaims

section GeometryExamples

/-- C7, evaluated at an upward observation (`za = 0`) on the increasing grid
`0, 1000, 10000`: `los_1d_geom` returns the increasing altitudes
`0, 1000, 4000, 7000, 10000` with the grid positions `0, 1, 4, 7, 2`, and
`los_1d` then stops in the index assertion of `get_interp_weights`
(position `4` on a grid of three points) instead of returning the path. -/
theorem los_1d_upward_nonuniform_grid_fails :
    (los_1d_geom (vertical_env fun _ => 0) 0 [0, 1000, 10000] 6378000 3000 0 0).map
        (fun g => (g.z, g.ip_z, g.ground))
      = .ok ([0, 1000, 4000, 7000, 10000], [0, 1, 4, 7, 2], 0) ∧
    los_1d (vertical_env fun _ => 0) 0 [0, 1000, 10000] [1000, 900, 300] 6378000 3000 0 0
        0 0 0 = .error .assertion ∧
    los_1d (vertical_env fun _ => 0) 0 [0, 1000, 10000] [1000, 900, 300] 6378000 3000 0 0
        0 1 0 = .error .assertion := by
  refine ⟨by decide!, by decide!, by decide!⟩

/-- Counterexample to C9 as stated: the grid `0, 5000, -1000, 10000` is not
increasing but passes every assertion of `los_1d_geom`; for the upward
observation (`za = 0`) from `z_plat = 0` the returned path is not empty and
its first altitude is `-1000`, not `z_plat`. -/
theorem los_1d_geom_unsorted_grid_first_point :
    (los_1d_geom (vertical_env fun _ => 0) 0 [0, 5000, -1000, 10000] 6378000 5000 0 0).map
        (fun g => (g.ground, g.z_tan, g.z, g.z.head?))
      = .ok ((0 : ℤ), (9999000 : ℚ), ([-1000, 8000 / 3, 19000 / 3, 10000] : List ℚ),
          some (-1000 : ℚ)) ∧
    (-1000 : ℚ) ≠ 0 := by
  refine ⟨by decide!, by norm_num⟩

/-- Witness for C9 (as amended): straight down from 1250 m onto the ground at
500 m; the path starts on the ground. -/
theorem los_1d_geom_lowest_point_witness :
    los_1d_geom (vertical_env fun _ => 0) 500 [0, 1000, 2000] 6378000 500 1250 180
      = .ok { z_tan := -6378000, nz := 5, z := [500, 1000, 1250, 1625, 2000],
              ip_z := [1 / 2, 1, 5 / 4, 13 / 8, 2], lat := [0, 0, 0, 0, 0],
              l_step := [500, 250, 375, 375], ground := 1 } ∧
    ([500, 1000, 1250, 1625, 2000] : List ℚ)[0]? = some (500 : ℚ) := by
  have h : los_1d_geom (vertical_env fun _ => 0) 500 [0, 1000, 2000] 6378000 500 1250 180
      = .ok { z_tan := -6378000, nz := 5, z := [500, 1000, 1250, 1625, 2000],
              ip_z := [1 / 2, 1, 5 / 4, 13 / 8, 2], lat := [0, 0, 0, 0, 0],
              l_step := [500, 250, 375, 375], ground := 1 } := by decide!
  have hw := (los_1d_geom_lowest_point (vertical_env fun _ => 0) 500 [0, 1000, 2000] 6378000
    500 1250 180 2000 _ h (by decide!)).2.2 (by decide!) (by decide!)
    (lengths_increase_of_vertical _ _ _ (by decide!) (by decide!) (by decide!)
      (fun x hx => sqrt_exact_sq x hx) (by decide!)) (by decide)
  have hz1 : (lowest_point (vertical_env fun _ => 0) 500 2000 6378000 1250 180).z1 = 500 := by
    decide!
  rw [hz1] at hw
  exact ⟨h, hw⟩

end GeometryExamples

section StopIndexClaims

variable {α : Type} [LinearOrderedField α] [FloorRing α]

/-- The top of the grid as read by `last2`. -/
theorem last2_eq_top (z_abs : List α) (z_top v : α)
    (htop : z_abs[z_abs.length - 1]? = some z_top) (h : last2 z_abs = .ok v) : v = z_top := by
  unfold last2 at h
  rw [vget_ok_iff] at h
  have hidx : ((z_abs.length : ℤ) - 1).toNat = z_abs.length - 1 := by omega
  rw [hidx, htop] at h
  exact (Option.some.inj h.2).symm

/-- C11: after a returning call of `los_1d`, with `z_top` the last altitude
of the grid: for an upward observation (`za <= 90`) `i_start = np - 1` and
`i_stop = 0`; for a downward observation from below the top of the grid
(`za > 90`, `z_plat < z_top`) the search has ended inside the path and
`i_stop` is the first index with `z[i_stop] = z_plat`; for a downward
observation from the top of the grid or above, `i_stop = np - 1`.  Whenever
the background is not set to the surface (no ground intersection, or
`blackbody_ground = 0`), `i_start = np - 1`. -/
theorem los_1d_start_stop (env : Env α) (z_ground : α) (z_abs p_abs : List α)
    (r_geoid l_max z_plat za : α) (refr_on bb sc : ℤ) (los : LOS α) (z_tan z_top : α)
    (h : los_1d env z_ground z_abs p_abs r_geoid l_max z_plat za refr_on bb sc
      = .ok (los, z_tan))
    (htop : z_abs[z_abs.length - 1]? = some z_top) :
    (za ≤ 90 → los.i_start = los.np - 1 ∧ los.i_stop = 0) ∧
    (90 < za → z_plat < z_top →
      ∃ k : ℕ, los.i_stop = k ∧ k < los.z.length ∧ los.z[k]? = some z_plat ∧
        ∀ j : ℕ, j < k → los.z[j]? ≠ some z_plat) ∧
    (90 < za → z_top ≤ z_plat → los.i_stop = los.np - 1) ∧
    ((los.ground = 0 ∨ bb = 0) → los.i_start = los.np - 1) := by
  obtain ⟨_, _, g, i_stop, los1, p0, p, hg, hi, hl, _, _, hlos, _⟩ :=
    los_1d_ok env z_ground z_abs p_abs r_geoid l_max z_plat za refr_on bb sc los z_tan h
  obtain ⟨f1, _, _⟩ := los_1d_geom_flags env z_ground z_abs env.EARTH_RADIUS l_max z_plat
    za z_top g hg htop
  obtain ⟨t1, t2, t3⟩ := truncate_at_ground_ok _ los1 bb hl
  simp only at t1 t2 t3
  subst hlos
  simp only
  -- without a surface background nothing is changed
  have hkeep : (los1.ground = 0 ∨ bb = 0) → los1.i_start = los1.np - 1 := by
    intro h0
    rcases t3 with ⟨c1, c2, _⟩ | ⟨_, rfl⟩
    · rcases h0 with h0 | h0
      · exact absurd (t1 ▸ h0) c1
      · exact absurd h0 c2
    · rfl
  refine ⟨?_, ?_, ?_, hkeep⟩
  · intro hza
    have hgr : los1.ground = 0 := by
      rw [t1, f1]
      rcases lowest_point_cases env z_ground z_top env.EARTH_RADIUS z_plat za with c | c
      · exact c.2.1
      · exact absurd hza (not_le.mpr c.1)
    refine ⟨hkeep (Or.inl hgr), ?_⟩
    rw [t2]
    rcases find_i_stop_ok z_abs z_plat za g.nz g.z i_stop hi with ⟨_, e⟩ | ⟨c, _⟩
    · exact e
    · exact absurd hza (not_le.mpr c)
  · intro hza hpt
    rcases find_i_stop_ok z_abs z_plat za g.nz g.z i_stop hi with ⟨c, _⟩ |
      ⟨_, v, hv, ⟨_, i, hfi, hie⟩ | ⟨hge, _⟩⟩
    · exact absurd hza (not_lt.mpr c)
    · obtain ⟨_, hilt, hiz, hfirst⟩ := find_stop_ok z_plat g.z 0 i hfi
      simp only [Nat.sub_zero] at hilt hiz hfirst
      refine ⟨i, by rw [t2, hie], ?_⟩
      rcases t3 with ⟨_, _, _, _, ⟨_, _, _, _, hz, _⟩ | ⟨_, _, hz, _⟩⟩ | ⟨_, rfl⟩
      · have htk : (i_stop + 1).toNat = i + 1 := by rw [hie]; omega
        rw [hz, htk]
        refine ⟨by rw [List.length_take]; omega, ?_, ?_⟩
        · rw [List.getElem?_take_of_lt (by omega)]
          exact hiz
        · intro j hj
          rw [List.getElem?_take_of_lt (by omega)]
          exact hfirst j hj
      · rw [hz]
        exact ⟨hilt, hiz, hfirst⟩
      · exact ⟨hilt, hiz, hfirst⟩
    · rw [last2_eq_top z_abs z_top v htop hv] at hge
      exact absurd hpt (not_lt.mpr hge)
  · intro hza hpt
    rw [t2]
    rcases find_i_stop_ok z_abs z_plat za g.nz g.z i_stop hi with ⟨c, _⟩ |
      ⟨_, v, hv, ⟨hlt, _⟩ | ⟨_, e⟩⟩
    · exact absurd hza (not_lt.mpr c)
    · rw [last2_eq_top z_abs z_top v htop hv] at hlt
      exact absurd hlt (not_lt.mpr hpt)
    · rw [e]
      rcases t3 with ⟨_, _, _, _, ⟨c1, _⟩ | ⟨_, hnp, _⟩⟩ | ⟨_, rfl⟩
      · rw [e] at c1
        exact absurd c1 (lt_irrefl _)
      · rw [hnp]
      · rfl

end StopIndexClaims

section StopIndexExamples

/-- Witness for C11: a straight-down view from 1500 m, inside a grid that
ends at 2000 m, onto a ground that is not a blackbody: the path has four
points and the stop index is that of the point at 1500 m. -/
theorem los_1d_start_stop_witness :
    (los_1d (vertical_env fun _ => 0) 500 [0, 1000, 2000] [1, 1 / 2, 0] 6378000 500 1500 180
        0 0 0).map (fun r => (r.1.np, r.1.i_start, r.1.i_stop, r.1.z))
      = .ok (4, 3, 2, [500, 1000, 1500, 2000]) ∧
    (∃ k : ℕ, (2 : ℤ) = k ∧ k < ([500, 1000, 1500, 2000] : List ℚ).length ∧
      ([500, 1000, 1500, 2000] : List ℚ)[k]? = some 1500 ∧
      ∀ j : ℕ, j < k → ([500, 1000, 1500, 2000] : List ℚ)[j]? ≠ some 1500) ∧
    (3 : ℤ) = 4 - 1 := by
  have h : los_1d (vertical_env fun _ => 0) 500 [0, 1000, 2000] [1, 1 / 2, 0] 6378000 500 1500
      180 0 0 0 = .ok (
        { dim := 1, np := 4, i_start := 3, i_stop := 2, p := [3 / 4, 1 / 2, 1 / 4, 0],
          z := [500, 1000, 1500, 2000], ip_p := [1 / 2, 1, 3 / 2, 2], lat := [0, 0, 0, 0],
          ip_lat := [], lon := [], ip_lon := [], l_step := [500, 500, 500], background := 0,
          ground := 1, i_ground := 0 }, -6378000) := by decide!
  have hc := los_1d_start_stop _ _ _ _ _ _ _ _ _ _ _ _ _ 2000 h rfl
  exact ⟨by decide!, hc.2.1 (by norm_num) (by norm_num), hc.2.2.2 (Or.inr rfl)⟩

end StopIndexExamples

section OutsideAtmosphere

variable {α : Type} [LinearOrderedField α] [FloorRing α]

/-- The call of `los_1d_geom` for a lowest point at or above the top of the
grid, on an input that passes the assertions. -/
theorem los_1d_geom_outside (env : Env α) (z_ground : α) (z_abs : List α)
    (r_geoid l_max z_plat za z_first z_max : α)
    (hfirst : z_abs[0]? = some z_first) (hmaxz : z_abs[z_abs.length - 1]? = some z_max)
    (h1 : z_first ≤ z_ground) (h2 : z_ground < z_max) (h3 : 1 < z_abs.length)
    (h4 : 0 < l_max) (h5 : z_ground ≤ z_plat) (h6 : 0 ≤ za) (h7 : za ≤ 180)
    (hout : z_max ≤ (lowest_point env z_ground z_max r_geoid z_plat za).z1) :
    los_1d_geom env z_ground z_abs r_geoid l_max z_plat za =
      .ok { z_tan := (lowest_point env z_ground z_max r_geoid z_plat za).z_tan, nz := 0,
            z := [], ip_z := [], lat := [], l_step := [],
            ground := (lowest_point env z_ground z_max r_geoid z_plat za).ground } := by
  have e1 : vget z_abs 0 = .ok z_first := (vget_ok_iff _ _ _).mpr ⟨le_refl _, hfirst⟩
  have hidx : ((z_abs.length : ℤ) - 1).toNat = z_abs.length - 1 := by omega
  have e2 : vget z_abs ((z_abs.length : ℤ) - 1) = .ok z_max :=
    (vget_ok_iff _ _ _).mpr ⟨by omega, by rw [hidx]; exact hmaxz⟩
  unfold los_1d_geom last2
  simp only [e1, e2, assert, bind, Except.bind, ge_iff_le, gt_iff_lt, h1, h2, h3, h4, h5, h6,
    h7, hout, if_true, pure, Except.pure]

/-- The ground flag of a lowest point at or above the top of the grid is `0`,
and a downward observation with such a lowest point starts at or above the
top of the grid when the sine is at most `1` and the platform is not below
the centre of the geoid. -/
theorem lowest_point_outside (env : Env α) (z_ground z_max r_geoid z_plat za : α)
    (h2 : z_ground < z_max)
    (hout : z_max ≤ (lowest_point env z_ground z_max r_geoid z_plat za).z1) :
    (lowest_point env z_ground z_max r_geoid z_plat za).ground = 0 ∧
    (90 < za → env.sin (env.DEG2RAD * za) ≤ 1 → 0 ≤ r_geoid + z_plat → z_max ≤ z_plat) := by
  rcases lowest_point_cases env z_ground z_max r_geoid z_plat za with
    ⟨c0, c1, _, _, _⟩ | ⟨c0, _, _, ⟨_, c1, c2⟩ | ⟨_, _, c2⟩⟩
  · exact ⟨c1, fun hza => absurd hza (not_lt.mpr c0)⟩
  · refine ⟨c1, fun _ hsin hR => ?_⟩
    rw [c2] at hout
    have : (r_geoid + z_plat) * env.sin (env.DEG2RAD * za) ≤ (r_geoid + z_plat) * 1 :=
      mul_le_mul_of_nonneg_left hsin hR
    linarith
  · rw [c2] at hout
    exact absurd h2 (not_lt.mpr hout)

/-- The search for the stop index (los.cc 554-555) on an empty path: a downward
observation from below the top of the grid reads `los.z[0]`, which does not
exist. -/
theorem find_i_stop_empty (z_abs : List α) (z_plat za z_max : α) (np : ℤ)
    (h3 : 1 < z_abs.length) (hmaxz : z_abs[z_abs.length - 1]? = some z_max)
    (hza : 90 < za) (hpl : z_plat < z_max) :
    find_i_stop z_abs z_plat za np ([] : List α) = .error .range := by
  have hidx : ((z_abs.length : ℤ) - 1).toNat = z_abs.length - 1 := by omega
  have e2 : last2 z_abs = .ok z_max :=
    (vget_ok_iff _ _ _).mpr ⟨by omega, by rw [hidx]; exact hmaxz⟩
  unfold find_i_stop
  have hza' : za > 90 := hza
  simp only [hza', e2, if_true, bind, Except.bind, hpl, find_stop]

/-- The empty path in `los_1d`, on an input that passes the assertions of
`los_1d_geom` (`z_abs[0] <= z_ground < z_max`, more than one level,
`l_max > 0`, `z_plat >= z_ground`, `0 <= za <= 180`) and whose lowest point,
taken with `EARTH_RADIUS`, is at or above the top `z_max` of the grid: for an
upward observation, or a platform at or above the top of the grid, `los_1d`
(refraction and scattering off) returns with `np = 0`, empty vectors and an
empty pressure vector `p`. -/
theorem los_1d_empty_path_returns (env : Env α) (z_ground : α) (z_abs p_abs : List α)
    (r_geoid l_max z_plat za z_first z_max : α) (bb : ℤ)
    (hfirst : z_abs[0]? = some z_first) (hmaxz : z_abs[z_abs.length - 1]? = some z_max)
    (h1 : z_first ≤ z_ground) (h2 : z_ground < z_max) (h3 : 1 < z_abs.length)
    (h4 : 0 < l_max) (h5 : z_ground ≤ z_plat) (h6 : 0 ≤ za) (h7 : za ≤ 180)
    (hcase : za ≤ 90 ∨ z_max ≤ z_plat)
    (hout : z_max ≤ (lowest_point env z_ground z_max env.EARTH_RADIUS z_plat za).z1) :
    ∃ (los : LOS α) (z_tan : α),
      los_1d env z_ground z_abs p_abs r_geoid l_max z_plat za 0 bb 0 = .ok (los, z_tan) ∧
      los.np = 0 ∧ los.p = [] ∧ los.z = [] ∧ los.ip_p = [] ∧ los.lat = [] ∧
      los.l_step = [] ∧ los.ground = 0 ∧ los.background = 0 := by
  have hg := los_1d_geom_outside env z_ground z_abs env.EARTH_RADIUS l_max z_plat za
    z_first z_max hfirst hmaxz h1 h2 h3 h4 h5 h6 h7 hout
  obtain ⟨hgr, _⟩ := lowest_point_outside env z_ground z_max env.EARTH_RADIUS z_plat za h2 hout
  have hidx : ((z_abs.length : ℤ) - 1).toNat = z_abs.length - 1 := by omega
  have e2 : last2 z_abs = .ok z_max :=
    (vget_ok_iff _ _ _).mpr ⟨by omega, by rw [hidx]; exact hmaxz⟩
  have hstop : find_i_stop z_abs z_plat za 0 ([] : List α) =
      .ok (if za ≤ 90 then 0 else 0 - 1) := by
    unfold find_i_stop
    by_cases hza : za > 90
    · have hnp : ¬ z_plat < z_max := by
        rcases hcase with hc | hc
        · exact absurd hza (not_lt.mpr hc)
        · exact not_lt.mpr hc
      simp only [hza, e2, if_true, bind, Except.bind, hnp, if_false, pure, Except.pure]
    · simp only [hza, if_false, pure, Except.pure]
  have hw : get_interp_weights (List.replicate 0 (0 : ℤ)) (List.replicate 0 (0 : α)) p_abs
      ([] : List α) = .ok ([], []) := by
    simp [get_interp_weights, interp_weights_loop]
  have hp : interp_1D ([] : List α) p_abs ([] : List α) = .ok [] := by
    unfold interp_1D
    simp only [List.length_nil, not_true_eq_false, if_false, hw, interp_loop]
  have hv : vnew env 0 = .ok ([] : List α) := by simp [vnew]
  refine ⟨{ dim := 1, np := 0, i_start := 0 - 1, i_stop := if za ≤ 90 then 0 else 0 - 1,
            p := [], z := [], ip_p := [], lat := [], ip_lat := [], lon := [], ip_lon := [],
            l_step := [], background := 0, ground := 0, i_ground := 0 },
    (lowest_point env z_ground z_max env.EARTH_RADIUS z_plat za).z_tan, ?_,
    rfl, rfl, rfl, rfl, rfl, rfl, rfl, rfl⟩
  unfold los_1d
  simp only [ne_eq, not_true_eq_false, if_false, hg, bind, Except.bind, hstop,
    truncate_at_ground, hgr, false_and, pure, Except.pure, hv, hp]

/-- The empty path in `los_1d`, for a downward observation from below the top
of the grid: on an input that passes the assertions of `los_1d_geom` and whose
lowest point, taken with `EARTH_RADIUS`, is at or above the top `z_max` of the
grid, `los_1d_geom` returns the empty path and `los_1d` stops in the search
for the stop index, whatever the flags for the ground and for scattering. -/
theorem los_1d_empty_path_fails (env : Env α) (z_ground : α) (z_abs p_abs : List α)
    (r_geoid l_max z_plat za z_first z_max : α) (bb sc : ℤ)
    (hfirst : z_abs[0]? = some z_first) (hmaxz : z_abs[z_abs.length - 1]? = some z_max)
    (h1 : z_first ≤ z_ground) (h2 : z_ground < z_max) (h3 : 1 < z_abs.length)
    (h4 : 0 < l_max) (h5 : z_ground ≤ z_plat) (h6 : 0 ≤ za) (h7 : za ≤ 180)
    (hza : 90 < za) (hpl : z_plat < z_max)
    (hout : z_max ≤ (lowest_point env z_ground z_max env.EARTH_RADIUS z_plat za).z1) :
    los_1d env z_ground z_abs p_abs r_geoid l_max z_plat za 0 bb sc = .error .range := by
  have hg := los_1d_geom_outside env z_ground z_abs env.EARTH_RADIUS l_max z_plat za
    z_first z_max hfirst hmaxz h1 h2 h3 h4 h5 h6 h7 hout
  have hstop := find_i_stop_empty z_abs z_plat za z_max 0 h3 hmaxz hza hpl
  unfold los_1d
  simp only [ne_eq, not_true_eq_false, if_false, hg, bind, Except.bind, hstop]

end OutsideAtmosphere
section OutsideAtmosphereExamples

/-- An upward view from 3000 m above a grid that ends at 2000 m: the path is
empty and `los_1d` returns it. -/
theorem los_1d_empty_path_returns_example :
    ∃ (los : LOS ℚ) (z_tan : ℚ),
      los_1d (vertical_env fun _ => 0) 500 [0, 1000, 2000] [1, 1 / 2, 0] 6378000 500 3000 0
        0 1 0 = .ok (los, z_tan) ∧
      los.np = 0 ∧ los.p = [] ∧ los.z = [] ∧ los.ip_p = [] ∧ los.lat = [] ∧
      los.l_step = [] ∧ los.ground = 0 ∧ los.background = 0 :=
  los_1d_empty_path_returns (vertical_env fun _ => 0) 500 [0, 1000, 2000]
    [1, 1 / 2, 0] 6378000 500 3000 0 0 2000 1 rfl rfl (by norm_num) (by norm_num)
    (by decide) (by norm_num) (by norm_num) (by norm_num) (by norm_num)
    (Or.inl (by norm_num)) (by decide!)

/-- C13, evaluated.  The example of the claim, an upward view from 3000 m
above a grid that ends at 2000 m, returns the empty path with an empty
pressure vector.  For the downward view (`za = 180`) from `z_plat = -6999500`,
below the top `-6999000` of the grid `-7000000, -6999000`, the tangent
altitude `-EARTH_RADIUS = -6378000` is the lowest point and lies above the
top of the grid: `los_1d_geom` returns `nz = 0` and empty vectors, and
`los_1d` does not return the empty pressure vector but stops in the search
`los.z[los.i_stop] != z_plat` (los.cc 555), which reads `los.z[0]` of the empty
vector, with and without a blackbody ground.  In the arithmetic of `double`
the same state is reached from inside the atmosphere: for `r_geoid = 6378000`,
`z_plat = 2000 - 2^-42` just below the top `2000` of a grid and the sine `1`
(the `double` sine of `DEG2RAD*90.0000001`), the tangent altitude of los.cc 360
is rounded to `2000`, the top of the grid. -/
theorem los_1d_search_on_empty_path :
    (los_1d (vertical_env fun _ => 0) 500 [0, 1000, 2000] [1, 1 / 2, 0] 6378000 500 3000 0
        0 0 0).map (fun r => (r.1.np, r.1.z, r.1.p)) = .ok (0, [], []) ∧
    los_1d_geom (vertical_env fun _ => 0) (-7000000) [-7000000, -6999000] 6378000 500
        (-6999500) 180
      = .ok { z_tan := -6378000, nz := 0, z := [], ip_z := [], lat := [], l_step := [],
              ground := 0 } ∧
    ((-6999500 : ℚ) < -6999000 ∧ (-6999000 : ℚ) ≤ -6378000) ∧
    los_1d (vertical_env fun _ => 0) (-7000000) [-7000000, -6999000] [1, 0] 6378000 500
        (-6999500) 180 0 0 0 = .error .range ∧
    los_1d (vertical_env fun _ => 0) (-7000000) [-7000000, -6999000] [1, 0] 6378000 500
        (-6999500) 180 0 1 0 = .error .range ∧
    ((2000 - 1 / 2 ^ 42 : ℚ) < 2000 ∧
      z_tan_rounded round_double 6378000 (2000 - 1 / 2 ^ 42) 1 = 2000) := by
  refine ⟨by decide!, by decide!, by norm_num, by decide!, by decide!, by norm_num, ?_⟩
  have e1 : round_double (6378000 + (2000 - 1 / 2 ^ 42)) = 6380000 := by
    rw [round_double_eq _ 22 (by norm_num [abs_of_pos]) (by norm_num [abs_of_pos])]
    have : round_half_even ((6378000 + (2000 - 1 / 2 ^ 42)) / 2 ^ ((22 : ℤ) - 52))
        = 6380000 * 2 ^ 30 := by decide!
    rw [this]
    norm_num
  have e2 : round_double (6380000 * 1) = 6380000 := by
    rw [round_double_eq _ 22 (by norm_num [abs_of_pos]) (by norm_num [abs_of_pos])]
    have : round_half_even ((6380000 * 1) / 2 ^ ((22 : ℤ) - 52)) = 6380000 * 2 ^ 30 := by
      decide!
    rw [this]
    norm_num
  have e3 : round_double (6380000 - 6378000) = 2000 := by
    rw [round_double_eq _ 10 (by norm_num [abs_of_pos]) (by norm_num [abs_of_pos])]
    have : round_half_even ((6380000 - 6378000) / 2 ^ ((10 : ℤ) - 52)) = 2000 * 2 ^ 42 := by
      decide!
    rw [this]
    norm_num
  rw [z_tan_rounded_eq, e1, e2, e3]

end OutsideAtmosphereExamples

section RuntimeErrors

variable {α : Type} [LinearOrderedField α] [FloorRing α]

theorem no_runtime_ok {β : Type} (a : β) : no_runtime_error (.ok a : Except Err β) := by
  intro msg h
  cases h

theorem no_runtime_assertion {β : Type} : no_runtime_error (.error .assertion : Except Err β) := by
  intro msg h
  cases h

theorem no_runtime_range {β : Type} : no_runtime_error (.error .range : Except Err β) := by
  intro msg h
  cases h

theorem no_runtime_error_type {β γ : Type} (e : Err)
    (h : no_runtime_error (.error e : Except Err β)) :
    no_runtime_error (.error e : Except Err γ) := by
  intro msg h2
  cases h2
  exact h msg rfl

theorem no_runtime_bind {β γ : Type} (x : Except Err β) (f : β → Except Err γ)
    (hx : no_runtime_error x) (hf : ∀ a, no_runtime_error (f a)) :
    no_runtime_error (x >>= f) := by
  cases x with
  | error e =>
    intro msg h
    have h2 : (Except.error e : Except Err γ) = .error (Err.runtime msg) := h
    exact hx msg (by cases h2; rfl)
  | ok a => exact hf a

theorem no_runtime_foldlM {σ ι : Type} (f : σ → ι → Except Err σ)
    (hf : ∀ s i, no_runtime_error (f s i)) :
    ∀ (l : List ι) (s : σ), no_runtime_error (l.foldlM f s) := by
  intro l
  induction l with
  | nil => intro s; exact no_runtime_ok s
  | cons i l ih =>
    intro s
    rw [List.foldlM_cons]
    exact no_runtime_bind _ _ (hf s i) (fun a => ih a)

theorem no_runtime_assert (c : Prop) [Decidable c] : no_runtime_error (assert c) := by
  unfold assert
  split_ifs
  · exact no_runtime_ok _
  · exact no_runtime_assertion

theorem no_runtime_vget (x : List α) (i : ℤ) : no_runtime_error (vget x i) := by
  unfold vget
  split_ifs
  · exact no_runtime_range
  · split
    · exact no_runtime_ok _
    · exact no_runtime_range

theorem no_runtime_vget_int (x : List ℤ) (i : ℤ) : no_runtime_error (vget x i) := by
  unfold vget
  split_ifs
  · exact no_runtime_range
  · split
    · exact no_runtime_ok _
    · exact no_runtime_range

theorem no_runtime_vset (x : List α) (i : ℤ) (v : α) : no_runtime_error (vset x i v) := by
  unfold vset
  split_ifs
  · exact no_runtime_range
  · exact no_runtime_ok _
  · exact no_runtime_range

theorem no_runtime_vnew (env : Env α) (n : ℤ) : no_runtime_error (vnew env n) := by
  unfold vnew
  split_ifs
  · exact no_runtime_range
  · exact no_runtime_ok _

theorem no_runtime_vrange (x : List α) (n : ℤ) : no_runtime_error (vrange x n) := by
  unfold vrange
  split_ifs
  · exact no_runtime_range
  · exact no_runtime_ok _
  · exact no_runtime_range

end RuntimeErrors

section RuntimeErrorsInterp

variable {α : Type} [LinearOrderedField α] [FloorRing α]

theorem no_runtime_interp_weight (n_y : ℤ) (q : α) : no_runtime_error (interp_weight n_y q) := by
  unfold interp_weight
  simp only
  split_ifs <;> first | exact no_runtime_ok _ | exact no_runtime_assertion

theorem no_runtime_interp_weights_loop (n_y : ℤ) :
    ∀ qs : List α, no_runtime_error (interp_weights_loop n_y qs) := by
  intro qs
  induction qs with
  | nil => exact no_runtime_ok _
  | cons q qs ih =>
    unfold interp_weights_loop
    have h1 := no_runtime_interp_weight n_y q
    cases h : interp_weight n_y q with
    | error e => rw [h] at h1; dsimp only; exact no_runtime_error_type e h1
    | ok r =>
      cases h2 : interp_weights_loop n_y qs with
      | error e => rw [h2] at ih; dsimp only; exact no_runtime_error_type e ih
      | ok r2 => dsimp only; exact no_runtime_ok _

theorem no_runtime_get_interp_weights (ii : List ℤ) (w y ip_x : List α) :
    no_runtime_error (get_interp_weights ii w y ip_x) := by
  unfold get_interp_weights
  split_ifs <;> first | exact no_runtime_assertion | exact no_runtime_interp_weights_loop _ _

theorem no_runtime_interp_value (yi : List α) (i : ℤ) (w : α) :
    no_runtime_error (interp_value yi i w) := by
  unfold interp_value
  split_ifs
  · exact no_runtime_vget _ _
  · have h1 := no_runtime_vget yi i
    have h2 := no_runtime_vget yi (i + 1)
    cases e1 : vget yi i with
    | error e =>
      rw [e1] at h1
      cases e2 : vget yi (i + 1) <;> dsimp only <;> exact no_runtime_error_type e h1
    | ok a =>
      cases e2 : vget yi (i + 1) with
      | error e => rw [e2] at h2; dsimp only; exact no_runtime_error_type e h2
      | ok b => dsimp only; exact no_runtime_ok _

theorem no_runtime_interp_loop (yi : List α) :
    ∀ (is : List ℤ) (ws : List α), no_runtime_error (interp_loop yi is ws) := by
  intro is
  induction is with
  | nil => intro ws; unfold interp_loop; exact no_runtime_ok _
  | cons i is ih =>
    intro ws
    cases ws with
    | nil => unfold interp_loop; exact no_runtime_ok _
    | cons w ws =>
      unfold interp_loop
      have h1 := no_runtime_interp_value yi i w
      cases e1 : interp_value yi i w with
      | error e => rw [e1] at h1; dsimp only; exact no_runtime_error_type e h1
      | ok v =>
        have h2 := ih ws
        cases e2 : interp_loop yi is ws with
        | error e => rw [e2] at h2; dsimp only; exact no_runtime_error_type e h2
        | ok vs => dsimp only; exact no_runtime_ok _

theorem no_runtime_interp_1D (y yi ip_x : List α) : no_runtime_error (interp_1D y yi ip_x) := by
  unfold interp_1D
  split_ifs
  · have h1 := no_runtime_get_interp_weights (List.replicate ip_x.length (0 : ℤ))
      (List.replicate ip_x.length (0 : α)) yi ip_x
    cases e1 : get_interp_weights (List.replicate ip_x.length (0 : ℤ))
      (List.replicate ip_x.length (0 : α)) yi ip_x with
    | error e => rw [e1] at h1; dsimp only; exact no_runtime_error_type e h1
    | ok r => dsimp only; exact no_runtime_interp_loop _ _ _
  · exact no_runtime_assertion

end RuntimeErrorsInterp

section RuntimeErrorsGeometry

variable {α : Type} [LinearOrderedField α] [FloorRing α]

theorem no_runtime_find_above (z1 : α) :
    ∀ (l : List α) (i : ℕ), no_runtime_error (find_above z1 l i) := by
  intro l
  induction l with
  | nil => intro i; unfold find_above; exact no_runtime_range
  | cons v vs ih =>
    intro i
    unfold find_above
    split_ifs
    · exact ih _
    · exact no_runtime_ok _

theorem no_runtime_copy_special (z_special : List α) (bound : α) :
    ∀ (k : ℕ) (st : Merge α), no_runtime_error (copy_special z_special bound k st) := by
  intro k
  induction k with
  | zero => intro st; unfold copy_special; exact no_runtime_range
  | succ k ih =>
    intro st
    unfold copy_special
    have h1 := no_runtime_vget z_special st.i2
    cases e1 : vget z_special st.i2 with
    | error e => rw [e1] at h1; dsimp only; exact no_runtime_error_type e h1
    | ok s =>
      dsimp only
      split_ifs
      · have h2 := no_runtime_vget st.zs st.n_zs
        cases e2 : vget st.zs st.n_zs with
        | error e => rw [e2] at h2; dsimp only; exact no_runtime_error_type e h2
        | ok cur =>
          dsimp only
          split_ifs <;> exact ih _
      · exact no_runtime_ok _

theorem no_runtime_merge_levels (z_special : List α) :
    ∀ (l : List α) (st : Merge α), no_runtime_error (merge_levels z_special l st) := by
  intro l
  induction l with
  | nil => intro st; unfold merge_levels; exact no_runtime_ok _
  | cons g gs ih =>
    intro st
    unfold merge_levels
    have h1 := no_runtime_copy_special z_special g (z_special.length + 1) st
    cases e1 : copy_special z_special g (z_special.length + 1) st with
    | error e => rw [e1] at h1; dsimp only; exact no_runtime_error_type e h1
    | ok st1 =>
      dsimp only
      have h2 := no_runtime_vget st1.zs st1.n_zs
      cases e2 : vget st1.zs st1.n_zs with
      | error e => rw [e2] at h2; dsimp only; exact no_runtime_error_type e h2
      | ok cur =>
        dsimp only
        split_ifs <;> exact ih _

theorem no_runtime_put_point (env : Env α) (z_abs : List α) (r_geoid lat0 a b c z_lo l_lo dl : α)
    (st : Fill α) (i2 : ℕ) :
    no_runtime_error (put_point env z_abs r_geoid lat0 a b c z_lo l_lo dl st i2) := by
  unfold put_point
  repeat first
    | exact no_runtime_ok _
    | exact no_runtime_vget _ _
    | exact no_runtime_vset _ _ _
    | apply no_runtime_bind
    | intro _

theorem no_runtime_put_segment (env : Env α) (z_abs : List α) (r_geoid lat0 a b c : α)
    (zs ls : List α) (ns : List ℤ) (st : Fill α) (i1 : ℕ) :
    no_runtime_error (put_segment env z_abs r_geoid lat0 a b c zs ls ns st i1) := by
  unfold put_segment
  repeat first
    | exact no_runtime_ok _
    | exact no_runtime_vget _ _
    | exact no_runtime_vget_int _ _
    | exact no_runtime_foldlM _ (fun s i => no_runtime_put_point _ _ _ _ _ _ _ _ _ _ s i) _ _
    | apply no_runtime_bind
    | intro _

theorem no_runtime_break_points (env : Env α) (z_abs : List α) (z_plat z_max : α)
    (lp : Lowest α) : no_runtime_error (break_points env z_abs z_plat z_max lp) := by
  unfold break_points
  repeat first
    | exact no_runtime_ok _
    | exact no_runtime_find_above _ _ _
    | exact no_runtime_vnew _ _
    | exact no_runtime_vset _ _ _
    | exact no_runtime_merge_levels _ _ _
    | apply no_runtime_bind
    | intro _

theorem no_runtime_path_points (env : Env α) (z_abs : List α) (r_geoid lat0 a b c : α)
    (zs ls : List α) (ns : List ℤ) (n_zs i_above : ℕ) :
    no_runtime_error (path_points env z_abs r_geoid lat0 a b c zs ls ns n_zs i_above) := by
  unfold path_points
  repeat first
    | exact no_runtime_ok _
    | exact no_runtime_vget _ _
    | exact no_runtime_vnew _ _
    | exact no_runtime_vset _ _ _
    | exact no_runtime_foldlM _ (fun s i => no_runtime_put_segment _ _ _ _ _ _ _ _ _ _ s i) _ _
    | apply no_runtime_bind
    | intro _

theorem no_runtime_path_of_break_points (env : Env α) (z_abs : List α) (r_geoid l_max : α)
    (lp : Lowest α) (i_above : ℕ) (m : Merge α) :
    no_runtime_error (path_of_break_points env z_abs r_geoid l_max lp i_above m) := by
  unfold path_of_break_points
  dsimp only
  split
  · rename_i e he
    refine @no_runtime_error_type (Fill α) (Geom α) e ?_
    rw [← he]
    exact no_runtime_path_points _ _ _ _ _ _ _ _ _ _ _ _
  · exact no_runtime_ok _

theorem no_runtime_los_1d_geom (env : Env α) (z_ground : α) (z_abs : List α)
    (r_geoid l_max z_plat za : α) :
    no_runtime_error (los_1d_geom env z_ground z_abs r_geoid l_max z_plat za) := by
  unfold los_1d_geom last2
  refine no_runtime_bind _ _ (no_runtime_vget _ _) (fun z_first => ?_)
  refine no_runtime_bind _ _ (no_runtime_assert _) (fun _ => ?_)
  refine no_runtime_bind _ _ (no_runtime_vget _ _) (fun z_last => ?_)
  refine no_runtime_bind _ _ (no_runtime_assert _) (fun _ => ?_)
  refine no_runtime_bind _ _ (no_runtime_assert _) (fun _ => ?_)
  refine no_runtime_bind _ _ (no_runtime_assert _) (fun _ => ?_)
  refine no_runtime_bind _ _ (no_runtime_assert _) (fun _ => ?_)
  refine no_runtime_bind _ _ (no_runtime_assert _) (fun _ => ?_)
  refine no_runtime_bind _ _ (no_runtime_assert _) (fun _ => ?_)
  refine no_runtime_bind _ _ (no_runtime_vget _ _) (fun z_max => ?_)
  dsimp only
  split_ifs
  · exact no_runtime_ok _
  · exact no_runtime_bind _ _ (no_runtime_break_points _ _ _ _ _)
      (fun bp => no_runtime_path_of_break_points _ _ _ _ _ _ _)

theorem no_runtime_find_stop (z_plat : α) :
    ∀ (l : List α) (i : ℕ), no_runtime_error (find_stop z_plat l i) := by
  intro l
  induction l with
  | nil => intro i; unfold find_stop; exact no_runtime_range
  | cons v vs ih =>
    intro i
    unfold find_stop
    split_ifs
    · exact ih _
    · exact no_runtime_ok _

theorem no_runtime_find_i_stop (z_abs : List α) (z_plat za : α) (np : ℤ) (z : List α) :
    no_runtime_error (find_i_stop z_abs z_plat za np z) := by
  unfold find_i_stop last2
  by_cases hza : za > 90
  · rw [if_pos hza]
    refine no_runtime_bind _ _ (no_runtime_vget _ _) (fun z_top => ?_)
    by_cases hp : z_plat < z_top
    · rw [if_pos hp]
      exact no_runtime_bind _ _ (no_runtime_find_stop _ _ _) (fun i => no_runtime_ok _)
    · rw [if_neg hp]
      exact no_runtime_ok _
  · rw [if_neg hza]
    exact no_runtime_ok _

theorem no_runtime_truncate_at_ground (los : LOS α) (bb : ℤ) :
    no_runtime_error (truncate_at_ground los bb) := by
  unfold truncate_at_ground
  split_ifs
  · repeat first
      | exact no_runtime_ok _
      | exact no_runtime_vrange _ _
      | apply no_runtime_bind
      | intro _
  · exact no_runtime_ok _
  · exact no_runtime_ok _

end RuntimeErrorsGeometry

section UnsupportedClaims

variable {α : Type} [LinearOrderedField α] [FloorRing α]

/-- An error that is not a `runtime_error` is an assertion or a range error. -/
theorem error_kind_of_no_runtime {β : Type} (e : Err)
    (h : no_runtime_error (.error e : Except Err β)) : e = .assertion ∨ e = .range := by
  cases e with
  | assertion => exact Or.inl rfl
  | range => exact Or.inr rfl
  | runtime msg => exact absurd rfl (h msg)

/-- C14 (as amended): with `refr_on != 0` every call of `los_1d` ends with the
runtime error on refraction.  With `refr_on = 0` and `scattering_on != 0` no
call returns a path; the call ends with the runtime error on scattering when
the geometry before it (`los_1d_geom`, the search for `i_stop`, the treatment
of a blackbody ground) has returned, and with the assertion or range error of
that geometry when it has not.  With both flags `0` no call ends with a
runtime error. -/
theorem los_1d_unsupported (env : Env α) (z_ground : α) (z_abs p_abs : List α)
    (r_geoid l_max z_plat za : α) (refr_on bb sc : ℤ) :
    (refr_on ≠ 0 →
      los_1d env z_ground z_abs p_abs r_geoid l_max z_plat za refr_on bb sc =
        .error (Err.runtime "1D LOS calculations with refraction not yet implemented")) ∧
    (refr_on = 0 → sc ≠ 0 →
      (∀ r, los_1d env z_ground z_abs p_abs r_geoid l_max z_plat za refr_on bb sc ≠ .ok r) ∧
      ((∃ (g : Geom α) (i_stop : ℤ) (los1 : LOS α),
          los_1d_geom env z_ground z_abs env.EARTH_RADIUS l_max z_plat za = .ok g ∧
          find_i_stop z_abs z_plat za g.nz g.z = .ok i_stop ∧
          truncate_at_ground
            { dim := 1, np := g.nz, i_start := g.nz - 1, i_stop := i_stop, p := [], z := g.z,
              ip_p := g.ip_z, lat := g.lat, ip_lat := [], lon := [], ip_lon := [],
              l_step := g.l_step, background := 0, ground := g.ground, i_ground := 0 } bb
            = .ok los1) →
        los_1d env z_ground z_abs p_abs r_geoid l_max z_plat za refr_on bb sc =
          .error (Err.runtime "1D LOS calculations with scattering not yet implemented")) ∧
      ((¬ ∃ (g : Geom α) (i_stop : ℤ) (los1 : LOS α),
          los_1d_geom env z_ground z_abs env.EARTH_RADIUS l_max z_plat za = .ok g ∧
          find_i_stop z_abs z_plat za g.nz g.z = .ok i_stop ∧
          truncate_at_ground
            { dim := 1, np := g.nz, i_start := g.nz - 1, i_stop := i_stop, p := [], z := g.z,
              ip_p := g.ip_z, lat := g.lat, ip_lat := [], lon := [], ip_lon := [],
              l_step := g.l_step, background := 0, ground := g.ground, i_ground := 0 } bb
            = .ok los1) →
        ∃ e, los_1d env z_ground z_abs p_abs r_geoid l_max z_plat za refr_on bb sc = .error e ∧
          (e = .assertion ∨ e = .range))) ∧
    (refr_on = 0 → sc = 0 →
      no_runtime_error
        (los_1d env z_ground z_abs p_abs r_geoid l_max z_plat za refr_on bb sc)) := by
  refine ⟨fun h => ?_, fun h hsc => ?_, fun h hsc => ?_⟩
  · unfold los_1d
    rw [if_pos h]
  · subst h
    have hs : los_1d env z_ground z_abs p_abs r_geoid l_max z_plat za 0 bb sc =
        (los_1d_geom env z_ground z_abs env.EARTH_RADIUS l_max z_plat za >>= fun g =>
          find_i_stop z_abs z_plat za g.nz g.z >>= fun i_stop =>
          truncate_at_ground
            { dim := 1, np := g.nz, i_start := g.nz - 1, i_stop := i_stop, p := [], z := g.z,
              ip_p := g.ip_z, lat := g.lat, ip_lat := [], lon := [], ip_lon := [],
              l_step := g.l_step, background := 0, ground := g.ground, i_ground := 0 } bb
          >>= fun _ => (.error (Err.runtime
            "1D LOS calculations with scattering not yet implemented") :
              Except Err (LOS α × α))) := by
      unfold los_1d
      simp only [ne_eq, not_true_eq_false, if_false, hsc, not_false_eq_true, if_true]
    rw [hs]
    have hg := no_runtime_los_1d_geom env z_ground z_abs env.EARTH_RADIUS l_max z_plat za
    cases eg : los_1d_geom env z_ground z_abs env.EARTH_RADIUS l_max z_plat za with
    | error e =>
      rw [eg] at hg
      refine ⟨?_, ?_, fun _ => ⟨e, rfl, error_kind_of_no_runtime e hg⟩⟩
      · intro r hr
        cases hr
      · rintro ⟨g, _, _, c, _⟩
        cases c
    | ok g =>
      have hi := no_runtime_find_i_stop z_abs z_plat za g.nz g.z
      cases ei : find_i_stop z_abs z_plat za g.nz g.z with
      | error e =>
        rw [ei] at hi
        refine ⟨?_, ?_, fun _ =>
          ⟨e, by simp only [bind, Except.bind, ei], error_kind_of_no_runtime e hi⟩⟩
        · intro r hr
          simp only [bind, Except.bind, ei] at hr
          cases hr
        · rintro ⟨g', i', l', c1, c2, _⟩
          cases c1
          rw [ei] at c2
          cases c2
      | ok i_stop =>
        have ht := no_runtime_truncate_at_ground
          ({ dim := 1, np := g.nz, i_start := g.nz - 1, i_stop := i_stop, p := [], z := g.z,
             ip_p := g.ip_z, lat := g.lat, ip_lat := [], lon := [], ip_lon := [],
             l_step := g.l_step, background := 0, ground := g.ground, i_ground := 0 } : LOS α) bb
        cases et : truncate_at_ground
          ({ dim := 1, np := g.nz, i_start := g.nz - 1, i_stop := i_stop, p := [], z := g.z,
             ip_p := g.ip_z, lat := g.lat, ip_lat := [], lon := [], ip_lon := [],
             l_step := g.l_step, background := 0, ground := g.ground, i_ground := 0 } : LOS α)
          bb with
        | error e =>
          rw [et] at ht
          refine ⟨?_, ?_, fun _ =>
            ⟨e, by simp only [bind, Except.bind, ei, et], error_kind_of_no_runtime e ht⟩⟩
          · intro r hr
            simp only [bind, Except.bind, ei, et] at hr
            cases hr
          · rintro ⟨g', i', l', c1, c2, c3⟩
            cases c1
            rw [ei] at c2
            cases c2
            rw [et] at c3
            cases c3
        | ok los1 =>
          refine ⟨?_, ?_, fun hn => absurd ⟨g, i_stop, los1, rfl, ei, et⟩ hn⟩
          · intro r hr
            simp only [bind, Except.bind, ei, et] at hr
            cases hr
          · intro _
            simp only [bind, Except.bind, ei, et]
  · subst h
    subst hsc
    unfold los_1d
    simp only [ne_eq, not_true_eq_false, if_false]
    refine no_runtime_bind _ _ (no_runtime_los_1d_geom _ _ _ _ _ _ _) (fun g => ?_)
    refine no_runtime_bind _ _ (no_runtime_find_i_stop _ _ _ _ _) (fun i => ?_)
    refine no_runtime_bind _ _ (no_runtime_truncate_at_ground _ _) (fun l => ?_)
    refine no_runtime_bind _ _ (no_runtime_vnew _ _) (fun p0 => ?_)
    exact no_runtime_bind _ _ (no_runtime_interp_1D _ _ _) (fun p => no_runtime_ok _)

end UnsupportedClaims

section UnsupportedExamples

/-- C14, the claim as stated, evaluated at a call with `scattering_on = 1`
whose platform (100 m) is below the ground (500 m): the call ends in the
assertion `z_plat >= z_ground` of `los_1d_geom`, before the test of
`scattering_on` is reached, and not with a runtime error. -/
theorem los_1d_scattering_after_geometry :
    los_1d (vertical_env fun _ => 0) 500 [0, 1000, 2000] [1, 1 / 2, 0] 6378000 500 100 180
      0 0 1 = .error .assertion ∧
    ¬ ∃ msg : String,
      los_1d (vertical_env fun _ => 0) 500 [0, 1000, 2000] [1, 1 / 2, 0] 6378000 500 100 180
        0 0 1 = .error (Err.runtime msg) := by
  have h : los_1d (vertical_env fun _ => 0) 500 [0, 1000, 2000] [1, 1 / 2, 0] 6378000 500 100
      180 0 0 1 = .error .assertion := by decide!
  refine ⟨h, ?_⟩
  rintro ⟨msg, hm⟩
  rw [h] at hm
  cases hm

end UnsupportedExamples

section ExactPath

variable {α : Type} [LinearOrderedField α] [FloorRing α]

theorem sqrt_sq_of_exact (env : Env α) (hs : exact_sqrt env) (u : α) (hu : 0 ≤ u) :
    env.sqrt (u * u) = u := by
  obtain ⟨h0, h1⟩ := hs (u * u) (mul_nonneg hu hu)
  nlinarith [sq_nonneg (env.sqrt (u * u) - u), sq_nonneg (env.sqrt (u * u) + u)]

theorem sqrt_lt_of_exact (env : Env α) (hs : exact_sqrt env) (x y : α) (hx : 0 ≤ x)
    (hxy : x < y) : env.sqrt x < env.sqrt y := by
  obtain ⟨hx0, hx1⟩ := hs x hx
  obtain ⟨hy0, hy1⟩ := hs y (hx.trans hxy.le)
  by_contra hc
  have hle : env.sqrt y ≤ env.sqrt x := not_lt.mp hc
  have : env.sqrt y * env.sqrt y ≤ env.sqrt x * env.sqrt x :=
    mul_le_mul hle hle hy0 hx0
  linarith

/-- The argument of the square root in the path length is the square of
`c*a` at the lowest point and grows with the altitude. -/
theorem path_length_arg (r z1 a b x : α) (hab : b * b + a * a = 1) :
    (r + x) * (r + x) - (r + z1) * b * ((r + z1) * b) =
      (r + x) * (r + x) - (r + z1) * (r + z1) + (r + z1) * a * ((r + z1) * a) := by
  have : b * b = 1 - a * a := by linarith
  calc (r + x) * (r + x) - (r + z1) * b * ((r + z1) * b)
      = (r + x) * (r + x) - (r + z1) * (r + z1) * (b * b) := by ring
    _ = (r + x) * (r + x) - (r + z1) * (r + z1) * (1 - a * a) := by rw [this]
    _ = _ := by ring

/-- With an exact square root and `sin^2 + cos^2 = 1`, `cos >= 0` at the
zenith angle of the lowest point, the lengths along the path have the
property `lengths_increase`. -/
theorem lengths_increase_of_exact (env : Env α) (r_geoid : α) (lp : Lowest α)
    (hs : exact_sqrt env)
    (hab : env.sin (env.DEG2RAD * lp.za1) * env.sin (env.DEG2RAD * lp.za1) +
      env.cos (env.DEG2RAD * lp.za1) * env.cos (env.DEG2RAD * lp.za1) = 1)
    (ha : 0 ≤ env.cos (env.DEG2RAD * lp.za1)) (hr : 0 ≤ r_geoid + lp.z1) :
    lengths_increase env r_geoid lp := by
  have hd : 0 ≤ (r_geoid + lp.z1) * env.cos (env.DEG2RAD * lp.za1) := mul_nonneg hr ha
  refine ⟨?_, ?_⟩
  · simp only [path_length]
    rw [path_length_arg r_geoid lp.z1 _ _ lp.z1 hab, sub_self, zero_add,
      sqrt_sq_of_exact env hs _ hd, sub_self]
  · intro x y hx hxy
    simp only [path_length]
    rw [path_length_arg r_geoid lp.z1 _ _ x hab, path_length_arg r_geoid lp.z1 _ _ y hab]
    have h1 : (r_geoid + lp.z1) * (r_geoid + lp.z1) ≤ (r_geoid + x) * (r_geoid + x) := by
      nlinarith
    have h2 : (r_geoid + x) * (r_geoid + x) < (r_geoid + y) * (r_geoid + y) := by nlinarith
    have h3 := mul_nonneg hd hd
    have := sqrt_lt_of_exact env hs _ _
      (by linarith : 0 ≤ (r_geoid + x) * (r_geoid + x) - (r_geoid + lp.z1) * (r_geoid + lp.z1) +
        (r_geoid + lp.z1) * env.cos (env.DEG2RAD * lp.za1) *
          ((r_geoid + lp.z1) * env.cos (env.DEG2RAD * lp.za1)))
      (by linarith :
        (r_geoid + x) * (r_geoid + x) - (r_geoid + lp.z1) * (r_geoid + lp.z1) +
          (r_geoid + lp.z1) * env.cos (env.DEG2RAD * lp.za1) *
            ((r_geoid + lp.z1) * env.cos (env.DEG2RAD * lp.za1)) <
        (r_geoid + y) * (r_geoid + y) - (r_geoid + lp.z1) * (r_geoid + lp.z1) +
          (r_geoid + lp.z1) * env.cos (env.DEG2RAD * lp.za1) *
            ((r_geoid + lp.z1) * env.cos (env.DEG2RAD * lp.za1)))
    linarith

/-- The altitude formula undoes the path-length formula: the altitude at the
length of the altitude `x >= z1` is `x`. -/
theorem altitude_at_path_length (env : Env α) (r z1 a b x : α) (hs : exact_sqrt env)
    (hab : b * b + a * a = 1) (ha : 0 ≤ a) (hr : 0 ≤ r + z1) (hx : z1 ≤ x) :
    altitude_at env r a (r + z1)
      (path_length env r ((r + z1) * b * ((r + z1) * b)) ((r + z1) * a) x) = x := by
  have hd : 0 ≤ (r + z1) * a := mul_nonneg hr ha
  have h1 : (r + z1) * (r + z1) ≤ (r + x) * (r + x) := by nlinarith
  have harg : 0 ≤ (r + x) * (r + x) - (r + z1) * b * ((r + z1) * b) := by
    rw [path_length_arg r z1 a b x hab]
    have := mul_nonneg hd hd
    linarith
  obtain ⟨hS0, hS1⟩ := hs _ harg
  simp only [altitude_at, path_length]
  have hb : b * b = 1 - a * a := by linarith
  have e : (r + z1) * (r + z1) +
      (env.sqrt ((r + x) * (r + x) - (r + z1) * b * ((r + z1) * b)) - (r + z1) * a) *
        (env.sqrt ((r + x) * (r + x) - (r + z1) * b * ((r + z1) * b)) - (r + z1) * a) +
      2 * (r + z1) *
        (env.sqrt ((r + x) * (r + x) - (r + z1) * b * ((r + z1) * b)) - (r + z1) * a) * a =
      (r + x) * (r + x) := by
    have e1 : (r + z1) * b * ((r + z1) * b) = (r + z1) * (r + z1) * (b * b) := by ring
    rw [e1] at hS1 ⊢
    rw [hb] at hS1 ⊢
    linear_combination hS1
  rw [e, sqrt_sq_of_exact env hs _ (hr.trans (by linarith))]
  ring

/-- The altitude increases with the length along the path. -/
theorem altitude_at_lt (env : Env α) (r a c l l' : α) (hs : exact_sqrt env)
    (ha : 0 ≤ a) (hc : 0 ≤ c) (hl : 0 ≤ l) (hll : l < l') :
    altitude_at env r a c l < altitude_at env r a c l' := by
  simp only [altitude_at]
  have h1 : 0 ≤ c * c + l * l + 2 * c * l * a := by
    have := mul_nonneg (mul_nonneg hc hl) ha
    nlinarith [mul_self_nonneg c, mul_self_nonneg l]
  have h2 : c * c + l * l + 2 * c * l * a < c * c + l' * l' + 2 * c * l' * a := by
    have h3 : l * l < l' * l' := by nlinarith
    have h4 : c * l * a ≤ c * l' * a := by
      have : 0 ≤ c * a := mul_nonneg hc ha
      nlinarith
    linarith
  have := sqrt_lt_of_exact env hs _ _ h1 h2
  linarith

end ExactPath

section SegmentPoints

variable {α : Type} [LinearOrderedField α] [FloorRing α]

/-- With exact arithmetic every point of a part of the path is the altitude
at its length along the path, the first one included. -/
theorem point_z_eq (env : Env α) (r a c z_lo l_lo dl : α) (i2 : ℕ)
    (hlo : altitude_at env r a c l_lo = z_lo) :
    point_z env r a c z_lo l_lo dl i2 = altitude_at env r a c (l_lo + (i2 : α) * dl) := by
  unfold point_z
  split_ifs with h
  · subst h
    simp [hlo]
  · rfl

/-- The points of one part of the path, from the altitude `z_lo` at length
`l_lo` towards the altitude `z_hi` at length `l_hi` in `n` equal steps:
they increase, start with `z_lo` and stay below `z_hi`. -/
theorem segment_points (env : Env α) (r a c z_lo z_hi l_lo l_hi : α) (n : ℕ)
    (hs : exact_sqrt env) (ha : 0 ≤ a) (hc : 0 ≤ c)
    (hlo : altitude_at env r a c l_lo = z_lo) (hhi : altitude_at env r a c l_hi = z_hi)
    (hl0 : 0 ≤ l_lo) (hll : l_lo < l_hi) (hn : 0 < n) :
    ((List.range n).map (point_z env r a c z_lo l_lo ((l_hi - l_lo) / (n : α)))).Pairwise
      (· < ·) ∧
    (∀ v ∈ (List.range n).map (point_z env r a c z_lo l_lo ((l_hi - l_lo) / (n : α))),
      z_lo ≤ v ∧ v < z_hi) ∧
    ((List.range n).map (point_z env r a c z_lo l_lo ((l_hi - l_lo) / (n : α)))).head? =
      some z_lo := by
  have hnpos : (0 : α) < (n : α) := by exact_mod_cast hn
  have hdl : 0 < (l_hi - l_lo) / (n : α) := div_pos (by linarith) hnpos
  have hmono : ∀ i j : ℕ, i < j →
      point_z env r a c z_lo l_lo ((l_hi - l_lo) / (n : α)) i <
        point_z env r a c z_lo l_lo ((l_hi - l_lo) / (n : α)) j := by
    intro i j hij
    rw [point_z_eq env r a c z_lo l_lo _ i hlo, point_z_eq env r a c z_lo l_lo _ j hlo]
    have hi0 : (0 : α) ≤ (i : α) := Nat.cast_nonneg i
    have hij' : (i : α) < (j : α) := by exact_mod_cast hij
    exact altitude_at_lt env r a c _ _ hs ha hc
      (add_nonneg hl0 (mul_nonneg hi0 hdl.le))
      (by nlinarith)
  refine ⟨?_, ?_, ?_⟩
  · rw [List.pairwise_map]
    exact (List.pairwise_lt_range n).imp (fun {i j} hij => hmono i j hij)
  · intro v hv
    rw [List.mem_map] at hv
    obtain ⟨i, hi, rfl⟩ := hv
    rw [List.mem_range] at hi
    constructor
    · rcases Nat.eq_zero_or_pos i with h0 | h0
      · subst h0
        simp [point_z]
      · have := hmono 0 i h0
        simp only [point_z, if_true] at this
        exact this.le
    · rw [point_z_eq env r a c z_lo l_lo _ i hlo, ← hhi]
      have hi0 : (0 : α) ≤ (i : α) := Nat.cast_nonneg i
      have hin : (i : α) < (n : α) := by exact_mod_cast hi
      apply altitude_at_lt env r a c _ _ hs ha hc
        (add_nonneg hl0 (mul_nonneg hi0 hdl.le))
      have e : l_hi = l_lo + (n : α) * ((l_hi - l_lo) / (n : α)) := by
        field_simp
      calc l_lo + (i : α) * ((l_hi - l_lo) / (n : α))
          < l_lo + (n : α) * ((l_hi - l_lo) / (n : α)) := by nlinarith
        _ = l_hi := e.symm
  · cases n with
    | zero => exact absurd hn (lt_irrefl 0)
    | succ m =>
      rw [List.range_succ_eq_map]
      simp [point_z]

end SegmentPoints

section ForwardLoops

variable {α : Type} [LinearOrderedField α] [FloorRing α]

/-- A counted loop returns, and an invariant holds after it, when the
invariant holds before it and every iteration started in a state that
satisfies it returns and keeps it. -/
theorem foldlM_range_forward {σ : Type} (f : σ → ℕ → Except Err σ) (P : ℕ → σ → Prop) :
    ∀ (n : ℕ) (s0 : σ), P 0 s0 →
      (∀ (k : ℕ) (t : σ), k < n → P k t → ∃ t', f t k = .ok t' ∧ P (k + 1) t') →
      ∃ s, (List.range n).foldlM f s0 = .ok s ∧ P n s := by
  intro n
  induction n with
  | zero =>
    intro s0 h0 _
    exact ⟨s0, rfl, h0⟩
  | succ n ih =>
    intro s0 h0 hstep
    obtain ⟨t, ht, hPt⟩ := ih s0 h0 (fun k u hk => hstep k u (by omega))
    obtain ⟨t', ht', hPt'⟩ := hstep n t (by omega) hPt
    refine ⟨t', ?_, hPt'⟩
    rw [List.range_succ, List.foldlM_append, ht]
    simp only [bind, Except.bind, List.foldlM_cons, List.foldlM_nil, ht', pure, Except.pure]

theorem vset_of_lt (x : List α) (k : ℕ) (v : α) (h : k < x.length) :
    vset x (k : ℤ) v = .ok (x.set k v) := by
  rw [vset_ok_iff]
  exact ⟨by omega, by simpa using h, by simp⟩

theorem vget_of_getElem? {β : Type} (x : List β) (k : ℕ) (v : β) (h : x[k]? = some v) :
    vget x (k : ℤ) = .ok v := by
  rw [vget_ok_iff]
  exact ⟨by omega, by simpa using h⟩

/-- One iteration of the point loop, run inside the vectors. -/
theorem put_point_forward (env : Env α) (z_abs : List α) (r_geoid lat0 a b c z_lo l_lo dl : α)
    (st : Fill α) (i2 N : ℕ) (gl gh : α)
    (hN : st.n_sum = (N : ℤ)) (hz : N + i2 < st.z.length) (hl : N + i2 < st.l_step.length)
    (hip : N + i2 < st.ip_z.length) (hlat : N + i2 < st.lat.length)
    (hgl : vget z_abs ((st.i_above : ℤ) - 1) = .ok gl) (hgh : vget z_abs st.i_above = .ok gh) :
    ∃ st', put_point env z_abs r_geoid lat0 a b c z_lo l_lo dl st i2 = .ok st' ∧
      st'.n_sum = st.n_sum ∧ st'.i_above = st.i_above ∧
      st'.z = st.z.set (N + i2) (point_z env r_geoid a c z_lo l_lo dl i2) ∧
      st'.ip_z = st.ip_z.set (N + i2)
        ((((st.i_above : ℤ) - 1 : ℤ) : α) +
          (point_z env r_geoid a c z_lo l_lo dl i2 - gl) / (gh - gl)) ∧
      st'.l_step.length = st.l_step.length ∧ st'.lat.length = st.lat.length := by
  have hidx : st.n_sum + (i2 : ℤ) = ((N + i2 : ℕ) : ℤ) := by rw [hN]; push_cast; rfl
  unfold put_point
  simp only [hidx, vset_of_lt _ _ _ hz, vset_of_lt _ _ _ hl, hgl, hgh, vset_of_lt _ _ _ hip,
    vset_of_lt _ _ _ hlat, bind, Except.bind, pure, Except.pure]
  refine ⟨_, rfl, rfl, rfl, rfl, rfl, ?_, ?_⟩
  · simp
  · simp

end ForwardLoops

section ForwardSegment

variable {α : Type} [LinearOrderedField α] [FloorRing α]

/-- The point loop of one part of the path, run inside the vectors: it
returns, and the points and their grid positions are appended to what the
vectors hold below the index `n_sum`. -/
theorem put_point_loop_forward (env : Env α) (z_abs : List α)
    (r_geoid lat0 a b c z_lo l_lo dl : α) (st : Fill α) (n N ia : ℕ) (gl gh : α)
    (hN : st.n_sum = (N : ℤ)) (hia : st.i_above = ia)
    (hz : N + n ≤ st.z.length) (hl : N + n ≤ st.l_step.length)
    (hip : N + n ≤ st.ip_z.length) (hlat : N + n ≤ st.lat.length)
    (hgl : vget z_abs ((ia : ℤ) - 1) = .ok gl) (hgh : vget z_abs ia = .ok gh) :
    ∃ st', (List.range n).foldlM (put_point env z_abs r_geoid lat0 a b c z_lo l_lo dl) st
        = .ok st' ∧
      st'.n_sum = (N : ℤ) ∧ st'.i_above = ia ∧
      st'.z.length = st.z.length ∧ st'.ip_z.length = st.ip_z.length ∧
      st'.l_step.length = st.l_step.length ∧ st'.lat.length = st.lat.length ∧
      st'.z.take (N + n) =
        st.z.take N ++ (List.range n).map (point_z env r_geoid a c z_lo l_lo dl) ∧
      st'.ip_z.take (N + n) =
        st.ip_z.take N ++ (List.range n).map (fun i2 =>
          ((((ia : ℤ) - 1 : ℤ) : α) +
            (point_z env r_geoid a c z_lo l_lo dl i2 - gl) / (gh - gl))) := by
  refine foldlM_range_forward (put_point env z_abs r_geoid lat0 a b c z_lo l_lo dl)
    (fun k t => t.n_sum = (N : ℤ) ∧ t.i_above = ia ∧
      t.z.length = st.z.length ∧ t.ip_z.length = st.ip_z.length ∧
      t.l_step.length = st.l_step.length ∧ t.lat.length = st.lat.length ∧
      t.z.take (N + k) =
        st.z.take N ++ (List.range k).map (point_z env r_geoid a c z_lo l_lo dl) ∧
      t.ip_z.take (N + k) =
        st.ip_z.take N ++ (List.range k).map (fun i2 =>
          ((((ia : ℤ) - 1 : ℤ) : α) +
            (point_z env r_geoid a c z_lo l_lo dl i2 - gl) / (gh - gl))))
    n st ?_ ?_
  · exact ⟨hN, hia, rfl, rfl, rfl, rfl, by simp, by simp⟩
  · intro k t hk ⟨p1, p2, p3, p4, p5, p6, p7, p8⟩
    obtain ⟨t', ht', q1, q2, q3, q4, q5, q6⟩ :=
      put_point_forward env z_abs r_geoid lat0 a b c z_lo l_lo dl t k N gl gh p1
        (by omega) (by omega) (by omega) (by omega) (by rw [p2]; exact hgl)
        (by rw [p2]; exact hgh)
    refine ⟨t', ht', q1.trans p1, q2.trans p2, ?_, ?_, q5.trans p5, q6.trans p6, ?_, ?_⟩
    · rw [q3, List.length_set, p3]
    · rw [q4, List.length_set, p4]
    · rw [q3, ← Nat.add_assoc, take_set_succ _ _ _ (by omega), p7, List.range_succ,
        List.map_append, List.append_assoc]
      rfl
    · rw [q4, ← Nat.add_assoc, take_set_succ _ _ _ (by omega), p8, List.range_succ,
        List.map_append, List.append_assoc, p2]
      rfl

/-- One part of the path, run inside the vectors: the points of the part are
appended, `n_sum` grows by the number of steps, and `i_above` is increased
when the altitude at the start of the part has reached the grid level
`z_abs[i_above]`. -/
theorem put_segment_forward (env : Env α) (z_abs : List α) (r_geoid lat0 a b c : α)
    (zs ls : List α) (ns : List ℤ) (st : Fill α) (i1 N ia : ℕ)
    (l_lo l_hi z_lo gl gh : α) (n : ℤ)
    (h1 : ls[i1]? = some l_lo) (h2 : ls[i1 + 1]? = some l_hi) (h3 : zs[i1]? = some z_lo)
    (h4 : ns[i1]? = some n) (hn : 0 ≤ n)
    (hN : st.n_sum = (N : ℤ)) (hia : st.i_above = ia)
    (hz : N + n.toNat ≤ st.z.length) (hl : N + n.toNat ≤ st.l_step.length)
    (hip : N + n.toNat ≤ st.ip_z.length) (hlat : N + n.toNat ≤ st.lat.length)
    (hgl : vget z_abs ((ia : ℤ) - 1) = .ok gl) (hgh : vget z_abs ia = .ok gh) :
    ∃ st', put_segment env z_abs r_geoid lat0 a b c zs ls ns st i1 = .ok st' ∧
      st'.n_sum = ((N + n.toNat : ℕ) : ℤ) ∧
      st'.i_above = (if z_lo ≥ gh then ia + 1 else ia) ∧
      st'.z.length = st.z.length ∧ st'.ip_z.length = st.ip_z.length ∧
      st'.l_step.length = st.l_step.length ∧ st'.lat.length = st.lat.length ∧
      st'.z.take (N + n.toNat) =
        st.z.take N ++ (List.range n.toNat).map
          (point_z env r_geoid a c z_lo l_lo ((l_hi - l_lo) / (n : α))) ∧
      st'.ip_z.take (N + n.toNat) =
        st.ip_z.take N ++ (List.range n.toNat).map (fun i2 =>
          ((((ia : ℤ) - 1 : ℤ) : α) +
            (point_z env r_geoid a c z_lo l_lo ((l_hi - l_lo) / (n : α)) i2 - gl) /
              (gh - gl))) := by
  obtain ⟨t, ht, q1, q2, q3, q4, q5, q6, q7, q8⟩ :=
    put_point_loop_forward env z_abs r_geoid lat0 a b c z_lo l_lo ((l_hi - l_lo) / (n : α))
      st n.toNat N ia gl gh hN hia hz hl hip hlat hgl hgh
  have e1 : vget ls (i1 : ℤ) = .ok l_lo := vget_of_getElem? ls i1 l_lo h1
  have e2 : vget ls ((i1 : ℤ) + 1) = .ok l_hi := by
    have := vget_of_getElem? ls (i1 + 1) l_hi h2
    push_cast at this
    exact this
  have e3 : vget zs (i1 : ℤ) = .ok z_lo := vget_of_getElem? zs i1 z_lo h3
  have e4 : vget ns (i1 : ℤ) = .ok n := vget_of_getElem? ns i1 n h4
  have e5 : vget z_abs (t.i_above : ℤ) = .ok gh := by rw [q2]; exact hgh
  unfold put_segment
  simp only [e1, e2, e3, e4, ht, e5, bind, Except.bind, pure, Except.pure]
  by_cases hc : z_lo ≥ gh
  · rw [if_pos hc, if_pos hc]
    refine ⟨_, rfl, ?_, ?_, q3, q4, q5, q6, q7, q8⟩
    · show t.n_sum + n = _
      rw [q1]
      push_cast
      omega
    · show t.i_above + 1 = ia + 1
      rw [q2]
  · rw [if_neg hc, if_neg hc]
    refine ⟨_, rfl, ?_, ?_, q3, q4, q5, q6, q7, q8⟩
    · show t.n_sum + n = _
      rw [q1]
      push_cast
      omega
    · exact q2

end ForwardSegment

section ForwardPath

variable {α : Type} [LinearOrderedField α] [FloorRing α]

theorem sum_take_le_sum (l : List ℤ) (h : ∀ x ∈ l, 0 ≤ x) (k : ℕ) : (l.take k).sum ≤ l.sum := by
  have e : l.sum = (l.take k).sum + (l.drop k).sum := by
    rw [← List.sum_append, List.take_append_drop]
  have : 0 ≤ (l.drop k).sum := List.sum_nonneg (fun x hx => h x (List.mem_of_mem_drop hx))
  omega

theorem sum_take_succ_int (l : List ℤ) (k : ℕ) (n : ℤ) (h : l[k]? = some n) :
    (l.take (k + 1)).sum = (l.take k).sum + n := by
  rw [List.take_succ, h]
  simp

/-- The position computed from any cell of a grid with the constant spacing
`h` is the position `(v - z0) / h` on the whole grid. -/
theorem uniform_position (z0 h v : α) (ia : ℕ) (hh : 0 < h) (hia : 1 ≤ ia) :
    ((((ia : ℤ) - 1 : ℤ) : α) +
      (v - (z0 + ((ia - 1 : ℕ) : α) * h)) / (z0 + (ia : α) * h - (z0 + ((ia - 1 : ℕ) : α) * h)))
      = (v - z0) / h := by
  have hne : h ≠ 0 := hh.ne'
  have e1 : ((ia - 1 : ℕ) : α) = (ia : α) - 1 := by
    rw [Nat.cast_sub hia]
    simp
  rw [e1]
  push_cast
  have e2 : z0 + (ia : α) * h - (z0 + ((ia : α) - 1) * h) = h := by ring
  rw [e2]
  field_simp
  ring

/-- The loop over the parts of an upward path through a grid with constant
spacing `h`, started with `i_above = ia0` on the altitudes
`zs = z1 :: z_abs[ia0..]`: it returns; the `T = sum(ns)` points written are
increasing, start with `z1`, stay below the last altitude of `zs`, and their
grid positions are `(z - z0) / h`. -/
theorem put_segment_loop_forward (env : Env α) (z_abs : List α) (r_geoid lat0 a b c : α)
    (zs ls : List α) (ns : List ℤ) (st0 : Fill α) (ia0 T : ℕ) (z0 h z1 : α)
    (hh : 0 < h) (hgrid : ∀ k : ℕ, k < z_abs.length → z_abs[k]? = some (z0 + (k : α) * h))
    (hia1 : 1 ≤ ia0) (hia2 : ia0 < z_abs.length)
    (hzs : zs = z1 :: z_abs.drop ia0) (hz1 : z1 < z0 + (ia0 : α) * h)
    (hls : ls.length = zs.length) (hns : ns.length + 1 = zs.length)
    (hseg : ∀ (i1 : ℕ) (l_lo l_hi z_lo z_hi : α) (n : ℤ), ls[i1]? = some l_lo →
      ls[i1 + 1]? = some l_hi → zs[i1]? = some z_lo → zs[i1 + 1]? = some z_hi →
      ns[i1]? = some n →
      0 < n ∧
      ((List.range n.toNat).map
        (point_z env r_geoid a c z_lo l_lo ((l_hi - l_lo) / (n : α)))).Pairwise (· < ·) ∧
      (∀ v ∈ (List.range n.toNat).map
        (point_z env r_geoid a c z_lo l_lo ((l_hi - l_lo) / (n : α))), z_lo ≤ v ∧ v < z_hi) ∧
      ((List.range n.toNat).map
        (point_z env r_geoid a c z_lo l_lo ((l_hi - l_lo) / (n : α)))).head? = some z_lo)
    (hs0 : st0.n_sum = 0) (hs1 : st0.i_above = ia0) (hT : (T : ℤ) = ns.sum)
    (hlz : st0.z.length = T + 1) (hlip : st0.ip_z.length = T + 1)
    (hllat : st0.lat.length = T + 1) (hll : st0.l_step.length = T) :
    ∃ st, (List.range (zs.length - 1)).foldlM
        (put_segment env z_abs r_geoid lat0 a b c zs ls ns) st0 = .ok st ∧
      st.n_sum = (T : ℤ) ∧
      st.z.length = T + 1 ∧ st.ip_z.length = T + 1 ∧ st.lat.length = T + 1 ∧
      st.l_step.length = T ∧
      (st.z.take T).Pairwise (· < ·) ∧
      (∀ v ∈ st.z.take T, z1 ≤ v ∧ v < z0 + ((z_abs.length - 1 : ℕ) : α) * h) ∧
      (st.z.take T).head? = some z1 ∧
      st.ip_z.take T = (st.z.take T).map (fun v => (v - z0) / h) := by
  have hm : zs.length = 1 + (z_abs.length - ia0) := by rw [hzs]; simp; omega
  have hzs0 : zs[0]? = some z1 := by rw [hzs]; simp
  have hzsk : ∀ i : ℕ, 1 ≤ i → i < zs.length →
      zs[i]? = some (z0 + ((ia0 + i - 1 : ℕ) : α) * h) := by
    intro i hi1 hi2
    obtain ⟨j, rfl⟩ : ∃ j, i = j + 1 := ⟨i - 1, by omega⟩
    rw [hzs, List.getElem?_cons_succ, List.getElem?_drop]
    have := hgrid (ia0 + j) (by omega)
    rw [this]
    congr 3
  have hlook : ∀ i1 : ℕ, i1 < zs.length - 1 →
      ∃ (l_lo l_hi z_lo z_hi : α) (n : ℤ), ls[i1]? = some l_lo ∧ ls[i1 + 1]? = some l_hi ∧
        zs[i1]? = some z_lo ∧ zs[i1 + 1]? = some z_hi ∧ ns[i1]? = some n := by
    intro i1 hi
    exact ⟨ls[i1], ls[i1 + 1], zs[i1], zs[i1 + 1], ns[i1],
      List.getElem?_eq_getElem (by omega), List.getElem?_eq_getElem (by omega),
      List.getElem?_eq_getElem (by omega), List.getElem?_eq_getElem (by omega),
      List.getElem?_eq_getElem (by omega)⟩
  have hpos : ∀ x ∈ ns, 0 ≤ x := by
    intro x hx
    obtain ⟨j, hj⟩ := List.getElem?_of_mem hx
    have hjl : j < ns.length := by
      by_contra hc
      rw [List.getElem?_eq_none (by omega)] at hj
      cases hj
    obtain ⟨l_lo, l_hi, z_lo, z_hi, n, a1, a2, a3, a4, a5⟩ := hlook j (by omega)
    rw [hj] at a5
    obtain ⟨h0, _⟩ := hseg j l_lo l_hi z_lo z_hi x a1 a2 a3 a4 hj
    exact h0.le
  obtain ⟨st, hst, N, n1, n2, n3, n4, n5, n6, n7, n8, n9, n10, n11⟩ :=
    foldlM_range_forward (put_segment env z_abs r_geoid lat0 a b c zs ls ns)
      (fun i1 t => ∃ N : ℕ, t.n_sum = (N : ℤ) ∧ (N : ℤ) = (ns.take i1).sum ∧
        t.i_above = ia0 + (i1 - 1) ∧
        t.z.length = T + 1 ∧ t.ip_z.length = T + 1 ∧ t.lat.length = T + 1 ∧
        t.l_step.length = T ∧
        (t.z.take N).Pairwise (· < ·) ∧
        (∀ v ∈ t.z.take N, z1 ≤ v ∧ ∀ u, zs[i1]? = some u → v < u) ∧
        (0 < i1 → (t.z.take N).head? = some z1) ∧
        t.ip_z.take N = (t.z.take N).map (fun v => (v - z0) / h))
      (zs.length - 1) st0
      ⟨0, hs0, by simp, by simp [hs1], hlz, hlip, hllat, hll, by simp, by simp,
        fun h0 => absurd h0 (lt_irrefl 0), by simp⟩
      (by
        intro i1 t hi1 ⟨N, p1, p2, p3, p4, p5, p6, p7, p8, p9, p10, p11⟩
        obtain ⟨l_lo, l_hi, z_lo, z_hi, n, a1, a2, a3, a4, a5⟩ := hlook i1 hi1
        obtain ⟨hn0, s1, s2, s3⟩ := hseg i1 l_lo l_hi z_lo z_hi n a1 a2 a3 a4 a5
        have hsum : (ns.take (i1 + 1)).sum = (ns.take i1).sum + n :=
          sum_take_succ_int ns i1 n a5
        have hle : (ns.take (i1 + 1)).sum ≤ ns.sum := sum_take_le_sum ns hpos (i1 + 1)
        have hcap : N + n.toNat ≤ T := by omega
        have hia_pos : 1 ≤ ia0 + (i1 - 1) := by omega
        have hia_lt : ia0 + (i1 - 1) < z_abs.length := by omega
        have hgl : vget z_abs (((ia0 + (i1 - 1) : ℕ) : ℤ) - 1) =
            .ok (z0 + ((ia0 + (i1 - 1) - 1 : ℕ) : α) * h) := by
          have e : (((ia0 + (i1 - 1) : ℕ) : ℤ) - 1) = ((ia0 + (i1 - 1) - 1 : ℕ) : ℤ) := by
            omega
          rw [e]
          exact vget_of_getElem? _ _ _ (hgrid _ (by omega))
        have hgh : vget z_abs ((ia0 + (i1 - 1) : ℕ) : ℤ) =
            .ok (z0 + ((ia0 + (i1 - 1) : ℕ) : α) * h) :=
          vget_of_getElem? _ _ _ (hgrid _ hia_lt)
        obtain ⟨t', ht', q1, q2, q3, q4, q5, q6, q7, q8⟩ :=
          put_segment_forward env z_abs r_geoid lat0 a b c zs ls ns t i1 N
            (ia0 + (i1 - 1)) l_lo l_hi z_lo _ _ n a1 a2 a3 a5 hn0.le p1 p3
            (by omega) (by omega) (by omega) (by omega) hgl hgh
        have hzlt : z_lo < z_hi := by
          have hmem := List.mem_of_mem_head? s3
          exact (s2 z_lo hmem).2
        refine ⟨t', ht', N + n.toNat, q1, ?_, ?_, q3.trans p4, q4.trans p5, q6.trans p6,
          q5.trans p7, ?_, ?_, ?_, ?_⟩
        · rw [hsum, ← p2]
          push_cast
          omega
        · rw [q2]
          rcases Nat.eq_zero_or_pos i1 with h0 | h0
          · subst h0
            rw [hzs0] at a3
            have := Option.some.inj a3
            subst this
            rw [if_neg]
            simpa using hz1
          · have hzk := hzsk i1 h0 (by omega)
            rw [a3] at hzk
            have hzl := Option.some.inj hzk
            have e : ia0 + i1 - 1 = ia0 + (i1 - 1) := by omega
            rw [e] at hzl
            rw [if_pos (by rw [hzl])]
            omega
        · rw [q7, List.pairwise_append]
          refine ⟨p8, s1, ?_⟩
          intro x hx y hy
          exact lt_of_lt_of_le ((p9 x hx).2 z_lo a3) (s2 y hy).1
        · intro v hv
          rw [q7, List.mem_append] at hv
          rcases hv with hv | hv
          · refine ⟨(p9 v hv).1, fun u hu => ?_⟩
            rw [a4] at hu
            have := Option.some.inj hu
            subst this
            exact lt_trans ((p9 v hv).2 z_lo a3) hzlt
          · have hz1lo : z1 ≤ z_lo := by
              rcases Nat.eq_zero_or_pos i1 with h0 | h0
              · subst h0
                rw [hzs0] at a3
                exact (Option.some.inj a3).le
              · have hh1 := p10 h0
                have hmem := List.mem_of_mem_head? hh1
                exact ((p9 z1 hmem).2 z_lo a3).le
            refine ⟨hz1lo.trans (s2 v hv).1, fun u hu => ?_⟩
            rw [a4] at hu
            have := Option.some.inj hu
            subst this
            exact (s2 v hv).2
        · intro _
          rw [q7]
          rcases Nat.eq_zero_or_pos i1 with h0 | h0
          · subst h0
            have hN0 : N = 0 := by
              simp only [List.take_zero, List.sum_nil] at p2
              omega
            subst hN0
            rw [hzs0] at a3
            have := Option.some.inj a3
            subst this
            simpa using s3
          · have hh1 := p10 h0
            rw [List.head?_append, hh1]
            rfl
        · rw [q8, q7, List.map_append, p11, List.map_map]
          congr 1
          apply List.map_congr_left
          intro i2 _
          exact uniform_position z0 h _ (ia0 + (i1 - 1)) hh hia_pos)
  have hNT : N = T := by
    have : ns.take (zs.length - 1) = ns := List.take_of_length_le (by omega)
    rw [this] at n2
    omega
  subst hNT
  refine ⟨st, hst, n1, n4, n5, n6, n7, n8, ?_, n10 (by omega), n11⟩
  intro v hv
  refine ⟨(n9 v hv).1, ?_⟩
  apply (n9 v hv).2
  rw [hzsk (zs.length - 1) (by omega) (by omega)]
  congr 4
  omega

end ForwardPath

section ForwardPathPoints

variable {α : Type} [LinearOrderedField α] [FloorRing α]

theorem eq_take_append_of_set {β : Type} (l : List β) (T : ℕ) (v : β) (h : l.length = T + 1) :
    l.set T v = l.take T ++ [v] := by
  have h1 : (l.set T v).take (T + 1) = l.take T ++ [v] := take_set_succ l T v (by omega)
  rw [← h1, List.take_of_length_le (by rw [List.length_set]; omega)]

/-- The creation of the return vectors for an upward path through a grid
with constant spacing `h`: `path_points` returns; the altitudes increase from
`z1` to the top of the grid, and the grid position of every point is
`(z - z0) / h`. -/
theorem path_points_forward (env : Env α) (z_abs : List α) (r_geoid lat0 a b c : α)
    (zs ls : List α) (ns : List ℤ) (ia0 : ℕ) (z0 h z1 : α)
    (hh : 0 < h) (hgrid : ∀ k : ℕ, k < z_abs.length → z_abs[k]? = some (z0 + (k : α) * h))
    (hia1 : 1 ≤ ia0) (hia2 : ia0 < z_abs.length)
    (hzs : zs = z1 :: z_abs.drop ia0) (hz1 : z1 < z0 + (ia0 : α) * h)
    (hls : ls.length = zs.length) (hns : ns.length + 1 = zs.length)
    (hseg : ∀ (i1 : ℕ) (l_lo l_hi z_lo z_hi : α) (n : ℤ), ls[i1]? = some l_lo →
      ls[i1 + 1]? = some l_hi → zs[i1]? = some z_lo → zs[i1 + 1]? = some z_hi →
      ns[i1]? = some n →
      0 < n ∧
      ((List.range n.toNat).map
        (point_z env r_geoid a c z_lo l_lo ((l_hi - l_lo) / (n : α)))).Pairwise (· < ·) ∧
      (∀ v ∈ (List.range n.toNat).map
        (point_z env r_geoid a c z_lo l_lo ((l_hi - l_lo) / (n : α))), z_lo ≤ v ∧ v < z_hi) ∧
      ((List.range n.toNat).map
        (point_z env r_geoid a c z_lo l_lo ((l_hi - l_lo) / (n : α)))).head? = some z_lo) :
    ∃ st, path_points env z_abs r_geoid lat0 a b c zs ls ns zs.length ia0 = .ok st ∧
      0 ≤ ns.sum ∧
      st.z.length = ns.sum.toNat + 1 ∧ st.ip_z.length = ns.sum.toNat + 1 ∧
      st.lat.length = ns.sum.toNat + 1 ∧ st.l_step.length = ns.sum.toNat ∧
      st.z.Pairwise (· < ·) ∧ st.z.head? = some z1 ∧
      st.z.getLast? = some (z0 + ((z_abs.length - 1 : ℕ) : α) * h) ∧
      (∀ v ∈ st.z, z1 ≤ v ∧ v ≤ z0 + ((z_abs.length - 1 : ℕ) : α) * h) ∧
      st.ip_z = st.z.map (fun v => (v - z0) / h) := by
  have hm : zs.length = 1 + (z_abs.length - ia0) := by rw [hzs]; simp; omega
  have hpos : ∀ x ∈ ns, 0 ≤ x := by
    intro x hx
    obtain ⟨j, hj⟩ := List.getElem?_of_mem hx
    have hjl : j < ns.length := by
      by_contra hc
      rw [List.getElem?_eq_none (by omega)] at hj
      cases hj
    exact (hseg j ls[j] ls[j + 1] zs[j] zs[j + 1] x
      (List.getElem?_eq_getElem (by omega)) (List.getElem?_eq_getElem (by omega))
      (List.getElem?_eq_getElem (by omega)) (List.getElem?_eq_getElem (by omega)) hj).1.le
  have hsum : 0 ≤ ns.sum := List.sum_nonneg hpos
  have hT : ((ns.sum.toNat : ℕ) : ℤ) = ns.sum := Int.toNat_of_nonneg hsum
  have e1 : (ns.sum + 1).toNat = ns.sum.toNat + 1 := by omega
  have e2 : (ns.sum + 1 - 1).toNat = ns.sum.toNat := by omega
  obtain ⟨st, hst, n1, n4, n5, n6, n7, n8, n9, n10, n11⟩ :=
    put_segment_loop_forward env z_abs r_geoid lat0 a b c zs ls ns
      { z := (List.range (ns.sum + 1).toNat).map env.fresh,
        ip_z := (List.range (ns.sum + 1).toNat).map env.fresh,
        lat := (List.range (ns.sum + 1).toNat).map env.fresh,
        l_step := (List.range (ns.sum + 1 - 1).toNat).map env.fresh,
        n_sum := 0, i_above := ia0 }
      ia0 ns.sum.toNat z0 h z1 hh hgrid hia1 hia2 hzs hz1 hls hns hseg rfl rfl hT
      (by simp [e1]) (by simp [e1]) (by simp [e1]) (by simp [e2])
  have hlen : 0 < z_abs.length := by omega
  have htop : vget z_abs ((z_abs.length : ℤ) - 1) =
      .ok (z0 + ((z_abs.length - 1 : ℕ) : α) * h) := by
    have e : ((z_abs.length : ℤ) - 1) = ((z_abs.length - 1 : ℕ) : ℤ) := by omega
    rw [e]
    exact vget_of_getElem? _ _ _ (hgrid _ (by omega))
  have hlast : vget ls (((zs.length : ℕ) : ℤ) - 1) = .ok ls[zs.length - 1] := by
    have e : (((zs.length : ℕ) : ℤ) - 1) = ((zs.length - 1 : ℕ) : ℤ) := by omega
    rw [e]
    exact vget_of_getElem? _ _ _ (List.getElem?_eq_getElem (by omega))
  have hv1 : vnew env (ns.sum + 1) = .ok ((List.range (ns.sum + 1).toNat).map env.fresh) := by
    rw [vnew_ok_iff]
    exact ⟨by omega, rfl⟩
  have hv2 : vnew env (ns.sum + 1 - 1) =
      .ok ((List.range (ns.sum + 1 - 1).toNat).map env.fresh) := by
    rw [vnew_ok_iff]
    exact ⟨by omega, rfl⟩
  have hset : ∀ (x : List α) (v : α), x.length = ns.sum.toNat + 1 →
      vset x st.n_sum v = .ok (x.set ns.sum.toNat v) := by
    intro x v hx
    rw [n1]
    exact vset_of_lt x _ v (by omega)
  have hz' := eq_take_append_of_set st.z ns.sum.toNat
    (z0 + ((z_abs.length - 1 : ℕ) : α) * h) n4
  have hip' := eq_take_append_of_set st.ip_z ns.sum.toNat
    ((((z_abs.length : ℤ) - 1 : ℤ)) : α) n5
  refine ⟨{ st with
      z := st.z.set ns.sum.toNat (z0 + ((z_abs.length - 1 : ℕ) : α) * h)
      ip_z := st.ip_z.set ns.sum.toNat ((((z_abs.length : ℤ) - 1 : ℤ)) : α)
      lat := st.lat.set ns.sum.toNat (lat0 + env.RAD2DEG * env.asin (ls[zs.length - 1] * b /
        (r_geoid + (z0 + ((z_abs.length - 1 : ℕ) : α) * h)))) },
    ?_, hsum, ?_, ?_, ?_, ?_, ?_, ?_, ?_, ?_, ?_⟩
  · unfold path_points
    simp only [hv1, hv2, hst, htop, hlast, hset _ _ n4, hset _ _ n5, hset _ _ n6, bind,
      Except.bind, pure, Except.pure]
  · simp only [List.length_set]; exact n4
  · simp only [List.length_set]; exact n5
  · simp only [List.length_set]; exact n6
  · exact n7
  · simp only
    rw [hz', List.pairwise_append]
    refine ⟨n8, List.pairwise_singleton _ _, ?_⟩
    intro x hx y hy
    rw [List.mem_singleton] at hy
    rw [hy]
    exact (n9 x hx).2
  · simp only
    rw [hz', List.head?_append, n10]
    rfl
  · simp only
    rw [hz']
    simp
  · simp only
    intro v hv
    rw [hz', List.mem_append, List.mem_singleton] at hv
    rcases hv with hv | hv
    · exact ⟨(n9 v hv).1, (n9 v hv).2.le⟩
    · rw [hv]
      have hmem := List.mem_of_mem_head? n10
      exact ⟨(n9 z1 hmem).2.le, le_refl _⟩
  · simp only
    rw [hz', hip', List.map_append, n11]
    congr 1
    simp only [List.map_cons, List.map_nil]
    congr 1
    have e : ((((z_abs.length : ℤ) - 1 : ℤ)) : α) = ((z_abs.length - 1 : ℕ) : α) := by
      rw [Nat.cast_sub hlen]
      push_cast
      ring
    rw [e]
    field_simp

end ForwardPathPoints

section ForwardBreakPoints

variable {α : Type} [LinearOrderedField α] [FloorRing α]

theorem find_above_forward (z1 : α) :
    ∀ (l : List α) (i0 : ℕ), (∃ v ∈ l, z1 < v) → ∃ i, find_above z1 l i0 = .ok i := by
  intro l
  induction l with
  | nil => intro i0 ⟨v, hv, _⟩; cases hv
  | cons w ws ih =>
    intro i0 ⟨v, hv, hzv⟩
    unfold find_above
    by_cases hw : w ≤ z1
    · rw [if_pos hw]
      rcases List.mem_cons.mp hv with rfl | hv'
      · exact absurd hzv (not_lt.mpr hw)
      · exact ih (i0 + 1) ⟨v, hv', hzv⟩
    · rw [if_neg hw]
      exact ⟨i0, rfl⟩

/-- The special points are left alone by a grid level below the dummy value:
the loop over `z_special` ends at once. -/
theorem copy_special_stop (z1 S bound : α) (k : ℕ) (st : Merge α) (hi : st.i2 = 1)
    (hS : bound < S) : copy_special [z1, S] bound (k + 1) st = .ok st := by
  unfold copy_special
  have e : vget [z1, S] (st.i2 : ℤ) = .ok S := by
    rw [hi]
    exact vget_of_getElem? _ 1 S rfl
  rw [e]
  simp only
  rw [if_neg (not_le.mpr hS)]

/-- The loop over the grid levels for an upward observation, when no storage
of `zs` that is still unwritten holds one of the levels: every level is
appended. -/
theorem merge_levels_forward (z1 S : α) :
    ∀ (gs : List α) (st : Merge α), st.i2 = 1 → (∀ g ∈ gs, g < S) →
      st.n_zs + gs.length ≤ st.zs.length →
      (∀ j : ℕ, st.n_zs ≤ j → ∀ g ∈ gs, st.zs[j]? ≠ some g) →
      ∃ m, merge_levels [z1, S] gs st = .ok m ∧ m.n_zs = st.n_zs + gs.length ∧
        m.zs.take m.n_zs = st.zs.take st.n_zs ++ gs ∧ m.zs.length = st.zs.length := by
  intro gs
  induction gs with
  | nil =>
    intro st _ _ _ _
    exact ⟨st, rfl, rfl, by simp, rfl⟩
  | cons g gs ih =>
    intro st hi hS hcap hjunk
    simp only [List.length_cons] at hcap
    have hlt : st.n_zs < st.zs.length := by omega
    have hcur : vget st.zs (st.n_zs : ℤ) = .ok st.zs[st.n_zs] :=
      vget_of_getElem? _ _ _ (List.getElem?_eq_getElem hlt)
    have hne : st.zs[st.n_zs] ≠ g := by
      intro hc
      exact hjunk st.n_zs (le_refl _) g (List.mem_cons_self _ _)
        (by rw [List.getElem?_eq_getElem hlt, hc])
    obtain ⟨m, hm, m1, m2, m3⟩ := ih
      { st with zs := st.zs.set st.n_zs g, n_zs := st.n_zs + 1 } hi
      (fun x hx => hS x (List.mem_cons_of_mem _ hx))
      (by simp only [List.length_set]; omega)
      (by
        intro j hj x hx
        simp only at hj
        rw [List.getElem?_set_ne (by omega)]
        exact hjunk j (by omega) x (List.mem_cons_of_mem _ hx))
    refine ⟨m, ?_, ?_, ?_, ?_⟩
    · unfold merge_levels
      have hcs := copy_special_stop z1 S g ([z1, S].length) st hi
        (hS g (List.mem_cons_self _ _))
      rw [hcs]
      simp only [hcur]
      rw [if_pos hne]
      exact hm
    · rw [m1]
      simp only [List.length_cons]
      omega
    · rw [m2]
      simp only
      rw [take_set_succ _ _ _ hlt, List.append_assoc]
      rfl
    · rw [m3, List.length_set]

/-- The altitudes `zs` for an upward observation from inside the grid, when
the dummy value `z_max*2` is above the grid and uninitialised storage holds no
grid level above the lowest point: the lowest point followed by every grid level above it. -/
theorem break_points_forward (env : Env α) (z_abs : List α) (z_plat z_max : α) (lp : Lowest α)
    (hd : lp.do_down = 0) (hs : z_abs.Pairwise (· < ·))
    (hmaxz : z_abs[z_abs.length - 1]? = some z_max) (hlen : 0 < z_abs.length)
    (hz1 : lp.z1 < z_max) (hpos : 0 < z_max)
    (hfresh : ∀ (j : ℕ), ∀ g ∈ z_abs, lp.z1 < g → env.fresh j ≠ g) :
    ∃ (ia : ℕ) (m : Merge α), break_points env z_abs z_plat z_max lp = .ok (ia, m) ∧
      find_above lp.z1 z_abs 0 = .ok ia ∧ ia < z_abs.length ∧
      m.zs.take m.n_zs = lp.z1 :: z_abs.drop ia ∧ m.n_zs = 1 + (z_abs.length - ia) := by
  have hmem : z_max ∈ z_abs := List.getElem?_mem hmaxz
  obtain ⟨ia, hia⟩ := find_above_forward lp.z1 z_abs 0 ⟨z_max, hmem, hz1⟩
  obtain ⟨_, hlt, _⟩ := find_above_ok lp.z1 z_abs 0 ia hia
  simp only [Nat.sub_zero] at hlt
  have hL : ((z_abs.length : ℤ) - (ia : ℤ) + ((1 + 0 : ℕ) : ℤ)).toNat =
      z_abs.length - ia + 1 := by
    omega
  have hv : vnew env ((z_abs.length : ℤ) - (ia : ℤ) + ((1 + 0 : ℕ) : ℤ)) =
      .ok ((List.range (z_abs.length - ia + 1)).map env.fresh) := by
    rw [vnew_ok_iff, hL]
    exact ⟨by omega, rfl⟩
  have hset : vset ((List.range (z_abs.length - ia + 1)).map env.fresh) 0 lp.z1 =
      .ok (((List.range (z_abs.length - ia + 1)).map env.fresh).set 0 lp.z1) := by
    have := vset_of_lt ((List.range (z_abs.length - ia + 1)).map env.fresh) 0 lp.z1
      (by simp)
    simpa using this
  have hle : ∀ g ∈ z_abs, g ≤ z_max := by
    intro g hg
    obtain ⟨j, hj, rfl⟩ := List.getElem_of_mem hg
    rcases Nat.lt_or_ge j (z_abs.length - 1) with h1 | h1
    · have := List.pairwise_iff_getElem.mp hs j (z_abs.length - 1) hj (by omega) h1
      have e := List.getElem?_eq_getElem (show z_abs.length - 1 < z_abs.length by omega)
      rw [hmaxz] at e
      rw [← Option.some.inj e] at this
      exact this.le
    · have e2 : j = z_abs.length - 1 := by omega
      subst e2
      have e := List.getElem?_eq_getElem hj
      rw [hmaxz] at e
      exact (Option.some.inj e).symm.le
  obtain ⟨m, hm, m1, m2, _⟩ := merge_levels_forward lp.z1 (z_max * 2) (z_abs.drop ia)
    { zs := ((List.range (z_abs.length - ia + 1)).map env.fresh).set 0 lp.z1, n_zs := 1,
      i2 := 1 } rfl
    (fun g hg => by
      have := hle g (List.mem_of_mem_drop hg)
      linarith)
    (by simp; omega)
    (by
      intro j hj g hg
      simp only at hj
      rw [List.getElem?_set_ne (by omega)]
      intro hc
      by_cases hjl : j < z_abs.length - ia + 1
      · rw [List.getElem?_map, List.getElem?_range hjl] at hc
        simp only [Option.map_some', Option.some.injEq] at hc
        exact hfresh j g (List.mem_of_mem_drop hg) (levels_above lp.z1 z_abs ia hs hia g hg) hc
      · rw [List.getElem?_eq_none (by simp; omega)] at hc
        cases hc)
  refine ⟨ia, m, ?_, hia, hlt, ?_, ?_⟩
  · unfold break_points z_special_of
    simp only [hd, hia, bind, Except.bind, pure, Except.pure]
    rw [if_neg (by omega)]
    simp only [hv, hset, hm]
  · rw [m2]
    simp only
    rw [take_set_succ _ _ _ (by simp)]
    simp
  · rw [m1]
    simp

end ForwardBreakPoints

section ForwardGeometry

variable {α : Type} [LinearOrderedField α] [FloorRing α]

/-- With exact arithmetic, every part of a path through increasing altitudes
`zs` that start at the lowest point has at least one step, and its points
increase from the lower altitude of the part and stay below the upper one. -/
theorem exact_segments (env : Env α) (r_geoid l_max : α) (lp : Lowest α) (zs : List α)
    (hs : exact_sqrt env)
    (hab : env.sin (env.DEG2RAD * lp.za1) * env.sin (env.DEG2RAD * lp.za1) +
      env.cos (env.DEG2RAD * lp.za1) * env.cos (env.DEG2RAD * lp.za1) = 1)
    (ha : 0 ≤ env.cos (env.DEG2RAD * lp.za1)) (hr : 0 ≤ r_geoid + lp.z1)
    (hmax : 0 < l_max) (hhead : zs.head? = some lp.z1) (hsort : zs.Pairwise (· < ·))
    (i1 : ℕ) (l_lo l_hi z_lo z_hi : α) (n : ℤ)
    (h1 : (ls_of env r_geoid
      ((r_geoid + lp.z1) * env.sin (env.DEG2RAD * lp.za1) *
        ((r_geoid + lp.z1) * env.sin (env.DEG2RAD * lp.za1)))
      ((r_geoid + lp.z1) * env.cos (env.DEG2RAD * lp.za1)) zs)[i1]? = some l_lo)
    (h2 : (ls_of env r_geoid
      ((r_geoid + lp.z1) * env.sin (env.DEG2RAD * lp.za1) *
        ((r_geoid + lp.z1) * env.sin (env.DEG2RAD * lp.za1)))
      ((r_geoid + lp.z1) * env.cos (env.DEG2RAD * lp.za1)) zs)[i1 + 1]? = some l_hi)
    (h3 : zs[i1]? = some z_lo) (h4 : zs[i1 + 1]? = some z_hi)
    (h5 : (ns_of l_max (ls_of env r_geoid
      ((r_geoid + lp.z1) * env.sin (env.DEG2RAD * lp.za1) *
        ((r_geoid + lp.z1) * env.sin (env.DEG2RAD * lp.za1)))
      ((r_geoid + lp.z1) * env.cos (env.DEG2RAD * lp.za1)) zs))[i1]? = some n) :
    0 < n ∧
    ((List.range n.toNat).map
      (point_z env r_geoid (env.cos (env.DEG2RAD * lp.za1)) (r_geoid + lp.z1) z_lo l_lo
        ((l_hi - l_lo) / (n : α)))).Pairwise (· < ·) ∧
    (∀ v ∈ (List.range n.toNat).map
      (point_z env r_geoid (env.cos (env.DEG2RAD * lp.za1)) (r_geoid + lp.z1) z_lo l_lo
        ((l_hi - l_lo) / (n : α))), z_lo ≤ v ∧ v < z_hi) ∧
    ((List.range n.toNat).map
      (point_z env r_geoid (env.cos (env.DEG2RAD * lp.za1)) (r_geoid + lp.z1) z_lo l_lo
        ((l_hi - l_lo) / (n : α)))).head? = some z_lo := by
  obtain ⟨h0, hmono⟩ := lengths_increase_of_exact env r_geoid lp hs hab ha hr
  rw [ls_of_eq_map env r_geoid _ _ lp.z1 zs hhead h0] at h1 h2 h5
  rw [List.getElem?_map, h3] at h1
  rw [List.getElem?_map, h4] at h2
  simp only [Option.map_some', Option.some.injEq] at h1 h2
  have hz1lo : lp.z1 ≤ z_lo := sorted_ge_head zs lp.z1 hhead (hsort.imp le_of_lt) i1 z_lo h3
  have hlt : z_lo < z_hi := by
    have hi1 : i1 + 1 < zs.length := by
      by_contra hc
      rw [List.getElem?_eq_none (by omega)] at h4
      cases h4
    have := List.pairwise_iff_getElem.mp hsort i1 (i1 + 1) (by omega) hi1 (by omega)
    have e3 := List.getElem?_eq_getElem (show i1 < zs.length by omega)
    have e4 := List.getElem?_eq_getElem hi1
    rw [h3] at e3
    rw [h4] at e4
    rw [← Option.some.inj e3, ← Option.some.inj e4] at this
    exact this
  have hll : l_lo < l_hi := by
    rw [← h1, ← h2]
    exact hmono z_lo z_hi hz1lo hlt
  have hl0 : 0 ≤ l_lo := by
    rw [← h1]
    rcases eq_or_lt_of_le hz1lo with e | e
    · rw [← e, h0]
    · have := hmono lp.z1 z_lo (le_refl _) e
      rw [h0] at this
      exact this.le
  obtain ⟨x, y, hx, hy, hn⟩ := ns_of_getElem? l_max _ i1 n h5
  rw [List.getElem?_map, h3] at hx
  rw [List.getElem?_map, h4] at hy
  simp only [Option.map_some', Option.some.injEq] at hx hy
  rw [← hx, ← hy, h1, h2] at hn
  have hn1 : 1 ≤ n := by
    rw [hn]
    exact (n_steps_pos_iff l_max l_lo l_hi hmax).mpr hll
  have hcast : ((n.toNat : ℕ) : α) = (n : α) := by
    have : ((n.toNat : ℕ) : ℤ) = n := Int.toNat_of_nonneg (by omega)
    exact_mod_cast this
  have hlo : altitude_at env r_geoid (env.cos (env.DEG2RAD * lp.za1)) (r_geoid + lp.z1) l_lo
      = z_lo := by
    rw [← h1]
    exact altitude_at_path_length env r_geoid lp.z1 _ _ z_lo hs hab ha hr hz1lo
  have hhi : altitude_at env r_geoid (env.cos (env.DEG2RAD * lp.za1)) (r_geoid + lp.z1) l_hi
      = z_hi := by
    rw [← h2]
    exact altitude_at_path_length env r_geoid lp.z1 _ _ z_hi hs hab ha hr
      (hz1lo.trans hlt.le)
  have := segment_points env r_geoid (env.cos (env.DEG2RAD * lp.za1)) (r_geoid + lp.z1)
    z_lo z_hi l_lo l_hi n.toNat hs ha hr hlo hhi hl0 hll (by omega)
  rw [hcast] at this
  exact ⟨by omega, this⟩

/-- A grid with constant positive spacing is increasing. -/
theorem uniform_grid_sorted (z_abs : List α) (z0 h : α) (hh : 0 < h)
    (hgrid : ∀ k : ℕ, k < z_abs.length → z_abs[k]? = some (z0 + (k : α) * h)) :
    z_abs.Pairwise (· < ·) := by
  rw [List.pairwise_iff_getElem]
  intro i j hi hj hij
  have e1 := List.getElem?_eq_getElem hi
  have e2 := List.getElem?_eq_getElem hj
  rw [hgrid i hi] at e1
  rw [hgrid j hj] at e2
  rw [← Option.some.inj e1, ← Option.some.inj e2]
  have : (i : α) < (j : α) := by exact_mod_cast hij
  nlinarith

/-- An upward observation from inside a grid with constant spacing `h`, with
exact arithmetic, a dummy value `z_max*2` above the grid and no grid level
above the platform in uninitialised storage: `los_1d_geom` returns; the ground flag is `0`, the
altitudes increase from the platform to the top of the grid, and the grid
position of every point is `(z - z0) / h`. -/
theorem los_1d_geom_upward_uniform (env : Env α) (z_ground : α) (z_abs : List α)
    (r_geoid l_max z_plat za z0 h : α)
    (hh : 0 < h) (hgrid : ∀ k : ℕ, k < z_abs.length → z_abs[k]? = some (z0 + (k : α) * h))
    (hlen : 1 < z_abs.length) (hg0 : z0 ≤ z_ground) (hgp : z_ground ≤ z_plat)
    (hpt : z_plat < z0 + ((z_abs.length - 1 : ℕ) : α) * h) (hmax : 0 < l_max)
    (hza0 : 0 ≤ za) (hza : za ≤ 90)
    (hpos : 0 < z0 + ((z_abs.length - 1 : ℕ) : α) * h)
    (hfresh : ∀ (j : ℕ), ∀ g ∈ z_abs, z_plat < g → env.fresh j ≠ g)
    (hs : exact_sqrt env)
    (hab : env.sin (env.DEG2RAD * za) * env.sin (env.DEG2RAD * za) +
      env.cos (env.DEG2RAD * za) * env.cos (env.DEG2RAD * za) = 1)
    (ha : 0 ≤ env.cos (env.DEG2RAD * za)) (hr : 0 ≤ r_geoid + z_plat) :
    ∃ g : Geom α, los_1d_geom env z_ground z_abs r_geoid l_max z_plat za = .ok g ∧
      g.ground = 0 ∧ g.z_tan = 9999e3 ∧ g.nz = (g.z.length : ℤ) ∧
      g.ip_z.length = g.z.length ∧ g.lat.length = g.z.length ∧
      g.l_step.length + 1 = g.z.length ∧
      g.z.Pairwise (· < ·) ∧ g.z.head? = some z_plat ∧
      g.z.getLast? = some (z0 + ((z_abs.length - 1 : ℕ) : α) * h) ∧
      (∀ v ∈ g.z, z_plat ≤ v ∧ v ≤ z0 + ((z_abs.length - 1 : ℕ) : α) * h) ∧
      g.ip_z = g.z.map (fun v => (v - z0) / h) := by
  have hfirst : z_abs[0]? = some z0 := by
    have := hgrid 0 (by omega)
    simpa using this
  have hmaxz := hgrid (z_abs.length - 1) (by omega)
  have hsorted := uniform_grid_sorted z_abs z0 h hh hgrid
  have hlp : lowest_point env z_ground (z0 + ((z_abs.length - 1 : ℕ) : α) * h) r_geoid z_plat za
      = { z_tan := 9999e3, ground := 0, z1 := z_plat, za1 := za, lat0 := 0, do_down := 0 } := by
    simp [lowest_point, hza]
  obtain ⟨ia, m, hbp, hfa, hia2, hzs, hnzs⟩ := break_points_forward env z_abs z_plat
    (z0 + ((z_abs.length - 1 : ℕ) : α) * h)
    { z_tan := 9999e3, ground := 0, z1 := z_plat, za1 := za, lat0 := 0, do_down := 0 }
    rfl hsorted hmaxz (by omega) hpt hpos hfresh
  simp only at hzs hfa
  obtain ⟨_, _, v, hv, hzv⟩ := find_above_ok z_plat z_abs 0 ia hfa
  simp only [Nat.sub_zero] at hv
  rw [hgrid ia hia2] at hv
  have hv' := Option.some.inj hv
  rw [← hv'] at hzv
  have hia1 : 1 ≤ ia := by
    by_contra hc
    have h0 : ia = 0 := by omega
    rw [h0] at hzv
    simp only [Nat.cast_zero, zero_mul, add_zero] at hzv
    linarith
  have hzsort : (z_plat :: z_abs.drop ia).Pairwise (· < ·) := by
    rw [List.pairwise_cons]
    exact ⟨levels_above z_plat z_abs ia hsorted hfa,
      List.Pairwise.sublist (List.drop_sublist _ _) hsorted⟩
  have hzlen : (z_plat :: z_abs.drop ia).length = m.n_zs := by
    rw [hnzs]
    simp
    omega
  obtain ⟨st, hst, hsum, l1, l2, l3, l4, p1, p2, p3, p4, p5⟩ :=
    path_points_forward env z_abs r_geoid 0 (env.cos (env.DEG2RAD * za))
      (env.sin (env.DEG2RAD * za)) (r_geoid + z_plat) (z_plat :: z_abs.drop ia)
      (ls_of env r_geoid
        ((r_geoid + z_plat) * env.sin (env.DEG2RAD * za) *
          ((r_geoid + z_plat) * env.sin (env.DEG2RAD * za)))
        ((r_geoid + z_plat) * env.cos (env.DEG2RAD * za)) (z_plat :: z_abs.drop ia))
      (ns_of l_max (ls_of env r_geoid
        ((r_geoid + z_plat) * env.sin (env.DEG2RAD * za) *
          ((r_geoid + z_plat) * env.sin (env.DEG2RAD * za)))
        ((r_geoid + z_plat) * env.cos (env.DEG2RAD * za)) (z_plat :: z_abs.drop ia)))
      ia z0 h z_plat hh hgrid hia1 hia2 rfl hzv
      (by rw [ls_of_length]; simp)
      (by rw [ns_of_length, ls_of_length]; simp)
      (fun i1 l_lo l_hi z_lo z_hi n h1 h2 h3 h4 h5 =>
        exact_segments env r_geoid l_max
          { z_tan := 9999e3, ground := 0, z1 := z_plat, za1 := za, lat0 := 0, do_down := 0 }
          (z_plat :: z_abs.drop ia) hs hab ha hr hmax rfl hzsort i1 l_lo l_hi z_lo z_hi n
          h1 h2 h3 h4 h5)
  rw [hzlen] at hst
  have e1 : vget z_abs 0 = .ok z0 := (vget_ok_iff _ _ _).mpr ⟨le_refl _, hfirst⟩
  have hidx : ((z_abs.length : ℤ) - 1).toNat = z_abs.length - 1 := by omega
  have e2 : vget z_abs ((z_abs.length : ℤ) - 1) =
      .ok (z0 + ((z_abs.length - 1 : ℕ) : α) * h) :=
    (vget_ok_iff _ _ _).mpr ⟨by omega, by rw [hidx]; exact hmaxz⟩
  have hg2 : z_ground < z0 + ((z_abs.length - 1 : ℕ) : α) * h := lt_of_le_of_lt hgp hpt
  refine ⟨{ z_tan := 9999e3,
            nz := (ns_of l_max (ls_of env r_geoid
              ((r_geoid + z_plat) * env.sin (env.DEG2RAD * za) *
                ((r_geoid + z_plat) * env.sin (env.DEG2RAD * za)))
              ((r_geoid + z_plat) * env.cos (env.DEG2RAD * za))
              (z_plat :: z_abs.drop ia))).sum + 1,
            z := st.z, ip_z := st.ip_z, lat := st.lat,
            l_step := st.l_step, ground := 0 }, ?_, rfl, rfl, ?_, ?_, ?_, ?_, p1, p2, p3, p4, p5⟩
  · unfold los_1d_geom last2
    simp only [e1, e2, assert, bind, Except.bind, ge_iff_le, gt_iff_lt, hg0, hg2, hlen, hmax,
      hgp, hza0, le_trans hza (by norm_num : (90 : α) ≤ 180), if_true, pure, Except.pure, hlp,
      not_le.mpr hpt, if_false, hbp, path_of_break_points, hzs, hst]
  · simp only
    rw [l1]
    push_cast
    omega
  · simp only; omega
  · simp only; omega
  · simp only; omega

end ForwardGeometry

section InterpForward

variable {α : Type} [LinearOrderedField α] [FloorRing α]

theorem interp_weight_forward (n : ℤ) (q : α) (h0 : 0 ≤ q) (h1 : q ≤ (n : α) - 1) :
    ∃ (i : ℤ) (w : α), interp_weight n q = .ok (i, w) := by
  have hf0 : 0 ≤ ⌊q⌋ := Int.floor_nonneg.mpr h0
  have hfl : (⌊q⌋ : α) ≤ q := Int.floor_le q
  have hfn : ⌊q⌋ ≤ n - 1 := by
    have : (⌊q⌋ : α) ≤ ((n - 1 : ℤ) : α) := by push_cast; linarith
    exact_mod_cast this
  unfold interp_weight
  simp only
  rw [if_neg (by simpa using hf0)]
  by_cases hw : q - (⌊q⌋ : α) < 1e-6
  · rw [if_pos hw, if_neg (by simp; omega)]
    exact ⟨_, _, rfl⟩
  · rw [if_neg hw]
    have hlt : ⌊q⌋ < n - 1 := by
      rcases lt_or_eq_of_le hfn with h | h
      · exact h
      · exfalso
        have hq : q = (⌊q⌋ : α) := by
          have : ((⌊q⌋ : ℤ) : α) = (n : α) - 1 := by rw [h]; push_cast; ring
          linarith
        apply hw
        rw [← hq, sub_self]
        exact tol_pos
    rw [if_neg (by simp; omega)]
    exact ⟨_, _, rfl⟩

theorem interp_weights_loop_forward (n : ℤ) :
    ∀ qs : List α, (∀ q ∈ qs, 0 ≤ q ∧ q ≤ (n : α) - 1) →
      ∃ (ii : List ℤ) (w : List α), interp_weights_loop n qs = .ok (ii, w) := by
  intro qs
  induction qs with
  | nil => intro _; exact ⟨[], [], rfl⟩
  | cons q qs ih =>
    intro h
    obtain ⟨i, w, hq⟩ := interp_weight_forward n q (h q (List.mem_cons_self _ _)).1
      (h q (List.mem_cons_self _ _)).2
    obtain ⟨ii, ws, hqs⟩ := ih (fun x hx => h x (List.mem_cons_of_mem _ hx))
    refine ⟨i :: ii, w :: ws, ?_⟩
    unfold interp_weights_loop
    rw [hq]
    simp only [hqs]

/-- The entries of the vector returned by `interp_1D`, in terms of the query
positions. -/
theorem interp_1D_entries (y yi ip_x y' : List α) (h : interp_1D y yi ip_x = .ok y') :
    y'.length = ip_x.length ∧
    ∀ (ix : ℕ) (q : α), ip_x[ix]? = some q →
      0 ≤ ⌊q⌋ ∧ ⌊q⌋ < yi.length ∧
      (q - (⌊q⌋ : α) < 1e-6 → y'[ix]? = some (yi.getD ⌊q⌋.toNat 0)) ∧
      (1e-6 ≤ q - (⌊q⌋ : α) → ⌊q⌋ + 1 < yi.length ∧
        y'[ix]? = some ((1 - (q - (⌊q⌋ : α))) * yi.getD ⌊q⌋.toNat 0 +
          (q - (⌊q⌋ : α)) * yi.getD (⌊q⌋ + 1).toNat 0)) := by
  have hy : y.length = ip_x.length := by
    by_contra hc
    simp [interp_1D, hc] at h
  cases hw : get_interp_weights (List.replicate ip_x.length (0 : ℤ))
      (List.replicate ip_x.length (0 : α)) yi ip_x with
  | error e => simp [interp_1D, hy, hw] at h
  | ok r =>
    obtain ⟨ii, w⟩ := r
    obtain ⟨_, hval⟩ := interp_1D_values _ _ y yi ip_x ii w hw
    obtain ⟨y'', hy'', hlen, hv⟩ := hval hy
    rw [h] at hy''
    have := Except.ok.inj hy''
    subst this
    obtain ⟨_, _, hloop⟩ := get_interp_weights_ok _ _ yi ip_x ii w hw
    obtain ⟨_, _, hpt⟩ := interp_weights_loop_ok _ ip_x ii w hloop
    refine ⟨by rw [hlen, hy], ?_⟩
    intro ix q hq
    have hix : ix < ip_x.length := (List.getElem?_eq_some_iff.mp hq).1
    obtain ⟨i, v, a1, a2, a3, a4, a5, a6⟩ := hv ix hix
    obtain ⟨i', v', b1, b2, b3⟩ := hpt ix q hq
    rw [a1] at b1
    rw [a2] at b2
    simp only [Option.some.injEq] at b1 b2
    subst b1 b2
    obtain ⟨rfl, _, c | c⟩ := interp_weight_ok _ q i v b3
    · obtain ⟨c1, _, rfl⟩ := c
      refine ⟨a3, a4, fun _ => by simpa using a6, fun hc => absurd c1 (not_lt.mpr hc)⟩
    · obtain ⟨c1, _, rfl⟩ := c
      have hne : q - (⌊q⌋ : α) ≠ 0 := (lt_of_lt_of_le tol_pos c1).ne'
      refine ⟨a3, a4, fun hc => absurd hc (not_lt.mpr c1), fun _ => ⟨a5 hne, ?_⟩⟩
      rw [a6, if_neg hne]

/-- `interp_1D` returns when every query position lies on the grid. -/
theorem interp_1D_forward (y yi ip_x : List α) (hy : y.length = ip_x.length)
    (hq : ∀ q ∈ ip_x, 0 ≤ q ∧ q ≤ (yi.length : α) - 1) :
    ∃ y', interp_1D y yi ip_x = .ok y' := by
  obtain ⟨ii, w, hloop⟩ := interp_weights_loop_forward (yi.length : ℤ) ip_x
    (by simpa using hq)
  have hw : get_interp_weights (List.replicate ip_x.length (0 : ℤ))
      (List.replicate ip_x.length (0 : α)) yi ip_x = .ok (ii, w) := by
    simp [get_interp_weights, hloop]
  obtain ⟨_, hval⟩ := interp_1D_values _ _ y yi ip_x ii w hw
  obtain ⟨y', hy', _⟩ := hval hy
  exact ⟨y', hy'⟩

end InterpForward

section ForwardLos

variable {α : Type} [LinearOrderedField α] [FloorRing α]

/-- An upward observation from inside a grid with constant spacing `h`
(levels `z0 + k*h`), with exact arithmetic, a dummy value `z_max*2` above the
grid and no grid level above the platform in uninitialised storage: `los_1d`
returns a path; `z_tan` keeps the value `9999e3`, ground flag and background
are `0`, `i_stop = 0`, `i_start = np - 1`, the altitudes increase from the
platform to the top of the grid, the grid positions are `(z - z0) / h`, and
the pressures are those of `interp_1D` at these positions. -/
theorem los_1d_upward_uniform (env : Env α) (z_ground : α) (z_abs p_abs : List α)
    (r_geoid l_max z_plat za z0 h : α) (bb : ℤ)
    (hh : 0 < h) (hgrid : ∀ k : ℕ, k < z_abs.length → z_abs[k]? = some (z0 + (k : α) * h))
    (hlen : 1 < z_abs.length) (hg0 : z0 ≤ z_ground) (hgp : z_ground ≤ z_plat)
    (hpt : z_plat < z0 + ((z_abs.length - 1 : ℕ) : α) * h) (hmax : 0 < l_max)
    (hza0 : 0 ≤ za) (hza : za ≤ 90)
    (hpos : 0 < z0 + ((z_abs.length - 1 : ℕ) : α) * h)
    (hfresh : ∀ (j : ℕ), ∀ g ∈ z_abs, z_plat < g → env.fresh j ≠ g)
    (hs : exact_sqrt env)
    (hab : env.sin (env.DEG2RAD * za) * env.sin (env.DEG2RAD * za) +
      env.cos (env.DEG2RAD * za) * env.cos (env.DEG2RAD * za) = 1)
    (ha : 0 ≤ env.cos (env.DEG2RAD * za)) (hr : 0 ≤ env.EARTH_RADIUS + z_plat)
    (hp : p_abs.length = z_abs.length) :
    ∃ (los : LOS α) (z_tan : α),
      los_1d env z_ground z_abs p_abs r_geoid l_max z_plat za 0 bb 0 = .ok (los, z_tan) ∧
      z_tan = 9999e3 ∧ los.ground = 0 ∧ los.background = 0 ∧ los.i_stop = 0 ∧
      los.i_start = los.np - 1 ∧ los.np = (los.z.length : ℤ) ∧
      los.z.Pairwise (· < ·) ∧ los.z.head? = some z_plat ∧
      los.z.getLast? = some (z0 + ((z_abs.length - 1 : ℕ) : α) * h) ∧
      los.ip_p = los.z.map (fun v => (v - z0) / h) ∧ los.p.length = los.z.length ∧
      ∀ (ix : ℕ) (v : α), los.z[ix]? = some v →
        ((v - z0) / h - (⌊(v - z0) / h⌋ : α) < 1e-6 →
          los.p[ix]? = some (p_abs.getD ⌊(v - z0) / h⌋.toNat 0)) ∧
        (1e-6 ≤ (v - z0) / h - (⌊(v - z0) / h⌋ : α) →
          los.p[ix]? = some ((1 - ((v - z0) / h - (⌊(v - z0) / h⌋ : α))) *
              p_abs.getD ⌊(v - z0) / h⌋.toNat 0 +
            ((v - z0) / h - (⌊(v - z0) / h⌋ : α)) *
              p_abs.getD (⌊(v - z0) / h⌋ + 1).toNat 0)) := by
  obtain ⟨g, hg, g1, g2, g3, g4, g5, g6, g7, g8, g9, g10, g11⟩ :=
    los_1d_geom_upward_uniform env z_ground z_abs env.EARTH_RADIUS l_max z_plat za z0 h
      hh hgrid hlen hg0 hgp hpt hmax hza0 hza hpos hfresh hs hab ha hr
  have hstop : find_i_stop z_abs z_plat za g.nz g.z = .ok 0 := by
    unfold find_i_stop
    rw [if_neg (not_lt.mpr hza)]
    simp only [hza, if_true]
    rfl
  have hv : vnew env g.nz = .ok ((List.range g.z.length).map env.fresh) := by
    rw [vnew_ok_iff, g3]
    exact ⟨by omega, by simp⟩
  obtain ⟨p, hpp⟩ := interp_1D_forward ((List.range g.z.length).map env.fresh) p_abs g.ip_z
    (by simp [g4])
    (by
      intro q hq
      rw [g11, List.mem_map] at hq
      obtain ⟨v, hv, rfl⟩ := hq
      obtain ⟨b1, b2⟩ := g10 v hv
      have hl : ((p_abs.length : ℕ) : α) - 1 = ((z_abs.length - 1 : ℕ) : α) := by
        rw [hp, Nat.cast_sub (by omega)]
        simp
      rw [hl]
      constructor
      · exact div_nonneg (by linarith) hh.le
      · rw [div_le_iff₀ hh]
        linarith)
  obtain ⟨e1, e2⟩ := interp_1D_entries _ p_abs g.ip_z p hpp
  refine ⟨{ dim := 1, np := g.nz, i_start := g.nz - 1, i_stop := 0, p := p, z := g.z,
            ip_p := g.ip_z, lat := g.lat, ip_lat := [], lon := [], ip_lon := [],
            l_step := g.l_step, background := 0, ground := g.ground, i_ground := 0 },
    g.z_tan, ?_, g2, g1, rfl, rfl, rfl, g3, g7, g8, g9, g11, ?_, ?_⟩
  · unfold los_1d
    simp only [ne_eq, not_true_eq_false, if_false, hg, bind, Except.bind, hstop,
      truncate_at_ground, g1, false_and, pure, Except.pure, hv, hpp]
  · simp only
    rw [e1, g4]
  · intro ix v hz
    simp only at hz ⊢
    have hq : g.ip_z[ix]? = some ((v - z0) / h) := by
      rw [g11, List.getElem?_map, hz]
      rfl
    obtain ⟨_, _, c1, c2⟩ := e2 ix _ hq
    exact ⟨c1, fun hc => (c2 hc).2⟩

end ForwardLos

section TestScenario

variable {α : Type} [LinearOrderedField α] [FloorRing α]

/-- The scenario of `test_new_los` (los.cc 600-641): levels every 1000 m from
0 to 10 km, ground at 200 m, `l_max = 500`, platform at 1000 m, zenith angle
45 degrees.  With exact arithmetic and no grid level above 1000 m in
uninitialised storage, `los_1d` returns a path whose altitudes increase from
1000 m to 10 km, with ground flag and background `0`, and whose first
pressure is `p_abs[1]`. -/
theorem test_new_los_path (env : Env α) (p_abs : List α) (r_geoid : α) (bb : ℤ)
    (hs : exact_sqrt env)
    (hab : env.sin (env.DEG2RAD * 45) * env.sin (env.DEG2RAD * 45) +
      env.cos (env.DEG2RAD * 45) * env.cos (env.DEG2RAD * 45) = 1)
    (ha : 0 ≤ env.cos (env.DEG2RAD * 45)) (hr : 0 ≤ env.EARTH_RADIUS + 1000)
    (hfresh : ∀ (j : ℕ),
      ∀ g ∈ ([0, 1000, 2000, 3000, 4000, 5000, 6000, 7000, 8000, 9000, 10000] : List α),
        1000 < g → env.fresh j ≠ g)
    (hp : p_abs.length = 11) :
    ∃ (los : LOS α) (z_tan : α),
      los_1d env 200 [0, 1000, 2000, 3000, 4000, 5000, 6000, 7000, 8000, 9000, 10000] p_abs
        r_geoid 500 1000 45 0 bb 0 = .ok (los, z_tan) ∧
      los.z.Pairwise (· < ·) ∧ los.z.head? = some 1000 ∧ los.z.getLast? = some 10000 ∧
      los.ground = 0 ∧ los.background = 0 ∧ los.p[0]? = p_abs[1]? := by
  have hgrid : ∀ k : ℕ,
      k < ([0, 1000, 2000, 3000, 4000, 5000, 6000, 7000, 8000, 9000, 10000] : List α).length →
      ([0, 1000, 2000, 3000, 4000, 5000, 6000, 7000, 8000, 9000, 10000] : List α)[k]? =
        some (0 + (k : α) * 1000) := by
    intro k hk
    simp only [List.length_cons, List.length_nil] at hk
    interval_cases k <;> norm_num
  obtain ⟨los, z_tan, h, _, c2, c3, _, _, _, c7, c8, c9, _, _, c12⟩ :=
    los_1d_upward_uniform env 200 [0, 1000, 2000, 3000, 4000, 5000, 6000, 7000, 8000, 9000, 10000]
      p_abs r_geoid 500 1000 45 0 1000 bb (by norm_num) hgrid (by simp) (by norm_num)
      (by norm_num) (by simp) (by norm_num) (by norm_num) (by norm_num)
      (by simp) hfresh hs hab ha hr (by simp [hp])
  refine ⟨los, z_tan, h, c7, c8, ?_, c2, c3, ?_⟩
  · rw [c9]
    simp
    norm_num
  · have hz0 : los.z[0]? = some 1000 := by
      rw [← List.head?_eq_getElem?]
      exact c8
    have hq : ((1000 : α) - 0) / 1000 = ((1 : ℤ) : α) := by norm_num
    obtain ⟨d1, _⟩ := c12 0 1000 hz0
    rw [hq, Int.floor_intCast] at d1
    rw [d1 (by simp; exact tol_pos)]
    have : (1 : ℤ).toNat = 1 := rfl
    rw [this, List.getD_eq_getElem?_getD, List.getElem?_eq_getElem (by omega : 1 < p_abs.length)]
    rfl

end TestScenario

section FirstPosition

variable {α : Type} [LinearOrderedField α] [FloorRing α]

/-- The grid position written by one executed iteration of the point loop. -/
theorem put_point_position (env : Env α) (z_abs : List α)
    (r_geoid lat0 a b c z_lo l_lo dl : α) (st st' : Fill α) (i2 : ℕ)
    (h : put_point env z_abs r_geoid lat0 a b c z_lo l_lo dl st i2 = .ok st') :
    ∃ gl gh : α, vget z_abs ((st.i_above : ℤ) - 1) = .ok gl ∧
      vget z_abs (st.i_above : ℤ) = .ok gh ∧ 0 ≤ st.n_sum + i2 ∧
      (st.n_sum + i2).toNat < st.ip_z.length ∧
      st'.ip_z = st.ip_z.set (st.n_sum + i2).toNat
        ((((st.i_above : ℤ) - 1 : ℤ) : α) +
          (point_z env r_geoid a c z_lo l_lo dl i2 - gl) / (gh - gl)) ∧
      st'.n_sum = st.n_sum ∧ st'.i_above = st.i_above := by
  unfold put_point at h
  simp only [bind_eq_ok, vset_ok_iff, pure, Except.pure, Except.ok.injEq] at h
  obtain ⟨z, ⟨h0, _, _⟩, l, _, g_lo, hgl, g_hi, hgh, ip, ⟨_, hip1, hip⟩, la, _, rfl⟩ := h
  exact ⟨g_lo, g_hi, hgl, hgh, h0, hip1, hip, rfl, rfl⟩

/-- The first grid position after the point loop of one part of the path: it
is kept when the part starts behind the first point, and it is the position
of the altitude `z_lo` when the part starts at the first point and has a
step. -/
theorem put_point_loop_position (env : Env α) (z_abs : List α)
    (r_geoid lat0 a b c z_lo l_lo dl : α) (st st' : Fill α) (n : ℕ)
    (h : (List.range n).foldlM (put_point env z_abs r_geoid lat0 a b c z_lo l_lo dl) st
      = .ok st') :
    (0 < st.n_sum → st'.ip_z[0]? = st.ip_z[0]?) ∧
    (st.n_sum = 0 → 0 < n → ∃ gl gh : α, vget z_abs ((st.i_above : ℤ) - 1) = .ok gl ∧
      vget z_abs (st.i_above : ℤ) = .ok gh ∧
      st'.ip_z[0]? = some ((((st.i_above : ℤ) - 1 : ℤ) : α) + (z_lo - gl) / (gh - gl))) := by
  have hinv := foldlM_range_invariant (put_point env z_abs r_geoid lat0 a b c z_lo l_lo dl)
    (fun k t => t.n_sum = st.n_sum ∧ t.i_above = st.i_above ∧
      (0 < st.n_sum → t.ip_z[0]? = st.ip_z[0]?) ∧
      (st.n_sum = 0 → 0 < k → ∃ gl gh : α, vget z_abs ((st.i_above : ℤ) - 1) = .ok gl ∧
        vget z_abs (st.i_above : ℤ) = .ok gh ∧
        t.ip_z[0]? = some ((((st.i_above : ℤ) - 1 : ℤ) : α) + (z_lo - gl) / (gh - gl))))
    n st st' ⟨rfl, rfl, fun _ => rfl, fun _ h0 => absurd h0 (lt_irrefl 0)⟩
    (by
      intro k t t' _ ⟨p1, p2, p3, p4⟩ ht
      obtain ⟨gl, gh, q1, q2, q3, q4, q5, q6, q7⟩ :=
        put_point_position env z_abs r_geoid lat0 a b c z_lo l_lo dl t t' k ht
      rw [p1] at q3 q4 q5
      rw [p2] at q1 q2 q5
      refine ⟨q6.trans p1, q7.trans p2, ?_, ?_⟩
      · intro hpos
        rw [q5, List.getElem?_set_ne (by omega)]
        exact p3 hpos
      · intro hz _
        rcases Nat.eq_zero_or_pos k with hk | hk
        · subst hk
          refine ⟨gl, gh, q1, q2, ?_⟩
          rw [q5, hz]
          simp only [Nat.cast_zero, add_zero, Int.toNat_zero]
          rw [hz] at q4
          simp only [Nat.cast_zero, add_zero, Int.toNat_zero] at q4
          rw [List.getElem?_set_self q4]
          simp [point_z]
        · obtain ⟨gl', gh', r1, r2, r3⟩ := p4 hz hk
          refine ⟨gl', gh', r1, r2, ?_⟩
          rw [q5, List.getElem?_set_ne (by omega)]
          exact r3)
    h
  exact ⟨hinv.2.2.1, hinv.2.2.2⟩

/-- The first grid position written by the loop over the parts of the path is
the position of the lowest point in the grid cell below `z_abs[ia0]`, the
index found by the first search, and later parts do not overwrite it. -/
theorem put_segment_loop_position (env : Env α) (z_abs : List α)
    (r_geoid lat0 a b c l_max : α) (hmax : 0 < l_max) (zs ls : List α) (z1 : α)
    (st0 st : Fill α) (m ia0 : ℕ)
    (hst0 : st0.n_sum = 0) (hia : st0.i_above = ia0) (hls0 : ls[0]? = some 0)
    (hmono : ∀ (i : ℕ) (x y : α), ls[i]? = some x → ls[i + 1]? = some y → x ≤ y)
    (hfirst : ∀ (i : ℕ) (v : α), ls[i]? = some 0 → zs[i]? = some v → v = z1)
    (hbelow : ∀ g : α, z_abs[ia0]? = some g → z1 < g)
    (h : (List.range m).foldlM
      (put_segment env z_abs r_geoid lat0 a b c zs ls (ns_of l_max ls)) st0 = .ok st) :
    0 < st.n_sum → ∃ gl gh : α, vget z_abs ((ia0 : ℤ) - 1) = .ok gl ∧
      vget z_abs (ia0 : ℤ) = .ok gh ∧
      st.ip_z[0]? = some ((((ia0 : ℤ) - 1 : ℤ) : α) + (z1 - gl) / (gh - gl)) := by
  have hinv := foldlM_range_invariant
    (put_segment env z_abs r_geoid lat0 a b c zs ls (ns_of l_max ls))
    (fun k t => 0 ≤ t.n_sum ∧
      (t.n_sum = 0 → t.i_above = ia0 ∧ ∀ x, ls[k]? = some x → x = 0) ∧
      (0 < t.n_sum → ∃ gl gh : α, vget z_abs ((ia0 : ℤ) - 1) = .ok gl ∧
        vget z_abs (ia0 : ℤ) = .ok gh ∧
        t.ip_z[0]? = some ((((ia0 : ℤ) - 1 : ℤ) : α) + (z1 - gl) / (gh - gl))))
    m st0 st
    ⟨by omega, fun _ => ⟨hia, fun x hx => by rw [hls0] at hx; exact (Option.some.inj hx).symm⟩,
      fun hp => by omega⟩
    (by
      intro k t t' _ ⟨p1, p2, p3⟩ ht
      obtain ⟨l_lo, l_hi, z_lo, n, st1, g, h1, h2, h3, h4, h5, h6, h7⟩ :=
        put_segment_ok env z_abs r_geoid lat0 a b c zs ls (ns_of l_max ls) t t' k ht
      obtain ⟨q1, q2, _⟩ :=
        put_point_loop_ok env z_abs r_geoid lat0 a b c z_lo l_lo _ t st1 n.toNat h5
      obtain ⟨r1, r2⟩ :=
        put_point_loop_position env z_abs r_geoid lat0 a b c z_lo l_lo _ t st1 n.toNat h5
      obtain ⟨l_lo', l_hi', h1', h2', hn⟩ := ns_of_getElem? l_max ls k n h4
      rw [h1] at h1'; rw [h2] at h2'
      simp only [Option.some.injEq] at h1' h2'
      subst h1' h2'
      have hle : l_lo ≤ l_hi := hmono k l_lo l_hi h1 h2
      have hn0 : 0 ≤ n := by rw [hn]; exact n_steps_nonneg l_max l_lo l_hi hmax hle
      have hip : t'.ip_z = st1.ip_z := by rw [h7]; split_ifs <;> rfl
      have hsum : t'.n_sum = st1.n_sum + n := by rw [h7]; split_ifs <;> rfl
      rw [q1] at hsum
      refine ⟨by omega, ?_, ?_⟩
      · intro hzero
        have ht0 : t.n_sum = 0 := by omega
        have hnz : n = 0 := by omega
        obtain ⟨pa, pb⟩ := p2 ht0
        have hlo : l_lo = 0 := pb l_lo h1
        have hz1 : z_lo = z1 := by
          rw [hlo] at h1
          exact hfirst k z_lo h1 h3
        constructor
        · rw [h7]
          rw [q2, pa] at h6
          have hlt := hbelow g h6
          rw [if_neg (by rw [hz1]; exact not_le.mpr hlt)]
          exact q2.trans pa
        · intro x hx
          rw [h2] at hx
          have hxe : x = l_hi := (Option.some.inj hx).symm
          have hnot : ¬ l_lo < l_hi := by
            intro hlt
            have := (n_steps_pos_iff l_max l_lo l_hi hmax).mpr hlt
            omega
          rw [hxe]
          exact le_antisymm (by rw [← hlo]; exact not_lt.mp hnot) (by rw [← hlo]; exact hle)
      · intro hpos
        rw [hip]
        rcases lt_or_eq_of_le p1 with hlt | heq
        · rw [r1 hlt]
          exact p3 hlt
        · obtain ⟨pa, pb⟩ := p2 heq.symm
          have hlo : l_lo = 0 := pb l_lo h1
          have hz1 : z_lo = z1 := by
            rw [hlo] at h1
            exact hfirst k z_lo h1 h3
          obtain ⟨gl, gh, s1, s2, s3⟩ := r2 heq.symm (by omega)
          rw [pa] at s1 s2 s3
          rw [hz1] at s3
          exact ⟨gl, gh, s1, s2, s3⟩)
    h
  exact hinv.2.2

end FirstPosition

section FirstPositionGeom

variable {α : Type} [LinearOrderedField α] [FloorRing α]

/-- For an increasing grid, a lowest point that is not above the platform and
path lengths that increase with altitude, the first grid position of a path
of at least two points returned by `los_1d_geom` is that of the lowest point
in the grid cell below the first level above it. -/
theorem los_1d_geom_first_position (env : Env α) (z_ground : α) (z_abs : List α)
    (r_geoid l_max z_plat za z_max : α) (g : Geom α)
    (h : los_1d_geom env z_ground z_abs r_geoid l_max z_plat za = .ok g)
    (hmaxz : z_abs[z_abs.length - 1]? = some z_max)
    (hs : z_abs.Pairwise (· < ·))
    (hz : (lowest_point env z_ground z_max r_geoid z_plat za).z1 ≤ z_plat)
    (hinc : lengths_increase env r_geoid (lowest_point env z_ground z_max r_geoid z_plat za))
    (h2 : 2 ≤ g.z.length) :
    ∃ (ia : ℕ) (gl gh : α),
      find_above (lowest_point env z_ground z_max r_geoid z_plat za).z1 z_abs 0 = .ok ia ∧
      vget z_abs ((ia : ℤ) - 1) = .ok gl ∧ vget z_abs (ia : ℤ) = .ok gh ∧
      (lowest_point env z_ground z_max r_geoid z_plat za).z1 < gh ∧
      g.ip_z[0]? = some ((((ia : ℤ) - 1 : ℤ) : α) +
        ((lowest_point env z_ground z_max r_geoid z_plat za).z1 - gl) / (gh - gl)) := by
  obtain ⟨z_first, z_max', _, hm', _, _, _, hmax, _, _, _, hcase⟩ :=
    los_1d_geom_ok env z_ground z_abs r_geoid l_max z_plat za g h
  rw [hmaxz] at hm'
  have := Option.some.inj hm'
  subst this
  rcases hcase with ⟨_, rfl⟩ | ⟨_, i_above, m, hbp, hp⟩
  · simp at h2
  · obtain ⟨hhead, hsort, hfa⟩ :=
      break_points_sorted env z_abs z_plat z_max _ i_above m hbp hs hz
    obtain ⟨_, hialt, gv, hgv, hzgv⟩ := find_above_ok _ z_abs 0 i_above hfa
    simp only [Nat.sub_zero] at hialt hgv
    obtain ⟨st', hst', _, _, hgz, _, hgip, _, _⟩ :=
      path_of_break_points_ok env z_abs r_geoid l_max _ i_above m g hp
    obtain ⟨hsum, st, z_top, hloop, _, _, hn0, hn1, hz', _, _, _, hip', _⟩ :=
      path_points_ok env z_abs r_geoid _ _ _ _ _ _ _ m.n_zs i_above st' hst'
    obtain ⟨hPL0, hPLmono⟩ := hinc
    rw [ls_of_eq_map env r_geoid _ _ _ _ hhead hPL0] at hloop
    obtain ⟨_, q2, _⟩ := put_segment_loop_steps env z_abs r_geoid _ _ _ _ l_max hmax _ _ _ st
      (m.n_zs - 1) rfl hloop
    obtain ⟨lz, _, _, _⟩ := put_segment_loop_lengths env z_abs r_geoid _ _ _ _ _ _ _ _ st
      (m.n_zs - 1) hloop
    have hlen : (ns_of l_max ((m.zs.take m.n_zs).map (path_length env r_geoid
        ((r_geoid + (lowest_point env z_ground z_max r_geoid z_plat za).z1) *
          env.sin (env.DEG2RAD * (lowest_point env z_ground z_max r_geoid z_plat za).za1) *
          ((r_geoid + (lowest_point env z_ground z_max r_geoid z_plat za).z1) *
            env.sin (env.DEG2RAD * (lowest_point env z_ground z_max r_geoid z_plat za).za1)))
        ((r_geoid + (lowest_point env z_ground z_max r_geoid z_plat za).z1) *
          env.cos (env.DEG2RAD *
            (lowest_point env z_ground z_max r_geoid z_plat za).za1))))).length
        ≤ m.n_zs - 1 := by
      rw [ns_of_length, List.length_map, List.length_take]
      omega
    rw [List.take_of_length_le hlen] at q2
    rw [ls_of_eq_map env r_geoid _ _ _ _ hhead hPL0] at hsum
    have hz0 : (m.zs.take m.n_zs)[0]? = some
        (lowest_point env z_ground z_max r_geoid z_plat za).z1 := by
      rw [← List.head?_eq_getElem?]
      exact hhead
    have r2 := put_segment_loop_position env z_abs r_geoid _ _ _ _ l_max hmax _ _
      (lowest_point env z_ground z_max r_geoid z_plat za).z1 _ st (m.n_zs - 1) i_above rfl rfl
      (by rw [List.getElem?_map, hz0, Option.map_some', hPL0])
      (by
        intro i x y hx hy
        rw [List.getElem?_map] at hx hy
        cases hzi : (m.zs.take m.n_zs)[i]? with
        | none => simp [hzi] at hx
        | some u =>
          cases hzj : (m.zs.take m.n_zs)[i + 1]? with
          | none => simp [hzj] at hy
          | some w =>
            simp only [hzi, hzj, Option.map_some', Option.some.injEq] at hx hy
            subst hx hy
            have hu : (lowest_point env z_ground z_max r_geoid z_plat za).z1 ≤ u :=
              sorted_ge_head _ _ hhead hsort i u hzi
            have hi1 : i + 1 < (m.zs.take m.n_zs).length :=
              (List.getElem?_eq_some_iff.mp hzj).1
            have huw : u ≤ w := by
              have := List.pairwise_iff_getElem.mp hsort i (i + 1) (by omega) hi1 (by omega)
              have e1 : (m.zs.take m.n_zs)[i] = u := by
                have := List.getElem?_eq_getElem (show i < (m.zs.take m.n_zs).length by omega)
                rw [hzi] at this
                exact (Option.some.inj this).symm
              have e2 : (m.zs.take m.n_zs)[i + 1] = w := by
                have := List.getElem?_eq_getElem hi1
                rw [hzj] at this
                exact (Option.some.inj this).symm
              rw [e1, e2] at this
              exact this
            rcases lt_or_eq_of_le huw with hlt | heq
            · exact (hPLmono u w hu hlt).le
            · rw [heq])
      (by
        intro i v hl hv
        rw [List.getElem?_map, hv, Option.map_some', Option.some.injEq] at hl
        have hge := sorted_ge_head _ _ hhead hsort i v hv
        rcases lt_or_eq_of_le hge with hlt | heq
        · have := hPLmono _ v (le_refl _) hlt
          rw [hPL0, hl] at this
          exact absurd this (lt_irrefl _)
        · exact heq.symm)
      (by
        intro gg hgg
        rw [hgv] at hgg
        rw [← Option.some.inj hgg]
        exact hzgv)
      hloop
    have hlen2 : 2 ≤ st.z.length := by
      rw [hgz, hz', List.length_set] at h2
      exact h2
    have hpos : 0 < st.n_sum := by
      rw [lz] at hlen2
      simp only [List.length_map, List.length_range] at hlen2
      rw [q2]
      omega
    obtain ⟨gl, gh, s1, s2, s3⟩ := r2 hpos
    refine ⟨i_above, gl, gh, hfa, s1, s2, ?_, ?_⟩
    · have := vget_of_getElem? z_abs i_above gv hgv
      rw [s2] at this
      rw [Except.ok.inj this]
      exact hzgv
    · rw [hgip, hip', List.getElem?_set_ne (by omega)]
      exact s3

end FirstPositionGeom

section UpwardFirstPoint

variable {α : Type} [LinearOrderedField α] [FloorRing α]

/-- The levels before the index found by the first search are not above the
lowest point. -/
theorem find_above_below (z1 : α) :
    ∀ (l : List α) (i0 i : ℕ), find_above z1 l i0 = .ok i →
      ∀ (j : ℕ) (v : α), j < i - i0 → l[j]? = some v → v ≤ z1 := by
  intro l
  induction l with
  | nil => intro i0 i h; simp [find_above] at h
  | cons w ws ih =>
    intro i0 i h j v hj hv
    simp only [find_above] at h
    split_ifs at h with hw
    · cases j with
      | zero =>
        simp only [List.getElem?_cons_zero, Option.some.injEq] at hv
        rw [← hv]
        exact hw
      | succ j =>
        rw [List.getElem?_cons_succ] at hv
        exact ih (i0 + 1) i h j v (by omega) hv
    · simp only [Except.ok.injEq] at h
      omega

/-- The first point of an upward path of at least two points on an
increasing grid, with path lengths that increase with altitude: its altitude
is `z_plat`, and its pressure is `p_abs` interpolated linearly in altitude in
the grid cell `z_abs[k] <= z_plat < z_abs[k+1]`, with a fractional position
below `1e-6` taken as `0`. -/
theorem los_1d_upward_first (env : Env α) (z_ground : α) (z_abs p_abs : List α)
    (r_geoid l_max z_plat za z_max : α) (refr_on bb sc : ℤ) (los : LOS α) (z_tan : α)
    (h : los_1d env z_ground z_abs p_abs r_geoid l_max z_plat za refr_on bb sc
      = .ok (los, z_tan))
    (hza : za ≤ 90) (hmaxz : z_abs[z_abs.length - 1]? = some z_max)
    (hs : z_abs.Pairwise (· < ·))
    (hinc : lengths_increase env env.EARTH_RADIUS
      (lowest_point env z_ground z_max env.EARTH_RADIUS z_plat za))
    (h2 : 2 ≤ los.z.length) :
    los.z[0]? = some z_plat ∧
    ∃ (k : ℕ) (gl gh : α), z_abs[k]? = some gl ∧ z_abs[k + 1]? = some gh ∧
      gl ≤ z_plat ∧ z_plat < gh ∧ k < p_abs.length ∧
      ((z_plat - gl) / (gh - gl) < 1e-6 → los.p[0]? = some (p_abs.getD k 0)) ∧
      (1e-6 ≤ (z_plat - gl) / (gh - gl) → k + 1 < p_abs.length ∧
        los.p[0]? = some ((1 - (z_plat - gl) / (gh - gl)) * p_abs.getD k 0 +
          (z_plat - gl) / (gh - gl) * p_abs.getD (k + 1) 0)) := by
  obtain ⟨_, _, g, i_stop, los1, p0, p, hg, hi, hl, _, hp, hlos, _⟩ :=
    los_1d_ok env z_ground z_abs p_abs r_geoid l_max z_plat za refr_on bb sc los z_tan h
  obtain ⟨f1, _, _⟩ := los_1d_geom_flags env z_ground z_abs env.EARTH_RADIUS l_max z_plat
    za z_max g hg hmaxz
  have hlp : (lowest_point env z_ground z_max env.EARTH_RADIUS z_plat za).z1 = z_plat ∧
      (lowest_point env z_ground z_max env.EARTH_RADIUS z_plat za).ground = 0 := by
    rcases lowest_point_cases env z_ground z_max env.EARTH_RADIUS z_plat za with c | c
    · exact ⟨c.2.2.2.1, c.2.1⟩
    · exact absurd hza (not_le.mpr c.1)
  obtain ⟨_, _, t3⟩ := truncate_at_ground_ok _ los1 bb hl
  simp only at t3
  have hkeep : los1.z = g.z ∧ los1.ip_p = g.ip_z := by
    rcases t3 with ⟨c1, _⟩ | ⟨_, rfl⟩
    · rw [f1, hlp.2] at c1
      exact absurd rfl c1
    · exact ⟨rfl, rfl⟩
  subst hlos
  simp only at h2 ⊢
  rw [hkeep.1] at h2 ⊢
  rw [hkeep.2] at hp
  have hz0 := los_1d_geom_first_point env z_ground z_abs env.EARTH_RADIUS l_max z_plat za
    z_max g hg hmaxz hs (by rw [hlp.1]) hinc h2
  obtain ⟨ia, gl, gh, hfa, hgl, hgh, hlt, hip⟩ :=
    los_1d_geom_first_position env z_ground z_abs env.EARTH_RADIUS l_max z_plat za
      z_max g hg hmaxz hs (by rw [hlp.1]) hinc h2
  rw [hlp.1] at hz0 hfa hlt hip
  rw [vget_ok_iff] at hgl hgh
  obtain ⟨hk0, hgl⟩ := hgl
  obtain ⟨_, hgh⟩ := hgh
  have hk : ((ia : ℤ) - 1).toNat = ia - 1 := by omega
  have hia : ((ia : ℤ)).toNat = ia - 1 + 1 := by omega
  rw [hk] at hgl
  rw [hia] at hgh
  have hle : gl ≤ z_plat :=
    find_above_below z_plat z_abs 0 ia hfa (ia - 1) gl (by omega) hgl
  have hd : 0 < gh - gl := by linarith
  have ht0 : 0 ≤ (z_plat - gl) / (gh - gl) := div_nonneg (by linarith) hd.le
  have ht1 : (z_plat - gl) / (gh - gl) < 1 := by
    rw [div_lt_one hd]
    linarith
  have hfloor : ⌊(((ia : ℤ) - 1 : ℤ) : α) + (z_plat - gl) / (gh - gl)⌋ = (ia : ℤ) - 1 := by
    rw [Int.floor_int_add, Int.floor_eq_zero_iff.mpr ⟨ht0, ht1⟩, add_zero]
  obtain ⟨_, e2⟩ := interp_1D_entries p0 p_abs g.ip_z p hp
  obtain ⟨_, c2, c3, c4⟩ := e2 0 _ hip
  rw [hfloor] at c2 c3 c4
  have hfr : (((ia : ℤ) - 1 : ℤ) : α) + (z_plat - gl) / (gh - gl) - (((ia : ℤ) - 1 : ℤ) : α)
      = (z_plat - gl) / (gh - gl) := by ring
  rw [hfr] at c3 c4
  have hk1 : ((ia : ℤ) - 1 + 1).toNat = ia - 1 + 1 := by omega
  rw [hk] at c3 c4
  rw [hk1] at c4
  refine ⟨hz0, ia - 1, gl, gh, hgl, hgh, hle, hlt, by omega, c3, fun hc => ?_⟩
  obtain ⟨d1, d2⟩ := c4 hc
  exact ⟨by omega, d2⟩

end UpwardFirstPoint

section UpwardClaim

variable {α : Type} [LinearOrderedField α] [FloorRing α]

/-- C12 (as amended): for a returning call of `los_1d` with an upward
observation (`za <= 90`) on an increasing grid, with path lengths that
increase with altitude and a path of at least two points, the first path
point has the altitude `z_plat`, and `los.p[0]` is `p_abs` interpolated
linearly in altitude at `z_plat`, in the grid cell
`z_abs[k] <= z_plat < z_abs[k+1]`, except that a fractional position
`t = (z_plat - z_abs[k]) / (z_abs[k+1] - z_abs[k])` below `1e-6` is taken as
`0` (then `los.p[0] = p_abs[k]`).  In the scenario of `test_new_los` (levels
every 1000 m from 0 to 10 km, `z_ground = 200`, `l_max = 500`,
`z_plat = 1000`, `za = 45`), for every environment with an exact square root,
`sin^2 + cos^2 = 1` and `cos >= 0` at 45 degrees, a platform not below the
centre of the geoid and no grid level above 1000 m in uninitialised storage,
`los_1d` returns a path whose altitudes increase from 1000 m to 10 km, the
ground flag and the background are `0`, and `los.p[0] = p_abs[1]`. -/
theorem los_1d_upward_first_point (env : Env α) (z_ground : α) (z_abs p_abs : List α)
    (r_geoid l_max z_plat za z_max : α) (refr_on bb sc : ℤ) (los : LOS α) (z_tan : α)
    (h : los_1d env z_ground z_abs p_abs r_geoid l_max z_plat za refr_on bb sc
      = .ok (los, z_tan))
    (hza : za ≤ 90) (hmaxz : z_abs[z_abs.length - 1]? = some z_max)
    (hs : z_abs.Pairwise (· < ·))
    (hinc : lengths_increase env env.EARTH_RADIUS
      (lowest_point env z_ground z_max env.EARTH_RADIUS z_plat za))
    (h2 : 2 ≤ los.z.length) :
    (los.z[0]? = some z_plat ∧
      ∃ (k : ℕ) (gl gh : α), z_abs[k]? = some gl ∧ z_abs[k + 1]? = some gh ∧
        gl ≤ z_plat ∧ z_plat < gh ∧ k < p_abs.length ∧
        ((z_plat - gl) / (gh - gl) < 1e-6 → los.p[0]? = some (p_abs.getD k 0)) ∧
        (1e-6 ≤ (z_plat - gl) / (gh - gl) → k + 1 < p_abs.length ∧
          los.p[0]? = some ((1 - (z_plat - gl) / (gh - gl)) * p_abs.getD k 0 +
            (z_plat - gl) / (gh - gl) * p_abs.getD (k + 1) 0))) ∧
    (∀ (β : Type) [LinearOrderedField β] [FloorRing β] (e : Env β) (p : List β) (r : β)
      (b : ℤ), exact_sqrt e →
      e.sin (e.DEG2RAD * 45) * e.sin (e.DEG2RAD * 45) +
        e.cos (e.DEG2RAD * 45) * e.cos (e.DEG2RAD * 45) = 1 →
      0 ≤ e.cos (e.DEG2RAD * 45) → 0 ≤ e.EARTH_RADIUS + 1000 →
      (∀ (j : ℕ),
        ∀ g ∈ ([0, 1000, 2000, 3000, 4000, 5000, 6000, 7000, 8000, 9000, 10000] : List β),
          1000 < g → e.fresh j ≠ g) →
      p.length = 11 →
      ∃ (l : LOS β) (zt : β),
        los_1d e 200 [0, 1000, 2000, 3000, 4000, 5000, 6000, 7000, 8000, 9000, 10000] p
          r 500 1000 45 0 b 0 = .ok (l, zt) ∧
        l.z.Pairwise (· < ·) ∧ l.z.head? = some 1000 ∧ l.z.getLast? = some 10000 ∧
        l.ground = 0 ∧ l.background = 0 ∧ l.p[0]? = p[1]?) :=
  ⟨los_1d_upward_first env z_ground z_abs p_abs r_geoid l_max z_plat za z_max refr_on bb sc
      los z_tan h hza hmaxz hs hinc h2,
    fun _ _ _ e p r b hs hab ha hr hfresh hp => test_new_los_path e p r b hs hab ha hr hfresh hp⟩

end UpwardClaim

section UpwardExamples

/-- C12, the claim as stated, evaluated on the levels 0 and 10 km with the
pressures 1000 and 250, for an upward view (`za = 0`) from 5 mm above the
lowest level: the fractional grid position `5e-7` is below `1e-6`, so
`los.p[0]` is the pressure `1000` of the level below, not the linearly
interpolated pressure `999.999625`. -/
theorem los_1d_first_pressure_snapped :
    (los_1d (vertical_env fun _ => 0) 0 [0, 10000] [1000, 250] 6378000 10000 (1 / 200) 0
        0 0 0).map (fun r => (r.1.z, r.1.ip_p, r.1.p))
      = .ok ([1 / 200, 10000], [1 / 2000000, 1], [1000, 250]) ∧
    (1 - ((1 : ℚ) / 200 - 0) / (10000 - 0)) * 1000 + ((1 : ℚ) / 200 - 0) / (10000 - 0) * 250
      ≠ 1000 := by
  constructor
  · decide!
  · norm_num

/-- Witness for C12 (as amended): an upward view from 250 m on the levels
0, 1000, 2000 m, and the scenario of `test_new_los` over the real numbers
with the functions of analysis. -/
theorem los_1d_upward_first_point_witness :
    ((los_1d (vertical_env fun _ => 0) 0 [0, 1000, 2000] [1000, 500, 250] 6378000 1000 250 0
        0 0 0).map (fun r => (r.1.z, r.1.p)) = .ok ([250, 1000, 2000], [875, 500, 250])) ∧
    (([250, 1000, 2000] : List ℚ)[0]? = some 250 ∧
      ∃ (k : ℕ) (gl gh : ℚ), ([0, 1000, 2000] : List ℚ)[k]? = some gl ∧
        ([0, 1000, 2000] : List ℚ)[k + 1]? = some gh ∧
        gl ≤ 250 ∧ 250 < gh ∧ k < ([1000, 500, 250] : List ℚ).length ∧
        ((250 - gl) / (gh - gl) < 1e-6 →
          ([875, 500, 250] : List ℚ)[0]? = some (([1000, 500, 250] : List ℚ).getD k 0)) ∧
        (1e-6 ≤ (250 - gl) / (gh - gl) → k + 1 < ([1000, 500, 250] : List ℚ).length ∧
          ([875, 500, 250] : List ℚ)[0]? =
            some ((1 - (250 - gl) / (gh - gl)) * ([1000, 500, 250] : List ℚ).getD k 0 +
              (250 - gl) / (gh - gl) * ([1000, 500, 250] : List ℚ).getD (k + 1) 0))) ∧
    (∃ (l : LOS ℝ) (zt : ℝ),
      los_1d
        { sin := Real.sin, cos := Real.cos, asin := Real.arcsin, sqrt := Real.sqrt,
          DEG2RAD := Real.pi / 180, RAD2DEG := 180 / Real.pi, EARTH_RADIUS := 6378000,
          fresh := fun _ => 0 }
        200 [0, 1000, 2000, 3000, 4000, 5000, 6000, 7000, 8000, 9000, 10000]
        [0, 1, 2, 3, 4, 5, 6, 7, 8, 9, 10] 6378000 500 1000 45 0 1 0 = .ok (l, zt) ∧
      l.z.Pairwise (· < ·) ∧ l.z.head? = some 1000 ∧ l.z.getLast? = some 10000 ∧
      l.ground = 0 ∧ l.background = 0 ∧
      l.p[0]? = ([0, 1, 2, 3, 4, 5, 6, 7, 8, 9, 10] : List ℝ)[1]?) := by
  have h : los_1d (vertical_env fun _ => 0) 0 [0, 1000, 2000] [1000, 500, 250] 6378000 1000 250
      0 0 0 0 = .ok (
        { dim := 1, np := 3, i_start := 2, i_stop := 0, p := [875, 500, 250],
          z := [250, 1000, 2000], ip_p := [1 / 4, 1, 2], lat := [0, 0, 0], ip_lat := [],
          lon := [], ip_lon := [], l_step := [750, 1000], background := 0, ground := 0,
          i_ground := 0 }, 9999000) := by decide!
  have hc := los_1d_upward_first_point (vertical_env fun _ => 0) 0 [0, 1000, 2000]
    [1000, 500, 250] 6378000 1000 250 0 2000 0 0 0 _ _ h (by norm_num) rfl (by decide!)
    (lengths_increase_of_vertical _ _ _ (by decide!) (by decide!) (by decide!)
      (fun x hx => sqrt_exact_sq x hx) (by decide!)) (by decide)
  refine ⟨by decide!, hc.1, ?_⟩
  exact hc.2 ℝ
    { sin := Real.sin, cos := Real.cos, asin := Real.arcsin, sqrt := Real.sqrt,
      DEG2RAD := Real.pi / 180, RAD2DEG := 180 / Real.pi, EARTH_RADIUS := 6378000,
      fresh := fun _ => 0 }
    [0, 1, 2, 3, 4, 5, 6, 7, 8, 9, 10] 6378000 1
    (fun x hx => ⟨Real.sqrt_nonneg x, Real.mul_self_sqrt hx⟩)
    (by
      have := Real.sin_sq_add_cos_sq (Real.pi / 180 * 45)
      simp only [sq] at this
      exact this)
    (Real.cos_nonneg_of_neg_pi_div_two_le_of_le (by linarith [Real.pi_pos])
      (by linarith [Real.pi_pos]))
    (by norm_num)
    (fun j g _ hlt h0 => by
      simp only at h0
      rw [← h0] at hlt
      norm_num at hlt)
    rfl

end UpwardExamples

section AbsorptionLemmas

variable {α : Type} [LinearOrderedField α] [FloorRing α]

theorem t3get_ok_iff (x : Tensor3 α) (p r c : ℤ) (v : α) :
    t3get x p r c = .ok v ↔
      (0 ≤ p ∧ p < x.npages ∧ 0 ≤ r ∧ r < x.nrows ∧ 0 ≤ c ∧ c < x.ncols) ∧
        v = x.elem p.toNat r.toNat c.toNat := by
  unfold t3get
  split_ifs with h
  · simp only [Except.ok.injEq]
    exact ⟨fun e => ⟨h, e.symm⟩, fun e => e.2.symm⟩
  · simp [h]

theorem mset_ok_iff (x : Matrix α) (r c : ℤ) (v : α) (x' : Matrix α) :
    mset x r c v = .ok x' ↔
      (0 ≤ r ∧ r < x.nrows ∧ 0 ≤ c ∧ c < x.ncols) ∧
        x' = { x with elem := fun i j => if i = r.toNat ∧ j = c.toNat then v else x.elem i j } := by
  unfold mset
  split_ifs with h
  · simp only [Except.ok.injEq]
    exact ⟨fun e => ⟨h, e.symm⟩, fun e => e.2.symm⟩
  · simp [h]

/-- The value stored by `interp_abs2los` for the index `i`, the weight `wv`
and the column `iv`. -/
theorem abs2los_entry_ok (abs_in : Tensor3 α) (ii1 : List ℤ) (ix : ℕ) (wv : α)
    (out out' : Matrix α) (iv : ℕ)
    (h : abs2los_entry abs_in ii1 ix wv out iv = .ok out') :
    ∃ i : ℤ, ii1[ix]? = some i ∧ 0 ≤ i ∧ i < abs_in.nrows ∧ iv < abs_in.ncols ∧
      (wv ≠ 0 → i + 1 < abs_in.nrows) ∧ ix < out.nrows ∧ iv < out.ncols ∧
      out'.nrows = out.nrows ∧ out'.ncols = out.ncols ∧
      out'.elem = fun r c => if r = ix ∧ c = iv then
        (if wv = 0 then abs_in.elem 0 i.toNat iv
          else (1 - wv) * abs_in.elem 0 i.toNat iv + wv * abs_in.elem 0 (i + 1).toNat iv)
        else out.elem r c := by
  unfold abs2los_entry at h
  by_cases hw : wv = 0
  · rw [if_pos hw] at h
    simp only [bind_eq_ok, vget_ok_iff, t3get_ok_iff, mset_ok_iff] at h
    obtain ⟨i, ⟨_, hi⟩, a, ⟨⟨_, _, h3, h4, h5, h6⟩, rfl⟩, ⟨m1, m2, m3, m4⟩, rfl⟩ := h
    refine ⟨i, by simpa using hi, h3, h4, by omega, fun hne => absurd hw hne, by omega,
      by omega, rfl, rfl, ?_⟩
    funext r c
    simp [hw]
  · rw [if_neg hw] at h
    simp only [bind_eq_ok, vget_ok_iff, t3get_ok_iff, mset_ok_iff] at h
    obtain ⟨i, ⟨_, hi⟩, a, ⟨⟨_, _, h3, h4, h5, h6⟩, rfl⟩, i', ⟨_, hi'⟩, b,
      ⟨⟨_, _, _, k4, _, _⟩, rfl⟩, ⟨m1, m2, m3, m4⟩, rfl⟩ := h
    rw [hi] at hi'
    have := Option.some.inj hi'
    subst this
    refine ⟨i, by simpa using hi, h3, h4, by omega, fun _ => k4, by omega, by omega,
      rfl, rfl, ?_⟩
    funext r c
    simp [hw]

end AbsorptionLemmas

section AbsorptionLoops

variable {α : Type} [LinearOrderedField α] [FloorRing α]

/-- What the loop over the columns has written for the point `ix`. -/
theorem abs2los_point_ok (abs_in : Tensor3 α) (ii1 : List ℤ) (w1 : List α)
    (out out' : Matrix α) (ix : ℕ)
    (h : abs2los_point abs_in ii1 w1 out ix = .ok out') :
    out'.nrows = out.nrows ∧ out'.ncols = out.ncols ∧
    ∃ wv : α, w1[ix]? = some wv ∧
      (0 < abs_in.ncols → ∃ i : ℤ, ii1[ix]? = some i ∧ 0 ≤ i ∧ i < abs_in.nrows ∧
        (wv ≠ 0 → i + 1 < abs_in.nrows)) ∧
      ∀ r c : ℕ, out'.elem r c =
        if r = ix ∧ c < abs_in.ncols then
          (if wv = 0 then abs_in.elem 0 (ii1.getD ix 0).toNat c
            else (1 - wv) * abs_in.elem 0 (ii1.getD ix 0).toNat c +
              wv * abs_in.elem 0 (ii1.getD ix 0 + 1).toNat c)
        else out.elem r c := by
  unfold abs2los_point at h
  simp only [bind_eq_ok, vget_ok_iff] at h
  obtain ⟨wv, ⟨_, hwv⟩, hloop⟩ := h
  have hinv := foldlM_range_invariant (abs2los_entry abs_in ii1 ix wv)
    (fun k t => t.nrows = out.nrows ∧ t.ncols = out.ncols ∧
      (0 < k → ∃ i : ℤ, ii1[ix]? = some i ∧ 0 ≤ i ∧ i < abs_in.nrows ∧
        (wv ≠ 0 → i + 1 < abs_in.nrows)) ∧
      ∀ r c : ℕ, t.elem r c =
        if r = ix ∧ c < k then
          (if wv = 0 then abs_in.elem 0 (ii1.getD ix 0).toNat c
            else (1 - wv) * abs_in.elem 0 (ii1.getD ix 0).toNat c +
              wv * abs_in.elem 0 (ii1.getD ix 0 + 1).toNat c)
        else out.elem r c)
    abs_in.ncols out out'
    ⟨rfl, rfl, fun h0 => absurd h0 (lt_irrefl 0), fun r c => by simp⟩
    (by
      intro k t t' _ ⟨p1, p2, _, p4⟩ ht
      obtain ⟨i, q1, q2, q3, _, q5, _, _, q8, q9, q10⟩ :=
        abs2los_entry_ok abs_in ii1 ix wv t t' k ht
      have hget : ii1.getD ix 0 = i := by
        rw [List.getD_eq_getElem?_getD, q1]
        rfl
      refine ⟨q8.trans p1, q9.trans p2, fun _ => ⟨i, q1, q2, q3, q5⟩, ?_⟩
      intro r c
      rw [q10]
      simp only
      by_cases hrc : r = ix ∧ c = k
      · rw [if_pos hrc, if_pos (show r = ix ∧ c < k + 1 from ⟨hrc.1, by omega⟩), hget, hrc.2]
      · rw [if_neg hrc, p4 r c]
        by_cases hc : r = ix ∧ c < k
        · rw [if_pos hc, if_pos (show r = ix ∧ c < k + 1 from ⟨hc.1, by omega⟩)]
        · rw [if_neg hc, if_neg]
          rintro ⟨h1, h2⟩
          rcases Nat.lt_succ_iff_lt_or_eq.mp h2 with h3 | h3
          · exact hc ⟨h1, h3⟩
          · exact hrc ⟨h1, h3⟩)
    hloop
  exact ⟨hinv.1, hinv.2.1, wv, by simpa using hwv, hinv.2.2.1, hinv.2.2.2⟩

/-- What the loop over the points has written. -/
theorem abs2los_loop_ok (abs_in : Tensor3 α) (ii1 : List ℤ) (w1 : List α)
    (abs_out out : Matrix α) (n : ℕ)
    (h : (List.range n).foldlM (abs2los_point abs_in ii1 w1) abs_out = .ok out) :
    out.nrows = abs_out.nrows ∧ out.ncols = abs_out.ncols ∧
    ∀ r c : ℕ, out.elem r c =
      if r < n ∧ c < abs_in.ncols then
        (if w1.getD r 0 = 0 then abs_in.elem 0 (ii1.getD r 0).toNat c
          else (1 - w1.getD r 0) * abs_in.elem 0 (ii1.getD r 0).toNat c +
            w1.getD r 0 * abs_in.elem 0 (ii1.getD r 0 + 1).toNat c)
      else abs_out.elem r c := by
  refine foldlM_range_invariant (abs2los_point abs_in ii1 w1)
    (fun k t => t.nrows = abs_out.nrows ∧ t.ncols = abs_out.ncols ∧
      ∀ r c : ℕ, t.elem r c =
        if r < k ∧ c < abs_in.ncols then
          (if w1.getD r 0 = 0 then abs_in.elem 0 (ii1.getD r 0).toNat c
            else (1 - w1.getD r 0) * abs_in.elem 0 (ii1.getD r 0).toNat c +
              w1.getD r 0 * abs_in.elem 0 (ii1.getD r 0 + 1).toNat c)
        else abs_out.elem r c)
    n abs_out out ⟨rfl, rfl, fun r c => by simp⟩ ?_ h
  intro k t t' _ ⟨p1, p2, p3⟩ ht
  obtain ⟨q1, q2, wv, q3, _, q5⟩ := abs2los_point_ok abs_in ii1 w1 t t' k ht
  have hget : w1.getD k 0 = wv := by
    rw [List.getD_eq_getElem?_getD, q3]
    rfl
  refine ⟨q1.trans p1, q2.trans p2, ?_⟩
  intro r c
  rw [q5 r c]
  by_cases hrc : r = k ∧ c < abs_in.ncols
  · rw [if_pos hrc, if_pos (show r < k + 1 ∧ c < abs_in.ncols from ⟨by omega, hrc.2⟩),
      hrc.1, hget]
  · rw [if_neg hrc, p3 r c]
    by_cases hc : r < k ∧ c < abs_in.ncols
    · rw [if_pos hc, if_pos (show r < k + 1 ∧ c < abs_in.ncols from ⟨by omega, hc.2⟩)]
    · rw [if_neg hc, if_neg]
      rintro ⟨h1, h2⟩
      rcases Nat.lt_succ_iff_lt_or_eq.mp h1 with h3 | h3
      · exact hc ⟨h3, h2⟩
      · exact hrc ⟨h3, h2⟩

end AbsorptionLoops

section AbsorptionForward

variable {α : Type} [LinearOrderedField α] [FloorRing α]

theorem t3get_of_lt (x : Tensor3 α) (i : ℤ) (c : ℕ) (hp : 0 < x.npages) (h0 : 0 ≤ i)
    (hi : i < x.nrows) (hc : c < x.ncols) :
    t3get x 0 i c = .ok (x.elem 0 i.toNat c) := by
  unfold t3get
  rw [if_pos ⟨le_refl _, by exact_mod_cast hp, h0, hi, by omega, by exact_mod_cast hc⟩]
  rfl

theorem mset_of_lt (x : Matrix α) (r c : ℕ) (v : α) (hr : r < x.nrows) (hc : c < x.ncols) :
    ∃ y, mset x r c v = .ok y ∧ y.nrows = x.nrows ∧ y.ncols = x.ncols := by
  unfold mset
  rw [if_pos ⟨by omega, by exact_mod_cast hr, by omega, by exact_mod_cast hc⟩]
  exact ⟨_, rfl, rfl, rfl⟩

theorem abs2los_entry_forward (abs_in : Tensor3 α) (ii1 : List ℤ) (ix : ℕ) (wv : α)
    (out : Matrix α) (iv : ℕ) (i : ℤ) (hi : ii1[ix]? = some i) (hp : 0 < abs_in.npages)
    (h0 : 0 ≤ i) (h1 : i < abs_in.nrows) (h2 : wv ≠ 0 → i + 1 < abs_in.nrows)
    (hc : iv < abs_in.ncols) (hr : ix < out.nrows) (hoc : iv < out.ncols) :
    ∃ out2, abs2los_entry abs_in ii1 ix wv out iv = .ok out2 ∧ out2.nrows = out.nrows ∧
      out2.ncols = out.ncols := by
  have hg : vget ii1 (ix : ℤ) = .ok i := vget_of_getElem? ii1 ix i hi
  unfold abs2los_entry
  by_cases hw : wv = 0
  · rw [if_pos hw, hg]
    simp only [bind, Except.bind, t3get_of_lt abs_in i iv hp h0 h1 hc]
    exact mset_of_lt out ix iv _ hr hoc
  · rw [if_neg hw, hg]
    simp only [bind, Except.bind, t3get_of_lt abs_in i iv hp h0 h1 hc,
      t3get_of_lt abs_in (i + 1) iv hp (by omega) (h2 hw) hc]
    exact mset_of_lt out ix iv _ hr hoc

theorem abs2los_point_forward (abs_in : Tensor3 α) (ii1 : List ℤ) (w1 : List α)
    (out : Matrix α) (ix : ℕ) (i : ℤ) (wv : α) (hi : ii1[ix]? = some i)
    (hwv : w1[ix]? = some wv) (hp : 0 < abs_in.npages)
    (h0 : 0 ≤ i) (h1 : i < abs_in.nrows) (h2 : wv ≠ 0 → i + 1 < abs_in.nrows)
    (hr : ix < out.nrows) (hoc : out.ncols = abs_in.ncols) :
    ∃ out2, abs2los_point abs_in ii1 w1 out ix = .ok out2 ∧ out2.nrows = out.nrows ∧
      out2.ncols = out.ncols := by
  unfold abs2los_point
  rw [vget_of_getElem? w1 ix wv hwv]
  simp only [bind, Except.bind]
  exact foldlM_range_forward (abs2los_entry abs_in ii1 ix wv)
    (fun _ t => t.nrows = out.nrows ∧ t.ncols = out.ncols) abs_in.ncols out ⟨rfl, rfl⟩
    (fun k t hk hP => by
      obtain ⟨t2, ht2, e1, e2⟩ := abs2los_entry_forward abs_in ii1 ix wv t k i hi hp h0 h1 h2 hk
        (by rw [hP.1]; exact hr) (by rw [hP.2, hoc]; exact hk)
      exact ⟨t2, ht2, e1.trans hP.1, e2.trans hP.2⟩)

end AbsorptionForward

section AbsorptionReturns

variable {α : Type} [LinearOrderedField α] [FloorRing α]

/-- A 1-D call of `interp_abs2los` returns when `abs_in` has one page and a
first column, `abs_out` has the size `n x nv`, and `interp_1D` returns for the
first profile of `abs_in` at the positions `ip_p`. -/
theorem interp_abs2los_returns (abs_out : Matrix α) (abs_in : Tensor3 α) (ip_p : List α)
    (hp : abs_in.npages = 1) (hr : abs_out.nrows = ip_p.length)
    (hc : abs_out.ncols = abs_in.ncols) (hn : 0 < abs_in.ncols) (y : List α)
    (hy : interp_1D (matrix_column abs_out 0)
      ((List.range abs_in.nrows).map (fun r => abs_in.elem 0 r 0)) ip_p = .ok y) :
    ∃ out, interp_abs2los abs_out abs_in ip_p [] [] = .ok out := by
  have hlen : (matrix_column abs_out 0).length = ip_p.length := by
    simp [matrix_column, hr]
  cases hw : get_interp_weights (List.replicate ip_p.length (0 : ℤ))
      (List.replicate ip_p.length (0 : α))
      ((List.range abs_in.nrows).map (fun r => abs_in.elem 0 r 0)) ip_p with
  | error e =>
    unfold interp_1D at hy
    rw [if_neg (by simpa using hlen), hw] at hy
    cases hy
  | ok iw =>
    obtain ⟨ii, w⟩ := iw
    obtain ⟨_, hval⟩ := interp_1D_values _ _ (matrix_column abs_out 0) _ ip_p ii w hw
    obtain ⟨_, _, _, hv⟩ := hval hlen
    have hdim : get_dim_for_interp ip_p ([] : List α) ([] : List α) = .ok 1 := by
      simp [get_dim_for_interp, assert, bind, Except.bind, pure, Except.pure]
    have hmd : assert_maxdim_of_tensor abs_in (1 + 1) = .ok () := by
      unfold assert_maxdim_of_tensor assert
      rw [if_pos (by norm_num), if_pos (by norm_num)]
      simp only [bind, Except.bind]
      rw [if_neg (by norm_num), if_pos (by norm_num), if_pos hp]
    have hsz : assert_size abs_out (ip_p.length : ℤ) (abs_in.ncols : ℤ) = .ok () := by
      unfold assert_size assert
      rw [if_pos (by exact_mod_cast hc)]
      simp only [bind, Except.bind]
      rw [if_pos (by exact_mod_cast hr)]
    have hrow : t3_rows abs_in 0 0 =
        .ok ((List.range abs_in.nrows).map (fun r => abs_in.elem 0 r 0)) := by
      unfold t3_rows
      rw [if_pos ⟨le_refl _, by omega, le_refl _, by exact_mod_cast hn⟩]
      rfl
    obtain ⟨out, hout, _⟩ := foldlM_range_forward (abs2los_point abs_in ii w)
      (fun _ t => t.nrows = abs_out.nrows ∧ t.ncols = abs_out.ncols) ip_p.length abs_out
      ⟨rfl, rfl⟩
      (fun k t hk hP => by
        obtain ⟨i, v, a1, a2, a3, a4, a5, _⟩ := hv k hk
        simp only [List.length_map, List.length_range] at a4 a5
        obtain ⟨t2, ht2, e1, e2⟩ := abs2los_point_forward abs_in ii w t k i v a1 a2 (by omega)
          a3 a4 a5 (by rw [hP.1, hr]; exact hk) (by rw [hP.2, hc])
        exact ⟨t2, ht2, e1.trans hP.1, e2.trans hP.2⟩)
    refine ⟨out, ?_⟩
    unfold interp_abs2los
    rw [hdim]
    simp only [bind, Except.bind, hmd, hsz, hrow, hw, if_true]
    exact hout

end AbsorptionReturns

section AbsorptionClaims

variable {α : Type} [LinearOrderedField α] [FloorRing α]

theorem profile_getD (abs_in : Tensor3 α) (iv j : ℕ) (hj : j < abs_in.nrows) :
    ((List.range abs_in.nrows).map (fun r => abs_in.elem 0 r iv)).getD j 0 =
      abs_in.elem 0 j iv := by
  rw [List.getD_eq_getElem?_getD, List.getElem?_map, List.getElem?_range hj]
  rfl

/-- C15: a 1-D call of `interp_abs2los` (`ip_lat` and `ip_lon` empty)
interpolates every column of `abs_in` as `interp_1D` does.  When the call
returns, `abs_in` has one page, the output has one row for each position and
one column for each column of `abs_in`, and every column `iv` of the output
is the vector that `interp_1D` returns for the vertical profile
`abs_in(0, :, iv)` at the positions `ip_p`: the columns are interpolated in
the vertical only, each one on its own and all in the same way.  And the call
returns when `abs_in` has one page and a first column, `abs_out` has the size
`n x nv` and `interp_1D` returns for the first profile. -/
theorem interp_abs2los_columns (abs_out : Matrix α) (abs_in : Tensor3 α) (ip_p : List α) :
    (∀ abs_in_out : Matrix α, interp_abs2los abs_out abs_in ip_p [] [] = .ok abs_in_out →
      abs_in.npages = 1 ∧ abs_in_out.nrows = ip_p.length ∧
      abs_in_out.ncols = abs_in.ncols ∧
      ∀ iv : ℕ, iv < abs_in.ncols →
        t3_rows abs_in 0 iv =
          .ok ((List.range abs_in.nrows).map (fun r => abs_in.elem 0 r iv)) ∧
        interp_1D (matrix_column abs_out iv)
          ((List.range abs_in.nrows).map (fun r => abs_in.elem 0 r iv)) ip_p =
            .ok (matrix_column abs_in_out iv)) ∧
    (abs_in.npages = 1 → abs_out.nrows = ip_p.length → abs_out.ncols = abs_in.ncols →
      0 < abs_in.ncols →
      ∀ y : List α, interp_1D (matrix_column abs_out 0)
        ((List.range abs_in.nrows).map (fun r => abs_in.elem 0 r 0)) ip_p = .ok y →
      ∃ abs_in_out, interp_abs2los abs_out abs_in ip_p [] [] = .ok abs_in_out) := by
  refine ⟨?_, fun hp hr hc hn y hy =>
    interp_abs2los_returns abs_out abs_in ip_p hp hr hc hn y hy⟩
  intro abs_in_out h
  unfold interp_abs2los at h
  have hdim : get_dim_for_interp ip_p ([] : List α) ([] : List α) = .ok 1 := by
    simp [get_dim_for_interp, assert, bind, Except.bind, pure, Except.pure]
  rw [hdim] at h
  simp only [bind_eq_ok, bind, Except.bind] at h
  have hmd : ∀ u : Unit, assert_maxdim_of_tensor abs_in (1 + 1) = .ok u → abs_in.npages = 1 := by
    intro u hu
    unfold assert_maxdim_of_tensor at hu
    simp only [bind_eq_ok, assert_eq_ok] at hu
    obtain ⟨_, _, _, _, hu⟩ := hu
    rw [if_neg (by norm_num), if_pos (by norm_num), assert_eq_ok] at hu
    exact hu
  cases hm : assert_maxdim_of_tensor abs_in (1 + 1) with
  | error e => rw [hm] at h; cases h
  | ok u =>
    have hpages := hmd u hm
    rw [hm] at h
    simp only at h
    cases hsz : assert_size abs_out (ip_p.length : ℤ) (abs_in.ncols : ℤ) with
    | error e => rw [hsz] at h; cases h
    | ok u2 =>
      rw [hsz] at h
      simp only at h
      unfold assert_size at hsz
      simp only [bind_eq_ok, assert_eq_ok] at hsz
      obtain ⟨_, hc, hr⟩ := hsz
      have hc' : abs_out.ncols = abs_in.ncols := by exact_mod_cast hc
      have hr' : abs_out.nrows = ip_p.length := by exact_mod_cast hr
      cases hy : t3_rows abs_in 0 0 with
      | error e => rw [hy] at h; cases h
      | ok y =>
        rw [hy] at h
        simp only at h
        have hylen : y.length = abs_in.nrows := by
          unfold t3_rows at hy
          split_ifs at hy
          simp only [Except.ok.injEq] at hy
          rw [← hy]
          simp
        cases hw : get_interp_weights (List.replicate ip_p.length (0 : ℤ))
            (List.replicate ip_p.length (0 : α)) y ip_p with
        | error e => rw [hw] at h; cases h
        | ok iw =>
          obtain ⟨ii, w⟩ := iw
          rw [hw] at h
          simp only [if_true] at h
          obtain ⟨l1, l2, l3⟩ := abs2los_loop_ok abs_in ii w abs_out abs_in_out ip_p.length h
          refine ⟨hpages, l1.trans hr', l2.trans hc', ?_⟩
          intro iv hiv
          constructor
          · unfold t3_rows
            rw [if_pos ⟨le_refl _, by omega, by omega, by exact_mod_cast hiv⟩]
            rfl
          · have hw' : get_interp_weights (List.replicate ip_p.length (0 : ℤ))
                (List.replicate ip_p.length (0 : α))
                ((List.range abs_in.nrows).map (fun r => abs_in.elem 0 r iv)) ip_p
                = .ok (ii, w) := by
              rw [← hw]
              simp [get_interp_weights, hylen]
            obtain ⟨_, hval⟩ := interp_1D_values _ _ (matrix_column abs_out iv) _ ip_p ii w hw'
            obtain ⟨y', hy', hlen, hv⟩ := hval (by simp [matrix_column, hr'])
            rw [hy']
            congr 1
            apply List.ext_getElem?
            intro ix
            by_cases hix : ix < ip_p.length
            · obtain ⟨i, v, a1, a2, a3, a4, a5, a6⟩ := hv ix hix
              have hgi : ii.getD ix 0 = i := by
                rw [List.getD_eq_getElem?_getD, a1]; rfl
              have hgw : w.getD ix 0 = v := by
                rw [List.getD_eq_getElem?_getD, a2]; rfl
              simp only [List.length_map, List.length_range] at a4 a5
              rw [a6]
              unfold matrix_column
              rw [List.getElem?_map, List.getElem?_range (by omega)]
              simp only [Option.map_some', Option.some.injEq]
              rw [l3 ix iv, if_pos (show ix < ip_p.length ∧ iv < abs_in.ncols from ⟨hix, hiv⟩),
                hgi, hgw]
              by_cases hv0 : v = 0
              · rw [if_pos hv0, if_pos hv0, profile_getD abs_in iv _ (by omega)]
              · rw [if_neg hv0, if_neg hv0, profile_getD abs_in iv _ (by omega),
                  profile_getD abs_in iv _ (by have := a5 hv0; omega)]
            · rw [List.getElem?_eq_none (by rw [hlen]; simp [matrix_column, hr']; omega),
                List.getElem?_eq_none (by simp [matrix_column, l1, hr']; omega)]

/-- Every 3-D call of `interp_abs2los` (`ip_lat` and `ip_lon` not empty) ends
in an assertion, one of those on the lengths of the position vectors or
`dim <= 3` of `assert_maxdim_of_tensor`, which is called with `dim + 1 = 4`.
The runtime error "only implemented for 1D" is not reached. -/
theorem interp_abs2los_3D_assertion (abs_out : Matrix α) (abs_in : Tensor3 α)
    (ip_p : List α) (a : α) (lat : List α) (b : α) (lon : List α) :
    interp_abs2los abs_out abs_in ip_p (a :: lat) (b :: lon) = .error .assertion := by
  have hd : get_dim_for_interp ip_p (a :: lat) (b :: lon) = .error .assertion ∨
      get_dim_for_interp ip_p (a :: lat) (b :: lon) = .ok 3 := by
    unfold get_dim_for_interp
    rw [if_neg (by simp), if_neg (by simp)]
    unfold assert
    by_cases h1 : ip_p.length = (a :: lat).length
    · by_cases h2 : ip_p.length = (b :: lon).length
      · right
        rw [if_pos h1, if_pos h2]
        rfl
      · left
        rw [if_pos h1, if_neg h2]
        rfl
    · left
      rw [if_neg h1]
      rfl
  have hm : assert_maxdim_of_tensor abs_in (3 + 1) = .error .assertion := by
    unfold assert_maxdim_of_tensor assert
    rw [if_pos (by norm_num), if_neg (by norm_num)]
    rfl
  unfold interp_abs2los
  rcases hd with hd | hd
  · rw [hd]
    rfl
  · rw [hd]
    simp only [bind, Except.bind, hm]

/-- A 2-D call of `interp_abs2los` (`ip_lat` not empty, `ip_lon` empty) never
returns. -/
theorem interp_abs2los_2D (abs_out : Matrix α) (abs_in : Tensor3 α)
    (ip_p : List α) (a : α) (lat : List α) :
    ∀ out, interp_abs2los abs_out abs_in ip_p (a :: lat) [] ≠ .ok out := by
  have hdim : ∀ d, get_dim_for_interp ip_p (a :: lat) ([] : List α) = .ok d → d = 2 := by
    intro d hd
    unfold get_dim_for_interp at hd
    rw [if_neg (by simp), if_pos (by simp)] at hd
    simp only [bind_eq_ok, pure, Except.pure, Except.ok.injEq] at hd
    obtain ⟨_, _, rfl⟩ := hd
    rfl
  intro out hout
  unfold interp_abs2los at hout
  simp only [bind_eq_ok] at hout
  obtain ⟨d, hd, _, _, _, _, _, _, _, _, hlast⟩ := hout
  rw [hdim d hd, if_neg (by norm_num)] at hlast
  cases hlast

/-- C16, for 2-D calls: a call of `interp_abs2los` with `ip_lat` not empty
and of the length of `ip_p`, `ip_lon` empty, `abs_out` of the size
`n x nv`, a first page and a first column in `abs_in` and positions `ip_p`
that `get_interp_weights` accepts on the rows of `abs_in`, fails with the
runtime error "Absorption interpolation only implemented for 1D." -/
theorem interp_abs2los_2D_not_implemented (abs_out : Matrix α) (abs_in : Tensor3 α)
    (ip_p : List α) (a : α) (lat : List α)
    (h1 : ip_p.length = (a :: lat).length) (h2 : abs_out.nrows = ip_p.length)
    (h3 : abs_out.ncols = abs_in.ncols) (h4 : 0 < abs_in.npages) (h5 : 0 < abs_in.ncols)
    (h6 : ∃ iw, get_interp_weights (List.replicate ip_p.length (0 : ℤ))
        (List.replicate ip_p.length (0 : α))
        ((List.range abs_in.nrows).map (fun r => abs_in.elem 0 r 0)) ip_p = .ok iw) :
    interp_abs2los abs_out abs_in ip_p (a :: lat) [] =
      .error (Err.runtime "Absorption interpolation only implemented for 1D.") := by
  obtain ⟨iw, hiw⟩ := h6
  have hd : get_dim_for_interp ip_p (a :: lat) ([] : List α) = .ok 2 := by
    unfold get_dim_for_interp
    rw [if_neg (by simp), if_pos (by simp)]
    simp only [assert, h1, if_true, bind, Except.bind, pure, Except.pure]
  have hy : t3_rows abs_in 0 0 =
      .ok ((List.range abs_in.nrows).map (fun r => abs_in.elem 0 r 0)) := by
    unfold t3_rows
    rw [if_pos ⟨le_refl _, by omega, le_refl _, by omega⟩]
    rfl
  unfold interp_abs2los
  simp only [hd, bind, Except.bind, assert_maxdim_of_tensor, assert, assert_size, pure,
    Except.pure, hy, hiw, h2, h3]
  norm_num

end AbsorptionClaims

section AbsorptionExamples

/-- Witness for C15: the absorption field of `test_new_los` on three levels
(first column the row number, second column `0`), interpolated to the
positions `1/4`, `1` and `2`. -/
theorem interp_abs2los_columns_witness :
    ∃ out : Matrix ℚ,
      interp_abs2los (zero_matrix 3 2) (test_abs_in 3) [1 / 4, 1, 2] [] [] = .ok out ∧
      matrix_rows out = [[1 / 4, 0], [1, 0], [2, 0]] ∧
      interp_1D (matrix_column (zero_matrix 3 2) 0)
        ((List.range (test_abs_in 3).nrows).map (fun r => (test_abs_in 3).elem 0 r 0))
        [1 / 4, 1, 2] = .ok (matrix_column out 0) := by
  have hrows : (interp_abs2los (zero_matrix 3 2) (test_abs_in 3) [1 / 4, 1, 2] [] []).map
      matrix_rows = .ok [[1 / 4, 0], [1, 0], [2, 0]] := by decide!
  cases hcall : interp_abs2los (zero_matrix 3 2) (test_abs_in 3) [1 / 4, 1, 2] [] [] with
  | error e =>
    rw [hcall] at hrows
    cases hrows
  | ok out =>
    rw [hcall] at hrows
    refine ⟨out, rfl, Except.ok.inj hrows, ?_⟩
    exact (((interp_abs2los_columns _ _ _).1 out hcall).2.2.2 0 (by decide)).2

theorem map_eq_error {β γ : Type} (f : β → γ) (x : Except Err β) (e : Err)
    (h : x.map f = .error e) : x = .error e := by
  cases x with
  | error e2 =>
    cases h
    rfl
  | ok v => cases h

/-- Counterexample to C16: a 3-D call on the field of `test_new_los`, and a
2-D call whose `abs_out` has one column where `abs_in` has two, both end in
an assertion and not in the runtime error "only implemented for 1D". -/
theorem interp_abs2los_not_1D_assertion :
    interp_abs2los (zero_matrix 1 2) (test_abs_in 3) [1 / 4] [0] [0] = .error .assertion ∧
    interp_abs2los (zero_matrix 1 1) (test_abs_in 3) [1 / 4] [0] [] = .error .assertion :=
  ⟨map_eq_error matrix_rows _ _ (by decide!), map_eq_error matrix_rows _ _ (by decide!)⟩

/-- Witness for C16: a 2-D call on the field of `test_new_los` with an output
of the right size. -/
theorem interp_abs2los_2D_not_implemented_witness :
    interp_abs2los (zero_matrix 1 2) (test_abs_in 3) [1 / 4] [0] [] =
      .error (Err.runtime "Absorption interpolation only implemented for 1D.") :=
  interp_abs2los_2D_not_implemented (zero_matrix 1 2) (test_abs_in 3) [1 / 4] 0 []
    (by decide) (by decide) (by decide) (by decide) (by decide)
    ⟨([0], [1 / 4]), by decide!⟩

end AbsorptionExamples

section UnitConversionClaims

variable {α : Type} [LinearOrderedField α] [FloorRing α]

theorem foldl_max_ge (xs : List α) (a : α) :
    a ≤ xs.foldl max a ∧ ∀ x ∈ xs, x ≤ xs.foldl max a := by
  induction xs generalizing a with
  | nil => simp
  | cons b t ih =>
    simp only [List.foldl_cons, List.mem_cons, forall_eq_or_imp]
    obtain ⟨h1, h2⟩ := ih (max a b)
    exact ⟨le_trans (le_max_left a b) h1, le_trans (le_max_right a b) h1, h2⟩

theorem vector_max_ge (x : List α) (a : α) (ha : a ∈ x) :
    ∃ m, vector_max x = .ok m ∧ a ≤ m := by
  cases x with
  | nil => cases ha
  | cons b t =>
    refine ⟨t.foldl max b, rfl, ?_⟩
    rcases List.mem_cons.mp ha with h | h
    · rw [h]
      exact (foldl_max_ge t b).1
    · exact (foldl_max_ge t b).2 a h

theorem mem_matrix_column (x : Matrix α) (r c : ℕ) (hr : r < x.nrows) :
    x.elem r c ∈ matrix_column x c := by
  unfold matrix_column
  exact List.mem_map.mpr ⟨r, List.mem_range.mpr hr, rfl⟩

/-- C19: `iyApplyUnit` and `yApplyUnit` fail with the error "No need to use
this method" when `iy_unit` is "1", whatever the data; for another unit,
`iyApplyUnit` fails with its error on the radiance unit whenever an element of
the first column of `iy` exceeds `1e-3`, and `yApplyUnit` fails with its error
whenever an element of `y` exceeds `1e-3`. -/
theorem apply_unit_rejects
    (apply_iy_unit : Matrix α → String → List α → α → List ℤ → Except Err (ℕ → ℕ → α))
    (apply_iy_unit2 : Tensor3 α → Matrix α → String → List α → α → List ℤ →
      Except Err (ℕ → ℕ → ℕ → α))
    (iy : Matrix α) (iy_aux : List (Tensor4 α)) (stokes_dim : ℤ) (f_grid : List α)
    (iy_aux_vars : List String) (y : List α) (jacobian : Matrix α) (y_f : List α)
    (y_pol : List ℤ) (iy_unit : String) :
    (iy_unit = "1" →
      iyApplyUnit apply_iy_unit iy iy_aux stokes_dim f_grid iy_aux_vars iy_unit =
        .error (Err.runtime "No need to use this method with *iy_unit* = \"1\".") ∧
      yApplyUnit apply_iy_unit apply_iy_unit2 y jacobian y_f y_pol iy_unit =
        .error (Err.runtime "No need to use this method with *iy_unit* = \"1\".")) ∧
    (iy_unit ≠ "1" → ∀ r : ℕ, r < iy.nrows → 0 < iy.ncols → 1 / 1000 < iy.elem r 0 →
      iyApplyUnit apply_iy_unit iy iy_aux stokes_dim f_grid iy_aux_vars iy_unit =
        .error (Err.runtime ("The spectrum matrix *iy* is required to have original radiance\n" ++
          "unit, but this seems not to be the case. This as a value above\n" ++
          "1e-3 is found in *iy*."))) ∧
    (iy_unit ≠ "1" → ∀ x ∈ y, 1 / 1000 < x →
      yApplyUnit apply_iy_unit apply_iy_unit2 y jacobian y_f y_pol iy_unit =
        .error (Err.runtime ("The spectrum vector *y* is required to have original radiance\n" ++
          "unit, but this seems not to be the case. This as a value above\n" ++
          "1e-3 is found in *y*."))) := by
  refine ⟨?_, ?_, ?_⟩
  · intro h
    unfold iyApplyUnit yApplyUnit
    rw [if_pos h, if_pos h]
    exact ⟨rfl, rfl⟩
  · intro h r hr hc hx
    obtain ⟨m, hm, hle⟩ := vector_max_ge (matrix_column iy 0) _ (mem_matrix_column iy r 0 hr)
    have hv : matrix_col_view iy 0 = .ok (matrix_column iy 0) := by
      unfold matrix_col_view
      rw [if_pos ⟨le_refl _, by exact_mod_cast hc⟩]
      rfl
    unfold iyApplyUnit
    rw [if_neg h, hv]
    simp only [bind, Except.bind, hm]
    rw [if_pos (lt_of_lt_of_le hx hle)]
  · intro h x hx hgt
    obtain ⟨m, hm, hle⟩ := vector_max_ge y x hx
    unfold yApplyUnit
    rw [if_neg h]
    simp only [bind, Except.bind, hm]
    rw [if_pos (lt_of_lt_of_le hgt hle)]

end UnitConversionClaims

section UnitConversionExamples

/-- Counterexample to C19: the spectrum with one frequency and the two Stokes
elements `0` and `1` has the element `1` above `1e-3`, yet `iyApplyUnit`, with
a conversion that leaves the data as they are, accepts it and returns. -/
theorem iyApplyUnit_second_column_accepted :
    (1 / 1000 : ℚ) < (matrix_of_rows 2 [[0, 1]]).elem 0 1 ∧
      (iyApplyUnit unit_kept (matrix_of_rows 2 [[0, 1]]) [] 2 [1] [] "RJBT").map
        (fun r => (matrix_rows r.1, r.2.length)) = .ok ([[0, 1]], 0) := by
  constructor
  · decide!
  · decide!

/-- Witness for C19: the unit "1", a spectrum matrix whose first column holds
`1/100`, and a spectrum vector that holds `1/100`. -/
theorem apply_unit_rejects_witness :
    (iyApplyUnit unit_kept (zero_matrix 1 2) [] 2 [1] [] "1" =
        .error (Err.runtime "No need to use this method with *iy_unit* = \"1\".") ∧
      yApplyUnit unit_kept unit_kept2 [0, 1 / 100] (zero_matrix 0 0) [1, 2] [1, 1] "1" =
        .error (Err.runtime "No need to use this method with *iy_unit* = \"1\".")) ∧
    iyApplyUnit unit_kept (matrix_of_rows 2 [[0, 0], [1 / 100, 0]]) [] 2 [1] [] "RJBT" =
      .error (Err.runtime ("The spectrum matrix *iy* is required to have original radiance\n" ++
          "unit, but this seems not to be the case. This as a value above\n" ++
          "1e-3 is found in *iy*.")) ∧
    yApplyUnit unit_kept unit_kept2 [0, 1 / 100] (zero_matrix 0 0) [1, 2] [1, 1] "RJBT" =
      .error (Err.runtime ("The spectrum vector *y* is required to have original radiance\n" ++
          "unit, but this seems not to be the case. This as a value above\n" ++
          "1e-3 is found in *y*.")) :=
  ⟨(apply_unit_rejects unit_kept unit_kept2 (zero_matrix 1 2) [] 2 [1] [] [0, 1 / 100]
      (zero_matrix 0 0) [1, 2] [1, 1] "1").1 rfl,
    (apply_unit_rejects unit_kept unit_kept2 (matrix_of_rows 2 [[0, 0], [1 / 100, 0]])
      [] 2 [1] [] [0, 1 / 100] (zero_matrix 0 0) [1, 2] [1, 1] "RJBT").2.1 (by decide) 1
      (by decide) (by decide) (by decide!),
    (apply_unit_rejects unit_kept unit_kept2 (zero_matrix 1 2) [] 2 [1] [] [0, 1 / 100]
      (zero_matrix 0 0) [1, 2] [1, 1] "RJBT").2.2 (by decide) (1 / 100) (by simp)
      (by norm_num)⟩

/-- The conversions of `yApplyUnit` on a vector of raw radiances: with a
conversion that doubles the data, the PlanckBT branch and the branch of the
other units both return the doubled vector. -/
theorem yApplyUnit_example :
    (yApplyUnit unit_doubled unit_kept2 [0, 1 / 2000, 1 / 4000] (zero_matrix 0 0) [1, 1, 2]
        [1, 2, 1] "PlanckBT").map (fun r => r.1) = .ok [0, 1 / 1000, 1 / 2000] ∧
    (yApplyUnit unit_doubled unit_kept2 [0, 1 / 2000, 1 / 4000] (zero_matrix 0 0) [1, 1, 2]
        [1, 2, 1] "RJBT").map (fun r => r.1) = .ok [0, 1 / 1000, 1 / 2000] := by
  constructor <;> decide!

end UnitConversionExamples

section IyCalcClaims

theorem foldlM_unit_error (f : Unit → ℕ → Except Err Unit) (e : Err) (n : ℕ)
    (hall : ∀ k, k < n → f () k = .ok () ∨ f () k = .error e)
    (hex : ∃ i, i < n ∧ f () i = .error e) :
    (List.range n).foldlM f () = .error e := by
  induction n with
  | zero =>
    obtain ⟨i, hi, _⟩ := hex
    omega
  | succ m ih =>
    rw [List.range_succ, List.foldlM_append]
    by_cases hprev : ∃ i, i < m ∧ f () i = .error e
    · rw [ih (fun k hk => hall k (by omega)) hprev]
      rfl
    · have hok : (List.range m).foldlM f () = .ok () := by
        obtain ⟨s, hs, _⟩ := foldlM_range_forward f (fun _ _ => True) m () trivial
          (fun k t hk _ => by
            cases t
            rcases hall k (by omega) with h | h
            · exact ⟨(), h, trivial⟩
            · exact absurd ⟨k, hk, h⟩ hprev)
        cases s
        exact hs
      rw [hok]
      obtain ⟨i, hi, he⟩ := hex
      have him : i = m := by
        by_contra hne
        exact hprev ⟨i, by omega, he⟩
      rw [him] at he
      simp only [bind, Except.bind, List.foldlM, he]

theorem iyCalc_check_cases {β : Type} (isnan : β → Bool) (iy : Matrix β) (i : ℕ)
    (hi : i < iy.nrows) (hc : 0 < iy.ncols) :
    (isnan (iy.elem i 0) = false ∧ iyCalc_check isnan iy () i = .ok ()) ∨
    (isnan (iy.elem i 0) = true ∧ iyCalc_check isnan iy () i =
      .error (Err.runtime "One or several NaNs found in *iy*.")) := by
  have hg : mget iy (i : ℤ) 0 = .ok (iy.elem i 0) := by
    unfold mget
    rw [if_pos ⟨by omega, by exact_mod_cast hi, le_refl _, by exact_mod_cast hc⟩]
    rfl
  unfold iyCalc_check
  rw [hg]
  cases hn : isnan (iy.elem i 0)
  · left
    simp [bind, Except.bind, hn, pure, Except.pure]
  · right
    simp [bind, Except.bind, hn]

theorem iyCalc_check_ok {β : Type} (isnan : β → Bool) (iy : Matrix β) (i : ℕ) (u v : Unit)
    (h : iyCalc_check isnan iy u i = .ok v) : isnan (iy.elem i 0) = false := by
  unfold iyCalc_check at h
  simp only [bind_eq_ok] at h
  obtain ⟨x, hx, h2⟩ := h
  unfold mget at hx
  split_ifs at hx
  simp only [Except.ok.injEq] at hx
  subst hx
  simp only [Int.toNat_ofNat, Int.toNat_zero] at h2
  cases hn : isnan (iy.elem i 0)
  · rfl
  · rw [if_pos hn] at h2
    cases h2

/-- C20: with the three check flags set, `iyCalc` fails with the runtime
error "One or several NaNs found in iy" whenever the first column (first
Stokes element) of the spectrum `iy` returned by the main agenda holds a NaN
at some frequency; and when `iyCalc` returns, the flags are set, the spectrum
is the one the agenda returned, and its first column holds no NaN. -/
theorem iyCalc_nan_first_column {β A P : Type} [Inhabited β] (isnan : β → Bool)
    (iy_main_agendaExecute : ℤ → String → Tensor3 β → List String → ℤ → ℤ → A → List β →
      Except Err (IyMain β P))
    (atmfields_checked atmgeom_checked : ℤ) (iy_aux_vars : List String) (f_grid : List β)
    (atm : A) (cloudbox_on cloudbox_checked : ℤ) (iy_unit : String) :
    (atmfields_checked = 1 → atmgeom_checked = 1 → cloudbox_checked = 1 →
      ∀ r, iy_main_agendaExecute 1 iy_unit ⟨0, 0, 0, fun _ _ _ => default⟩ iy_aux_vars
          cloudbox_on 0 atm f_grid = .ok r →
        (∃ i, i < r.iy.nrows ∧ 0 < r.iy.ncols ∧ isnan (r.iy.elem i 0) = true) →
        iyCalc isnan iy_main_agendaExecute atmfields_checked atmgeom_checked iy_aux_vars f_grid
          atm cloudbox_on cloudbox_checked iy_unit =
          .error (Err.runtime "One or several NaNs found in *iy*.")) ∧
    (∀ iy iy_aux ppath,
      iyCalc isnan iy_main_agendaExecute atmfields_checked atmgeom_checked iy_aux_vars f_grid
          atm cloudbox_on cloudbox_checked iy_unit = .ok (iy, iy_aux, ppath) →
        atmfields_checked = 1 ∧ atmgeom_checked = 1 ∧ cloudbox_checked = 1 ∧
        (∃ r, iy_main_agendaExecute 1 iy_unit ⟨0, 0, 0, fun _ _ _ => default⟩ iy_aux_vars
          cloudbox_on 0 atm f_grid = .ok r ∧ r.iy = iy ∧ r.iy_aux = iy_aux ∧ r.ppath = ppath) ∧
        ∀ i, i < iy.nrows → isnan (iy.elem i 0) = false) := by
  constructor
  · intro h1 h2 h3 r hr ⟨i, hi, hc, hn⟩
    unfold iyCalc
    rw [if_neg (by simp [h1]), if_neg (by simp [h2]), if_neg (by simp [h3])]
    simp only [bind, Except.bind, hr]
    have hloop := foldlM_unit_error (iyCalc_check isnan r.iy)
      (Err.runtime "One or several NaNs found in *iy*.") r.iy.nrows
      (fun k hk => by
        rcases iyCalc_check_cases isnan r.iy k hk hc with h | h
        · exact Or.inl h.2
        · exact Or.inr h.2)
      ⟨i, hi, by
        rcases iyCalc_check_cases isnan r.iy i hi hc with h | h
        · rw [h.1] at hn
          cases hn
        · exact h.2⟩
    rw [hloop]
  · intro iy iy_aux ppath h
    unfold iyCalc at h
    split_ifs at h with h1 h2 h3
    simp only [bind_eq_ok] at h
    obtain ⟨r, hr, u, hloop, hret⟩ := h
    simp only [pure, Except.pure, Except.ok.injEq, Prod.mk.injEq] at hret
    obtain ⟨e1, e2, e3⟩ := hret
    refine ⟨by simpa using h1, by simpa using h2, by simpa using h3, ⟨r, hr, e1, e2, e3⟩, ?_⟩
    rw [← e1]
    exact foldlM_range_invariant (iyCalc_check isnan r.iy)
      (fun k _ => ∀ i, i < k → isnan (r.iy.elem i 0) = false) r.iy.nrows () u
      (fun i hi => by omega)
      (fun k t t2 hk hP hstep i hi => by
        by_cases hik : i = k
        · rw [hik]
          exact iyCalc_check_ok isnan r.iy k t t2 hstep
        · exact hP i (by omega))
      hloop

end IyCalcClaims

section IyCalcExamples

/-- Counterexample to C20: the main agenda returns a spectrum with one
frequency whose second Stokes element is a NaN; `iyCalc` returns normally and
hands the NaN on. -/
theorem iyCalc_nan_second_column_returned :
    Option.isNone ((matrix_of_rows 2 [[some (1 : ℚ), none]]).elem 0 1) = true ∧
    (iyCalc Option.isNone (agenda_returns (matrix_of_rows 2 [[some 1, none]])) 1 1 []
      [some 1] () 0 1 "1").map (fun r => matrix_rows r.1) = .ok [[some 1, none]] := by
  constructor
  · decide
  · decide!

/-- Witness for C20: a spectrum with two frequencies whose first Stokes
element is a NaN at the second frequency is rejected, and a spectrum without a
NaN in the first column is returned. -/
theorem iyCalc_nan_first_column_witness :
    iyCalc Option.isNone (agenda_returns (matrix_of_rows 2 [[some 1, some 0], [none, some 0]]))
      1 1 [] [some 1, some 2] () 0 1 "1"
      = .error (Err.runtime "One or several NaNs found in *iy*.") ∧
    (iyCalc Option.isNone (agenda_returns (matrix_of_rows 2 [[some 1, some 0]]))
      1 1 [] [some 1] () 0 1 "1").map (fun r => matrix_rows r.1) = .ok [[some 1, some 0]] :=
  ⟨(iyCalc_nan_first_column Option.isNone
      (agenda_returns (matrix_of_rows 2 [[some 1, some 0], [none, some 0]]))
      1 1 [] [some 1, some 2] () 0 1 "1").1 rfl rfl rfl _ rfl ⟨1, by decide, by decide, by decide⟩,
    by decide!⟩

end IyCalcExamples

section EmissionLemmas

variable {α A P Q D : Type} [LinearOrderedField α] [FloorRing α]

theorem vset_ok_any {β : Type} (x : List β) (i : ℤ) (v : β) (y : List β) :
    vset x i v = .ok y ↔ 0 ≤ i ∧ i.toNat < x.length ∧ y = x.set i.toNat v := by
  unfold vset
  by_cases h : i < 0
  · rw [if_pos h]
    constructor
    · intro h2
      cases h2
    · intro h2
      omega
  · rw [if_neg h]
    by_cases h3 : i.toNat < x.length
    · rw [if_pos h3]
      constructor
      · intro h2
        cases h2
        exact ⟨by omega, h3, rfl⟩
      · intro h2
        rw [h2.2.2]
    · rw [if_neg h3]
      constructor
      · intro h2
        cases h2
      · intro h2
        exact absurd h2.2.1 h3

theorem resize4_ok (fresh : ℕ → ℕ → ℕ → ℕ → α) (x y : Tensor4 α) (b p r c : ℤ)
    (h : resize4 fresh x b p r c = .ok y) :
    (y.nbooks : ℤ) = b ∧ (y.npages : ℤ) = p ∧ (y.nrows : ℤ) = r ∧ (y.ncols : ℤ) = c := by
  unfold resize4 at h
  simp only [bind_eq_ok, assert_eq_ok] at h
  obtain ⟨_, ⟨hb, hp, hr, hc⟩, h⟩ := h
  split_ifs at h with heq
  · cases h
    exact heq
  · cases h
    exact ⟨Int.toNat_of_nonneg hb, Int.toNat_of_nonneg hp, Int.toNat_of_nonneg hr,
      Int.toNat_of_nonneg hc⟩

theorem aux_resize_ok (env : Rte α A P Q D) (l a : List (Tensor4 α)) (i : ℕ) (b p r c : ℤ)
    (h : aux_resize env l i b p r c = .ok a) :
    i < l.length ∧ ∃ y : Tensor4 α, a = l.set i y ∧
      (y.nbooks : ℤ) = b ∧ (y.npages : ℤ) = p ∧ (y.nrows : ℤ) = r ∧ (y.ncols : ℤ) = c := by
  unfold aux_resize at h
  simp only [bind_eq_ok] at h
  obtain ⟨x, _, y, hy, hs⟩ := h
  rw [vset_ok_any] at hs
  exact ⟨by simpa using hs.2.1, y, by simpa using hs.2.2, resize4_ok env.fresh x y b p r c hy⟩

end EmissionLemmas

section AuxPositions

variable {α A P Q D : Type} [LinearOrderedField α] [FloorRing α]

theorem names_mono (vars : List String) (k : ℕ) (idx : ℤ) (name : String)
    (h : names vars k idx name) : names vars (k + 1) idx name := by
  intro h0
  obtain ⟨h1, h2⟩ := h h0
  exact ⟨by push_cast; omega, h2⟩

theorem names_new (vars : List String) (k : ℕ) (name : String) (h : vars[k]? = some name) :
    names vars (k + 1) (k : ℤ) name := by
  intro _
  exact ⟨by push_cast; omega, by simpa using h⟩

theorem names_all_mono (vars : List String) (k : ℕ) (idxs : List ℤ) (n : ℕ) (start : String)
    (h : names_all vars k idxs n start) : names_all vars (k + 1) idxs n start := by
  intro q hq
  obtain ⟨h0, h1, h2⟩ := h q hq
  exact ⟨h0, by push_cast; omega, h2⟩

theorem names_all_new (vars : List String) (k : ℕ) (idxs : List ℤ) (n : ℕ) (start v : String)
    (h : names_all vars k idxs n start) (hv : vars[k]? = some v) (hs : substr v 0 n = start) :
    names_all vars (k + 1) (idxs ++ [(k : ℤ)]) n start := by
  intro q hq
  rcases List.mem_append.mp hq with h1 | h1
  · exact names_all_mono vars k idxs n start h q h1
  · rw [List.mem_singleton] at h1
    subst h1
    exact ⟨by omega, by push_cast; omega, v, by simpa using hv, hs⟩

theorem sized_set_other (a : List (Tensor4 α)) (vars : List String) (name : String) (k : ℕ)
    (y : Tensor4 α) (idx b p r c : ℤ) (hn : names vars k idx name) (h : sized a idx b p r c) :
    sized (a.set k y) idx b p r c := by
  intro h0
  obtain ⟨x, hx, he⟩ := h h0
  obtain ⟨hlt, _⟩ := hn h0
  refine ⟨x, ?_, he⟩
  rw [List.getElem?_set_ne (by omega)]
  exact hx

theorem sized_set_self (a : List (Tensor4 α)) (k : ℕ) (y : Tensor4 α) (b p r c : ℤ)
    (hk : k < a.length)
    (hy : (y.nbooks : ℤ) = b ∧ (y.npages : ℤ) = p ∧ (y.nrows : ℤ) = r ∧ (y.ncols : ℤ) = c) :
    sized (a.set k y) (k : ℤ) b p r c := by
  intro _
  refine ⟨y, ?_, hy⟩
  simp [List.getElem?_set_self, hk]

theorem names_unset (vars : List String) (k : ℕ) (idx : ℤ) (name : String) (h : idx < 0) :
    names vars k idx name := by
  intro h0
  omega

theorem sized_unset (a : List (Tensor4 α)) (idx b p r c : ℤ) (h : idx < 0) :
    sized a idx b p r c := by
  intro h0
  omega

theorem aux_start_positions (vars : List String) (nf ns np : ℤ) (iy_aux : List (Tensor4 α)) :
    aux_positions vars nf ns np 0 (aux_start iy_aux vars.length) := by
  unfold aux_positions aux_start
  refine ⟨?_, names_unset _ _ _ _ (by norm_num), names_unset _ _ _ _ (by norm_num),
    names_unset _ _ _ _ (by norm_num), names_unset _ _ _ _ (by norm_num),
    names_unset _ _ _ _ (by norm_num), names_unset _ _ _ _ (by norm_num),
    names_unset _ _ _ _ (by norm_num), ?_, ?_, sized_unset _ _ _ _ _ _ (by norm_num),
    sized_unset _ _ _ _ _ _ (by norm_num), ?_, ?_⟩
  · simp only [array_resize, List.length_append, List.length_take, List.length_replicate]
    omega
  · intro q hq
    cases hq
  · intro q hq
    cases hq
  · intro i hi
    omega
  · intro i hi
    omega

end AuxPositions

section AuxPositionsStep

variable {α A P Q D : Type} [LinearOrderedField α] [FloorRing α]

theorem names_step (vars : List String) (k : ℕ) (old new : ℤ) (name v : String)
    (hv : vars[k]? = some v) (hI : names vars k old name)
    (h : new = old ∨ (new = k ∧ v = name)) : names vars (k + 1) new name := by
  rcases h with h | ⟨h, hn⟩
  · rw [h]
    exact names_mono vars k old name hI
  · rw [h]
    exact names_new vars k name (by rw [hv, hn])

theorem names_all_step (vars : List String) (k : ℕ) (old new : List ℤ) (n : ℕ)
    (start v : String) (hv : vars[k]? = some v) (hI : names_all vars k old n start)
    (h : new = old ∨ (new = old ++ [(k : ℤ)] ∧ substr v 0 n = start)) :
    names_all vars (k + 1) new n start := by
  rcases h with h | ⟨h, hn⟩
  · rw [h]
    exact names_all_mono vars k old n start hI
  · rw [h]
    exact names_all_new vars k old n start v hI hv hn

theorem aux_positions_step (vars : List String) (nf ns np : ℤ) (k : ℕ) (s t : Aux α)
    (v : String) (y : Tensor4 α) (hv : vars[k]? = some v) (hk : k < s.iy_aux.length)
    (hI : aux_positions vars nf ns np k s) (ha : t.iy_aux = s.iy_aux.set k y)
    (h1 : t.auxPressure = s.auxPressure ∨ (t.auxPressure = k ∧ v = "Pressure"))
    (h2 : t.auxTemperature = s.auxTemperature ∨ (t.auxTemperature = k ∧ v = "Temperature"))
    (h3 : t.auxAbsSum = s.auxAbsSum ∨ (t.auxAbsSum = k ∧ v = "Absorption, summed"))
    (h4 : t.auxBackground = s.auxBackground ∨
      (t.auxBackground = k ∧ v = "Radiative background"))
    (h5 : t.auxIy = s.auxIy ∨ (t.auxIy = k ∧ v = "iy"))
    (h6 : (t.auxTrans = s.auxTrans ∧ v ≠ "Transmission") ∨
      (t.auxTrans = k ∧ v = "Transmission" ∧ s.auxTrans < 0 ∧
        (y.nbooks : ℤ) = nf ∧ (y.npages : ℤ) = ns ∧ (y.nrows : ℤ) = ns ∧ (y.ncols : ℤ) = np))
    (h7 : (t.auxOptDepth = s.auxOptDepth ∧ v ≠ "Optical depth") ∨
      (t.auxOptDepth = k ∧ v = "Optical depth" ∧
        (y.nbooks : ℤ) = nf ∧ (y.npages : ℤ) = 1 ∧ (y.nrows : ℤ) = 1 ∧ (y.ncols : ℤ) = 1))
    (h8 : t.auxVmrSpecies = s.auxVmrSpecies ∨
      (t.auxVmrSpecies = s.auxVmrSpecies ++ [(k : ℤ)] ∧ substr v 0 13 = "VMR, species "))
    (h9 : t.auxAbsSpecies = s.auxAbsSpecies ∨
      (t.auxAbsSpecies = s.auxAbsSpecies ++ [(k : ℤ)] ∧
        substr v 0 20 = "Absorption, species ")) :
    aux_positions vars nf ns np (k + 1) t := by
  obtain ⟨i0, i1, i2, i3, i4, i5, i6, i7, i8, i9, i10, i11, i12, i13⟩ := hI
  refine ⟨?_, names_step vars k _ _ _ v hv i1 h1, names_step vars k _ _ _ v hv i2 h2,
    names_step vars k _ _ _ v hv i3 h3, names_step vars k _ _ _ v hv i4 h4,
    names_step vars k _ _ _ v hv i5 h5,
    names_step vars k _ _ _ v hv i6 (h6.imp (fun h => h.1) (fun h => ⟨h.1, h.2.1⟩)),
    names_step vars k _ _ _ v hv i7 (h7.imp (fun h => h.1) (fun h => ⟨h.1, h.2.1⟩)),
    names_all_step vars k _ _ 13 _ v hv i8 h8, names_all_step vars k _ _ 20 _ v hv i9 h9,
    ?_, ?_, ?_, ?_⟩
  · rw [ha, List.length_set]
    exact i0
  · rw [ha]
    rcases h6 with ⟨h, _⟩ | ⟨h, _, _, hy⟩
    · rw [h]
      exact sized_set_other _ vars _ k y _ _ _ _ _ i6 i10
    · rw [h]
      exact sized_set_self _ k y _ _ _ _ hk hy
  · rw [ha]
    rcases h7 with ⟨h, _⟩ | ⟨h, _, hy⟩
    · rw [h]
      exact sized_set_other _ vars _ k y _ _ _ _ _ i7 i11
    · rw [h]
      exact sized_set_self _ k y _ _ _ _ hk hy
  · intro i hi hT
    by_cases hik : i = k
    · rw [hik, hv] at hT
      simp only [Option.some.injEq] at hT
      rcases h6 with ⟨_, hne⟩ | ⟨h, _⟩
      · exact absurd hT hne
      · rw [h, hik]
    · have hprev := i12 i (by omega) hT
      rcases h6 with ⟨h, _⟩ | ⟨_, _, hneg, _⟩
      · rw [h]
        exact hprev
      · rw [hprev] at hneg
        omega
  · intro i hi hT
    by_cases hik : i = k
    · rw [hik, hv] at hT
      simp only [Option.some.injEq] at hT
      rcases h7 with ⟨_, hne⟩ | ⟨h, _⟩
      · exact absurd hT hne
      · rw [h, hik]
    · have hprev := i13 i (by omega) hT
      rcases h7 with ⟨h, _⟩ | ⟨h, _⟩
      · rw [h]
        exact hprev
      · rw [h]
        have := (i7 (le_trans (by omega) hprev)).1
        omega

end AuxPositionsStep

section AuxRequests

variable {α A P Q D : Type} [LinearOrderedField α] [FloorRing α]

theorem aux_request_positions (env : Rte α A P Q D) (atm : A) (nf ns np : ℤ)
    (vars : List String) (k : ℕ) (s t : Aux α) (hI : aux_positions vars nf ns np k s)
    (h : aux_request env atm nf ns np vars s k = .ok t) :
    aux_positions vars nf ns np (k + 1) t := by
  unfold aux_request at h
  simp only [bind_eq_ok] at h
  obtain ⟨v, hv, h⟩ := h
  rw [vget_ok_iff] at hv
  have hv2 : vars[k]? = some v := by simpa using hv.2
  by_cases c1 : v = "Pressure"
  · rw [if_pos c1] at h
    simp only [bind_eq_ok, pure, Except.pure, Except.ok.injEq] at h
    obtain ⟨a, ha, rfl⟩ := h
    obtain ⟨hk, y, hy, he⟩ := aux_resize_ok env _ _ _ _ _ _ _ ha
    exact aux_positions_step vars nf ns np k s _ v y hv2 hk hI hy
      (Or.inr ⟨rfl, c1⟩) (Or.inl rfl) (Or.inl rfl) (Or.inl rfl) (Or.inl rfl) (Or.inl ⟨rfl, by rw [c1]; decide⟩) (Or.inl ⟨rfl, by rw [c1]; decide⟩) (Or.inl rfl) (Or.inl rfl)
  · rw [if_neg c1] at h
    by_cases c2 : v = "Temperature"
    · rw [if_pos c2] at h
      simp only [bind_eq_ok, pure, Except.pure, Except.ok.injEq] at h
      obtain ⟨a, ha, rfl⟩ := h
      obtain ⟨hk, y, hy, he⟩ := aux_resize_ok env _ _ _ _ _ _ _ ha
      exact aux_positions_step vars nf ns np k s _ v y hv2 hk hI hy
        (Or.inl rfl) (Or.inr ⟨rfl, c2⟩) (Or.inl rfl) (Or.inl rfl) (Or.inl rfl) (Or.inl ⟨rfl, by rw [c2]; decide⟩) (Or.inl ⟨rfl, by rw [c2]; decide⟩) (Or.inl rfl) (Or.inl rfl)
    · rw [if_neg c2] at h
      by_cases c3 : substr v 0 13 = "VMR, species "
      · rw [if_pos c3] at h
        by_cases e3 : env.read_index (substr v 13 2) < 0 ∨
            env.read_index (substr v 13 2) ≥ env.n_abs_species atm
        · rw [if_pos e3] at h
          cases h
        · rw [if_neg e3] at h
          simp only [bind_eq_ok, pure, Except.pure, Except.ok.injEq] at h
          obtain ⟨a, ha, rfl⟩ := h
          obtain ⟨hk, y, hy, he⟩ := aux_resize_ok env _ _ _ _ _ _ _ ha
          exact aux_positions_step vars nf ns np k s _ v y hv2 hk hI hy
            (Or.inl rfl) (Or.inl rfl) (Or.inl rfl) (Or.inl rfl) (Or.inl rfl) (Or.inl ⟨rfl, by intro hx; rw [hx] at c3; revert c3; decide⟩) (Or.inl ⟨rfl, by intro hx; rw [hx] at c3; revert c3; decide⟩) (Or.inr ⟨rfl, c3⟩) (Or.inl rfl)
      · rw [if_neg c3] at h
        by_cases c5 : v = "Absorption, summed"
        · rw [if_pos c5] at h
          simp only [bind_eq_ok, pure, Except.pure, Except.ok.injEq] at h
          obtain ⟨a, ha, rfl⟩ := h
          obtain ⟨hk, y, hy, he⟩ := aux_resize_ok env _ _ _ _ _ _ _ ha
          exact aux_positions_step vars nf ns np k s _ v y hv2 hk hI hy
            (Or.inl rfl) (Or.inl rfl) (Or.inr ⟨rfl, c5⟩) (Or.inl rfl) (Or.inl rfl) (Or.inl ⟨rfl, by rw [c5]; decide⟩) (Or.inl ⟨rfl, by rw [c5]; decide⟩) (Or.inl rfl) (Or.inl rfl)
        · rw [if_neg c5] at h
          by_cases c6 : substr v 0 20 = "Absorption, species "
          · rw [if_pos c6] at h
            by_cases e6 : env.read_index (substr v 20 2) < 0 ∨
                env.read_index (substr v 20 2) ≥ env.n_abs_species atm
            · rw [if_pos e6] at h
              cases h
            · rw [if_neg e6] at h
              simp only [bind_eq_ok, pure, Except.pure, Except.ok.injEq] at h
              obtain ⟨a, ha, rfl⟩ := h
              obtain ⟨hk, y, hy, he⟩ := aux_resize_ok env _ _ _ _ _ _ _ ha
              exact aux_positions_step vars nf ns np k s _ v y hv2 hk hI hy
                (Or.inl rfl) (Or.inl rfl) (Or.inl rfl) (Or.inl rfl) (Or.inl rfl) (Or.inl ⟨rfl, by intro hx; rw [hx] at c6; revert c6; decide⟩) (Or.inl ⟨rfl, by intro hx; rw [hx] at c6; revert c6; decide⟩) (Or.inl rfl) (Or.inr ⟨rfl, c6⟩)
          · rw [if_neg c6] at h
            by_cases c8 : v = "Radiative background"
            · rw [if_pos c8] at h
              simp only [bind_eq_ok, pure, Except.pure, Except.ok.injEq] at h
              obtain ⟨a, ha, rfl⟩ := h
              obtain ⟨hk, y, hy, he⟩ := aux_resize_ok env _ _ _ _ _ _ _ ha
              exact aux_positions_step vars nf ns np k s _ v y hv2 hk hI hy
                (Or.inl rfl) (Or.inl rfl) (Or.inl rfl) (Or.inr ⟨rfl, c8⟩) (Or.inl rfl) (Or.inl ⟨rfl, by rw [c8]; decide⟩) (Or.inl ⟨rfl, by rw [c8]; decide⟩) (Or.inl rfl) (Or.inl rfl)
            · rw [if_neg c8] at h
              by_cases c9 : v = "iy" ∧ s.auxIy < 0
              · rw [if_pos c9] at h
                simp only [bind_eq_ok, pure, Except.pure, Except.ok.injEq] at h
                obtain ⟨a, ha, rfl⟩ := h
                obtain ⟨hk, y, hy, he⟩ := aux_resize_ok env _ _ _ _ _ _ _ ha
                exact aux_positions_step vars nf ns np k s _ v y hv2 hk hI hy
                  (Or.inl rfl) (Or.inl rfl) (Or.inl rfl) (Or.inl rfl) (Or.inr ⟨rfl, c9.1⟩) (Or.inl ⟨rfl, by rw [c9.1]; decide⟩) (Or.inl ⟨rfl, by rw [c9.1]; decide⟩) (Or.inl rfl) (Or.inl rfl)
              · rw [if_neg c9] at h
                by_cases c10 : v = "Transmission" ∧ s.auxTrans < 0
                · rw [if_pos c10] at h
                  simp only [bind_eq_ok, pure, Except.pure, Except.ok.injEq] at h
                  obtain ⟨a, ha, rfl⟩ := h
                  obtain ⟨hk, y, hy, he⟩ := aux_resize_ok env _ _ _ _ _ _ _ ha
                  exact aux_positions_step vars nf ns np k s _ v y hv2 hk hI hy
                    (Or.inl rfl) (Or.inl rfl) (Or.inl rfl) (Or.inl rfl) (Or.inl rfl) (Or.inr ⟨rfl, c10.1, c10.2, he⟩) (Or.inl ⟨rfl, by rw [c10.1]; decide⟩) (Or.inl rfl) (Or.inl rfl)
                · rw [if_neg c10] at h
                  by_cases c11 : v = "Optical depth"
                  · rw [if_pos c11] at h
                    simp only [bind_eq_ok, pure, Except.pure, Except.ok.injEq] at h
                    obtain ⟨a, ha, rfl⟩ := h
                    obtain ⟨hk, y, hy, he⟩ := aux_resize_ok env _ _ _ _ _ _ _ ha
                    exact aux_positions_step vars nf ns np k s _ v y hv2 hk hI hy
                      (Or.inl rfl) (Or.inl rfl) (Or.inl rfl) (Or.inl rfl) (Or.inl rfl) (Or.inl ⟨rfl, by rw [c11]; decide⟩) (Or.inr ⟨rfl, c11, he⟩) (Or.inl rfl) (Or.inl rfl)
                  · rw [if_neg c11] at h
                    by_cases c12 : substr v 0 14 = "Mass content, "
                    · rw [if_pos c12] at h
                      simp only [bind_eq_ok, pure, Except.pure, Except.ok.injEq] at h
                      obtain ⟨a, ha, rfl⟩ := h
                      obtain ⟨hk, y, hy, he⟩ := aux_resize_ok env _ _ _ _ _ _ _ ha
                      exact aux_positions_step vars nf ns np k s _ v y hv2 hk hI hy
                        (Or.inl rfl) (Or.inl rfl) (Or.inl rfl) (Or.inl rfl) (Or.inl rfl) (Or.inl ⟨rfl, by intro hx; rw [hx] at c12; revert c12; decide⟩) (Or.inl ⟨rfl, c11⟩) (Or.inl rfl) (Or.inl rfl)
                    · rw [if_neg c12] at h
                      by_cases c13 : substr v 0 10 = "PND, type "
                      · rw [if_pos c13] at h
                        simp only [bind_eq_ok, pure, Except.pure, Except.ok.injEq] at h
                        obtain ⟨a, ha, rfl⟩ := h
                        obtain ⟨hk, y, hy, he⟩ := aux_resize_ok env _ _ _ _ _ _ _ ha
                        exact aux_positions_step vars nf ns np k s _ v y hv2 hk hI hy
                          (Or.inl rfl) (Or.inl rfl) (Or.inl rfl) (Or.inl rfl) (Or.inl rfl) (Or.inl ⟨rfl, by intro hx; rw [hx] at c13; revert c13; decide⟩) (Or.inl ⟨rfl, c11⟩) (Or.inl rfl) (Or.inl rfl)
                      · rw [if_neg c13] at h
                        cases h

theorem aux_requests_positions (env : Rte α A P Q D) (atm : A) (nf ns np : ℤ)
    (vars : List String) (iy_aux : List (Tensor4 α)) (s : Aux α)
    (h : aux_requests env atm nf ns np vars iy_aux = .ok s) :
    aux_positions vars nf ns np vars.length s :=
  foldlM_range_invariant (aux_request env atm nf ns np vars)
    (fun k t => aux_positions vars nf ns np k t) vars.length _ s
    (aux_start_positions vars nf ns np iy_aux)
    (fun k t t2 _ hP hstep => aux_request_positions env atm nf ns np vars k t t2 hP hstep) h

end AuxRequests

section UnitTransmission

variable {α A P Q D : Type} [LinearOrderedField α] [FloorRing α]

theorem t4_id_mat_ok (x y : Tensor4 α) (b c : ℤ) (h : t4_id_mat x b c = .ok y) :
    (0 ≤ b ∧ b < x.nbooks ∧ 0 ≤ c ∧ c < x.ncols) ∧ x.nrows = x.npages ∧
    y = { x with elem := fun b2 p r c2 =>
      if b2 = b.toNat ∧ c2 = c.toNat then (if p = r then 1 else 0) else x.elem b2 p r c2 } := by
  unfold t4_id_mat at h
  split_ifs at h with hc
  simp only [bind_eq_ok, assert_eq_ok, pure, Except.pure, Except.ok.injEq] at h
  obtain ⟨_, hsq, rfl⟩ := h
  exact ⟨hc, hsq, rfl⟩

theorem id_mat_loop (x y : Tensor4 α) (c : ℤ) (n : ℕ)
    (h : (List.range n).foldlM (id_mat_at c) x = .ok y) :
    y.nbooks = x.nbooks ∧ y.npages = x.npages ∧ y.nrows = x.nrows ∧ y.ncols = x.ncols ∧
    unit_at y n c.toNat := by
  refine foldlM_range_invariant (id_mat_at c)
    (fun k t => t.nbooks = x.nbooks ∧ t.npages = x.npages ∧ t.nrows = x.nrows ∧
      t.ncols = x.ncols ∧ unit_at t k c.toNat) n x y ?_ ?_ h
  · exact ⟨rfl, rfl, rfl, rfl, fun iv p r hiv => by omega⟩
  · intro k t t2 _ hP hstep
    obtain ⟨e1, e2, e3, e4, hu⟩ := hP
    unfold id_mat_at at hstep
    obtain ⟨_, _, rfl⟩ := t4_id_mat_ok t t2 k c hstep
    refine ⟨e1, e2, e3, e4, ?_⟩
    intro iv p r hiv
    simp only [Int.toNat_ofNat, and_true]
    by_cases hk : iv = k
    · rw [if_pos hk]
    · rw [if_neg hk]
      exact hu iv p r (by omega)

end UnitTransmission

section PathVars

variable {α A P Q D : Type} [LinearOrderedField α] [FloorRing α]

theorem path_vars_single (env : Rte α A P Q D) (atm : A) (ppath : P) (jq : List Q)
    (jac : Jac α) (iaps : List ℤ) (f_grid : List α)
    (stokes_dim jacobian_do j_analytical_do : ℤ) (pv : PathVars α D)
    (hnp : env.np ppath = 1)
    (h : path_vars env atm ppath jq jac iaps f_grid stokes_dim jacobian_do j_analytical_do
      = .ok pv) :
    pv.pt.scalar_tau = List.replicate f_grid.length 0 ∧
    (pv.pt.trans_cumulat.nbooks : ℤ) = f_grid.length ∧
    (pv.pt.trans_cumulat.npages : ℤ) = stokes_dim ∧
    (pv.pt.trans_cumulat.nrows : ℤ) = stokes_dim ∧
    (pv.pt.trans_cumulat.ncols : ℤ) = 1 ∧
    unit_at pv.pt.trans_cumulat f_grid.length 0 := by
  unfold path_vars at h
  simp only [hnp] at h
  rw [if_neg (by norm_num)] at h
  simp only [bind_eq_ok, pure, Except.pure, Except.ok.injEq] at h
  obtain ⟨t0, ht0, t, ht, rfl⟩ := h
  obtain ⟨r1, r2, r3, r4⟩ := resize4_ok env.fresh _ _ _ _ _ _ ht0
  obtain ⟨e1, e2, e3, e4, hu⟩ := id_mat_loop t0 t _ _ ht
  simp only [Int.toNat_ofNat] at hu ht
  refine ⟨by simp, by rw [e1]; exact r1, by rw [e2]; exact r2, by rw [e3]; exact r3,
    by rw [e4]; exact r4, ?_⟩
  simpa using hu

theorem path_vars_many (env : Rte α A P Q D) (atm : A) (ppath : P) (jq : List Q)
    (jac : Jac α) (iaps : List ℤ) (f_grid : List α)
    (stokes_dim jacobian_do j_analytical_do : ℤ) (pv : PathVars α D)
    (hnp : 1 < env.np ppath)
    (h : path_vars env atm ppath jq jac iaps f_grid stokes_dim jacobian_do j_analytical_do
      = .ok pv) :
    ∃ av ppath_f,
      env.get_ppath_atmvars atm ppath = .ok av ∧
      env.get_ppath_f atm ppath f_grid av.ppath_wind = .ok ppath_f ∧
      env.get_ppath_pmat_and_tmat atm ppath jq jac.ptr iaps av ppath_f f_grid stokes_dim
        jacobian_do = .ok pv.pt ∧
      env.get_ppath_blackrad ppath av.ppath_t ppath_f = .ok pv.ppath_blackrad := by
  unfold path_vars at h
  simp only [] at h
  rw [if_pos (by omega)] at h
  simp only [bind_eq_ok, pure, Except.pure, Except.ok.injEq] at h
  obtain ⟨av, hav, pf, hpf, pt, hpt, b, hb, db, _, rfl⟩ := h
  exact ⟨av, pf, hav, hpf, hpt, hb⟩

end PathVars

section AuxFill

variable {α A P Q D : Type} [LinearOrderedField α] [FloorRing α]

theorem stage_ok {β : Type} (a b : List β) (idx : ℤ) (f : β → Except Err β)
    (h : (do let x ← vget a idx; let x2 ← f x; vset a idx x2) = .ok b) :
    0 ≤ idx ∧ ∃ x x2, a[idx.toNat]? = some x ∧ f x = .ok x2 ∧ b = a.set idx.toNat x2 := by
  simp only [bind_eq_ok] at h
  obtain ⟨x, hx, x2, hf, hs⟩ := h
  rw [vget_ok_iff] at hx
  rw [vset_ok_any] at hs
  exact ⟨hx.1, x, x2, hx.2, hf, hs.2.2⟩

theorem ne_of_names (vars : List String) (k i : ℕ) (idx : ℤ) (name other : String)
    (hn : names vars k idx name) (h0 : 0 ≤ idx) (hi : vars[i]? = some other)
    (hne : name ≠ other) : idx.toNat ≠ i := by
  intro h
  obtain ⟨_, h2⟩ := hn h0
  rw [h, hi] at h2
  simp only [Option.some.injEq] at h2
  exact hne h2.symm

theorem t4_set_books_ok (x y : Tensor4 α) (v : List α) (h : t4_set_books x 0 0 0 v = .ok y) :
    y.nbooks = x.nbooks ∧ y.npages = x.npages ∧ y.nrows = x.nrows ∧ y.ncols = x.ncols ∧
    x.nbooks = v.length ∧ ∀ iv : ℕ, y.elem iv 0 0 0 = v.getD iv 0 := by
  unfold t4_set_books at h
  split_ifs at h
  simp only [bind_eq_ok, assert_eq_ok, pure, Except.pure, Except.ok.injEq] at h
  obtain ⟨_, hlen, rfl⟩ := h
  exact ⟨rfl, rfl, rfl, rfl, hlen, fun iv => by simp⟩

end AuxFill

section AuxFillFirst

variable {α A P Q D : Type} [LinearOrderedField α] [FloorRing α]

theorem changed_at_stage {β : Type} (a b : List β) (idx : ℤ) (f : β → Except Err β)
    (R : β → β → Prop) (hR : ∀ x x2, f x = .ok x2 → R x x2)
    (h : (if idx ≥ 0 then (do let x ← vget a idx; let x2 ← f x; vset a idx x2) else pure a)
      = .ok b) : changed_at a b idx R := by
  by_cases h0 : idx ≥ 0
  · rw [if_pos h0] at h
    obtain ⟨_, x, x2, hx, hf, rfl⟩ := stage_ok a b idx f h
    have hlt : idx.toNat < a.length := by
      by_contra hc
      rw [List.getElem?_eq_none (by omega)] at hx
      cases hx
    refine ⟨List.length_set _ _ _, ?_, ?_⟩
    · intro j hj
      rcases hj with hj | hj
      · omega
      · rw [List.getElem?_set_ne (Ne.symm hj)]
    · intro _
      exact ⟨x, x2, hx, by simp [List.getElem?_set_self, hlt], hR x x2 hf⟩
  · rw [if_neg h0] at h
    cases h
    exact ⟨rfl, fun _ _ => rfl, fun h1 => absurd h1 h0⟩

theorem aux_fill_first_ok (env : Rte α A P Q D) (ppath : P) (nf np : ℤ) (iy : Matrix α)
    (tc : Tensor4 α) (tau : List α) (s : Aux α) (a : List (Tensor4 α))
    (h : aux_fill_first env ppath nf np iy tc tau s = .ok a) :
    ∃ a1 a2 a3,
      changed_at s.iy_aux a1 s.auxBackground (fun _ _ => True) ∧
      changed_at a1 a2 s.auxIy (fun _ _ => True) ∧
      changed_at a2 a3 s.auxTrans (fun x x2 =>
        (np = 1 → (List.range nf.toNat).foldlM (id_mat_at 0) x = .ok x2) ∧
        (np ≠ 1 → x2 = tc)) ∧
      changed_at a3 a s.auxOptDepth (fun x x2 => t4_set_books x 0 0 0 tau = .ok x2) := by
  unfold aux_fill_first at h
  simp only [bind_eq_ok] at h
  obtain ⟨a1, h1, a2, h2, a3, h3, h4⟩ := h
  refine ⟨a1, a2, a3, changed_at_stage _ _ _ _ _ (fun _ _ _ => trivial) h1,
    changed_at_stage _ _ _ _ _ (fun _ _ _ => trivial) h2, ?_,
    changed_at_stage _ _ _ _ _ (fun _ _ hf => hf) h4⟩
  by_cases hnp : np = 1
  · rw [if_pos hnp] at h3
    exact changed_at_stage _ _ _ _ _ (fun x x2 hf => ⟨fun _ => hf, fun hc => absurd hnp hc⟩) h3
  · rw [if_neg hnp] at h3
    by_cases h0 : s.auxTrans ≥ 0
    · rw [if_pos h0] at h3
      rw [vset_ok_any] at h3
      obtain ⟨_, hlt, rfl⟩ := h3
      refine ⟨List.length_set _ _ _, ?_, ?_⟩
      · intro j hj
        rcases hj with hj | hj
        · omega
        · rw [List.getElem?_set_ne (Ne.symm hj)]
      · intro _
        exact ⟨a2[s.auxTrans.toNat], tc, by simp [hlt], by simp [List.getElem?_set_self, hlt],
          fun hc => absurd hc hnp, fun _ => rfl⟩
    · rw [if_neg h0] at h3
      cases h3
      exact ⟨rfl, fun _ _ => rfl, fun h1 => absurd h1 h0⟩

end AuxFillFirst

section AuxFrame

variable {α A P Q D : Type} [LinearOrderedField α] [FloorRing α]

theorem same_at_refl {β : Type} (a : List β) (i : ℕ) : same_at a a i := ⟨rfl, rfl⟩

theorem same_at_trans {β : Type} (a b c : List β) (i : ℕ) (h1 : same_at a b i)
    (h2 : same_at b c i) : same_at a c i :=
  ⟨h2.1.trans h1.1, h2.2.trans h1.2⟩

theorem same_at_set {β : Type} (a : List β) (i n : ℕ) (x : β) (h : n ≠ i) :
    same_at a (a.set n x) i :=
  ⟨List.length_set _ _ _, List.getElem?_set_ne h⟩

theorem foldlM_same_at {β : Type} (f : List β → ℕ → Except Err (List β)) (i n : ℕ)
    (a b : List β) (hf : ∀ t t2 k, k < n → f t k = .ok t2 → same_at t t2 i)
    (h : (List.range n).foldlM f a = .ok b) : same_at a b i :=
  foldlM_range_invariant f (fun _ t => same_at a t i) n a b (same_at_refl a i)
    (fun k t t2 hk hP hstep => same_at_trans a t t2 i hP (hf t t2 k hk hstep)) h

theorem aux_set_same (a b : List (Tensor4 α)) (q b1 p r c : ℤ) (v : α) (i : ℕ)
    (hq : q.toNat ≠ i) (h : aux_set a q b1 p r c v = .ok b) : same_at a b i := by
  unfold aux_set at h
  obtain ⟨_, x, x2, _, _, rfl⟩ := stage_ok a b q (fun x => t4set x b1 p r c v) h
  exact same_at_set a i _ x2 hq

theorem aux_copy_same (src : ℤ → ℤ → ℤ → Except Err α) (nf ns q ix : ℤ)
    (a b : List (Tensor4 α)) (i : ℕ) (hq : q.toNat ≠ i)
    (h : aux_copy src nf ns q ix a = .ok b) : same_at a b i := by
  unfold aux_copy at h
  refine foldlM_same_at _ i _ a b ?_ h
  intro t t2 iv _ h1
  refine foldlM_same_at _ i _ t t2 ?_ h1
  intro u u2 is1 _ h2
  refine foldlM_same_at _ i _ u u2 ?_ h2
  intro w w2 is2 _ h3
  simp only [bind_eq_ok] at h3
  obtain ⟨v, _, h4⟩ := h3
  exact aux_set_same w w2 q _ _ _ _ v i hq h4

theorem ne_of_names_all (vars : List String) (k i : ℕ) (idxs : List ℤ) (n : ℕ)
    (start other : String) (hn : names_all vars k idxs n start) (q : ℤ) (hq : q ∈ idxs)
    (hi : vars[i]? = some other) (hne : substr other 0 n ≠ start) : q.toNat ≠ i := by
  intro h
  obtain ⟨_, _, v, hv, hs⟩ := hn q hq
  rw [h, hi] at hv
  simp only [Option.some.injEq] at hv
  rw [hv] at hne
  exact hne hs

theorem mem_of_vget {β : Type} (l : List β) (j : ℤ) (q : β) (h : vget l j = .ok q) : q ∈ l := by
  rw [vget_ok_iff] at h
  exact List.getElem?_mem h.2

theorem aux_point_same (vars : List String) (nf ns np : ℤ) (k : ℕ) (s : Aux α)
    (pv : PathVars α D) (ix : ℤ) (a b : List (Tensor4 α)) (i : ℕ) (name : String)
    (hI : aux_positions vars nf ns np k s) (hi : vars[i]? = some name) (hu : untouched name)
    (h : aux_point s pv nf ns ix a = .ok b) : same_at a b i := by
  obtain ⟨_, i1, i2, i3, _, _, _, _, i8, i9, _⟩ := hI
  obtain ⟨u1, u2, u3, u4, u5, _, _⟩ := hu
  unfold aux_point at h
  simp only [bind_eq_ok] at h
  obtain ⟨a1, h1, a2, h2, a3, h3, a4, h4, h5⟩ := h
  have s1 : same_at a a1 i := by
    by_cases c : s.auxPressure ≥ 0
    · rw [if_pos c] at h1
      simp only [bind_eq_ok] at h1
      obtain ⟨v, _, h1⟩ := h1
      exact aux_set_same a a1 _ _ _ _ _ v i (ne_of_names vars k i _ _ name i1 c hi (Ne.symm u1)) h1
    · rw [if_neg c] at h1
      cases h1
      exact same_at_refl a i
  have s2 : same_at a1 a2 i := by
    by_cases c : s.auxTemperature ≥ 0
    · rw [if_pos c] at h2
      simp only [bind_eq_ok] at h2
      obtain ⟨v, _, h2⟩ := h2
      exact aux_set_same a1 a2 _ _ _ _ _ v i (ne_of_names vars k i _ _ name i2 c hi (Ne.symm u2)) h2
    · rw [if_neg c] at h2
      cases h2
      exact same_at_refl a1 i
  have s3 : same_at a2 a3 i := by
    refine foldlM_same_at _ i _ a2 a3 ?_ h3
    intro t t2 j _ hj
    unfold aux_vmr at hj
    simp only [bind_eq_ok] at hj
    obtain ⟨q, hq, isp, _, v, _, hset⟩ := hj
    exact aux_set_same t t2 q _ _ _ _ v i
      (ne_of_names_all vars k i _ 13 _ name i8 q (mem_of_vget _ _ _ hq) hi u4) hset
  have s4 : same_at a3 a4 i := by
    by_cases c : s.auxAbsSum ≥ 0
    · rw [if_pos c] at h4
      exact aux_copy_same _ nf ns _ ix a3 a4 i
        (ne_of_names vars k i _ _ name i3 c hi (Ne.symm u3)) h4
    · rw [if_neg c] at h4
      cases h4
      exact same_at_refl a3 i
  have s5 : same_at a4 b i := by
    refine foldlM_same_at _ i _ a4 b ?_ h5
    intro t t2 j _ hj
    unfold aux_abs_species at hj
    simp only [bind_eq_ok] at hj
    obtain ⟨q, hq, isp, _, hcopy⟩ := hj
    exact aux_copy_same _ nf ns q ix t t2 i
      (ne_of_names_all vars k i _ 20 _ name i9 q (mem_of_vget _ _ _ hq) hi u5) hcopy
  exact same_at_trans _ _ _ i (same_at_trans _ _ _ i (same_at_trans _ _ _ i
    (same_at_trans _ _ _ i s1 s2) s3) s4) s5

end AuxFrame

section RtStep

variable {α A P Q D : Type} [LinearOrderedField α] [FloorRing α]

theorem rt_step_ok (env : Rte α A P Q D) (ppath : P) (jq : List Q) (jac : Jac α) (s : Aux α)
    (pv : PathVars α D) (nf ns np j_analytical_do : ℤ) (st st2 : Step α) (k0 : ℕ)
    (vars : List String) (k : ℕ) (hI : aux_positions vars nf ns np k s)
    (h : rt_step env ppath jq jac s pv nf ns np j_analytical_do st k0 = .ok st2) :
    (∃ bbar nonlte sourcebar extbar ec tp e,
      (List.range nf.toNat).mapM (bbar_of pv.ppath_blackrad (np - 2 - k0)) = .ok bbar ∧
      nonlte_of pv.pt.lte (np - 2 - k0) = .ok nonlte ∧
      vget pv.pt.extmat_case (np - 2 - k0) = .ok ec ∧
      t4_column (PmatTmat.trans_partial pv.pt) (np - 2 - k0) = .ok tp ∧
      env.emission_rtstep st.iy ns bbar ec tp nonlte extbar sourcebar = .ok e ∧
      st2.iy = { st.iy with elem := e }) ∧
    ∀ (i : ℕ) (name : String), vars[i]? = some name → untouched name →
      same_at st.iy_aux st2.iy_aux i := by
  unfold rt_step at h
  simp only [bind_eq_ok, pure, Except.pure, Except.ok.injEq] at h
  obtain ⟨bbar, hb, nonlte, hn, sourcebar, _, extbar, _, dp, _, ec, hec, tp, htp, e, he, a1, ha1,
    a2, ha2, rfl⟩ := h
  refine ⟨⟨bbar, nonlte, sourcebar, extbar, ec, tp, e, hb, hn, hec, htp, he, rfl⟩, ?_⟩
  intro i name hi hu
  have s1 := aux_point_same vars nf ns np k s pv _ _ _ i name hI hi hu ha1
  refine same_at_trans _ _ _ i s1 ?_
  by_cases c : s.auxIy ≥ 0
  · rw [if_pos c] at ha2
    obtain ⟨_, x, x2, _, _, rfl⟩ := stage_ok a1 a2 s.auxIy _ ha2
    exact same_at_set a1 i _ x2
      (ne_of_names vars k i _ _ name hI.2.2.2.2.2.1 c hi (Ne.symm hu.2.2.2.2.2.1))
  · rw [if_neg c] at ha2
    cases ha2
    exact same_at_refl a1 i

theorem rt_calculations_two (env : Rte α A P Q D) (atm : A) (ppath : P) (jq : List Q)
    (jac : Jac α) (s : Aux α) (pv : PathVars α D) (nf ns j_analytical_do iy_agenda_call1 : ℤ)
    (iy_transmission : Tensor3 α) (iy : Matrix α) (iy_aux : List (Tensor4 α))
    (diy_dx : List (Tensor3 α)) (r : Matrix α × List (Tensor4 α) × List (Tensor3 α))
    (vars : List String) (k : ℕ) (hI : aux_positions vars nf ns 2 k s)
    (h : rt_calculations env atm ppath jq jac s pv nf ns 2 j_analytical_do iy_agenda_call1
      iy_transmission iy iy_aux diy_dx = .ok r) :
    (∃ bbar nonlte sourcebar extbar ec tp e,
      (List.range nf.toNat).mapM (bbar_of pv.ppath_blackrad 0) = .ok bbar ∧
      nonlte_of pv.pt.lte 0 = .ok nonlte ∧
      vget pv.pt.extmat_case 0 = .ok ec ∧
      t4_column (PmatTmat.trans_partial pv.pt) 0 = .ok tp ∧
      env.emission_rtstep iy ns bbar ec tp nonlte extbar sourcebar = .ok e ∧
      r.1 = { iy with elem := e }) ∧
    ∀ (i : ℕ) (name : String), vars[i]? = some name → untouched name →
      same_at iy_aux r.2.1 i := by
  unfold rt_calculations at h
  simp only [bind_eq_ok, pure, Except.pure, Except.ok.injEq] at h
  obtain ⟨a0, ha0, st, hst, dx, _, rfl⟩ := h
  have h1 : (2 - 1 : ℤ).toNat = 1 := by decide
  rw [h1] at hst
  simp only [List.range_succ, List.range_zero, List.nil_append, List.foldlM_cons,
    List.foldlM_nil, bind_eq_ok, pure, Except.pure, Except.ok.injEq] at hst
  obtain ⟨st1, hst1, rfl⟩ := hst
  obtain ⟨hstep, hsame⟩ := rt_step_ok env ppath jq jac s pv nf ns 2 j_analytical_do _ st1 0
    vars k hI hst1
  simp only [Nat.cast_zero, sub_zero, sub_self] at hstep
  refine ⟨hstep, ?_⟩
  intro i name hi hu
  exact same_at_trans _ _ _ i
    (aux_point_same vars nf ns 2 k s pv _ _ _ i name hI hi hu ha0) (hsame i name hi hu)

end RtStep

section UnitConversions

variable {α A P Q D : Type} [LinearOrderedField α] [FloorRing α]

theorem aux_unit_same (env : Rte α A P Q D) (ppath : P) (iy_unit : String) (f_grid : List α)
    (i_pol : List ℤ) (vars : List String) (a b : List (Tensor4 α)) (q i : ℕ) (name : String)
    (hi : vars[i]? = some name) (hne : name ≠ "iy")
    (h : aux_unit env ppath iy_unit f_grid i_pol vars a q = .ok b) : same_at a b i := by
  unfold aux_unit at h
  simp only [bind_eq_ok] at h
  obtain ⟨v, hv, h⟩ := h
  rw [vget_ok_iff] at hv
  by_cases c : v = "iy"
  · rw [if_pos c] at h
    obtain ⟨_, x, x2, _, _, rfl⟩ := stage_ok a b (q : ℤ) _ h
    refine same_at_set a i _ x2 ?_
    intro hq
    have hv2 := hv.2
    rw [hq, hi] at hv2
    simp only [Option.some.injEq] at hv2
    exact hne (hv2.trans c)
  · rw [if_neg c] at h
    cases h
    exact same_at_refl a i

theorem unit_conversions_ok (env : Rte α A P Q D) (ppath : P) (jq : List Q) (iy_unit : String)
    (f_grid : List α) (vars : List String) (ns np j_analytical_do : ℤ) (iy : Matrix α)
    (iy_aux : List (Tensor4 α)) (diy_dx : List (Tensor3 α))
    (u : Matrix α × List (Tensor4 α) × List (Tensor3 α))
    (h : unit_conversions env ppath jq iy_unit f_grid vars ns np j_analytical_do iy iy_aux
      diy_dx = .ok u) :
    (∃ n e, env.apply_iy_unit iy iy_unit f_grid n (i_pol_of ns) = .ok e ∧
      u.1 = { iy with elem := e }) ∧
    ∀ (i : ℕ) (name : String), vars[i]? = some name → name ≠ "iy" → same_at iy_aux u.2.1 i := by
  unfold unit_conversions at h
  simp only [bind_eq_ok, pure, Except.pure, Except.ok.injEq] at h
  obtain ⟨n, _, dx, _, e, he, a, ha, rfl⟩ := h
  refine ⟨⟨n, e, he, rfl⟩, ?_⟩
  intro i name hi hne
  exact foldlM_same_at _ i _ iy_aux a
    (fun t t2 q _ hq => aux_unit_same env ppath iy_unit f_grid _ vars t t2 q i name hi hne hq) ha

theorem aux_unit_length (env : Rte α A P Q D) (ppath : P) (iy_unit : String) (f_grid : List α)
    (i_pol : List ℤ) (vars : List String) (a b : List (Tensor4 α)) (q : ℕ)
    (h : aux_unit env ppath iy_unit f_grid i_pol vars a q = .ok b) : b.length = a.length := by
  unfold aux_unit at h
  simp only [bind_eq_ok] at h
  obtain ⟨v, hv, h⟩ := h
  by_cases c : v = "iy"
  · rw [if_pos c] at h
    obtain ⟨_, x, x2, _, _, rfl⟩ := stage_ok a b (q : ℤ) _ h
    exact List.length_set _ _ _
  · rw [if_neg c] at h
    cases h
    rfl

theorem unit_conversions_length (env : Rte α A P Q D) (ppath : P) (jq : List Q)
    (iy_unit : String) (f_grid : List α) (vars : List String) (ns np j_analytical_do : ℤ)
    (iy : Matrix α) (iy_aux : List (Tensor4 α)) (diy_dx : List (Tensor3 α))
    (u : Matrix α × List (Tensor4 α) × List (Tensor3 α))
    (h : unit_conversions env ppath jq iy_unit f_grid vars ns np j_analytical_do iy iy_aux
      diy_dx = .ok u) : u.2.1.length = iy_aux.length := by
  unfold unit_conversions at h
  simp only [bind_eq_ok, pure, Except.pure, Except.ok.injEq] at h
  obtain ⟨n, _, dx, _, e, he, a, ha, rfl⟩ := h
  exact foldlM_range_invariant _ (fun _ t => t.length = iy_aux.length) _ iy_aux a rfl
    (fun k t t2 _ hP hstep =>
      (aux_unit_length env ppath iy_unit f_grid _ vars t t2 k hstep).trans hP) ha

end UnitConversions

section BeforeUnits

variable {α A P Q D : Type} [LinearOrderedField α] [FloorRing α]

theorem iy_before_units_ok (env : Rte α A P Q D) (atm : A) (iy_aux : List (Tensor4 α))
    (diy_dx : List (Tensor3 α)) (stokes_dim : ℤ) (f_grid : List α) (iy_unit : String)
    (iy_aux_vars : List String) (jacobian_do : ℤ) (jq : List Q)
    (jacobian_indices : List (List ℤ)) (iy_agenda_call1 : ℤ) (iy_transmission : Tensor3 α)
    (r : IyOut α P × ℤ)
    (h : iy_before_units env atm iy_aux diy_dx stokes_dim f_grid iy_unit iy_aux_vars
      jacobian_do jq jacobian_indices iy_agenda_call1 iy_transmission = .ok r) :
    ∃ ppath jac s pv last T bg a1,
      env.ppath_agendaExecute atm f_grid = .ok ppath ∧ r.1.ppath = ppath ∧
      r.2 = j_analytical_do_of env jacobian_do jq ∧
      aux_requests env atm f_grid.length stokes_dim (env.np ppath) iy_aux_vars iy_aux = .ok s ∧
      path_vars env atm ppath jq jac s.iaps f_grid stokes_dim jacobian_do
        (j_analytical_do_of env jacobian_do jq) = .ok pv ∧
      t4_column pv.pt.trans_cumulat (env.np ppath - 1) = .ok last ∧
      (iy_agenda_call1 ≠ 0 → T = last) ∧
      (iy_agenda_call1 = 0 → env.iy_transmission_mult iy_transmission last = .ok T) ∧
      env.get_iy_of_background atm ppath jac.diy_dx T jacobian_do stokes_dim f_grid iy_unit
        = .ok bg ∧
      aux_fill_first env ppath f_grid.length (env.np ppath) bg.1 pv.pt.trans_cumulat
        pv.pt.scalar_tau s = .ok a1 ∧
      (env.np ppath > 1 →
        rt_calculations env atm ppath jq jac s pv f_grid.length stokes_dim (env.np ppath)
          (j_analytical_do_of env jacobian_do jq) iy_agenda_call1 iy_transmission bg.1 a1 bg.2
          = .ok (r.1.iy, r.1.iy_aux, r.1.diy_dx)) ∧
      (¬ env.np ppath > 1 → r.1.iy = bg.1 ∧ r.1.iy_aux = a1 ∧ r.1.diy_dx = bg.2) := by
  unfold iy_before_units at h
  simp only [bind_eq_ok] at h
  obtain ⟨ppath, hp, h⟩ := h
  by_cases hsec : iy_agenda_call1 = 0 ∧ env.ppath_what_background ppath = 2
  · rw [if_pos hsec] at h
    cases h
  rw [if_neg hsec] at h
  simp only [bind_eq_ok, pure, Except.pure, Except.ok.injEq] at h
  obtain ⟨jac, _, s, hs, pv, hpv, last, hlast, T, hT, bg, hbg, a1, ha1, rt, hrt, rfl⟩ := h
  refine ⟨ppath, jac, s, pv, last, T, bg, a1, hp, rfl, rfl, hs, hpv, hlast, ?_, ?_, hbg, ha1,
    ?_, ?_⟩
  · intro hc
    rw [if_pos hc] at hT
    cases hT
    rfl
  · intro hc
    rw [if_neg (by simpa using hc)] at hT
    exact hT
  · intro hc
    rw [if_pos hc] at hrt
    exact hrt
  · intro hc
    rw [if_neg hc] at hrt
    cases hrt
    exact ⟨rfl, rfl, rfl⟩

theorem iyEmissionStandard_ok (env : Rte α A P Q D) (atm : A) (iy_aux : List (Tensor4 α))
    (diy_dx : List (Tensor3 α)) (stokes_dim : ℤ) (f_grid : List α) (iy_unit : String)
    (iy_aux_vars : List String) (jacobian_do : ℤ) (jq : List Q)
    (jacobian_indices : List (List ℤ)) (iy_agenda_call1 : ℤ) (iy_transmission : Tensor3 α)
    (out : IyOut α P)
    (h : iyEmissionStandard env atm iy_aux diy_dx stokes_dim f_grid iy_unit iy_aux_vars
      jacobian_do jq jacobian_indices iy_agenda_call1 iy_transmission = .ok out) :
    ∃ r, iy_before_units env atm iy_aux diy_dx stokes_dim f_grid iy_unit iy_aux_vars
        jacobian_do jq jacobian_indices iy_agenda_call1 iy_transmission = .ok r ∧
      out.ppath = r.1.ppath ∧
      (iy_agenda_call1 = 0 → out = r.1) ∧
      (iy_agenda_call1 ≠ 0 →
        unit_conversions env r.1.ppath jq iy_unit f_grid iy_aux_vars stokes_dim
          (env.np r.1.ppath) r.2 r.1.iy r.1.iy_aux r.1.diy_dx
          = .ok (out.iy, out.iy_aux, out.diy_dx)) := by
  unfold iyEmissionStandard at h
  simp only [bind_eq_ok] at h
  obtain ⟨r, hr, h⟩ := h
  refine ⟨r, hr, ?_⟩
  by_cases hc : iy_agenda_call1 ≠ 0
  · rw [if_pos hc] at h
    simp only [bind_eq_ok, pure, Except.pure, Except.ok.injEq] at h
    obtain ⟨u, hu, rfl⟩ := h
    exact ⟨rfl, fun h0 => absurd h0 hc, fun _ => hu⟩
  · rw [if_neg hc] at h
    cases h
    exact ⟨rfl, fun _ => rfl, fun h0 => absurd h0 hc⟩

end BeforeUnits

section FillEntries

variable {α A P Q D : Type} [LinearOrderedField α] [FloorRing α]

theorem changed_at_other {β : Type} (a b : List β) (idx : ℤ) (R : β → β → Prop) (i : ℕ)
    (h : changed_at a b idx R) (hne : 0 ≤ idx → idx.toNat ≠ i) : b[i]? = a[i]? := by
  by_cases h0 : 0 ≤ idx
  · exact h.2.1 i (Or.inr (Ne.symm (hne h0)))
  · exact h.2.1 i (Or.inl (by omega))

theorem fill_transmission (env : Rte α A P Q D) (ppath : P) (vars : List String)
    (nf ns np : ℤ) (iy : Matrix α) (tc : Tensor4 α) (tau : List α) (s : Aux α)
    (a : List (Tensor4 α)) (i : ℕ) (hI : aux_positions vars nf ns np vars.length s)
    (hi : vars[i]? = some "Transmission")
    (h : aux_fill_first env ppath nf np iy tc tau s = .ok a) :
    a.length = vars.length ∧ ∃ x, a[i]? = some x ∧
      (np = 1 → ((x.nbooks : ℤ) = nf ∧ (x.npages : ℤ) = ns ∧ (x.nrows : ℤ) = ns ∧
        (x.ncols : ℤ) = np) ∧ unit_at x nf.toNat 0) ∧
      (np ≠ 1 → x = tc) := by
  obtain ⟨a1, a2, a3, c1, c2, c3, c4⟩ := aux_fill_first_ok env ppath nf np iy tc tau s a h
  have hlen : i < vars.length := by
    by_contra hc
    rw [List.getElem?_eq_none (by omega)] at hi
    cases hi
  obtain ⟨i0, _, _, _, i4, i5, i6, i7, _, _, i10, _, i12, _⟩ := hI
  have hT : s.auxTrans = i := i12 i hlen hi
  have h0 : 0 ≤ s.auxTrans := by omega
  have hidx : s.auxTrans.toNat = i := by omega
  refine ⟨by rw [c4.1, c3.1, c2.1, c1.1, i0], ?_⟩
  obtain ⟨x, x2, hx, hx2, hR⟩ := c3.2.2 h0
  rw [hidx] at hx hx2
  have e1 : a[i]? = a3[i]? := changed_at_other a3 a _ _ i c4
    (fun h1 => ne_of_names vars _ i _ _ _ i7 h1 hi (by decide))
  have e2 : a2[i]? = a1[i]? := changed_at_other a1 a2 _ _ i c2
    (fun h1 => ne_of_names vars _ i _ _ _ i5 h1 hi (by decide))
  have e3 : a1[i]? = s.iy_aux[i]? := changed_at_other s.iy_aux a1 _ _ i c1
    (fun h1 => ne_of_names vars _ i _ _ _ i4 h1 hi (by decide))
  refine ⟨x2, by rw [e1, hx2], ?_, fun hnp => hR.2 hnp⟩
  intro hnp
  obtain ⟨y, hy, hext⟩ := i10 h0
  rw [hidx] at hy
  rw [e2, e3, hy] at hx
  cases hx
  obtain ⟨q1, q2, q3, q4, hu⟩ := id_mat_loop x x2 0 nf.toNat (hR.1 hnp)
  refine ⟨⟨by rw [q1]; exact hext.1, by rw [q2]; exact hext.2.1, by rw [q3]; exact hext.2.2.1,
    by rw [q4]; exact hext.2.2.2⟩, ?_⟩
  simpa using hu

theorem fill_optical_depth (env : Rte α A P Q D) (ppath : P) (vars : List String)
    (nf ns np : ℤ) (iy : Matrix α) (tc : Tensor4 α) (tau : List α) (s : Aux α)
    (a : List (Tensor4 α)) (i : ℕ) (hI : aux_positions vars nf ns np vars.length s)
    (hi : vars[i]? = some "Optical depth")
    (hlast : ∀ j : ℕ, i < j → vars[j]? ≠ some "Optical depth")
    (h : aux_fill_first env ppath nf np iy tc tau s = .ok a) :
    ∃ x, a[i]? = some x ∧
      ((x.nbooks : ℤ) = nf ∧ (x.npages : ℤ) = 1 ∧ (x.nrows : ℤ) = 1 ∧ (x.ncols : ℤ) = 1) ∧
      x.nbooks = tau.length ∧ ∀ iv : ℕ, x.elem iv 0 0 0 = tau.getD iv 0 := by
  obtain ⟨a1, a2, a3, c1, c2, c3, c4⟩ := aux_fill_first_ok env ppath nf np iy tc tau s a h
  have hlen : i < vars.length := by
    by_contra hc
    rw [List.getElem?_eq_none (by omega)] at hi
    cases hi
  obtain ⟨i0, _, _, _, i4, i5, i6, i7, _, _, _, i11, _, i13⟩ := hI
  have hle : (i : ℤ) ≤ s.auxOptDepth := i13 i hlen hi
  have h0 : 0 ≤ s.auxOptDepth := by omega
  have hidx : s.auxOptDepth.toNat = i := by
    by_contra hne
    exact hlast s.auxOptDepth.toNat (by omega) (i7 h0).2
  obtain ⟨x, x2, hx, hx2, hR⟩ := c4.2.2 h0
  rw [hidx] at hx hx2
  have e1 : a3[i]? = a2[i]? := changed_at_other a2 a3 _ _ i c3
    (fun h1 => ne_of_names vars _ i _ _ _ i6 h1 hi (by decide))
  have e2 : a2[i]? = a1[i]? := changed_at_other a1 a2 _ _ i c2
    (fun h1 => ne_of_names vars _ i _ _ _ i5 h1 hi (by decide))
  have e3 : a1[i]? = s.iy_aux[i]? := changed_at_other s.iy_aux a1 _ _ i c1
    (fun h1 => ne_of_names vars _ i _ _ _ i4 h1 hi (by decide))
  obtain ⟨y, hy, hext⟩ := i11 h0
  rw [hidx] at hy
  rw [e1, e2, e3, hy] at hx
  cases hx
  obtain ⟨q1, q2, q3, q4, q5, q6⟩ := t4_set_books_ok x x2 tau hR
  exact ⟨x2, hx2, ⟨by rw [q1]; exact hext.1, by rw [q2]; exact hext.2.1,
    by rw [q3]; exact hext.2.2.1, by rw [q4]; exact hext.2.2.2⟩, by rw [q1]; exact q5, q6⟩

end FillEntries

section SinglePoint

variable {α A P Q D : Type} [LinearOrderedField α] [FloorRing α]

/-- C17: when `iyEmissionStandard` returns for a path of one point (`np = 1`),
no path step has been made.  The cumulative transmission `last` is the
identity matrix for every frequency and is what the radiative background is
computed with (multiplied to `iy_transmission` when the call is not the first
one); the spectrum returned is the spectrum `bg.1` of the radiative
background, as it is when the call is not the first one and after
`apply_iy_unit` when it is.  A tensor of `iy_aux` requested as "Transmission"
has the extents `nf`, `ns`, `ns`, `1` and holds the identity matrix for every
frequency, and a tensor requested as "Optical depth", the last one when
there are several such requests, has the extents `nf`, `1`, `1`, `1` and
holds `0` for every frequency. -/
theorem iyEmissionStandard_single_point (env : Rte α A P Q D) (atm : A)
    (iy_aux : List (Tensor4 α)) (diy_dx : List (Tensor3 α)) (stokes_dim : ℤ)
    (f_grid : List α) (iy_unit : String) (iy_aux_vars : List String) (jacobian_do : ℤ)
    (jq : List Q) (jacobian_indices : List (List ℤ)) (iy_agenda_call1 : ℤ)
    (iy_transmission : Tensor3 α) (out : IyOut α P)
    (h : iyEmissionStandard env atm iy_aux diy_dx stokes_dim f_grid iy_unit iy_aux_vars
      jacobian_do jq jacobian_indices iy_agenda_call1 iy_transmission = .ok out)
    (hnp : env.np out.ppath = 1) :
    (∃ dx last T bg,
      ((last.npages : ℤ) = f_grid.length ∧ (last.nrows : ℤ) = stokes_dim ∧
        (last.ncols : ℤ) = stokes_dim ∧
        ∀ iv p r : ℕ, iv < f_grid.length → last.elem iv p r = if p = r then 1 else 0) ∧
      (iy_agenda_call1 ≠ 0 → T = last) ∧
      (iy_agenda_call1 = 0 → env.iy_transmission_mult iy_transmission last = .ok T) ∧
      env.get_iy_of_background atm out.ppath dx T jacobian_do stokes_dim f_grid iy_unit
        = .ok bg ∧
      (iy_agenda_call1 = 0 → out.iy = bg.1) ∧
      (iy_agenda_call1 ≠ 0 → ∃ n e,
        env.apply_iy_unit bg.1 iy_unit f_grid n (i_pol_of stokes_dim) = .ok e ∧
        out.iy = { bg.1 with elem := e })) ∧
    out.iy_aux.length = iy_aux_vars.length ∧
    (∀ i : ℕ, iy_aux_vars[i]? = some "Transmission" →
      ∃ x, out.iy_aux[i]? = some x ∧
        ((x.nbooks : ℤ) = f_grid.length ∧ (x.npages : ℤ) = stokes_dim ∧
          (x.nrows : ℤ) = stokes_dim ∧ (x.ncols : ℤ) = 1) ∧
        unit_at x f_grid.length 0) ∧
    (∀ i : ℕ, iy_aux_vars[i]? = some "Optical depth" →
      (∀ j : ℕ, i < j → iy_aux_vars[j]? ≠ some "Optical depth") →
      ∃ x, out.iy_aux[i]? = some x ∧
        ((x.nbooks : ℤ) = f_grid.length ∧ (x.npages : ℤ) = 1 ∧ (x.nrows : ℤ) = 1 ∧
          (x.ncols : ℤ) = 1) ∧
        ∀ iv : ℕ, iv < f_grid.length → x.elem iv 0 0 0 = 0) := by
  obtain ⟨r, hr, hpp, hcall0, hcall1⟩ := iyEmissionStandard_ok env atm iy_aux diy_dx stokes_dim
    f_grid iy_unit iy_aux_vars jacobian_do jq jacobian_indices iy_agenda_call1 iy_transmission
    out h
  obtain ⟨ppath, jac, s, pv, last, T, bg, a1, _, hpq, _, hs, hpv, hlast, hT1, hT0, hbg, ha1, _,
    hrt⟩ := iy_before_units_ok env atm iy_aux diy_dx stokes_dim f_grid iy_unit iy_aux_vars
    jacobian_do jq jacobian_indices iy_agenda_call1 iy_transmission r hr
  have hnp2 : env.np ppath = 1 := by rw [← hpq, ← hpp]; exact hnp
  obtain ⟨hiy, haux, _⟩ := hrt (by omega)
  have hI := aux_requests_positions env atm _ _ _ iy_aux_vars iy_aux s hs
  obtain ⟨htau, t1, t2, t3, t4, tu⟩ := path_vars_single env atm ppath jq jac s.iaps f_grid
    stokes_dim jacobian_do _ pv hnp2 hpv
  have hsame : ∀ (i : ℕ) (name : String), iy_aux_vars[i]? = some name → name ≠ "iy" →
      out.iy_aux.length = a1.length ∧ out.iy_aux[i]? = a1[i]? := by
    intro i name hi hne
    by_cases hc : iy_agenda_call1 = 0
    · rw [hcall0 hc, haux]
      exact ⟨rfl, rfl⟩
    · have hu := (unit_conversions_ok env _ jq iy_unit f_grid iy_aux_vars stokes_dim _ _ _ _ _
        _ (hcall1 hc)).2 i name hi hne
      rw [haux] at hu
      exact hu
  refine ⟨⟨jac.diy_dx, last, T, bg, ?_, hT1, hT0, by rw [hpp, hpq]; exact hbg, ?_, ?_⟩, ?_, ?_, ?_⟩
  · rw [hnp2] at hlast
    unfold t4_column at hlast
    split_ifs at hlast
    cases hlast
    refine ⟨t1, t2, t3, ?_⟩
    intro iv p r hiv
    exact tu iv p r hiv
  · intro hc
    rw [hcall0 hc]
    exact hiy
  · intro hc
    obtain ⟨n, e, he, hout⟩ := (unit_conversions_ok env _ jq iy_unit f_grid iy_aux_vars
      stokes_dim _ _ _ _ _ _ (hcall1 hc)).1
    rw [hiy] at he hout
    exact ⟨n, e, he, hout⟩
  · by_cases hc : iy_agenda_call1 = 0
    · rw [hcall0 hc, haux]
      obtain ⟨_, _, _, c1, c2, c3, c4⟩ := aux_fill_first_ok env ppath _ _ _ _ _ s a1 ha1
      rw [c4.1, c3.1, c2.1, c1.1]
      exact hI.1
    · have hl := unit_conversions_length env _ jq iy_unit f_grid iy_aux_vars stokes_dim _ _ _
        _ _ _ (hcall1 hc)
      obtain ⟨_, _, _, c1, c2, c3, c4⟩ := aux_fill_first_ok env ppath _ _ _ _ _ s a1 ha1
      simp only at hl
      rw [hl, haux, c4.1, c3.1, c2.1, c1.1]
      exact hI.1
  · intro i hi
    obtain ⟨_, x, hx, h1, _⟩ := fill_transmission env ppath iy_aux_vars _ _ _ _ _ _ s a1 i hI hi ha1
    obtain ⟨⟨e1, e2, e3, e4⟩, hu⟩ := h1 hnp2
    rw [hnp2] at e4
    exact ⟨x, by rw [(hsame i _ hi (by decide)).2, hx], ⟨e1, e2, e3, e4⟩, by simpa using hu⟩
  · intro i hi hlast2
    obtain ⟨x, hx, he, _, hv⟩ := fill_optical_depth env ppath iy_aux_vars _ _ _ _ _ _ s a1 i hI
      hi hlast2 ha1
    refine ⟨x, by rw [(hsame i _ hi (by decide)).2, hx], he, ?_⟩
    intro iv hiv
    rw [hv iv, htau]
    simp [List.getD_eq_getElem?_getD, hiv]

end SinglePoint

section TwoPoints

variable {α A P Q D : Type} [LinearOrderedField α] [FloorRing α]

theorem untouched_transmission : untouched "Transmission" := by
  unfold untouched
  decide

theorem untouched_optical_depth : untouched "Optical depth" := by
  unfold untouched
  decide

/-- C18: when `iyEmissionStandard` returns for a path of two points
(`np = 2`), one path step has been made, the step between the points `0`
and `1`.  The optical properties `pt` are those that
`get_ppath_pmat_and_tmat` computes for the path; the spectrum returned is the
result of one call of `emission_rtstep` on the spectrum `bg.1` of the
radiative background, with the transmission `trans_partial(:,:,:,0)` of `pt`,
as it is when the call is not the first one and after `apply_iy_unit` when it
is.  A tensor of `iy_aux` requested as "Transmission" is the cumulative
transmission `trans_cumulat` of `pt`, and a tensor requested as "Optical
depth", the last one when there are several such requests, has the extents
`nf`, `1`, `1`, `1` and holds the optical depths `scalar_tau` of `pt`. -/
theorem iyEmissionStandard_two_points (env : Rte α A P Q D) (atm : A)
    (iy_aux : List (Tensor4 α)) (diy_dx : List (Tensor3 α)) (stokes_dim : ℤ)
    (f_grid : List α) (iy_unit : String) (iy_aux_vars : List String) (jacobian_do : ℤ)
    (jq : List Q) (jacobian_indices : List (List ℤ)) (iy_agenda_call1 : ℤ)
    (iy_transmission : Tensor3 α) (out : IyOut α P)
    (h : iyEmissionStandard env atm iy_aux diy_dx stokes_dim f_grid iy_unit iy_aux_vars
      jacobian_do jq jacobian_indices iy_agenda_call1 iy_transmission = .ok out)
    (hnp : env.np out.ppath = 2) :
    ∃ ptr iaps av ppath_f pt dx T bg bbar nonlte sourcebar extbar ec tp e,
      env.get_ppath_atmvars atm out.ppath = .ok av ∧
      env.get_ppath_f atm out.ppath f_grid av.ppath_wind = .ok ppath_f ∧
      env.get_ppath_pmat_and_tmat atm out.ppath jq ptr iaps av ppath_f f_grid stokes_dim
        jacobian_do = .ok pt ∧
      env.get_iy_of_background atm out.ppath dx T jacobian_do stokes_dim f_grid iy_unit
        = .ok bg ∧
      vget pt.extmat_case 0 = .ok ec ∧
      t4_column (PmatTmat.trans_partial pt) 0 = .ok tp ∧
      env.emission_rtstep bg.1 stokes_dim bbar ec tp nonlte extbar sourcebar = .ok e ∧
      (iy_agenda_call1 = 0 → out.iy = { bg.1 with elem := e }) ∧
      (iy_agenda_call1 ≠ 0 → ∃ n e2,
        env.apply_iy_unit { bg.1 with elem := e } iy_unit f_grid n (i_pol_of stokes_dim)
          = .ok e2 ∧
        out.iy = { bg.1 with elem := e2 }) ∧
      (∀ i : ℕ, iy_aux_vars[i]? = some "Transmission" →
        out.iy_aux[i]? = some pt.trans_cumulat) ∧
      (∀ i : ℕ, iy_aux_vars[i]? = some "Optical depth" →
        (∀ j : ℕ, i < j → iy_aux_vars[j]? ≠ some "Optical depth") →
        ∃ x, out.iy_aux[i]? = some x ∧
          ((x.nbooks : ℤ) = f_grid.length ∧ (x.npages : ℤ) = 1 ∧ (x.nrows : ℤ) = 1 ∧
            (x.ncols : ℤ) = 1) ∧
          ∀ iv : ℕ, x.elem iv 0 0 0 = pt.scalar_tau.getD iv 0) := by
  obtain ⟨r, hr, hpp, hcall0, hcall1⟩ := iyEmissionStandard_ok env atm iy_aux diy_dx stokes_dim
    f_grid iy_unit iy_aux_vars jacobian_do jq jacobian_indices iy_agenda_call1 iy_transmission
    out h
  obtain ⟨ppath, jac, s, pv, last, T, bg, a1, _, hpq, _, hs, hpv, hlast, hT1, hT0, hbg, ha1,
    hrt, _⟩ := iy_before_units_ok env atm iy_aux diy_dx stokes_dim f_grid iy_unit iy_aux_vars
    jacobian_do jq jacobian_indices iy_agenda_call1 iy_transmission r hr
  have hnp2 : env.np ppath = 2 := by rw [← hpq, ← hpp]; exact hnp
  have hrt2 := hrt (by omega)
  rw [hnp2] at hrt2 hs ha1
  have hI := aux_requests_positions env atm _ _ _ iy_aux_vars iy_aux s hs
  obtain ⟨av, ppath_f, hav, hpf, hpt, _⟩ := path_vars_many env atm ppath jq jac s.iaps f_grid
    stokes_dim jacobian_do _ pv (by omega) hpv
  obtain ⟨⟨bbar, nonlte, sourcebar, extbar, ec, tp, e, _, _, hec, htp, he, hiy⟩, hsame⟩ :=
    rt_calculations_two env atm ppath jq jac s pv _ stokes_dim _ iy_agenda_call1
      iy_transmission bg.1 a1 bg.2 _ iy_aux_vars _ hI hrt2
  simp only at hiy hsame
  have hkeep : ∀ (i : ℕ) (name : String), iy_aux_vars[i]? = some name → untouched name →
      out.iy_aux[i]? = a1[i]? := by
    intro i name hi hu
    by_cases hc : iy_agenda_call1 = 0
    · rw [hcall0 hc]
      exact (hsame i name hi hu).2
    · have hu2 := (unit_conversions_ok env _ jq iy_unit f_grid iy_aux_vars stokes_dim _ _ _ _ _
        _ (hcall1 hc)).2 i name hi hu.2.2.2.2.2.1
      exact hu2.2.trans (hsame i name hi hu).2
  refine ⟨jac.ptr, s.iaps, av, ppath_f, pv.pt, jac.diy_dx, T, bg, bbar, nonlte, sourcebar,
    extbar, ec, tp, e, by rw [hpp, hpq]; exact hav, by rw [hpp, hpq]; exact hpf,
    by rw [hpp, hpq]; exact hpt, by rw [hpp, hpq]; exact hbg, hec, htp, he, ?_, ?_, ?_, ?_⟩
  · intro hc
    rw [hcall0 hc]
    exact hiy
  · intro hc
    obtain ⟨n, e2, he2, hout⟩ := (unit_conversions_ok env _ jq iy_unit f_grid iy_aux_vars
      stokes_dim _ _ _ _ _ _ (hcall1 hc)).1
    rw [hiy] at he2 hout
    exact ⟨n, e2, he2, hout⟩
  · intro i hi
    obtain ⟨_, x, hx, _, h2⟩ := fill_transmission env ppath iy_aux_vars _ _ _ _ _ _ s a1 i hI hi
      ha1
    rw [hkeep i _ hi untouched_transmission, hx, h2 (by norm_num)]
  · intro i hi hlast2
    obtain ⟨x, hx, hext, _, hv⟩ := fill_optical_depth env ppath iy_aux_vars _ _ _ _ _ _ s a1 i hI
      hi hlast2 ha1
    exact ⟨x, by rw [hkeep i _ hi untouched_optical_depth, hx], hext, hv⟩

end TwoPoints

section EmissionExamples

/-- Counterexample to C17: a path of one point and the variable "Optical
depth" requested twice, with an `iy_aux` that holds a tensor of the value `7`
from before the call.  The call returns, the second tensor holds the optical
depth `0`, and the first tensor, a requested "Optical depth" output too, is
not written and still holds `7`. -/
theorem iyEmissionStandard_optical_depth_twice :
    iy_and_aux (iyEmissionStandard (test_rte 1) () [const4 1 1 1 1 7] [] 1 [1] "1"
      ["Optical depth", "Optical depth"] 0 [] [] 1 no_transmission) =
      .ok ⟨[[1 / 1000]], [[[[[7]]]], [[[[0]]]]], 1⟩ := by
  decide!

theorem iy_and_aux_ok (r : Except Err (IyOut ℚ ℕ)) (v : IyView) (h : iy_and_aux r = .ok v) :
    ∃ out, r = .ok out ∧ matrix_rows out.iy = v.iy ∧ out.iy_aux.map t4_list = v.iy_aux ∧
      out.ppath = v.ppath := by
  cases r with
  | error e => cases h
  | ok out =>
    simp only [iy_and_aux, Except.map, Except.ok.injEq] at h
    exact ⟨out, rfl, by rw [← h], by rw [← h], by rw [← h]⟩

/-- Witness for C17: a path of one point, two frequencies and two Stokes
elements, with the variables "Transmission" and "Optical depth" requested.
The call returns the radiative background `1/1000`, the identity matrix for
both frequencies and the optical depth `0` for both frequencies. -/
theorem iyEmissionStandard_single_point_witness :
    ∃ out, iyEmissionStandard (test_rte 1) () [] [] 2 [1, 2] "1"
        ["Transmission", "Optical depth"] 0 [] [] 1 no_transmission = .ok out ∧
      matrix_rows out.iy = [[1 / 1000, 1 / 1000], [1 / 1000, 1 / 1000]] ∧
      out.iy_aux.map t4_list =
        [[[[[1], [0]], [[0], [1]]], [[[1], [0]], [[0], [1]]]], [[[[0]]], [[[0]]]]] ∧
      out.iy_aux.length = 2 ∧
      (∀ i : ℕ, ["Transmission", "Optical depth"][i]? = some "Transmission" →
        ∃ x, out.iy_aux[i]? = some x ∧
          ((x.nbooks : ℤ) = 2 ∧ (x.npages : ℤ) = 2 ∧ (x.nrows : ℤ) = 2 ∧ (x.ncols : ℤ) = 1) ∧
          unit_at x 2 0) := by
  obtain ⟨out, hout, h1, h2, h3⟩ := iy_and_aux_ok
    (iyEmissionStandard (test_rte 1) () [] [] 2 [1, 2] "1"
      ["Transmission", "Optical depth"] 0 [] [] 1 no_transmission)
    ⟨[[1 / 1000, 1 / 1000], [1 / 1000, 1 / 1000]],
      [[[[[1], [0]], [[0], [1]]], [[[1], [0]], [[0], [1]]]], [[[[0]]], [[[0]]]]], 1⟩
    (by decide!)
  have hthm := iyEmissionStandard_single_point (test_rte 1) () [] [] 2 [1, 2] "1"
    ["Transmission", "Optical depth"] 0 [] [] 1 no_transmission out hout
    (by rw [h3]; rfl)
  exact ⟨out, hout, h1, h2, hthm.2.1, hthm.2.2.1⟩

/-- Counterexample to C18: a path of two points, with collaborators whose
path step has the transmission `1/2`.  The call returns the spectrum
`1/500` where the radiative background is `1/1000`, the cumulative
transmission `1/2` at the far point, and the optical depth `7/10`: a step has
been made, the transmission is not the identity and the optical depth is not
`0`. -/
theorem iyEmissionStandard_two_points_step :
    iy_and_aux (iyEmissionStandard (test_rte 2) () [] [] 1 [1] "1"
      ["Transmission", "Optical depth"] 0 [] [] 1 no_transmission) =
      .ok ⟨[[1 / 500]], [[[[[1, 1 / 2]]]], [[[[7 / 10]]]]], 2⟩ := by
  decide!

/-- Witness for C18: a path of two points, two frequencies and two Stokes
elements, with seven variables requested.  The call returns, and the tensor
requested as "Transmission" is the cumulative transmission of the
collaborator. -/
theorem iyEmissionStandard_two_points_witness :
    ∃ out, iyEmissionStandard (test_rte 2) () [] [] 2 [1, 2] "1"
        ["Pressure", "Transmission", "Optical depth", "iy", "Temperature",
          "Absorption, summed", "Radiative background"] 0 [] [] 1 no_transmission = .ok out ∧
      matrix_rows out.iy = [[1 / 500, 1 / 500], [1 / 500, 1 / 500]] ∧
      ∃ pt : PmatTmat ℚ Unit,
        (∀ i : ℕ, ["Pressure", "Transmission", "Optical depth", "iy", "Temperature",
            "Absorption, summed", "Radiative background"][i]? = some "Transmission" →
          out.iy_aux[i]? = some pt.trans_cumulat) ∧
        (∀ i : ℕ, ["Pressure", "Transmission", "Optical depth", "iy", "Temperature",
            "Absorption, summed", "Radiative background"][i]? = some "Optical depth" →
          (∀ j : ℕ, i < j → ["Pressure", "Transmission", "Optical depth", "iy", "Temperature",
            "Absorption, summed", "Radiative background"][j]? ≠ some "Optical depth") →
          ∃ x, out.iy_aux[i]? = some x ∧
            ((x.nbooks : ℤ) = 2 ∧ (x.npages : ℤ) = 1 ∧ (x.nrows : ℤ) = 1 ∧ (x.ncols : ℤ) = 1) ∧
            ∀ iv : ℕ, x.elem iv 0 0 0 = pt.scalar_tau.getD iv 0) := by
  obtain ⟨out, hout, h1, _, h3⟩ := iy_and_aux_ok
    (iyEmissionStandard (test_rte 2) () [] [] 2 [1, 2] "1"
      ["Pressure", "Transmission", "Optical depth", "iy", "Temperature",
        "Absorption, summed", "Radiative background"] 0 [] [] 1 no_transmission)
    ⟨[[1 / 500, 1 / 500], [1 / 500, 1 / 500]],
      [[[[[1000, 1000]]]],
        [[[[1, 1 / 2], [0, 0]], [[0, 0], [1, 1 / 2]]], [[[1, 1 / 2], [0, 0]], [[0, 0], [1, 1 / 2]]]],
        [[[[7 / 10]]], [[[7 / 10]]]],
        [[[[1 / 500, 1 / 1000]], [[1 / 500, 1 / 1000]]],
          [[[1 / 500, 1 / 1000]], [[1 / 500, 1 / 1000]]]],
        [[[[250, 250]]]],
        [[[[0, 0], [0, 0]], [[0, 0], [0, 0]]], [[[0, 0], [0, 0]], [[0, 0], [0, 0]]]],
        [[[[0]]], [[[0]]]]], 2⟩
    (by decide!)
  obtain ⟨_, _, _, _, pt, _, _, _, _, _, _, _, _, _, _, _, _, _, _, _, _, _, _, _, hT, hO⟩ :=
    iyEmissionStandard_two_points (test_rte 2) () [] [] 2 [1, 2] "1"
      ["Pressure", "Transmission", "Optical depth", "iy", "Temperature",
        "Absorption, summed", "Radiative background"] 0 [] [] 1 no_transmission out hout
      (by rw [h3]; rfl)
  exact ⟨out, hout, h1, pt, hT, hO⟩

end EmissionExamples

section GridDefects

/-- C24, evaluated at an upward observation (`za = 0`) on the strictly
increasing grid `0, 1000, 3000` with `l_max = 1000`: the point at altitude
`2000` lies in the cell between `z_abs[1] = 1000` and `z_abs[2] = 3000`, so its
position is `1 + (2000-1000)/(3000-1000) = 3/2`; `los_1d_geom` returns the
position `2`, taken from the cell below (`0 + (2000-0)/(1000-0)`), and `los_1d`
returns for it the pressure of the top of the grid. -/
theorem los_1d_geom_position_from_cell_below :
    (los_1d_geom (vertical_env fun _ => 0) 0 [0, 1000, 3000] 6378000 1000 0 0).map
        (fun g => (g.z, g.ip_z))
      = .ok ([0, 1000, 2000, 3000], [0, 1, 2, 2]) ∧
    ((1 : ℚ) + (2000 - 1000) / (3000 - 1000) = 3 / 2 ∧ (3 / 2 : ℚ) ≠ 2) ∧
    ((0 : ℚ) + (2000 - 0) / (1000 - 0) = 2) ∧
    (los_1d (vertical_env fun _ => 0) 0 [0, 1000, 3000] [1000, 900, 700] 6378000 1000 0 0
        0 0 0).map (fun r => (r.1.z, r.1.ip_p, r.1.p))
      = .ok ([0, 1000, 2000, 3000], [0, 1, 2, 2], [1000, 900, 700, 700]) := by
  refine ⟨by decide!, by norm_num, by norm_num, by decide!⟩

/-- C25, evaluated straight down (`za = 180`) from the platform altitude
`1000`, which is also a grid altitude, on the grid `0, 1000, 2000` with the
ground at `0`: the altitudes copied to `zs` are `0, 1000, 1000, 2000` when the
unwritten slot of `zs` holds a value different from `1000` (the content `0`),
and `0, 2000` when it happens to hold `1000`. -/
theorem break_points_platform_on_grid_level :
    lowest_point (vertical_env fun _ => 0) 0 2000 6378000 1000 180 =
      { z_tan := -6378000, ground := 1, z1 := 0, za1 := 0, lat0 := 0, do_down := 1 } ∧
    (break_points (vertical_env fun _ => 0) [0, 1000, 2000] 1000 2000
        (lowest_point (vertical_env fun _ => 0) 0 2000 6378000 1000 180)).map
        (fun r => r.2.zs.take r.2.n_zs)
      = .ok [0, 1000, 1000, 2000] ∧
    (break_points (vertical_env fun _ => 1000) [0, 1000, 2000] 1000 2000
        (lowest_point (vertical_env fun _ => 1000) 0 2000 6378000 1000 180)).map
        (fun r => r.2.zs.take r.2.n_zs)
      = .ok [0, 2000] := by
  refine ⟨by decide!, by decide!, by decide!⟩

/-- C26, evaluated at an upward observation (`za = 0`) from the platform
altitude `-1500` on the grid `-2000, -1000` with the ground at `-2000`: every
assertion of `los_1d_geom` holds, the last element `z_max*2 = -2000` of
`z_special` is not above `z_max = -1000`, and the copying loop goes on to read
`z_special[2]`, outside the vector, whatever the unwritten storage holds. -/
theorem los_1d_geom_sentinel_below_top (fresh : ℕ → ℚ) :
    ((-2000 : ℚ) ≥ -2000 ∧ (-2000 : ℚ) < -1000 ∧ ([-2000, -1000] : List ℚ).length > 1 ∧
      (500 : ℚ) > 0 ∧ (-1500 : ℚ) ≥ -2000 ∧ (0 : ℚ) ≥ 0 ∧ (0 : ℚ) ≤ 180) ∧
    z_special_of (lowest_point (vertical_env fresh) (-2000) (-1000) 6378000 (-1500) 0)
        (-1500) (-1000) = [-1500, -2000] ∧
    ¬ ((-1000 : ℚ) * 2 > -1000) ∧
    vget ([-1500, -2000] : List ℚ) 2 = .error .range ∧
    los_1d_geom (vertical_env fresh) (-2000) [-2000, -1000] 6378000 500 (-1500) 0
      = .error .range := by
  refine ⟨by norm_num, by simp [z_special_of, lowest_point]; norm_num, by norm_num, by decide!, ?_⟩
  have hl : lowest_point (vertical_env fresh) (-2000) (-1000) 6378000 (-1500) 0 =
      { z_tan := 9999000, ground := 0, z1 := -1500, za1 := 0, lat0 := 0, do_down := 0 } := by
    norm_num [lowest_point]
  have h1 : find_above (-1500 : ℚ) [-2000, -1000] 0 = .ok 1 := by decide!
  have h2 : vnew (vertical_env fresh) 2 = .ok [fresh 0, fresh 1] := rfl
  have h3 : vset [fresh 0, fresh 1] 0 (-1500) = .ok [-1500, fresh 1] := rfl
  have h4 : merge_levels ([-1500, -2000] : List ℚ) [-1000]
      { zs := [-1500, fresh 1], n_zs := 1, i2 := 1 } = .error .range := by
    by_cases h : fresh 1 = -2000
    · norm_num [merge_levels, copy_special, vget, h, show Int.toNat 2 = 2 from rfl,
        show Int.toNat 3 = 3 from rfl]
    · norm_num [merge_levels, copy_special, vget, h, show Int.toNat 2 = 2 from rfl,
        show Int.toNat 3 = 3 from rfl]
  have hb : break_points (vertical_env fresh) [-2000, -1000] (-1500) (-1000)
      { z_tan := 9999000, ground := 0, z1 := -1500, za1 := 0, lat0 := 0, do_down := 0 }
      = .error .range := by
    simp only [break_points, h1, bind, Except.bind, z_special_of]
    norm_num [h2, h3, h4]
  simp only [los_1d_geom, vget, last2, assert, bind, Except.bind]
  norm_num [hb, hl]

/-- C28, evaluated at an upward observation (`za = 0`) on the strictly
increasing grid `0, 1000, 4000` with `p_abs` of the same length and
`l_max = 1000`: `los_1d_geom` returns the increasing altitudes
`0, 1000, 2000, 3000, 4000` with the positions `0, 1, 2, 3, 2`; the position `3`
exceeds `n - 1 = 2`, and the interpolation of the pressures stops in the index
assertion of `get_interp_weights`, and so does `los_1d`. -/
theorem los_1d_position_above_grid :
    (los_1d_geom (vertical_env fun _ => 0) 0 [0, 1000, 4000] 6378000 1000 0 0).map
        (fun g => (g.z, g.ip_z))
      = .ok ([0, 1000, 2000, 3000, 4000], [0, 1, 2, 3, 2]) ∧
    ¬ ((3 : ℚ) ≤ (([0, 1000, 4000] : List ℚ).length : ℚ) - 1) ∧
    interp_1D ([0, 0, 0, 0, 0] : List ℚ) [1000, 900, 600] [0, 1, 2, 3, 2] = .error .assertion ∧
    los_1d (vertical_env fun _ => 0) 0 [0, 1000, 4000] [1000, 900, 600] 6378000 1000 0 0
        0 0 0 = .error .assertion := by
  refine ⟨by decide!, by norm_num, by decide!, by decide!⟩

end GridDefects

section RealPath

/-- Counterexample to C27 as stated: over the real numbers, for
`r_geoid = -1`, `z1 = 0` and `za1 = 0` (so `r1 = -1`, `cos(za1) = 1 >= 0`) the
length at the lowest point is `2`, not `0`, and the altitude at that length is
`2`, not `z1 = 0`. -/
theorem path_length_negative_radius :
    (0 : ℝ) ≤ Real.cos (Real.pi / 180 * 0) ∧ (0 : ℝ) ≥ 0 ∧
    path_length
      { sin := Real.sin, cos := Real.cos, asin := Real.arcsin, sqrt := Real.sqrt,
        DEG2RAD := Real.pi / 180, RAD2DEG := 180 / Real.pi, EARTH_RADIUS := 6378000,
        fresh := fun _ => 0 }
      (-1) ((-1 + 0) * Real.sin (Real.pi / 180 * 0) * ((-1 + 0) * Real.sin (Real.pi / 180 * 0)))
      ((-1 + 0) * Real.cos (Real.pi / 180 * 0)) 0 = 2 ∧
    altitude_at
      { sin := Real.sin, cos := Real.cos, asin := Real.arcsin, sqrt := Real.sqrt,
        DEG2RAD := Real.pi / 180, RAD2DEG := 180 / Real.pi, EARTH_RADIUS := 6378000,
        fresh := fun _ => 0 }
      (-1) (Real.cos (Real.pi / 180 * 0)) (-1 + 0) 2 = 2 ∧
    (2 : ℝ) ≠ 0 := by
  refine ⟨by simp, le_refl _, ?_, ?_, by norm_num⟩
  · simp only [path_length, mul_zero, Real.sin_zero, Real.cos_zero]
    norm_num
  · simp only [altitude_at, mul_zero, Real.cos_zero]
    norm_num

/-- C27 (as amended): over the real numbers, with the square root, sine and
cosine of analysis, `r1 = r_geoid + z1 >= 0`, `cos(za1) >= 0` and `z >= z1`, the
length `l(z) = sqrt((r_geoid+z)^2 - (r1 sin za1)^2) - r1 cos za1` is `0` at
`z1`, does not decrease with `z` above `z1`, and the altitude formula
`sqrt(r1^2 + l^2 + 2 r1 l cos za1) - r_geoid` gives back `z` at `l = l(z)`. -/
theorem path_length_inverts_altitude (env : Env ℝ) (r_geoid z1 za1 z : ℝ)
    (hsqrt : env.sqrt = Real.sqrt) (hsin : env.sin = Real.sin) (hcos : env.cos = Real.cos)
    (hr : 0 ≤ r_geoid + z1) (ha : 0 ≤ env.cos (env.DEG2RAD * za1)) (hz : z1 ≤ z) :
    path_length env r_geoid
        ((r_geoid + z1) * env.sin (env.DEG2RAD * za1) *
          ((r_geoid + z1) * env.sin (env.DEG2RAD * za1)))
        ((r_geoid + z1) * env.cos (env.DEG2RAD * za1)) z1 = 0 ∧
    (∀ x y : ℝ, z1 ≤ x → x ≤ y →
      path_length env r_geoid
          ((r_geoid + z1) * env.sin (env.DEG2RAD * za1) *
            ((r_geoid + z1) * env.sin (env.DEG2RAD * za1)))
          ((r_geoid + z1) * env.cos (env.DEG2RAD * za1)) x ≤
        path_length env r_geoid
          ((r_geoid + z1) * env.sin (env.DEG2RAD * za1) *
            ((r_geoid + z1) * env.sin (env.DEG2RAD * za1)))
          ((r_geoid + z1) * env.cos (env.DEG2RAD * za1)) y) ∧
    altitude_at env r_geoid (env.cos (env.DEG2RAD * za1)) (r_geoid + z1)
      (path_length env r_geoid
        ((r_geoid + z1) * env.sin (env.DEG2RAD * za1) *
          ((r_geoid + z1) * env.sin (env.DEG2RAD * za1)))
        ((r_geoid + z1) * env.cos (env.DEG2RAD * za1)) z) = z := by
  have hE : exact_sqrt env := fun x hx => by
    rw [hsqrt]
    exact ⟨Real.sqrt_nonneg x, Real.mul_self_sqrt hx⟩
  have hab : env.sin (env.DEG2RAD * za1) * env.sin (env.DEG2RAD * za1) +
      env.cos (env.DEG2RAD * za1) * env.cos (env.DEG2RAD * za1) = 1 := by
    rw [hsin, hcos]
    have := Real.sin_sq_add_cos_sq (env.DEG2RAD * za1)
    simp only [sq] at this
    exact this
  have hL := lengths_increase_of_exact env r_geoid
    { z_tan := 0, ground := 0, z1 := z1, za1 := za1, lat0 := 0, do_down := 0 } hE hab ha hr
  refine ⟨hL.1, ?_, altitude_at_path_length env r_geoid z1 _ _ z hE hab ha hr hz⟩
  intro x y hx hxy
  rcases eq_or_lt_of_le hxy with h | h
  · rw [h]
  · exact (hL.2 x y hx h).le

/-- Witness for C27 (as amended): the lowest point on the geoid of radius
6378000 m, looking to the zenith, and the altitude 1000 m. -/
theorem path_length_inverts_altitude_witness :
    altitude_at
      { sin := Real.sin, cos := Real.cos, asin := Real.arcsin, sqrt := Real.sqrt,
        DEG2RAD := Real.pi / 180, RAD2DEG := 180 / Real.pi, EARTH_RADIUS := 6378000,
        fresh := fun _ => 0 }
      6378000 (Real.cos (Real.pi / 180 * 0)) (6378000 + 0)
      (path_length
        { sin := Real.sin, cos := Real.cos, asin := Real.arcsin, sqrt := Real.sqrt,
          DEG2RAD := Real.pi / 180, RAD2DEG := 180 / Real.pi, EARTH_RADIUS := 6378000,
          fresh := fun _ => 0 }
        6378000
        ((6378000 + 0) * Real.sin (Real.pi / 180 * 0) *
          ((6378000 + 0) * Real.sin (Real.pi / 180 * 0)))
        ((6378000 + 0) * Real.cos (Real.pi / 180 * 0)) 1000) = 1000 :=
  (path_length_inverts_altitude
    { sin := Real.sin, cos := Real.cos, asin := Real.arcsin, sqrt := Real.sqrt,
      DEG2RAD := Real.pi / 180, RAD2DEG := 180 / Real.pi, EARTH_RADIUS := 6378000,
      fresh := fun _ => 0 }
    6378000 0 0 1000 rfl rfl rfl (by norm_num)
    (by simp) (by norm_num)).2.2

end RealPath

section DeleteLines

theorem unique_kept_length_le (x : List ℕ) : (unique_kept x).length ≤ x.length := by
  induction x with
  | nil => simp [unique_kept]
  | cons a t ih =>
    cases t with
    | nil => simp [unique_kept]
    | cons b rest =>
      simp only [unique_kept]
      split_ifs with h
      · exact ih.trans (Nat.le_succ _)
      · simp only [List.length_cons] at ih ⊢
        omega

/-- The vector has the same size before and after `std::unique`. -/
theorem std_unique_length (x : List ℕ) : (std_unique x).length = x.length := by
  have := unique_kept_length_le x
  simp only [std_unique, List.length_append, List.length_drop]
  omega

/-- C29, evaluated on a band with the lines `(1,10), (2,20), (3,30)` and a
deleting band that holds the line with the quantum number `1` twice: the index
`0` is hit twice, the size of `hits` is the same before and after
`std::unique` (as for every content of `hits`), no error is raised, and the
line at the index `0` is removed twice, so that the line `(2,20)`, which was
not hit, is removed as well; on a band with the single line `(1,10)` the
second removal is outside the vector. -/
theorem abs_linesDeleteWithLines2_same_line_twice :
    hits_of test_lines [(1, 10), (2, 20), (3, 30)] [(1, 10), (1, 10)] = [0, 0] ∧
    std_unique [0, 0] = [0, 0] ∧
    (∀ hits : List ℕ, (std_unique hits).length = hits.length) ∧
    abs_linesDeleteWithLines2 test_lines [⟨7, [(1, 10), (2, 20), (3, 30)]⟩]
      [⟨7, [(1, 10), (1, 10)]⟩] = .ok [⟨7, [(3, 30)]⟩] ∧
    abs_linesDeleteWithLines2 test_lines [⟨7, [(1, 10)]⟩] [⟨7, [(1, 10), (1, 10)]⟩]
      = .error .range := by
  refine ⟨by decide!, by decide!, std_unique_length, by decide!, by decide!⟩

end DeleteLines

section ReplaceLines

variable {M L : Type}

theorem replace_single_eq (lib : LinesLib M L) (r : L) (l : List L) :
    replace_single lib r l =
      (((l.countP (fun x => lib.SameQuantumNumbers x r) : ℕ) : ℤ),
        l.map (fun x => if lib.SameQuantumNumbers x r then r else x)) := by
  induction l with
  | nil => simp [replace_single]
  | cons a t ih =>
    simp only [replace_single, ih, List.countP_cons, List.map_cons]
    by_cases h : lib.SameQuantumNumbers a r = true
    · simp [h]
    · simp [h]

theorem replaced_by_nil (lib : LinesLib M L) (x : L) : replaced_by lib [] x = x := by
  simp [replaced_by]

theorem same_qn_replaced_by (lib : LinesLib M L)
    (hQ : ∀ a b c, lib.SameQuantumNumbers a b = true →
      lib.SameQuantumNumbers b c = lib.SameQuantumNumbers a c)
    (rs : List L) (x c : L) :
    lib.SameQuantumNumbers (replaced_by lib rs x) c = lib.SameQuantumNumbers x c := by
  unfold replaced_by
  cases h : (rs.filter (fun r => lib.SameQuantumNumbers x r)).getLast? with
  | none => simp
  | some y =>
    simp only [Option.getD_some]
    have hy : y ∈ rs.filter (fun r => lib.SameQuantumNumbers x r) :=
      List.mem_of_getLast?_eq_some h
    have := (List.mem_filter.mp hy).2
    exact hQ x y c (by simpa using this)

theorem replaced_by_append (lib : LinesLib M L)
    (hQ : ∀ a b c, lib.SameQuantumNumbers a b = true →
      lib.SameQuantumNumbers b c = lib.SameQuantumNumbers a c)
    (a b : List L) (x : L) :
    replaced_by lib (a ++ b) x = replaced_by lib b (replaced_by lib a x) := by
  have hf : b.filter (fun r => lib.SameQuantumNumbers (replaced_by lib a x) r) =
      b.filter (fun r => lib.SameQuantumNumbers x r) := by
    congr 1
    funext r
    exact same_qn_replaced_by lib hQ a x r
  have e1 : replaced_by lib b (replaced_by lib a x) =
      ((b.filter (fun r => lib.SameQuantumNumbers (replaced_by lib a x) r)).getLast?).getD
        (replaced_by lib a x) := rfl
  rw [e1, hf]
  have e2 : replaced_by lib (a ++ b) x =
      (((a ++ b).filter (fun r => lib.SameQuantumNumbers x r)).getLast?).getD x := rfl
  rw [e2, List.filter_append, List.getLast?_append]
  cases h : (b.filter (fun r => lib.SameQuantumNumbers x r)).getLast? with
  | none => simp [replaced_by]
  | some y => simp

theorem replaced_by_single (lib : LinesLib M L) (r x : L) :
    replaced_by lib [r] x = if lib.SameQuantumNumbers x r then r else x := by
  unfold replaced_by
  by_cases h : lib.SameQuantumNumbers x r = true
  · simp [List.filter, h]
  · simp [List.filter, h]

end ReplaceLines

section ReplaceLines2

variable {M L : Type}

theorem countP_replaced_by (lib : LinesLib M L)
    (hQ : ∀ a b c, lib.SameQuantumNumbers a b = true →
      lib.SameQuantumNumbers b c = lib.SameQuantumNumbers a c)
    (rs : List L) (c : L) (l : List L) :
    (l.map (replaced_by lib rs)).countP (fun x => lib.SameQuantumNumbers x c) =
      l.countP (fun x => lib.SameQuantumNumbers x c) := by
  rw [List.countP_map]
  congr 1
  funext x
  exact same_qn_replaced_by lib hQ rs x c

theorem replace_single_fst (lib : LinesLib M L) (r : L) (l : List L) :
    (replace_single lib r l).1 = ((l.countP (fun x => lib.SameQuantumNumbers x r) : ℕ) : ℤ) := by
  rw [replace_single_eq]

theorem replace_single_snd (lib : LinesLib M L) (r : L) (l : List L) :
    (replace_single lib r l).2 = l.map (replaced_by lib [r]) := by
  rw [replace_single_eq]
  simp only
  congr 1
  funext x
  exact (replaced_by_single lib r x).symm

/-- The loop over the replacing lines returns when every replacing line has
the same quantum numbers as exactly one line of the band; the lines are then
the replaced ones. -/
theorem replace_lines_ok (lib : LinesLib M L)
    (hQ : ∀ a b c, lib.SameQuantumNumbers a b = true →
      lib.SameQuantumNumbers b c = lib.SameQuantumNumbers a c)
    (rs : List L) : ∀ l : List L,
    (∀ r ∈ rs, l.countP (fun x => lib.SameQuantumNumbers x r) = 1) →
    replace_lines lib rs l = .ok (l.map (replaced_by lib rs)) := by
  induction rs with
  | nil =>
    intro l _
    have e : replaced_by lib ([] : List L) = id := funext (replaced_by_nil lib)
    simp [replace_lines, e]
  | cons r rest ih =>
    intro l h
    have h1 := h r (List.mem_cons_self _ _)
    simp only [replace_lines]
    rw [replace_single_fst, replace_single_snd, h1, if_neg (by simp)]
    rw [ih (l.map (replaced_by lib [r])) (fun r' hr' => by
      rw [countP_replaced_by lib hQ]
      exact h r' (List.mem_cons_of_mem _ hr'))]
    congr 1
    rw [List.map_map]
    congr 1
    funext x
    exact (replaced_by_append lib hQ [r] rest x).symm

/-- The loop over the replacing lines stops with the error for single lines
when some replacing line does not have the same quantum numbers as exactly
one line of the band. -/
theorem replace_lines_error (lib : LinesLib M L)
    (hQ : ∀ a b c, lib.SameQuantumNumbers a b = true →
      lib.SameQuantumNumbers b c = lib.SameQuantumNumbers a c)
    (rs : List L) : ∀ l : List L,
    ¬ (∀ r ∈ rs, l.countP (fun x => lib.SameQuantumNumbers x r) = 1) →
    replace_lines lib rs l =
      .error (Err.runtime ("Error: Did not match to a single single line.  This means the " ++
        "input data has not been understood.  This function needs exactly one match.")) := by
  induction rs with
  | nil =>
    intro l h
    exact absurd (fun r hr => by cases hr) h
  | cons r rest ih =>
    intro l h
    simp only [replace_lines]
    rw [replace_single_fst, replace_single_snd]
    by_cases h1 : l.countP (fun x => lib.SameQuantumNumbers x r) = 1
    · rw [h1, if_neg (by simp)]
      apply ih
      intro h2
      apply h
      intro r' hr'
      rcases List.mem_cons.mp hr' with e | e
      · rw [e]; exact h1
      · have := h2 r' e
        rwa [countP_replaced_by lib hQ] at this
    · rw [if_pos (by exact_mod_cast h1)]

end ReplaceLines2

section ReplaceBands

variable {M L : Type}

/-- The loop over the bands returns when every line of the replacing band has
the same quantum numbers as exactly one line of every matching band. -/
theorem replace_in_bands_ok (lib : LinesLib M L)
    (hQ : ∀ a b c, lib.SameQuantumNumbers a b = true →
      lib.SameQuantumNumbers b c = lib.SameQuantumNumbers a c)
    (r : AbsorptionLines M L) : ∀ abs : List (AbsorptionLines M L),
    (∀ t ∈ abs, lib.Match t r = true → ∀ rl ∈ r.lines,
      t.lines.countP (fun x => lib.SameQuantumNumbers x rl) = 1) →
    replace_in_bands lib r abs =
      .ok (((abs.countP (fun t => lib.Match t r) : ℕ) : ℤ),
        abs.map (fun t => if lib.Match t r then
          { t with lines := lib.sort_by_frequency (t.lines.map (replaced_by lib r.lines)) }
          else t)) := by
  intro abs
  induction abs with
  | nil => intro _; simp [replace_in_bands]
  | cons t rest ih =>
    intro h
    have ih2 := ih (fun t' ht' => h t' (List.mem_cons_of_mem _ ht'))
    simp only [replace_in_bands, ih2, List.map_cons, List.countP_cons]
    by_cases hm : lib.Match t r = true
    · rw [if_pos hm, replace_lines_ok lib hQ r.lines t.lines (h t (List.mem_cons_self _ _) hm)]
      simp [hm]
    · rw [if_neg hm]
      simp [hm]

/-- The loop over the bands stops with the error for single lines when a line
of the replacing band does not have the same quantum numbers as exactly one
line of some matching band. -/
theorem replace_in_bands_error (lib : LinesLib M L)
    (hQ : ∀ a b c, lib.SameQuantumNumbers a b = true →
      lib.SameQuantumNumbers b c = lib.SameQuantumNumbers a c)
    (r : AbsorptionLines M L) : ∀ abs : List (AbsorptionLines M L),
    ¬ (∀ t ∈ abs, lib.Match t r = true → ∀ rl ∈ r.lines,
      t.lines.countP (fun x => lib.SameQuantumNumbers x rl) = 1) →
    replace_in_bands lib r abs =
      .error (Err.runtime ("Error: Did not match to a single single line.  This means the " ++
        "input data has not been understood.  This function needs exactly one match.")) := by
  intro abs
  induction abs with
  | nil => intro h; exact absurd (fun t ht => by cases ht) h
  | cons t rest ih =>
    intro h
    simp only [replace_in_bands]
    by_cases hm : lib.Match t r = true
    · rw [if_pos hm]
      by_cases h1 : ∀ rl ∈ r.lines, t.lines.countP (fun x => lib.SameQuantumNumbers x rl) = 1
      · rw [replace_lines_ok lib hQ r.lines t.lines h1]
        simp only
        rw [ih (fun h2 => h (fun t' ht' => by
          rcases List.mem_cons.mp ht' with e | e
          · rw [e]; exact fun _ => h1
          · exact h2 t' e))]
      · rw [replace_lines_error lib hQ r.lines t.lines h1]
    · rw [if_neg hm]
      rw [ih (fun h2 => h (fun t' ht' => by
        rcases List.mem_cons.mp ht' with e | e
        · rw [e]; exact fun h3 => absurd h3 hm
        · exact h2 t' e))]

theorem replacing_lines_of_cons (lib : LinesLib M L) (t r : AbsorptionLines M L)
    (rest : List (AbsorptionLines M L)) :
    replacing_lines_of lib t (r :: rest) =
      if lib.Match t r then r.lines ++ replacing_lines_of lib t rest
      else replacing_lines_of lib t rest := by
  unfold replacing_lines_of
  by_cases h : lib.Match t r = true
  · simp [List.filter_cons, h]
  · simp [List.filter_cons, h]

theorem replacing_lines_of_band (lib : LinesLib M L)
    (hM : ∀ t t' r : AbsorptionLines M L, t.band = t'.band → lib.Match t r = lib.Match t' r)
    (t t' : AbsorptionLines M L) (h : t.band = t'.band) (rs : List (AbsorptionLines M L)) :
    replacing_lines_of lib t rs = replacing_lines_of lib t' rs := by
  unfold replacing_lines_of
  have : (fun r => lib.Match t r) = (fun r => lib.Match t' r) := funext (fun r => hM t t' r h)
  rw [this]

/-- One replacing band leaves the condition `matches_once` for another
replacing band as it was. -/
theorem matches_once_step (lib : LinesLib M L)
    (hM : ∀ t t' r : AbsorptionLines M L, t.band = t'.band → lib.Match t r = lib.Match t' r)
    (hQ : ∀ a b c, lib.SameQuantumNumbers a b = true →
      lib.SameQuantumNumbers b c = lib.SameQuantumNumbers a c)
    (hS : ∀ l : List L, (lib.sort_by_frequency l).Perm l)
    (r r' : AbsorptionLines M L) (abs : List (AbsorptionLines M L)) :
    matches_once lib (abs.map (fun t => if lib.Match t r then
        { t with lines := lib.sort_by_frequency (t.lines.map (replaced_by lib r.lines)) }
        else t)) r' ↔ matches_once lib abs r' := by
  have hband : ∀ t : AbsorptionLines M L, (if lib.Match t r then
      ({ t with lines := lib.sort_by_frequency (t.lines.map (replaced_by lib r.lines)) } :
        AbsorptionLines M L) else t).band = t.band := by
    intro t
    split_ifs <;> rfl
  have hmatch : ∀ t : AbsorptionLines M L, lib.Match (if lib.Match t r then
      ({ t with lines := lib.sort_by_frequency (t.lines.map (replaced_by lib r.lines)) } :
        AbsorptionLines M L) else t) r' = lib.Match t r' :=
    fun t => hM _ _ r' (hband t)
  have hcount : ∀ (t : AbsorptionLines M L) (c : L), (if lib.Match t r then
      ({ t with lines := lib.sort_by_frequency (t.lines.map (replaced_by lib r.lines)) } :
        AbsorptionLines M L) else t).lines.countP (fun x => lib.SameQuantumNumbers x c) =
      t.lines.countP (fun x => lib.SameQuantumNumbers x c) := by
    intro t c
    split_ifs
    · simp only
      rw [(hS _).countP_eq, countP_replaced_by lib hQ]
    · rfl
  unfold matches_once
  rw [List.countP_map]
  have e : ((fun t => lib.Match t r') ∘ fun t => if lib.Match t r then
      ({ t with lines := lib.sort_by_frequency (t.lines.map (replaced_by lib r.lines)) } :
        AbsorptionLines M L) else t) = fun t => lib.Match t r' := funext hmatch
  rw [e]
  constructor
  · rintro ⟨h1, h2⟩
    refine ⟨h1, fun t ht hm rl hrl => ?_⟩
    have := h2 _ (List.mem_map_of_mem _ ht) (by rw [hmatch]; exact hm) rl hrl
    rwa [hcount] at this
  · rintro ⟨h1, h2⟩
    refine ⟨h1, fun t1 ht1 hm rl hrl => ?_⟩
    obtain ⟨t, ht, rfl⟩ := List.mem_map.mp ht1
    rw [hcount]
    rw [hmatch] at hm
    exact h2 t ht hm rl hrl

end ReplaceBands

section ReplaceCatalogue

variable {M L : Type}

/-- When every replacing band matches exactly one band and each of its lines
exactly one line of that band, `abs_linesReplaceWithLines2` returns, and the
bands of the result are, in order, the bands of `abs_lines` with every line
replaced by the last replacing line with its quantum numbers. -/
theorem abs_linesReplaceWithLines2_ok (lib : LinesLib M L)
    (hM : ∀ t t' r : AbsorptionLines M L, t.band = t'.band → lib.Match t r = lib.Match t' r)
    (hQ : ∀ a b c, lib.SameQuantumNumbers a b = true →
      lib.SameQuantumNumbers b c = lib.SameQuantumNumbers a c)
    (hS : ∀ l : List L, (lib.sort_by_frequency l).Perm l)
    (repl : List (AbsorptionLines M L)) : ∀ abs : List (AbsorptionLines M L),
    (∀ r ∈ repl, matches_once lib abs r) →
    ∃ out, abs_linesReplaceWithLines2 lib abs repl = .ok out ∧
      List.Forall₂ (fun t t' => t'.band = t.band ∧
        t'.lines.Perm (t.lines.map (replaced_by lib (replacing_lines_of lib t repl)))) abs out := by
  induction repl with
  | nil =>
    intro abs _
    refine ⟨abs, rfl, ?_⟩
    apply List.forall₂_same.mpr
    intro t _
    refine ⟨rfl, ?_⟩
    have e : replaced_by lib (replacing_lines_of lib t []) = id := by
      funext x
      simp [replacing_lines_of, replaced_by]
    rw [e, List.map_id]
  | cons r rest ih =>
    intro abs h
    have hr := h r (List.mem_cons_self _ _)
    have hstep := replace_in_bands_ok lib hQ r abs hr.2
    obtain ⟨out, ho, hf⟩ := ih _ (fun r' hr' =>
      (matches_once_step lib hM hQ hS r r' abs).mpr (h r' (List.mem_cons_of_mem _ hr')))
    refine ⟨out, ?_, ?_⟩
    · simp only [abs_linesReplaceWithLines2, hstep]
      rw [hr.1, if_neg (by simp)]
      exact ho
    · rw [List.forall₂_map_left_iff] at hf
      refine hf.imp ?_
      intro t t' ht
      by_cases hm : lib.Match t r = true
      · rw [if_pos hm] at ht
        refine ⟨ht.1, ?_⟩
        have h2 := ht.2
        simp only at h2
        rw [replacing_lines_of_band lib hM
          { t with lines := lib.sort_by_frequency (t.lines.map (replaced_by lib r.lines)) }
          t rfl rest] at h2
        refine h2.trans ?_
        refine ((hS _).map _).trans ?_
        rw [List.map_map, replacing_lines_of_cons, if_pos hm]
        have e : (replaced_by lib (replacing_lines_of lib t rest) ∘ replaced_by lib r.lines) =
            replaced_by lib (r.lines ++ replacing_lines_of lib t rest) :=
          funext (fun x => (replaced_by_append lib hQ _ _ x).symm)
        rw [e]
      · rw [if_neg hm] at ht
        rw [replacing_lines_of_cons, if_neg hm]
        exact ht

/-- When some replacing band does not match exactly one band, or one of its
lines not exactly one line of that band, `abs_linesReplaceWithLines2` stops
with one of its two errors. -/
theorem abs_linesReplaceWithLines2_error (lib : LinesLib M L)
    (hM : ∀ t t' r : AbsorptionLines M L, t.band = t'.band → lib.Match t r = lib.Match t' r)
    (hQ : ∀ a b c, lib.SameQuantumNumbers a b = true →
      lib.SameQuantumNumbers b c = lib.SameQuantumNumbers a c)
    (hS : ∀ l : List L, (lib.sort_by_frequency l).Perm l)
    (repl : List (AbsorptionLines M L)) : ∀ abs : List (AbsorptionLines M L),
    ¬ (∀ r ∈ repl, matches_once lib abs r) →
    abs_linesReplaceWithLines2 lib abs repl =
      .error (Err.runtime ("Error: Did not match to a single single line.  This means the " ++
        "input data has not been understood.  This function needs exactly one match.")) ∨
    abs_linesReplaceWithLines2 lib abs repl =
      .error (Err.runtime ("Error: Did not match to a single set of absorption lines.  " ++
          "This means the input data has not been understood.  This function needs exactly " ++
          "one match.")) := by
  induction repl with
  | nil => intro abs h; exact absurd (fun r hr => by cases hr) h
  | cons r rest ih =>
    intro abs h
    simp only [abs_linesReplaceWithLines2]
    by_cases h2 : ∀ t ∈ abs, lib.Match t r = true → ∀ rl ∈ r.lines,
        t.lines.countP (fun x => lib.SameQuantumNumbers x rl) = 1
    · rw [replace_in_bands_ok lib hQ r abs h2]
      simp only
      by_cases h1 : abs.countP (fun t => lib.Match t r) = 1
      · rw [h1, if_neg (by simp)]
        apply ih
        intro h3
        apply h
        intro r' hr'
        rcases List.mem_cons.mp hr' with e | e
        · rw [e]; exact ⟨h1, h2⟩
        · exact (matches_once_step lib hM hQ hS r r' abs).mp (h3 r' e)
      · rw [if_pos (by exact_mod_cast h1)]
        exact Or.inr rfl
    · rw [replace_in_bands_error lib hQ r abs h2]
      exact Or.inl rfl

/-- C23: when two bands with the same band data match the same bands, having
the same quantum numbers is preserved by replacing a line with one of the
same quantum numbers, and sorting permutes the lines,
`abs_linesReplaceWithLines2` returns exactly when every replacing band
matches exactly one band of `abs_lines` and each of its lines has the same
quantum numbers as exactly one line of the matched band; otherwise (no match
or several matches, of bands or of lines) it stops with one of its two
errors; and on return the bands are, in order, those of `abs_lines` with the
same band data, whose lines are, up to the sorting, the lines of `abs_lines`
with every matched line replaced by the replacing line (the last one, when
several replacing lines have its quantum numbers). -/
theorem abs_linesReplaceWithLines2_exactly_one (lib : LinesLib M L)
    (hM : ∀ t t' r : AbsorptionLines M L, t.band = t'.band → lib.Match t r = lib.Match t' r)
    (hQ : ∀ a b c, lib.SameQuantumNumbers a b = true →
      lib.SameQuantumNumbers b c = lib.SameQuantumNumbers a c)
    (hS : ∀ l : List L, (lib.sort_by_frequency l).Perm l)
    (abs_lines replacing_lines : List (AbsorptionLines M L)) :
    ((∃ out, abs_linesReplaceWithLines2 lib abs_lines replacing_lines = .ok out) ↔
      ∀ r ∈ replacing_lines, matches_once lib abs_lines r) ∧
    (¬ (∀ r ∈ replacing_lines, matches_once lib abs_lines r) →
      ∃ msg, abs_linesReplaceWithLines2 lib abs_lines replacing_lines
        = .error (Err.runtime msg)) ∧
    (∀ out, abs_linesReplaceWithLines2 lib abs_lines replacing_lines = .ok out →
      List.Forall₂ (fun t t' => t'.band = t.band ∧
        t'.lines.Perm (t.lines.map
          (replaced_by lib (replacing_lines_of lib t replacing_lines)))) abs_lines out) := by
  have herr : ¬ (∀ r ∈ replacing_lines, matches_once lib abs_lines r) →
      ∃ msg, abs_linesReplaceWithLines2 lib abs_lines replacing_lines
        = .error (Err.runtime msg) := by
    intro h
    rcases abs_linesReplaceWithLines2_error lib hM hQ hS replacing_lines abs_lines h with e | e
    · exact ⟨_, e⟩
    · exact ⟨_, e⟩
  have hcond : ∀ out, abs_linesReplaceWithLines2 lib abs_lines replacing_lines = .ok out →
      ∀ r ∈ replacing_lines, matches_once lib abs_lines r := by
    intro out ho
    by_contra hc
    obtain ⟨msg, hm⟩ := herr hc
    rw [hm] at ho
    cases ho
  refine ⟨⟨fun ⟨out, ho⟩ => hcond out ho, fun h => ?_⟩, herr, fun out ho => ?_⟩
  · obtain ⟨out, ho, _⟩ := abs_linesReplaceWithLines2_ok lib hM hQ hS replacing_lines abs_lines h
    exact ⟨out, ho⟩
  · obtain ⟨out2, ho2, hf⟩ :=
      abs_linesReplaceWithLines2_ok lib hM hQ hS replacing_lines abs_lines (hcond out ho)
    rw [ho2] at ho
    cases ho
    exact hf

end ReplaceCatalogue

section ReplaceExamples

/-- Witness for C23: the band `7` with the lines `(1,10), (2,20)` and the band
`8`, and the replacing band `7` with the line `(2,15)`: the call returns, the
replacing band matches once, and the line `(2,20)` has been replaced. -/
theorem abs_linesReplaceWithLines2_exactly_one_witness :
    abs_linesReplaceWithLines2 test_lines [⟨7, [(1, 10), (2, 20)]⟩, ⟨8, [(1, 11)]⟩]
      [⟨7, [(2, 15)]⟩] = .ok [⟨7, [(1, 10), (2, 15)]⟩, ⟨8, [(1, 11)]⟩] ∧
    (∀ r ∈ ([⟨7, [(2, 15)]⟩] : List (AbsorptionLines ℕ (ℕ × ℕ))),
      matches_once test_lines [⟨7, [(1, 10), (2, 20)]⟩, ⟨8, [(1, 11)]⟩] r) ∧
    List.Forall₂ (fun (t t' : AbsorptionLines ℕ (ℕ × ℕ)) => t'.band = t.band ∧
        t'.lines.Perm (t.lines.map
          (replaced_by test_lines (replacing_lines_of test_lines t [⟨7, [(2, 15)]⟩]))))
      [⟨7, [(1, 10), (2, 20)]⟩, ⟨8, [(1, 11)]⟩] [⟨7, [(1, 10), (2, 15)]⟩, ⟨8, [(1, 11)]⟩] :=
  have h : abs_linesReplaceWithLines2 test_lines [⟨7, [(1, 10), (2, 20)]⟩, ⟨8, [(1, 11)]⟩]
      [⟨7, [(2, 15)]⟩] = .ok [⟨7, [(1, 10), (2, 15)]⟩, ⟨8, [(1, 11)]⟩] := by decide!
  have T := abs_linesReplaceWithLines2_exactly_one test_lines
    (fun t t' r hb => by simp only [test_lines, hb])
    (fun a b c hab => by
      simp only [test_lines, decide_eq_true_eq] at hab ⊢
      rw [hab])
    (fun l => List.perm_insertionSort _ l)
    [⟨7, [(1, 10), (2, 20)]⟩, ⟨8, [(1, 11)]⟩] [⟨7, [(2, 15)]⟩]
  ⟨h, T.1.mp ⟨_, h⟩, T.2.2 _ h⟩

end ReplaceExamples

section AppendGridsExamples

/-- C30, evaluated for a quantity with the pressure grid `1000, 100, 10` in
both measurements and the latitude grid `-90, 0, 90` in the first and
`-45, 0, 90` in the second: the first latitudes differ by `45`, more than
`1e-6 * |-90|`, the test `abs(v1-v2)/v1 > 1e-6` compares the negative quotient
`-1/2`, no value is found wrong and the append is accepted; the same holds
for the single values `-10` and `-20`. -/
theorem yCalcAppend_grids_negative_values_accepted :
    (|(-90 : ℚ) - (-45)| > 1e-6 * |(-90 : ℚ)|) ∧
    (|(-90 : ℚ) - (-45)| / (-90) = -1 / 2) ∧
    value_wrong (-90 : ℚ) (-45) = false ∧
    any_wrong ([[1000, 100, 10], [-90, 0, 90]] : List (List ℚ))
      [[1000, 100, 10], [-45, 0, 90]] = false ∧
    yCalcAppend_grids "Temperature" "HSE off" ([[1000, 100, 10], [-90, 0, 90]] : List (List ℚ))
      [[1000, 100, 10], [-45, 0, 90]] = .ok () ∧
    yCalcAppend_grids "Temperature" "HSE off" ([[-10]] : List (List ℚ)) [[-20]] = .ok () := by
  refine ⟨by norm_num [abs_of_neg], by norm_num [abs_of_neg], by decide!, by decide!, by decide!,
    by decide!⟩

end AppendGridsExamples

section FanOut

/-- A loop whose iterations leave a state with the failure flag as it is
ends in the state in which the flag was set. -/
theorem fan_fixed {σ : Type} (f : σ → ℕ → Except Err σ) (failed : σ → Bool)
    (hskip : ∀ s i, failed s = true → f s i = .ok s) (k : ℕ) (s0 t : σ)
    (h : (List.range k).foldlM f s0 = .ok t) (ht : failed t = true) :
    ∀ n, k ≤ n → (List.range n).foldlM f s0 = .ok t := by
  intro n hn
  obtain ⟨d, rfl⟩ := Nat.exists_eq_add_of_le hn
  induction d with
  | zero => exact h
  | succ d ih =>
    rw [← Nat.add_assoc, List.range_succ, List.foldlM_append, ih (Nat.le_add_right _ _)]
    simp only [bind, Except.bind, List.foldlM_cons, List.foldlM_nil, hskip t _ ht]
    rfl

/-- A loop that ends with the failure flag not set has run every iteration
from a state with the flag not set, and every iteration was good. -/
theorem fan_all_good {σ : Type} (f : σ → ℕ → Except Err σ) (failed : σ → Bool)
    (good : σ → ℕ → Prop)
    (hstep : ∀ s s2 i, f s i = .ok s2 → failed s2 = false → failed s = false ∧ good s i) :
    ∀ (n : ℕ) (s0 s : σ), (List.range n).foldlM f s0 = .ok s → failed s = false →
      ∀ i, i < n → ∃ t, (List.range i).foldlM f s0 = .ok t ∧ failed t = false ∧ good t i := by
  intro n
  induction n with
  | zero => intro s0 s _ _ i hi; omega
  | succ n ih =>
    intro s0 s h hs i hi
    rw [List.range_succ, List.foldlM_append, bind_eq_ok] at h
    obtain ⟨t, ht, hlast⟩ := h
    have hl : f t n = .ok s := by
      simp only [List.foldlM_cons, List.foldlM_nil, bind_eq_ok] at hlast
      obtain ⟨u, hu, hpure⟩ := hlast
      cases hpure
      exact hu
    obtain ⟨htf, hg⟩ := hstep t s n hl hs
    rcases Nat.lt_succ_iff_lt_or_eq.mp hi with h1 | h1
    · exact ih s0 t ht htf i h1
    · subst h1
      exact ⟨t, ht, htf, hg⟩

end FanOut

section FanOutLoops

variable {α : Type} [LinearOrderedField α] [FloorRing α] {X S : Type}

theorem yCalc_mblock_skip {Y : Type} (block : ℕ → Y → Except Err Y) (s : Fan Y) (i : ℕ)
    (h : s.failed = true) : yCalc_mblock block s i = .ok s := by
  simp [yCalc_mblock, h]

theorem yCalc_mblock_good {Y : Type} (block : ℕ → Y → Except Err Y) (s s2 : Fan Y) (i : ℕ)
    (h : yCalc_mblock block s i = .ok s2) (h2 : s2.failed = false) :
    s.failed = false ∧ ∃ y, block i s.vars = .ok y := by
  unfold yCalc_mblock at h
  by_cases hf : s.failed = true
  · rw [if_pos hf] at h
    cases h
    rw [hf] at h2
    cases h2
  · rw [if_neg hf] at h
    refine ⟨by simpa using hf, ?_⟩
    unfold yCalc_mblock_loop_body at h
    cases hb : block i s.vars with
    | ok y => exact ⟨y, rfl⟩
    | error e =>
      rw [hb] at h
      cases e with
      | runtime msg =>
        simp only [Except.ok.injEq] at h
        rw [← h] at h2
        cases h2
      | assertion => cases h
      | range => cases h

theorem iyMC_frequency_skip (mc : MonteCarlo α X S) (x : X) (pos los f_grid : List α)
    (stokes_dim : ℤ) (iy_unit : String) (auxError : ℤ) (s : McLoop α) (i : ℕ)
    (h : s.failed = true) :
    iyMC_frequency mc x pos los f_grid stokes_dim iy_unit auxError s i = .ok s := by
  simp [iyMC_frequency, h]

theorem iyMC_frequency_good (mc : MonteCarlo α X S) (x : X) (pos los f_grid : List α)
    (stokes_dim : ℤ) (iy_unit : String) (auxError : ℤ) (s s2 : McLoop α) (i : ℕ)
    (h : iyMC_frequency mc x pos los f_grid stokes_dim iy_unit auxError s i = .ok s2)
    (h2 : s2.failed = false) :
    s.failed = false ∧
      ∃ r, iyMC_try mc x pos los f_grid stokes_dim iy_unit auxError s i = .ok r := by
  unfold iyMC_frequency at h
  by_cases hf : s.failed = true
  · rw [if_pos hf] at h
    cases h
    rw [hf] at h2
    cases h2
  · rw [if_neg hf] at h
    refine ⟨by simpa using hf, ?_⟩
    cases hb : iyMC_try mc x pos los f_grid stokes_dim iy_unit auxError s i with
    | ok r => exact ⟨r, rfl⟩
    | error e =>
      rw [hb] at h
      cases e with
      | runtime msg =>
        simp only at h
        cases hv : vget f_grid (i : ℤ) with
        | ok f =>
          rw [hv] at h
          simp only [Except.ok.injEq] at h
          rw [← h] at h2
          cases h2
        | error e2 =>
          rw [hv] at h
          cases h
      | assertion => cases h
      | range => cases h

/-- C21: in the loop over the measurement blocks of `yCalc` and in the loop
over the frequencies of `iyMC`, run in the order of the index: when the
units before the unit `k` have been run without failure and the unit `k`
throws a `runtime_error` with the message `msg`, then, whatever the units
after `k` would do, the loop ends in the state that the failure of the unit
`k` has left (no later unit is run) and the call throws a `runtime_error`
with the message of the unit `k` (`yCalc`: `msg`; `iyMC`: `msg` behind the
line that names the frequency); and when the call returns, every unit has
been run, from a state without failure, and has returned. -/
theorem fan_out_first_failure :
    (∀ (Y : Type) (block : ℕ → Y → Except Err Y) (nmblock k : ℕ) (vars : Y) (st : Fan Y)
      (msg : String), k < nmblock →
      (List.range k).foldlM (yCalc_mblock block) ⟨false, "", vars⟩ = .ok st →
      st.failed = false → block k st.vars = .error (Err.runtime msg) →
      (List.range nmblock).foldlM (yCalc_mblock block) ⟨false, "", vars⟩ =
        .ok { st with fail_msg := msg, failed := true } ∧
      yCalc_mblock_loop block nmblock vars = .error (Err.runtime msg)) ∧
    (∀ (Y : Type) (block : ℕ → Y → Except Err Y) (nmblock : ℕ) (vars out : Y),
      yCalc_mblock_loop block nmblock vars = .ok out →
      ∀ i, i < nmblock → ∃ (st : Fan Y) (y : Y),
        (List.range i).foldlM (yCalc_mblock block) ⟨false, "", vars⟩ = .ok st ∧
        st.failed = false ∧ block i st.vars = .ok y) ∧
    (∀ (mc : MonteCarlo α X S) (x : X) (iy : Matrix α) (iy_aux : List (Tensor4 α))
      (iy_agenda_call1 : ℤ) (iy_transmission : Tensor3 α) (rte_pos rte_los : List α)
      (iy_aux_vars : List String) (jacobian_do atmosphere_dim cloudbox_on stokes_dim : ℤ)
      (f_grid : List α) (iy_unit : String) (k : ℕ) (iy0 : Matrix α)
      (s : ℤ × List (Tensor4 α)) (st : McLoop α) (msg : String) (f : α),
      atmosphere_dim = 3 → cloudbox_on ≠ 0 → jacobian_do = 0 → iy_agenda_call1 ≠ 0 →
      iy_transmission.ncols = 0 →
      resize2 mc.fresh2 iy f_grid.length stokes_dim = .ok iy0 →
      (List.range iy_aux_vars.length).foldlM
        (iyMC_aux mc f_grid.length stokes_dim iy_aux_vars)
        ((-1 : ℤ), array_resize iy_aux iy_aux_vars.length empty4) = .ok s →
      rte_pos.length = 3 → rte_los.length = 2 → f_grid[k]? = some f →
      (List.range k).foldlM
        (iyMC_frequency mc x rte_pos rte_los f_grid stokes_dim iy_unit s.1)
        ⟨false, "", iy0, s.2⟩ = .ok st →
      st.failed = false →
      iyMC_try mc x rte_pos rte_los f_grid stokes_dim iy_unit s.1 st k
        = .error (Err.runtime msg) →
      (List.range f_grid.length).foldlM
        (iyMC_frequency mc x rte_pos rte_los f_grid stokes_dim iy_unit s.1)
        ⟨false, "", iy0, s.2⟩ =
        .ok { st with failed := true,
                      fail_msg := "Error for f_index = " ++ toString k ++ " (" ++
                        mc.print f ++ ")" ++ "\n" ++ msg } ∧
      iyMC mc x iy iy_aux iy_agenda_call1 iy_transmission rte_pos rte_los iy_aux_vars
        jacobian_do atmosphere_dim cloudbox_on stokes_dim f_grid iy_unit =
        .error (Err.runtime ("Error for f_index = " ++ toString k ++ " (" ++
          mc.print f ++ ")" ++ "\n" ++ msg))) ∧
    (∀ (mc : MonteCarlo α X S) (x : X) (iy : Matrix α) (iy_aux : List (Tensor4 α))
      (iy_agenda_call1 : ℤ) (iy_transmission : Tensor3 α) (rte_pos rte_los : List α)
      (iy_aux_vars : List String) (jacobian_do atmosphere_dim cloudbox_on stokes_dim : ℤ)
      (f_grid : List α) (iy_unit : String)
      (out : Matrix α × List (Tensor4 α) × List (Tensor3 α)),
      iyMC mc x iy iy_aux iy_agenda_call1 iy_transmission rte_pos rte_los iy_aux_vars
        jacobian_do atmosphere_dim cloudbox_on stokes_dim f_grid iy_unit = .ok out →
      ∃ (iy0 : Matrix α) (s : ℤ × List (Tensor4 α)),
        resize2 mc.fresh2 iy f_grid.length stokes_dim = .ok iy0 ∧
        (List.range iy_aux_vars.length).foldlM
          (iyMC_aux mc f_grid.length stokes_dim iy_aux_vars)
          ((-1 : ℤ), array_resize iy_aux iy_aux_vars.length empty4) = .ok s ∧
        ∀ i, i < f_grid.length → ∃ (st : McLoop α) (r : Matrix α × List (Tensor4 α)),
          (List.range i).foldlM
            (iyMC_frequency mc x rte_pos rte_los f_grid stokes_dim iy_unit s.1)
            ⟨false, "", iy0, s.2⟩ = .ok st ∧
          st.failed = false ∧
          iyMC_try mc x rte_pos rte_los f_grid stokes_dim iy_unit s.1 st i = .ok r) := by
  refine ⟨?_, ?_, ?_, ?_⟩
  · intro Y block nmblock k vars st msg hk hpre hnf hfail
    have hstep : yCalc_mblock block st k = .ok { st with fail_msg := msg, failed := true } := by
      simp [yCalc_mblock, hnf, yCalc_mblock_loop_body, hfail]
    have hk1 : (List.range (k + 1)).foldlM (yCalc_mblock block) ⟨false, "", vars⟩ =
        .ok { st with fail_msg := msg, failed := true } := by
      rw [List.range_succ, List.foldlM_append, hpre]
      simp only [bind, Except.bind, List.foldlM_cons, List.foldlM_nil, hstep]
      rfl
    have hall := fan_fixed (yCalc_mblock block) (fun s => s.failed)
      (yCalc_mblock_skip block) (k + 1) _ _ hk1 rfl nmblock hk
    refine ⟨hall, ?_⟩
    simp [yCalc_mblock_loop, hall]
  · intro Y block nmblock vars out h i hi
    unfold yCalc_mblock_loop at h
    cases hl : (List.range nmblock).foldlM (yCalc_mblock block) ⟨false, "", vars⟩ with
    | error e => rw [hl] at h; cases h
    | ok stn =>
      rw [hl] at h
      simp only at h
      by_cases hf : stn.failed = true
      · rw [if_pos hf] at h
        cases h
      · obtain ⟨t, ht, htf, y, hy⟩ := fan_all_good (yCalc_mblock block) (fun s => s.failed)
          (fun s i => ∃ y, block i s.vars = .ok y)
          (yCalc_mblock_good block) nmblock _ stn hl (by simpa using hf) i hi
        exact ⟨t, y, ht, htf, hy⟩
  · intro mc x iy iy_aux call1 trans rte_pos rte_los vars jd ad co sd f_grid iy_unit k iy0 s st
      msg f had hco hjd hcall htr hres haux hpos hlos hf hpre hnf hfail
    have hk : k < f_grid.length := by
      by_contra hc
      rw [List.getElem?_eq_none (by omega)] at hf
      cases hf
    have hstep : iyMC_frequency mc x rte_pos rte_los f_grid sd iy_unit s.1 st k =
        .ok { st with failed := true,
                      fail_msg := "Error for f_index = " ++ toString k ++ " (" ++
                        mc.print f ++ ")" ++ "\n" ++ msg } := by
      simp only [iyMC_frequency, hnf, hfail, vget_of_getElem? f_grid k f hf]
      rfl
    have hk1 : (List.range (k + 1)).foldlM
        (iyMC_frequency mc x rte_pos rte_los f_grid sd iy_unit s.1) ⟨false, "", iy0, s.2⟩ =
        .ok { st with failed := true,
                      fail_msg := "Error for f_index = " ++ toString k ++ " (" ++
                        mc.print f ++ ")" ++ "\n" ++ msg } := by
      rw [List.range_succ, List.foldlM_append, hpre]
      simp only [bind, Except.bind, List.foldlM_cons, List.foldlM_nil, hstep]
      rfl
    have hall := fan_fixed (iyMC_frequency mc x rte_pos rte_los f_grid sd iy_unit s.1)
      (fun s => s.failed)
      (iyMC_frequency_skip mc x rte_pos rte_los f_grid sd iy_unit s.1) (k + 1) _ _ hk1 rfl
      f_grid.length hk
    refine ⟨hall, ?_⟩
    unfold iyMC
    rw [if_neg (by simp [had]), if_neg hco, if_neg (by simp [hjd]), if_neg hcall,
      if_neg (by simp [htr])]
    simp only [bind, Except.bind, hres, haux, assert, hpos, hlos, if_true, hall]
  · intro mc x iy iy_aux call1 trans rte_pos rte_los vars jd ad co sd f_grid iy_unit out h
    unfold iyMC at h
    split_ifs at h
    simp only [bind_eq_ok] at h
    obtain ⟨iy0, hres, s, haux, _, _, _, _, stn, hl, hlast⟩ := h
    refine ⟨iy0, s, hres, haux, ?_⟩
    intro i hi
    by_cases hf : stn.failed = true
    · rw [if_pos hf] at hlast
      cases hlast
    · obtain ⟨t, ht, htf, r, hr⟩ := fan_all_good
        (iyMC_frequency mc x rte_pos rte_los f_grid sd iy_unit s.1) (fun s => s.failed)
        (fun st i => ∃ r, iyMC_try mc x rte_pos rte_los f_grid sd iy_unit s.1 st i = .ok r)
        (iyMC_frequency_good mc x rte_pos rte_los f_grid sd iy_unit s.1)
        f_grid.length _ stn hl (by simpa using hf) i hi
      exact ⟨t, r, ht, htf, hr⟩

end FanOutLoops

section FanOutExamples

/-- Witness for C21: three measurement blocks of which the block `1` throws,
and the frequencies `100, -5, 300` of which the Monte Carlo calculation for
`-5` throws: the block `2` and the frequency `300` are not run, and the calls
throw with the message of the unit `1`. -/
theorem fan_out_first_failure_witness :
    ((List.range 3).foldlM (yCalc_mblock test_block) ⟨false, "", []⟩ =
        .ok ⟨true, "One or several NaNs found in *y*.", [0]⟩ ∧
      yCalc_mblock_loop test_block 3 [] =
        .error (Err.runtime "One or several NaNs found in *y*.")) ∧
    iyMC (test_mc (fun _ => 5) 7) () ⟨0, 0, fun _ _ => 0⟩ [] 1 no_transmission [0, 0, 0] [0, 0]
      [] 0 3 1 1 [100, -5, 300] "1" =
      .error (Err.runtime "Error for f_index = 1 (-5)\nThe frequency must be positive.") :=
  ⟨(@fan_out_first_failure ℚ _ _ Unit Unit).1 (List ℕ) test_block 3 1 [] ⟨false, "", [0]⟩
      "One or several NaNs found in *y*." (by decide) rfl rfl rfl,
    ((@fan_out_first_failure ℚ _ _ Unit Unit).2.2.1 (test_mc (fun _ => 5) 7) ()
      ⟨0, 0, fun _ _ => 0⟩ [] 1 no_transmission [0, 0, 0] [0, 0] [] 0 3 1 1 [100, -5, 300] "1" 1
      ⟨3, 1, fun _ _ => 7⟩ (-1, [])
      ⟨false, "", ⟨3, 1, fun i j => if i = 0 then ([100 + 5 / 1000] : List ℚ).getD j 0 else 7⟩, []⟩
      "The frequency must be positive." (-5)
      rfl (by decide) rfl (by decide) rfl rfl rfl rfl rfl rfl rfl rfl rfl).2⟩

end FanOutExamples

section Determinism

variable {α A P Q D : Type} [LinearOrderedField α] [FloorRing α]

end Determinism

section Determinism2

variable {α A P Q D : Type} [LinearOrderedField α] [FloorRing α]

end Determinism2

section Determinism3

variable {α A P Q D : Type} [LinearOrderedField α] [FloorRing α]

end Determinism3

section Determinism4

variable {α A P Q D : Type} [LinearOrderedField α] [FloorRing α]

end Determinism4

section Determinism5

variable {α A P Q D : Type} [LinearOrderedField α] [FloorRing α]

end Determinism5

section Determinism6

variable {α : Type} [LinearOrderedField α] [FloorRing α] {X S : Type}

end Determinism6

section Determinism7

variable {α : Type} [LinearOrderedField α] [FloorRing α]

end Determinism7

section Determinism8

variable {α : Type} [LinearOrderedField α] [FloorRing α] {A P : Type}

end Determinism8

section DeterminismClaim

variable {α : Type} [LinearOrderedField α] [FloorRing α]

end DeterminismClaim

section DeterminismExamples

end DeterminismExamples
end Arts
